import Mathlib

/-!
# The Qt 5.4 logging pipeline (`qtbase/src/corelib/global/qlogging.cpp`)

A shallow embedding of the message-pattern compiler (`QMessagePattern::setPattern`),
the pattern renderer (`qFormatLogMessage`), the handler registry
(`qInstallMessageHandler`, `qInstallMsgHandler`), the dispatcher (`qt_message_print`,
`qt_message_output`) and the fatal-promotion rule (`isFatal`).

Build configuration that the embedding follows: `Q_OS_UNIX` (not Android, not QNX),
not `QT_BOOTSTRAPPED`, `Q_COMPILER_THREAD_LOCAL` defined, `QLOGGING_HAVE_BACKTRACE`
defined; whether `QT_USE_JOURNALD` is defined is a field of the platform.

Strings.  A `QChar` (one UTF-16 code unit) and a `char` are both written as a Lean `Char`.
A `QString` is `Option (List Char)`: `none` is the null string (`isNull()`), `some s` a
non-null string.  A `const char *` that may be null is `Option (List Char)` as well, the
list being the bytes before the terminating NUL.
-/

namespace QLogging

/-! ## Strings -/

/-- A non-null C string: the bytes before the terminating NUL. -/
abbrev CString := List Char

/-- A QString: `none` is the null QString, `some s` holds the code units `s`. -/
abbrev QString := Option (List Char)

/-- The code units of a QString (a null string has none). -/
def QString.text : QString → List Char
  | none => []
  | some s => s

/-- Modelled from the spec: `QString::append(const QString &)` of QtCore, which is not part
of the sources: appending a null string changes nothing, otherwise the result is non-null
and holds the concatenation. -/
def QString.append (m : QString) (s : QString) : QString :=
  match s with
  | none => m
  | some t => some (m.text ++ t)

/-- Modelled from the spec: `QLatin1String(const char *)` of QtCore, not part of the
sources: a null pointer gives a string that `append` ignores, a non-null pointer a
non-null string with one code unit per byte. -/
def QLatin1String (s : Option CString) : QString := s

/-- What a `const char *` pointing into a buffer denotes: the bytes before the first NUL. -/
def cstr (bytes : List Char) : CString :=
  bytes.takeWhile (fun c => c != Char.ofNat 0)

/-- Modelled from the spec: `QString::toLatin1()` of QtCore, not part of the sources:
a code unit above U+00FF becomes a question mark. -/
def toLatin1 (s : List Char) : List Char :=
  s.map (fun c => if c.toNat > 0xFF then '?' else c)

/-- The test `QString::startsWith`. -/
def startsWith (s p : List Char) : Bool := p.isPrefixOf s

/-- The test `QString::endsWith(QChar)`. -/
def endsWith (s : List Char) (c : Char) : Bool := s.getLast? == some c

/-- The search `indexOf(needle, from)` for a string needle: the first index at or after
`from` at which `needle` starts, or -1. -/
def indexOfFrom (needle : List Char) : List Char → Nat → Int
  | [], i => if needle.isEmpty then (i : Int) else -1
  | c :: rest, i => if needle.isPrefixOf (c :: rest) then (i : Int) else indexOfFrom needle rest (i + 1)

/-- The search `indexOf(needle)`. -/
def indexOf (s needle : List Char) : Int := indexOfFrom needle s 0

/-- The test `contains(needle)`. -/
def contains (s needle : List Char) : Bool := indexOf s needle != -1

/-- The search `lastIndexOf(c)` for a character: the last index holding `c`, or -1. -/
def lastIndexOfChar (s : List Char) (c : Char) : Int :=
  match s.reverse.indexOf? c with
  | none => -1
  | some i => (s.length : Int) - 1 - (i : Int)

/-- Modelled from the spec: `mid(position, n)` of QString and QByteArray (QtCore, not part
of the sources): `n` characters from `position`, all that are available when `n` is
negative or too large, nothing when `position` lies behind the end. -/
def mid (s : List Char) (position : Int) (n : Int) : List Char :=
  let len : Int := s.length
  if position > len then []
  else if position < 0 then
    if n < 0 ∨ n + position >= len then s
    else if n + position <= 0 then []
    else s.take (n + position).toNat
  else if n < 0 ∨ n > len - position then s.drop position.toNat
  else (s.drop position.toNat).take n.toNat

/-- Modelled from the spec: `QString::number(n)` of QtCore, not part of the sources:
the decimal digits of `n`, with a leading minus sign for a negative number. -/
def number (n : Int) : List Char :=
  if n < 0 then '-' :: Nat.toDigits 10 n.natAbs else Nat.toDigits 10 n.toNat

/-- Modelled from the spec: `QString::number(n, 16)` for a non-negative `n`: lower-case
hexadecimal digits. -/
def numberHex (n : Nat) : List Char := Nat.toDigits 16 n

/-- White space as the number parsers of QtCore skip it. -/
def isSpace (c : Char) : Bool :=
  c == ' ' || c == '\t' || c == '\n' || c == '\r' || c == Char.ofNat 11 || c == Char.ofNat 12

/-- Strips white space at both ends. -/
def trimmed (s : List Char) : List Char :=
  ((s.dropWhile isSpace).reverse.dropWhile isSpace).reverse

/-- The value of a non-empty string of ASCII digits. -/
def digitsValue (s : List Char) : Option Nat :=
  if s.isEmpty ∨ !s.all Char.isDigit then none
  else some (s.foldl (fun acc c => 10 * acc + (c.toNat - '0'.toNat)) 0)

/-- Modelled from the spec: `QString::toInt()` / `QStringRef::toInt()` of QtCore, not part
of the sources: white space at both ends is skipped, an optional sign and decimal digits
follow; when the text is no such number, or the number does not fit an `int`, the result
is 0. -/
def toInt (s : List Char) : Int :=
  match trimmed s with
  | '-' :: ds =>
    (match digitsValue ds with
     | some v => if v ≤ 2147483648 then - (v : Int) else 0
     | none => 0)
  | '+' :: ds =>
    (match digitsValue ds with
     | some v => if v ≤ 2147483647 then (v : Int) else 0
     | none => 0)
  | ds =>
    (match digitsValue ds with
     | some v => if v ≤ 2147483647 then (v : Int) else 0
     | none => 0)

/-- Modelled from the spec: `QByteArray::toUInt(&ok)` of QtCore, not part of the sources:
the parsed value when the text is an unsigned decimal number that fits 32 bits
(white space at both ends and a leading plus sign allowed), `none` when `ok` is false. -/
def toUInt (s : List Char) : Option Nat :=
  let t := trimmed s
  let ds := match t with
    | '+' :: r => r
    | r => r
  match digitsValue ds with
  | some v => if v < 4294967296 then some v else none
  | none => none

/-! ## Message types and the log context -/

/-- The enum `QtMsgType`. -/
inductive QtMsgType
  | QtDebugMsg
  | QtWarningMsg
  | QtCriticalMsg
  | QtFatalMsg
  deriving DecidableEq, Repr

open QtMsgType

/-- The class `QMessageLogContext`: the source location and category of one message;
the three `const char *` members may be null. -/
structure QMessageLogContext where
  line : Int
  file : Option CString
  function : Option CString
  category : Option CString
  deriving DecidableEq, Repr

/-- The default constructor `QMessageLogContext()`. -/
def QMessageLogContext.empty : QMessageLogContext :=
  { line := 0, file := none, function := none, category := none }

/-! ## qCleanupFuncinfo -/

/-- The outcome of code that reads a byte array by index or loops: a value, an access
outside the array (which `QByteArray::at` asserts against and C++ leaves undefined), or
an exhausted iteration budget. -/
inductive Res (α : Type)
  | ok (a : α)
  | outOfRange
  | outOfFuel
  deriving DecidableEq, Repr

/-- Sequencing of fallible steps. -/
def Res.bind {α β : Type} (r : Res α) (f : α → Res β) : Res β :=
  match r with
  | .ok a => f a
  | .outOfRange => .outOfRange
  | .outOfFuel => .outOfFuel

instance : Monad Res where
  pure := Res.ok
  bind := Res.bind

/-- The access `info.at(i)`. -/
def byteAt (info : List Char) (i : Int) : Res Char :=
  if 0 ≤ i ∧ i < info.length then
    match info.get? i.toNat with
    | some c => .ok c
    | none => .outOfRange
  else .outOfRange

/-- The call `info.truncate(pos)`. -/
def truncate (info : List Char) (pos : Int) : List Char :=
  if pos < info.length then info.take pos.toNat else info

/-- The call `info.remove(pos, len)`. -/
def remove (info : List Char) (pos len : Int) : List Char :=
  if len ≤ 0 ∨ pos < 0 ∨ pos ≥ info.length then info
  else info.take pos.toNat ++ info.drop (pos + len).toNat

/-- The call `info.chop(n)`. -/
def chop (info : List Char) (n : Int) : List Char :=
  if n > 0 then info.take ((info.length : Int) - n).toNat else info

/-- The call `info.replace(before, after)` for a non-empty `before`: every occurrence,
found from left to right without overlap, is replaced; `skip` counts the bytes of the
current occurrence that are still to be dropped. -/
def replaceGo (before after : List Char) : Nat → List Char → List Char
  | _, [] => []
  | k + 1, _ :: rest => replaceGo before after k rest
  | 0, c :: rest =>
    if before.isPrefixOf (c :: rest) then after ++ replaceGo before after (before.length - 1) rest
    else c :: replaceGo before after 0 rest

/-- The loop `while (--pos) { if (info.at(pos) == '[') info.truncate(pos); }`. -/
def stripWithLoop : Nat → List Char → Int → Res (List Char)
  | 0, _, _ => .outOfFuel
  | fuel + 1, info, pos =>
    let pos1 := pos - 1
    if pos1 = 0 then .ok info
    else do
      let c ← byteAt info pos1
      stripWithLoop fuel (if c = '[' then truncate info pos1 else info) pos1

/-- The loops `while (pos && count) { ... --pos; }` that walk back to the bracket matching
a closing one: `closing` raises the count, `opening` lowers it. Returns `pos` and the
count at loop exit. -/
def scanBack (closing opening : Char) : Nat → List Char → Int → Int → Res (Int × Int)
  | 0, _, _, _ => .outOfFuel
  | fuel + 1, info, pos, count =>
    if pos ≠ 0 ∧ count ≠ 0 then do
      let c ← byteAt info pos
      let count1 := if c = closing then count + 1 else if c = opening then count - 1 else count
      scanBack closing opening fuel info (pos - 1) count1
    else .ok (pos, count)

/-- How the `forever` loop that removes the argument list ends: by `return info` or by
`break` with the current `info` and `pos`. -/
inductive ArgListExit
  | ret (info : List Char)
  | brk (info : List Char) (pos : Int)
  deriving DecidableEq, Repr

/-- The constant `operator_call`. -/
def operator_call : List Char := "operator()".toList
/-- The constant `operator_lessThan`. -/
def operator_lessThan : List Char := "operator<".toList
/-- The constant `operator_greaterThan`. -/
def operator_greaterThan : List Char := "operator>".toList
/-- The constant `operator_lessThanEqual`. -/
def operator_lessThanEqual : List Char := "operator<=".toList
/-- The constant `operator_greaterThanEqual`. -/
def operator_greaterThanEqual : List Char := "operator>=".toList

/-- The `forever` loop of qCleanupFuncinfo that removes the argument list. -/
def argListLoop : Nat → List Char → Res ArgListExit
  | 0, _ => .outOfFuel
  | fuel + 1, info =>
    let pos0 := lastIndexOfChar info ')'
    if pos0 = -1 then .ok (.ret info)
    else do
      let (pos1, parencount) ← scanBack ')' '(' (info.length + 1) info (pos0 - 1) 1
      if parencount ≠ 0 then .ok (.ret info)
      else do
        let pos := pos1 + 1
        let info1 := truncate info pos
        let c ← byteAt info1 (pos - 1)
        if c = ')' then
          if indexOf info1 operator_call = pos - (operator_call.length : Int) then
            .ok (.brk info1 pos)
          else
            argListLoop fuel (chop (remove info1 0 (indexOf info1 ['('])) 1)
        else .ok (.brk info1 pos)

/-- The `switch (info.at(pos))` that keeps the special characters of operator names. -/
def operatorAdjust (info : List Char) (pos : Int) : Res Int :=
  if pos > -1 then do
    let c ← byteAt info pos
    if c = ')' then
      .ok (if indexOf info operator_call = pos - (operator_call.length : Int) + 1 then pos - 2 else pos)
    else if c = '<' then
      .ok (if indexOf info operator_lessThan = pos - (operator_lessThan.length : Int) + 1 then pos - 1 else pos)
    else if c = '>' then
      .ok (if indexOf info operator_greaterThan = pos - (operator_greaterThan.length : Int) + 1 then pos - 1 else pos)
    else if c = '=' then
      let operatorLength : Int := operator_lessThanEqual.length
      .ok (if indexOf info operator_lessThanEqual = pos - operatorLength + 1 then pos - 2
           else if indexOf info operator_greaterThanEqual = pos - operatorLength + 1 then pos - 2
           else pos)
    else .ok pos
  else .ok pos

/-- The loop `while (pos > -1)` that finds the beginning of the function name: `none`
stands for its `return info`, `some pos` for the value of `pos` at loop exit. -/
def nameLoop : Nat → List Char → Int → Int → Int → Res (Option Int)
  | 0, _, _, _, _ => .outOfFuel
  | fuel + 1, info, pos, parencount, templatecount =>
    if pos > -1 then
      if parencount < 0 ∨ templatecount < 0 then .ok none
      else do
        let c ← byteAt info pos
        if c = ')' then nameLoop fuel info (pos - 1) (parencount + 1) templatecount
        else if c = '(' then nameLoop fuel info (pos - 1) (parencount - 1) templatecount
        else if c = '>' then nameLoop fuel info (pos - 1) parencount (templatecount + 1)
        else if c = '<' then nameLoop fuel info (pos - 1) parencount (templatecount - 1)
        else if c = ' ' ∧ templatecount = 0 ∧ parencount = 0 then .ok (some pos)
        else nameLoop fuel info (pos - 1) parencount templatecount
    else .ok (some pos)

/-- The loop `while (info.at(0) == '*' || info.at(0) == '&') info = info.mid(1);`. -/
def stripRefLoop : Nat → List Char → Res (List Char)
  | 0, _ => .outOfFuel
  | fuel + 1, info => do
    let c ← byteAt info 0
    if c = '*' ∨ c = '&' then stripRefLoop fuel (mid info 1 (-1)) else .ok info

/-- The loop `while ((pos = info.lastIndexOf('>')) != -1)` that removes template
argument lists. -/
def templateLoop : Nat → List Char → Res (List Char)
  | 0, _ => .outOfFuel
  | fuel + 1, info =>
    let end_ := lastIndexOfChar info '>'
    if end_ ≠ -1 then
      if !contains info ['<'] then .ok info
      else do
        let (pos1, _) ← scanBack '>' '<' (info.length + 1) info (end_ - 1) 1
        let pos := pos1 + 1
        templateLoop fuel (remove info pos (end_ - pos + 1))
    else .ok info

/-- The first part of qCleanupFuncinfo: a trailing `[with ...]` is cut off, except for
Objective-C message names. -/
def stripWith (info : List Char) : Res (List Char) :=
  if endsWith info ']' ∧ !(startsWith info ['+'] || startsWith info ['-']) then
    stripWithLoop (info.length + 1) info ((info.length : Int) - 1)
  else .ok info

/-- The last part of qCleanupFuncinfo, after the argument list has been removed: the
beginning of the function name is found, the return type is cut off and the template
argument lists are removed. -/
def cleanupName (info3 : List Char) (pos3 : Int) : Res (List Char) :=
  (operatorAdjust info3 (pos3 - 1)).bind fun pos4 =>
    (nameLoop (info3.length + 2) info3 pos4 0 0).bind fun found =>
      match found with
      | none => .ok info3
      | some pos5 =>
        (stripRefLoop ((mid info3 (pos5 + 1) (-1)).length + 1) (mid info3 (pos5 + 1) (-1))).bind
          fun info5 => templateLoop (info5.length + 1) info5

/-- The function `qCleanupFuncinfo`: strips a function signature down to the function
name. Every loop gets an iteration budget from the length of the string it starts on. -/
def qCleanupFuncinfo (info : List Char) : Res (List Char) :=
  if info.isEmpty then .ok info
  else
    (stripWith info).bind fun info1 =>
      (argListLoop ((replaceGo "operator ".toList "operator".toList 0 info1).length + 1)
          (replaceGo "operator ".toList "operator".toList 0 info1)).bind fun e =>
        match e with
        | .ret r => .ok r
        | .brk info3 pos3 => cleanupName info3 pos3

/-! ## The compiled message pattern -/

/-- One entry of the array `QMessagePattern::tokens`. The renderer tells tokens apart by
the address of their text: every keyword is the address of its own static array, and a
literal is a freshly allocated copy of the lexeme (never equal to a static array). -/
inductive Token
  | categoryTokenC
  | typeTokenC
  | messageTokenC
  | fileTokenC
  | lineTokenC
  | functionTokenC
  | pidTokenC
  | appnameTokenC
  | threadidTokenC
  | timeTokenC
  | backtraceTokenC
  | ifCategoryTokenC
  | ifDebugTokenC
  | ifWarningTokenC
  | ifCriticalTokenC
  | ifFatalTokenC
  | endifTokenC
  | emptyTokenC
  | literal (text : CString)
  deriving DecidableEq, Repr

/-- The text a token points to (the contents of the static arrays). -/
def Token.chars : Token → CString
  | .categoryTokenC => "%{category}".toList
  | .typeTokenC => "%{type}".toList
  | .messageTokenC => "%{message}".toList
  | .fileTokenC => "%{file}".toList
  | .lineTokenC => "%{line}".toList
  | .functionTokenC => "%{function}".toList
  | .pidTokenC => "%{pid}".toList
  | .appnameTokenC => "%{appname}".toList
  | .threadidTokenC => "%{threadid}".toList
  | .timeTokenC => "%\x7btime".toList
  | .backtraceTokenC => "%\x7bbacktrace".toList
  | .ifCategoryTokenC => "%{if-category}".toList
  | .ifDebugTokenC => "%{if-debug}".toList
  | .ifWarningTokenC => "%{if-warning}".toList
  | .ifCriticalTokenC => "%{if-critical}".toList
  | .ifFatalTokenC => "%{if-fatal}".toList
  | .endifTokenC => "%{endif}".toList
  | .emptyTokenC => []
  | .literal text => text

/-- The constant `defaultPattern`. -/
def defaultPattern : List Char := "%{if-category}%{category}: %{endif}%{message}".toList

/-- The struct `QMessagePattern` (the timer and start time are readings of the clock and
belong to the render environment). -/
structure QMessagePattern where
  literals : List CString
  tokens : List Token
  timeFormat : List Char
  backtraceDepth : Int
  backtraceSeparator : List Char
  fromEnvironment : Bool
  deriving DecidableEq, Repr

/-- The variables of the scanner loop of `setPattern`. -/
structure ScanState where
  lexemes : List (List Char)
  lexeme : List Char
  inPlaceholder : Bool
  deriving DecidableEq, Repr

/-- One iteration of the scanner loop at character `c`; `next` is `pattern.at(i + 1)` when
`i + 1 < pattern.size()`. -/
def scanStep (st : ScanState) (c : Char) (next : Option Char) : ScanState :=
  let st1 : ScanState :=
    if c = '%' ∧ st.inPlaceholder = false ∧ next = some '{' then
      { lexemes := if st.lexeme.isEmpty then st.lexemes else st.lexemes ++ [st.lexeme],
        lexeme := [],
        inPlaceholder := true }
    else st
  let st2 : ScanState := { st1 with lexeme := st1.lexeme ++ [c] }
  if c = '}' ∧ st2.inPlaceholder = true then
    { lexemes := st2.lexemes ++ [st2.lexeme], lexeme := [], inPlaceholder := false }
  else st2

/-- The scanner loop over the characters that are still to be read. -/
def scanLoop : List Char → ScanState → ScanState
  | [], st => st
  | c :: rest, st => scanLoop rest (scanStep st c rest.head?)

/-- The scanner of `setPattern`: the list `lexemes` after the final flush. -/
def scan (pattern : List Char) : List (List Char) :=
  let st := scanLoop pattern { lexemes := [], lexeme := [], inPlaceholder := false }
  if st.lexeme.isEmpty then st.lexemes else st.lexemes ++ [st.lexeme]

/-- Modelled from the spec: the match of the regular expressions
`" depth=(?|\"([^\"]*)\"|([^ }]*))"` and `" separator=(?|\"([^\"]*)\"|([^ }]*))"`
(QRegularExpression is not part of the sources). `key` is the leading text (`" depth="`).
The match starts at the first occurrence of `key`; group 1 is the text between double
quotes when a quoted value follows, otherwise the longest run without a blank or a
closing brace. `none` when there is no match. -/
def captureAttribute (key lexeme : List Char) : Option (List Char) :=
  let idx := indexOf lexeme key
  if idx < 0 then none
  else
    let rest := lexeme.drop (idx.toNat + key.length)
    match rest with
    | '"' :: r =>
      if r.contains '"' then some (r.takeWhile (fun c => c != '"'))
      else some (rest.takeWhile (fun c => c != ' ' && c != '}'))
    | _ => some (rest.takeWhile (fun c => c != ' ' && c != '}'))

/-- The variables of the tokenizer loop of `setPattern`, together with the members of the
pattern object that the loop assigns. -/
structure TokState where
  tokens : List Token
  literalsVar : List CString
  nestedIfError : Bool
  inIf : Bool
  error : List Char
  timeFormat : List Char
  backtraceDepth : Int
  backtraceSeparator : List Char
  deriving DecidableEq, Repr

/-- The expansion of the macro `IF_TOKEN(LEVEL)`. -/
def ifToken (st : TokState) (level : Token) : TokState :=
  { st with
    nestedIfError := if st.inIf then true else st.nestedIfError,
    tokens := st.tokens ++ [level],
    inIf := true }

/-- One iteration of the tokenizer loop of `setPattern`, for the lexeme `lexeme`. -/
def tokenizeStep (st : TokState) (lexeme : List Char) : TokState :=
  if startsWith lexeme "%\x7b".toList ∧ endsWith lexeme '}' then
    if lexeme = Token.typeTokenC.chars then
      { st with tokens := st.tokens ++ [Token.typeTokenC] }
    else if lexeme = Token.categoryTokenC.chars then
      { st with tokens := st.tokens ++ [Token.categoryTokenC] }
    else if lexeme = Token.messageTokenC.chars then
      { st with tokens := st.tokens ++ [Token.messageTokenC] }
    else if lexeme = Token.fileTokenC.chars then
      { st with tokens := st.tokens ++ [Token.fileTokenC] }
    else if lexeme = Token.lineTokenC.chars then
      { st with tokens := st.tokens ++ [Token.lineTokenC] }
    else if lexeme = Token.functionTokenC.chars then
      { st with tokens := st.tokens ++ [Token.functionTokenC] }
    else if lexeme = Token.pidTokenC.chars then
      { st with tokens := st.tokens ++ [Token.pidTokenC] }
    else if lexeme = Token.appnameTokenC.chars then
      { st with tokens := st.tokens ++ [Token.appnameTokenC] }
    else if lexeme = Token.threadidTokenC.chars then
      { st with tokens := st.tokens ++ [Token.threadidTokenC] }
    else if startsWith lexeme Token.timeTokenC.chars then
      let spaceIdx := indexOf lexeme [' ']
      { st with
        tokens := st.tokens ++ [Token.timeTokenC],
        timeFormat :=
          if spaceIdx > 0 then mid lexeme (spaceIdx + 1) ((lexeme.length : Int) - spaceIdx - 2)
          else st.timeFormat }
    else if startsWith lexeme Token.backtraceTokenC.chars then
      let st1 : TokState := { st with tokens := st.tokens ++ [Token.backtraceTokenC] }
      let st2 : TokState :=
        match captureAttribute " depth=".toList lexeme with
        | some captured =>
          let depth := toInt captured
          if depth ≤ 0 then
            { st1 with error := st1.error ++
                "QT_MESSAGE_PATTERN: %{backtrace} depth must be a number greater than 0\n".toList }
          else { st1 with backtraceDepth := depth }
        | none => st1
      match captureAttribute " separator=".toList lexeme with
      | some captured => { st2 with backtraceSeparator := captured }
      | none => st2
    else if lexeme = Token.ifCategoryTokenC.chars then ifToken st Token.ifCategoryTokenC
    else if lexeme = Token.ifDebugTokenC.chars then ifToken st Token.ifDebugTokenC
    else if lexeme = Token.ifWarningTokenC.chars then ifToken st Token.ifWarningTokenC
    else if lexeme = Token.ifCriticalTokenC.chars then ifToken st Token.ifCriticalTokenC
    else if lexeme = Token.ifFatalTokenC.chars then ifToken st Token.ifFatalTokenC
    else if lexeme = Token.endifTokenC.chars then
      { st with
        tokens := st.tokens ++ [Token.endifTokenC],
        error :=
          if st.inIf = false ∧ st.nestedIfError = false then
            st.error ++ "QT_MESSAGE_PATTERN: %{endif} without an %{if-*}\n".toList
          else st.error,
        inIf := false }
    else
      { st with
        tokens := st.tokens ++ [Token.emptyTokenC],
        error := st.error ++ "QT_MESSAGE_PATTERN: Unknown placeholder ".toList ++ lexeme ++ "\n".toList }
  else
    let literal : CString := cstr (toLatin1 lexeme)
    { st with
      literalsVar := st.literalsVar ++ [literal],
      tokens := st.tokens ++ [Token.literal literal] }

/-- The tokenizer loop of `setPattern` over the lexemes. -/
def tokenize (st : TokState) (lexemes : List (List Char)) : TokState :=
  lexemes.foldl tokenizeStep st

/-- The two diagnostics that `setPattern` adds after the tokenizer loop. -/
def finishError (st : TokState) : List Char :=
  if st.nestedIfError then st.error ++ "QT_MESSAGE_PATTERN: %{if-*} cannot be nested\n".toList
  else if st.inIf then st.error ++ "QT_MESSAGE_PATTERN: missing %{endif}\n".toList
  else st.error

/-- The state of the tokenizer when its loop starts on the pattern object `self`. -/
def TokState.start (self : QMessagePattern) : TokState :=
  { tokens := [], literalsVar := [], nestedIfError := false, inIf := false, error := [],
    timeFormat := self.timeFormat, backtraceDepth := self.backtraceDepth,
    backtraceSeparator := self.backtraceSeparator }

/-- The method `QMessagePattern::setPattern(pattern)`: the pattern object after the call,
and the text `error` of the diagnostics, which the method prints to stderr when it is not
empty. -/
def QMessagePattern.setPattern (self : QMessagePattern) (pattern : List Char) :
    QMessagePattern × List Char :=
  let st := tokenize (TokState.start self) (scan pattern)
  ({ literals := st.literalsVar,
     tokens := st.tokens,
     timeFormat := st.timeFormat,
     backtraceDepth := st.backtraceDepth,
     backtraceSeparator := st.backtraceSeparator,
     fromEnvironment := self.fromEnvironment },
   finishError st)

/-- The members of a `QMessagePattern` as the initializer list of the constructor sets
them, before the constructor body runs. -/
def QMessagePattern.initial : QMessagePattern :=
  { literals := [], tokens := [], timeFormat := [], backtraceDepth := 5,
    backtraceSeparator := ['|'], fromEnvironment := false }

/-- The constructor `QMessagePattern::QMessagePattern()`; `envPattern` is the value of
`QString::fromLocal8Bit(qgetenv("QT_MESSAGE_PATTERN"))`, empty when the variable is unset.
Returns the object and the diagnostics text of its `setPattern` call. -/
def QMessagePattern.construct (envPattern : List Char) : QMessagePattern × List Char :=
  if envPattern.isEmpty then
    QMessagePattern.initial.setPattern defaultPattern
  else
    let r := QMessagePattern.initial.setPattern envPattern
    ({ r.1 with fromEnvironment := true }, r.2)

/-! ## The renderer -/

/-- What the renderer reads from the process and the platform while it formats one
message. -/
structure RenderEnv where
  /-- The value of `QCoreApplication::applicationPid()`. -/
  applicationPid : Int
  /-- The value of `QCoreApplication::applicationName()`. -/
  applicationName : QString
  /-- The address of the current `QThread`, as `qlonglong`. -/
  currentThread : Nat
  /-- The value of `pattern->timer.elapsed()`, in milliseconds. -/
  elapsed : Nat
  /-- The text of `QDateTime::currentDateTime().toString(...)`: for `none` with
  `Qt::ISODate`, for `some f` with the format string `f`. -/
  currentDateTime : Option (List Char) → QString
  /-- The strings `backtrace_symbols` returns for the frames that `backtrace` stores in
  a buffer of the given size. -/
  backtraceSymbols : Nat → List (List Char)
  /-- The result of `abi::__cxa_demangle`, `none` for a null pointer. -/
  demangle : List Char → Option CString

/-- Splits a string at the last occurrence of `c`: the text before it and the text
after it. -/
def splitAtLast (c : Char) (s : List Char) : Option (List Char × List Char) :=
  let i := lastIndexOfChar s c
  if i < 0 then none else some (s.take i.toNat, s.drop (i.toNat + 1))

/-- The character class `[a-f0-9x]`. -/
def isAddressChar (c : Char) : Bool :=
  ('a'.toNat ≤ c.toNat && c.toNat ≤ 'f'.toNat) || c.isDigit || c == 'x'

/-- The character class `[\+[a-f0-9x]`. -/
def isOffsetChar (c : Char) : Bool :=
  c == '+' || c == '[' || isAddressChar c

/-- Modelled from the spec: the match of the regular expression
`^(?:[^(]*/)?([^(/]+)\(([^+]*)(?:[\+[a-f0-9x]*)?\) \[[a-f0-9x]*\]$` against one line of
`backtrace_symbols` (QRegularExpression is not part of the sources): `none` when the
line does not match, otherwise group 1 (the library without its path) and group 2 (the
function name). -/
def matchFrame (trace : List Char) : Option (List Char × List Char) :=
  let line := if trace.getLast? = some '\n' then trace.dropLast else trace
  if line.getLast? ≠ some ']' then none
  else
    match splitAtLast '[' line.dropLast with
    | none => none
    | some (front, address) =>
      if !address.all isAddressChar then none
      else if !(") ".toList).isSuffixOf front then none
      else
        let body := front.take (front.length - 2)
        if !body.contains '(' then none
        else
          let path := body.takeWhile (fun c => c != '(')
          let inner := (body.dropWhile (fun c => c != '(')).drop 1
          let library := match splitAtLast '/' path with
            | none => path
            | some (_, name) => name
          let function := inner.takeWhile (fun c => c != '+')
          let offset := inner.dropWhile (fun c => c != '+')
          if library.isEmpty then none
          else if !offset.all isOffsetChar then none
          else some (library, function)

/-- The function name of a frame after the demangling step of the `%{backtrace}` branch:
a name that starts with `_Z` and that `abi::__cxa_demangle` can demangle is replaced by
the cleaned-up demangled name. -/
def demangledName (env : RenderEnv) (function : List Char) : Res (List Char) :=
  if startsWith function "_Z".toList then
    match env.demangle function with
    | some demangled => qCleanupFuncinfo demangled
    | none => .ok function
  else .ok function

/-- The text that the `%{backtrace}` branch appends for a frame with library `library`
and function name `function`, when `numberPrinted` frames have been printed before. -/
def frameText (context : QMessageLogContext) (numberPrinted : Int)
    (library function : List Char) : Res (List Char) :=
  if function.isEmpty then
    match (if numberPrinted = 0 then context.function else none) with
    | some f => qCleanupFuncinfo f
    | none => .ok ('?' :: library ++ ['?'])
  else .ok function

/-- The frame loop of the `%{backtrace}` branch of qFormatLogMessage over the lines
`strings[i], strings[i + 1], ...`; `acc` is the text appended to `message` so far. -/
def backtraceLoop (env : RenderEnv) (pattern : QMessagePattern) (context : QMessageLogContext) :
    List (List Char) → Int → QString → Res QString
  | [], _, acc => .ok acc
  | trace :: rest, numberPrinted, acc =>
    if numberPrinted < pattern.backtraceDepth then
      match matchFrame trace with
      | some (library, function) =>
        if numberPrinted = 0 ∧ contains library "Qt5Core".toList
            ∧ (function.isEmpty ∨ contains (function.map Char.toLower) "message".toList
                ∨ contains function "QDebug".toList) then
          backtraceLoop env pattern context rest numberPrinted acc
        else
          (demangledName env function).bind fun function1 =>
            (frameText context numberPrinted library function1).bind fun text =>
              backtraceLoop env pattern context rest (numberPrinted + 1)
                ((if numberPrinted > 0 then acc.append (some pattern.backtraceSeparator)
                  else acc).append (some text))
      | none =>
        if numberPrinted = 0 then backtraceLoop env pattern context rest numberPrinted acc
        else backtraceLoop env pattern context rest (numberPrinted + 1)
          (acc.append (some (pattern.backtraceSeparator ++ "???".toList)))
    else .ok acc

/-- Modelled from the spec: `QString().sprintf("%6d.%03d", uint(ms / 1000), uint(ms % 1000))`
(sprintf is not part of the sources): the seconds, cut to 32 bits and read as a signed
`int`, right-aligned with blanks in a field of at least six characters, a dot, and the
milliseconds with leading zeros in three digits. -/
def processTime (ms : Nat) : List Char :=
  let secs : Nat := (ms / 1000) % 4294967296
  let shown : Int := if secs ≥ 2147483648 then (secs : Int) - 4294967296 else (secs : Int)
  List.leftpad 6 ' ' (number shown) ++ ['.'] ++ List.leftpad 3 '0' (number ((ms % 1000 : Nat) : Int))

/-- The text for `%{type}`. -/
def typeName : QtMsgType → List Char
  | QtDebugMsg => "debug".toList
  | QtWarningMsg => "warning".toList
  | QtCriticalMsg => "critical".toList
  | QtFatalMsg => "fatal".toList

/-- The text that the branch of qFormatLogMessage for `token` appends to `message`, for
the tokens that append (every token but the if-* tokens and endif). -/
def appended (env : RenderEnv) (pattern : QMessagePattern) (type : QtMsgType)
    (context : QMessageLogContext) (str : QString) (token : Token) : Res QString :=
  match token with
  | .messageTokenC => .ok str
  | .categoryTokenC => .ok (QLatin1String context.category)
  | .typeTokenC => .ok (QLatin1String (some (typeName type)))
  | .fileTokenC =>
    match context.file with
    | some f => .ok (QLatin1String (some f))
    | none => .ok (QLatin1String (some "unknown".toList))
  | .lineTokenC => .ok (some (number context.line))
  | .functionTokenC =>
    match context.function with
    | some f => (qCleanupFuncinfo f).bind fun name => .ok (some name)
    | none => .ok (QLatin1String (some "unknown".toList))
  | .pidTokenC => .ok (some (number env.applicationPid))
  | .appnameTokenC => .ok env.applicationName
  | .threadidTokenC => .ok (some ("0x".toList ++ numberHex env.currentThread))
  | .backtraceTokenC =>
    let size := (15 + pattern.backtraceDepth).toNat
    backtraceLoop env pattern context ((env.backtraceSymbols size).take size) 0 none
  | .timeTokenC =>
    if pattern.timeFormat = "process".toList then .ok (some (processTime env.elapsed))
    else if pattern.timeFormat.isEmpty then .ok (env.currentDateTime none)
    else .ok (env.currentDateTime (some pattern.timeFormat))
  | .ifCategoryTokenC => .ok none
  | .ifDebugTokenC => .ok none
  | .ifWarningTokenC => .ok none
  | .ifCriticalTokenC => .ok none
  | .ifFatalTokenC => .ok none
  | .endifTokenC => .ok none
  | .emptyTokenC => .ok (QLatin1String (some Token.emptyTokenC.chars))
  | .literal text => .ok (QLatin1String (some text))

/-- For an if-* token: the value that its branch of qFormatLogMessage gives `skip`, as a
function of the old value; `none` for every other token. -/
def conditional (type : QtMsgType) (context : QMessageLogContext) : Token → Option (Bool → Bool)
  | .ifCategoryTokenC =>
    some (fun skip =>
      if context.category = none ∨ context.category = some "default".toList then true else skip)
  | .ifDebugTokenC => some (fun _ => decide (type ≠ QtDebugMsg))
  | .ifWarningTokenC => some (fun _ => decide (type ≠ QtWarningMsg))
  | .ifCriticalTokenC => some (fun _ => decide (type ≠ QtCriticalMsg))
  | .ifFatalTokenC => some (fun _ => decide (type ≠ QtFatalMsg))
  | _ => none

/-- The token loop of qFormatLogMessage over the tokens that are still to be read. -/
def renderLoop (env : RenderEnv) (pattern : QMessagePattern) (type : QtMsgType)
    (context : QMessageLogContext) (str : QString) : List Token → Bool → QString → Res QString
  | [], _, message => .ok message
  | token :: rest, skip, message =>
    if token = Token.endifTokenC then renderLoop env pattern type context str rest false message
    else if skip then renderLoop env pattern type context str rest skip message
    else
      match conditional type context token with
      | some update => renderLoop env pattern type context str rest (update skip) message
      | none =>
        match appended env pattern type context str token with
        | .ok piece => renderLoop env pattern type context str rest skip (message.append piece)
        | .outOfRange => .outOfRange
        | .outOfFuel => .outOfFuel

/-- The function `qFormatLogMessage(type, context, str)`; `pattern` is the result of
`qMessagePattern()`, `none` after the pattern object has been destroyed. -/
def qFormatLogMessage (env : RenderEnv) (pattern : Option QMessagePattern) (type : QtMsgType)
    (context : QMessageLogContext) (str : QString) : Res QString :=
  match pattern with
  | none => .ok (QString.append none str)
  | some p => renderLoop env p type context str p.tokens false none

/-! ## The process: handlers, statics and dispatch -/

/-- A non-null value of type `QtMessageHandler` (context-aware handler). -/
inductive MessageHandlerPtr
  | qDefaultMessageHandler
  | custom (id : Nat)
  deriving DecidableEq, Repr

/-- A non-null value of type `QtMsgHandler` (legacy handler). -/
inductive MsgHandlerPtr
  | qDefaultMsgHandler
  | custom (id : Nat)
  deriving DecidableEq, Repr

/-- What the code of an application-defined handler can do to the logging pipeline. -/
inductive Action
  /-- Log a message (`qt_message_output`, reached through qDebug(), qWarning(), ...). -/
  | log (msgType : QtMsgType) (context : QMessageLogContext) (message : QString)
  /-- Call `qInstallMessageHandler(h)`. -/
  | installMessageHandler (h : Option MessageHandlerPtr)
  /-- Call `qInstallMsgHandler(h)`. -/
  | installMsgHandler (h : Option MsgHandlerPtr)
  /-- Call `qSetMessagePattern(pattern)`. -/
  | setMessagePattern (pattern : List Char)
  deriving DecidableEq, Repr

/-- One call of a handler made by the dispatcher, with the arguments passed. -/
inductive Invocation
  | messageHandler (h : MessageHandlerPtr) (msgType : QtMsgType) (context : QMessageLogContext)
      (message : QString)
  | msgHandler (h : MsgHandlerPtr) (msgType : QtMsgType) (buf : CString)
  deriving DecidableEq, Repr

/-- One record sent to the journal by `systemd_default_message_handler`. -/
structure JournalEntry where
  message : List Char
  priority : Nat
  codeFunc : CString
  codeLine : Int
  codeFile : CString
  qtCategory : CString
  deriving DecidableEq, Repr

/-- The life cycle of a `Q_GLOBAL_STATIC` object. -/
inductive GlobalStatic (α : Type)
  | uninitialized
  | initialized (a : α)
  | destroyed
  deriving DecidableEq, Repr

/-- What the pipeline reads from outside and does not change: the environment, the
platform, the external collaborators and the code of the application handlers. -/
structure Platform where
  /-- The value of `qgetenv("QT_MESSAGE_PATTERN")`, `none` when unset. -/
  QT_MESSAGE_PATTERN : Option (List Char)
  /-- The value of `qgetenv("QT_FATAL_WARNINGS")`. -/
  QT_FATAL_WARNINGS : Option (List Char)
  /-- The value of `qgetenv("QT_FATAL_CRITICALS")`. -/
  QT_FATAL_CRITICALS : Option (List Char)
  /-- The value of `qgetenv("QT_LOGGING_TO_CONSOLE")`. -/
  QT_LOGGING_TO_CONSOLE : Option (List Char)
  /-- The result of `qt_safe_open("/dev/tty", O_RDONLY)`. -/
  devtty : Int
  /-- The value of `errno` after that call. -/
  errno : Int
  /-- The result of `isatty(STDERR_FILENO)`. -/
  isattyStderr : Bool
  /-- Whether the build defines `QT_USE_JOURNALD`. -/
  useJournald : Bool
  /-- The result of `QLoggingCategory::defaultCategory()`: `none` for a null pointer,
  otherwise the `isEnabled` query of the default category. -/
  defaultCategory : Option (QtMsgType → Bool)
  /-- The conversion `QString::toLocal8Bit()`. -/
  toLocal8Bit : List Char → List Char
  /-- The conversion `QString::fromLocal8Bit()`. -/
  fromLocal8Bit : List Char → List Char
  /-- The readings of the renderer. -/
  renderEnv : RenderEnv
  /-- The code of the application-defined context-aware handlers. -/
  messageHandlerBody : Nat → QtMsgType → QMessageLogContext → QString → List Action
  /-- The code of the application-defined legacy handlers. -/
  msgHandlerBody : Nat → QtMsgType → CString → List Action

/-- The mutable state of the pipeline in one process with one thread, and what it has
written. -/
structure Process where
  /-- The function-local static `fatalCriticals` of isFatal, `none` before its
  initialization. -/
  fatalCriticals : Option Bool
  /-- The function-local static `fatalWarnings` of isFatal. -/
  fatalWarnings : Option Bool
  /-- The function-local static `logToConsole` of qt_logging_to_console. -/
  logToConsole : Option Bool
  /-- The global static `qMessagePattern`. -/
  qMessagePattern : GlobalStatic QMessagePattern
  /-- The atomic pointer `msgHandler`. -/
  msgHandler : MsgHandlerPtr
  /-- The atomic pointer `messageHandler`. -/
  messageHandler : MessageHandlerPtr
  /-- The thread-local flag `msgHandlerGrabbed`. -/
  msgHandlerGrabbed : Bool
  /-- The bytes written to stderr. -/
  stderr : List Char
  /-- The records sent to the journal. -/
  journal : List JournalEntry
  /-- The handler calls made by the dispatcher, oldest first. -/
  invoked : List Invocation
  deriving DecidableEq, Repr

/-- The state of a process before any call into the pipeline. -/
def Process.start : Process :=
  { fatalCriticals := none, fatalWarnings := none, logToConsole := none,
    qMessagePattern := .uninitialized,
    msgHandler := .qDefaultMsgHandler, messageHandler := .qDefaultMessageHandler,
    msgHandlerGrabbed := false, stderr := [], journal := [], invoked := [] }

/-- How a call into the pipeline ends: it returns, the process is terminated by
`abort()`, the behaviour becomes undefined (null pointer or out-of-range access; the
state is the one reached at that point), or the iteration budget of the model is
exhausted. -/
inductive Outcome
  | returned (w : Process)
  | aborted (w : Process)
  | undefined (w : Process)
  | outOfFuel
  deriving DecidableEq, Repr

/-- Sequencing: what follows a call runs only when the call returns. -/
def Outcome.bind (r : Outcome) (f : Process → Outcome) : Outcome :=
  match r with
  | .returned w => f w
  | .aborted w => .aborted w
  | .undefined w => .undefined w
  | .outOfFuel => .outOfFuel

/-- The function `qEnvironmentVariableIsEmpty`, on the value of the variable. -/
def qEnvironmentVariableIsEmpty (value : Option (List Char)) : Bool :=
  match value with
  | none => true
  | some v => v.isEmpty

/-- The function `isFatal(msgType)`: its result and the state with the static it
initialized. -/
def isFatal (pl : Platform) (msgType : QtMsgType) (w : Process) : Bool × Process :=
  if msgType = QtFatalMsg then (true, w)
  else if msgType = QtCriticalMsg then
    match w.fatalCriticals with
    | some fatalCriticals => (fatalCriticals, w)
    | none =>
      let fatalCriticals := !qEnvironmentVariableIsEmpty pl.QT_FATAL_CRITICALS
      (fatalCriticals, { w with fatalCriticals := some fatalCriticals })
  else if msgType = QtWarningMsg ∨ msgType = QtCriticalMsg then
    match w.fatalWarnings with
    | some fatalWarnings => (fatalWarnings, w)
    | none =>
      let fatalWarnings := !qEnvironmentVariableIsEmpty pl.QT_FATAL_WARNINGS
      (fatalWarnings, { w with fatalWarnings := some fatalWarnings })
  else (false, w)

/-- The constant `ENOENT`. -/
def ENOENT : Int := 2
/-- The constant `EPERM`. -/
def EPERM : Int := 1

/-- The function `willLogToConsole()`. -/
def willLogToConsole (pl : Platform) : Bool :=
  match toUInt (pl.QT_LOGGING_TO_CONSOLE.getD []) with
  | some envcontrol => envcontrol != 0
  | none =>
    if pl.devtty = -1 ∧ (pl.errno = ENOENT ∨ pl.errno = EPERM) then pl.isattyStderr
    else if pl.devtty ≠ -1 then true
    else false

/-- The function `qt_logging_to_console()`. -/
def qt_logging_to_console (pl : Platform) (w : Process) : Bool × Process :=
  match w.logToConsole with
  | some logToConsole => (logToConsole, w)
  | none =>
    let logToConsole := willLogToConsole pl
    (logToConsole, { w with logToConsole := some logToConsole })

/-- The statement `fprintf(stderr, "%s", text.toLocal8Bit().constData())`. -/
def printStderr (pl : Platform) (text : List Char) (w : Process) : Process :=
  { w with stderr := w.stderr ++ cstr (pl.toLocal8Bit text) }

/-- The end of `setPattern`: the diagnostics are printed when there are any. -/
def printDiagnostics (pl : Platform) (error : List Char) (w : Process) : Process :=
  if error.isEmpty then w else printStderr pl error w

/-- The accessor `qMessagePattern()` of the global static: the first call constructs the
object from the environment, a call after destruction returns a null pointer. -/
def qMessagePattern (pl : Platform) (w : Process) : Option QMessagePattern × Process :=
  match w.qMessagePattern with
  | .uninitialized =>
    let r := QMessagePattern.construct (pl.fromLocal8Bit (pl.QT_MESSAGE_PATTERN.getD []))
    (some r.1, printDiagnostics pl r.2 { w with qMessagePattern := .initialized r.1 })
  | .initialized p => (some p, w)
  | .destroyed => (none, w)

/-- The function `qSetMessagePattern(pattern)`. -/
def qSetMessagePattern (pl : Platform) (pattern : List Char) (w : Process) : Outcome :=
  match qMessagePattern pl w with
  | (none, w1) => .undefined w1
  | (some p, w1) =>
    if p.fromEnvironment = false then
      let r := p.setPattern pattern
      .returned (printDiagnostics pl r.2 { w1 with qMessagePattern := .initialized r.1 })
    else .returned w1

/-- The function `qInstallMessageHandler(h)`: the returned handler and the new state. -/
def qInstallMessageHandler (h : Option MessageHandlerPtr) (w : Process) :
    MessageHandlerPtr × Process :=
  let h1 := match h with
    | none => MessageHandlerPtr.qDefaultMessageHandler
    | some p => p
  (w.messageHandler, { w with messageHandler := h1 })

/-- The function `qInstallMsgHandler(h)`: the returned handler and the new state. -/
def qInstallMsgHandler (h : Option MsgHandlerPtr) (w : Process) : MsgHandlerPtr × Process :=
  let h1 := match h with
    | none => MsgHandlerPtr.qDefaultMsgHandler
    | some p => p
  (w.msgHandler, { w with msgHandler := h1 })

/-- The syslog priority chosen by `systemd_default_message_handler`. -/
def journalPriority : QtMsgType → Nat
  | QtDebugMsg => 7
  | QtWarningMsg => 4
  | QtCriticalMsg => 2
  | QtFatalMsg => 1

/-- The function `systemd_default_message_handler`. -/
def systemd_default_message_handler (type : QtMsgType) (context : QMessageLogContext)
    (message : List Char) (w : Process) : Process :=
  { w with journal := w.journal ++
      [{ message := message, priority := journalPriority type,
         codeFunc := context.function.getD "unknown".toList,
         codeLine := context.line,
         codeFile := context.file.getD "unknown".toList,
         qtCategory := context.category.getD "unknown".toList }] }

/-- The function `qDefaultMessageHandler(type, context, buf)`. -/
def qDefaultMessageHandler (pl : Platform) (type : QtMsgType) (context : QMessageLogContext)
    (buf : QString) (w : Process) : Outcome :=
  let (pattern, w1) := qMessagePattern pl w
  match qFormatLogMessage pl.renderEnv pattern type context buf with
  | .ok none => .returned w1
  | .ok (some logMessage) =>
    let (console, w2) := qt_logging_to_console pl w1
    if console = false ∧ pl.useJournald = true then
      .returned (systemd_default_message_handler type context logMessage w2)
    else
      .returned { w2 with stderr := w2.stderr ++ cstr (pl.toLocal8Bit logMessage) ++ ['\n'] }
  | .outOfRange => .undefined w1
  | .outOfFuel => .outOfFuel

/-- The function `qDefaultMsgHandler(type, buf)`. -/
def qDefaultMsgHandler (pl : Platform) (type : QtMsgType) (buf : CString) (w : Process) :
    Outcome :=
  qDefaultMessageHandler pl type QMessageLogContext.empty (some (pl.fromLocal8Bit buf)) w

/-- The function `grabMessageHandler()`. -/
def grabMessageHandler (w : Process) : Bool × Process :=
  if w.msgHandlerGrabbed then (false, w)
  else (true, { w with msgHandlerGrabbed := true })

/-- The function `ungrabMessageHandler()`. -/
def ungrabMessageHandler (w : Process) : Process :=
  { w with msgHandlerGrabbed := false }

/-- The function `qt_message_fatal` on Unix: `abort()`. -/
def qt_message_fatal (_msgType : QtMsgType) (_context : QMessageLogContext)
    (_message : QString) (w : Process) : Outcome :=
  .aborted w

/-- The body of `qt_message_output` over a given `qt_message_print`. -/
def outputWith (pl : Platform)
    (print : QtMsgType → QMessageLogContext → QString → Process → Outcome)
    (msgType : QtMsgType) (context : QMessageLogContext) (message : QString) (w : Process) :
    Outcome :=
  (print msgType context message w).bind fun w1 =>
    let (fatal, w2) := isFatal pl msgType w1
    if fatal then qt_message_fatal msgType context message w2 else .returned w2

/-- Runs the code of an application-defined handler; `log` is the logging entry point
that the handler reaches. -/
def runActions (pl : Platform)
    (log : QtMsgType → QMessageLogContext → QString → Process → Outcome) :
    List Action → Process → Outcome
  | [], w => .returned w
  | .log msgType context message :: rest, w =>
    (log msgType context message w).bind (runActions pl log rest)
  | .installMessageHandler h :: rest, w =>
    runActions pl log rest (qInstallMessageHandler h w).2
  | .installMsgHandler h :: rest, w =>
    runActions pl log rest (qInstallMsgHandler h w).2
  | .setMessagePattern pattern :: rest, w =>
    (qSetMessagePattern pl pattern w).bind (runActions pl log rest)

/-- The call `(*messageHandler.load())(msgType, context, message)`. -/
def callMessageHandler (pl : Platform)
    (log : QtMsgType → QMessageLogContext → QString → Process → Outcome)
    (h : MessageHandlerPtr) (msgType : QtMsgType) (context : QMessageLogContext)
    (message : QString) (w : Process) : Outcome :=
  let w1 := { w with invoked := w.invoked ++ [Invocation.messageHandler h msgType context message] }
  match h with
  | .qDefaultMessageHandler => qDefaultMessageHandler pl msgType context message w1
  | .custom id => runActions pl log (pl.messageHandlerBody id msgType context message) w1

/-- The call `(*msgHandler.load())(msgType, buf)`. -/
def callMsgHandler (pl : Platform)
    (log : QtMsgType → QMessageLogContext → QString → Process → Outcome)
    (h : MsgHandlerPtr) (msgType : QtMsgType) (buf : CString) (w : Process) : Outcome :=
  let w1 := { w with invoked := w.invoked ++ [Invocation.msgHandler h msgType buf] }
  match h with
  | .qDefaultMsgHandler => qDefaultMsgHandler pl msgType buf w1
  | .custom id => runActions pl log (pl.msgHandlerBody id msgType buf) w1

/-- The category gate at the start of `qt_message_print`: whether the function returns
at once. -/
def droppedByCategory (pl : Platform) (msgType : QtMsgType) (context : QMessageLogContext) :
    Bool :=
  if context.category = none ∨ context.category = some "default".toList then
    match pl.defaultCategory with
    | some isEnabled => !isEnabled msgType
    | none => false
  else false

/-- The function `qt_message_print(msgType, context, message)`. The first argument bounds
the depth of calls from handlers back into the pipeline. -/
def qt_message_print (pl : Platform) :
    Nat → QtMsgType → QMessageLogContext → QString → Process → Outcome
  | 0, _, _, _, _ => .outOfFuel
  | fuel + 1, msgType, context, message, w =>
    if droppedByCategory pl msgType context then .returned w
    else
      match grabMessageHandler w with
      | (true, w1) =>
        let log := outputWith pl (qt_message_print pl fuel)
        let r :=
          if w1.msgHandler = MsgHandlerPtr.qDefaultMsgHandler
              ∨ w1.messageHandler ≠ MessageHandlerPtr.qDefaultMessageHandler then
            callMessageHandler pl log w1.messageHandler msgType context message w1
          else
            callMsgHandler pl log w1.msgHandler msgType (cstr (pl.toLocal8Bit message.text)) w1
        r.bind fun w2 => .returned (ungrabMessageHandler w2)
      | (false, w1) =>
        .returned { w1 with stderr := w1.stderr ++ cstr (pl.toLocal8Bit message.text) ++ ['\n'] }

/-- The function `qt_message_output(msgType, context, message)`. -/
def qt_message_output (pl : Platform) (fuel : Nat) (msgType : QtMsgType)
    (context : QMessageLogContext) (message : QString) (w : Process) : Outcome :=
  outputWith pl (qt_message_print pl fuel) msgType context message w

/-- The class `QLoggingCategory`, as far as the logging entry points read it (its
declaration is not part of the sources): the result of `categoryName()` and of the
queries `isDebugEnabled()`, `isWarningEnabled()`, `isCriticalEnabled()`, given as one
function of the message type. -/
structure QLoggingCategory where
  categoryName : CString
  isEnabled : QtMsgType → Bool

/-- The method `QMessageLogContext::copy(logContext)`. -/
def QMessageLogContext.copy (_self logContext : QMessageLogContext) : QMessageLogContext :=
  { category := logContext.category, file := logContext.file, line := logContext.line,
    function := logContext.function }

/-- The function `qt_message(msgType, context, msg, ap, buf)`; `formatted` is the text
`QString().vsprintf(msg, ap)` that the function assigns to `buf`, the null string when
`msg` is null (`buf` is empty at every call). -/
def qt_message (pl : Platform) (fuel : Nat) (msgType : QtMsgType)
    (context : QMessageLogContext) (formatted : QString) (w : Process) : Outcome :=
  qt_message_print pl fuel msgType context formatted w

/-- The method `QMessageLogger::warning(const char *msg, ...)` of a logger with the
member `context`. -/
def QMessageLogger.warning (pl : Platform) (fuel : Nat) (context : QMessageLogContext)
    (formatted : QString) (w : Process) : Outcome :=
  (qt_message pl fuel QtMsgType.QtWarningMsg context formatted w).bind fun w1 =>
    let (fatal, w2) := isFatal pl QtMsgType.QtWarningMsg w1
    if fatal then qt_message_fatal QtMsgType.QtWarningMsg context formatted w2 else .returned w2

/-- The method `QMessageLogger::warning(const QLoggingCategory &cat, const char *msg, ...)`. -/
def QMessageLogger.warningCategory (pl : Platform) (fuel : Nat) (context : QMessageLogContext)
    (cat : QLoggingCategory) (formatted : QString) (w : Process) : Outcome :=
  if !cat.isEnabled QtMsgType.QtWarningMsg then .returned w
  else
    let ctxt : QMessageLogContext :=
      { QMessageLogContext.copy QMessageLogContext.empty context with
        category := some cat.categoryName }
    (qt_message pl fuel QtMsgType.QtWarningMsg ctxt formatted w).bind fun w1 =>
      let (fatal, w2) := isFatal pl QtMsgType.QtWarningMsg w1
      if fatal then qt_message_fatal QtMsgType.QtWarningMsg ctxt formatted w2 else .returned w2

/-- The method `QMessageLogger::critical(const QLoggingCategory &cat, const char *msg, ...)`. -/
def QMessageLogger.criticalCategory (pl : Platform) (fuel : Nat) (context : QMessageLogContext)
    (cat : QLoggingCategory) (formatted : QString) (w : Process) : Outcome :=
  if !cat.isEnabled QtMsgType.QtCriticalMsg then .returned w
  else
    let ctxt : QMessageLogContext :=
      { QMessageLogContext.copy QMessageLogContext.empty context with
        category := some cat.categoryName }
    (qt_message pl fuel QtMsgType.QtCriticalMsg ctxt formatted w).bind fun w1 =>
      let (fatal, w2) := isFatal pl QtMsgType.QtCriticalMsg w1
      if fatal then qt_message_fatal QtMsgType.QtCriticalMsg ctxt formatted w2 else .returned w2

/-! ## Auxiliary definitions for the statements -/

/-- Whether a token is one of the if-* tokens or endif. -/
def Token.isConditional : Token → Bool
  | .ifCategoryTokenC => true
  | .ifDebugTokenC => true
  | .ifWarningTokenC => true
  | .ifCriticalTokenC => true
  | .ifFatalTokenC => true
  | .endifTokenC => true
  | _ => false

/-- The if-* token of a message type. -/
def levelToken : QtMsgType → Token
  | QtDebugMsg => .ifDebugTokenC
  | QtWarningMsg => .ifWarningTokenC
  | QtCriticalMsg => .ifCriticalTokenC
  | QtFatalMsg => .ifFatalTokenC

/-- The value of the variable `skip` of qFormatLogMessage after the token loop has read
the given tokens, starting from the given value. -/
def skipEnd (type : QtMsgType) (context : QMessageLogContext) : List Token → Bool → Bool
  | [], skip => skip
  | token :: rest, skip =>
    if token = Token.endifTokenC then skipEnd type context rest false
    else if skip then skipEnd type context rest skip
    else
      match conditional type context token with
      | some update => skipEnd type context rest (update skip)
      | none => skipEnd type context rest skip

/-- A render environment for the examples. -/
def sampleEnv : RenderEnv :=
  { applicationPid := 4242, applicationName := some "app".toList, currentThread := 255,
    elapsed := 1234567, currentDateTime := fun _ => some "2014-12-10T09:00:00".toList,
    backtraceSymbols := fun _ => ["./app(main+0x10) [0x400]".toList],
    demangle := fun _ => none }

/-- A log context for the examples. -/
def sampleContext : QMessageLogContext :=
  { line := 7, file := some "f.cpp".toList, function := some "int main()".toList,
    category := some "net".toList }

/-- The token that the tokenizer loop of `setPattern` stores for a lexeme (the token
depends on the lexeme alone, see `tokenizeStep_tokens`). -/
def lexemeToken (lexeme : List Char) : Token :=
  if startsWith lexeme "%\x7b".toList ∧ endsWith lexeme '}' then
    if lexeme = Token.typeTokenC.chars then Token.typeTokenC
    else if lexeme = Token.categoryTokenC.chars then Token.categoryTokenC
    else if lexeme = Token.messageTokenC.chars then Token.messageTokenC
    else if lexeme = Token.fileTokenC.chars then Token.fileTokenC
    else if lexeme = Token.lineTokenC.chars then Token.lineTokenC
    else if lexeme = Token.functionTokenC.chars then Token.functionTokenC
    else if lexeme = Token.pidTokenC.chars then Token.pidTokenC
    else if lexeme = Token.appnameTokenC.chars then Token.appnameTokenC
    else if lexeme = Token.threadidTokenC.chars then Token.threadidTokenC
    else if startsWith lexeme Token.timeTokenC.chars then Token.timeTokenC
    else if startsWith lexeme Token.backtraceTokenC.chars then Token.backtraceTokenC
    else if lexeme = Token.ifCategoryTokenC.chars then Token.ifCategoryTokenC
    else if lexeme = Token.ifDebugTokenC.chars then Token.ifDebugTokenC
    else if lexeme = Token.ifWarningTokenC.chars then Token.ifWarningTokenC
    else if lexeme = Token.ifCriticalTokenC.chars then Token.ifCriticalTokenC
    else if lexeme = Token.ifFatalTokenC.chars then Token.ifFatalTokenC
    else if lexeme = Token.endifTokenC.chars then Token.endifTokenC
    else Token.emptyTokenC
  else Token.literal (cstr (toLatin1 lexeme))

/-- The texts of the keywords that the tokenizer compares a placeholder lexeme with
for equality. -/
def exactKeywords : List (List Char) :=
  [Token.typeTokenC.chars, Token.categoryTokenC.chars, Token.messageTokenC.chars,
   Token.fileTokenC.chars, Token.lineTokenC.chars, Token.functionTokenC.chars,
   Token.pidTokenC.chars, Token.appnameTokenC.chars, Token.threadidTokenC.chars,
   Token.ifCategoryTokenC.chars, Token.ifDebugTokenC.chars, Token.ifWarningTokenC.chars,
   Token.ifCriticalTokenC.chars, Token.ifFatalTokenC.chars, Token.endifTokenC.chars]

/-- Whether a lexeme is a placeholder (it starts with an opening `%` and brace and ends
with a closing brace) that matches no keyword of the tokenizer. -/
def isUnknownPlaceholder (lexeme : List Char) : Bool :=
  startsWith lexeme "%\x7b".toList && endsWith lexeme '}'
    && !exactKeywords.contains lexeme
    && !startsWith lexeme Token.timeTokenC.chars
    && !startsWith lexeme Token.backtraceTokenC.chars

/-- The diagnostic line for an unknown placeholder. -/
def unknownPlaceholderLine (lexeme : List Char) : List Char :=
  "QT_MESSAGE_PATTERN: Unknown placeholder ".toList ++ lexeme ++ "\n".toList

/-- Whether a token is one of the five if-* tokens. -/
def Token.isIf : Token → Bool
  | .ifCategoryTokenC => true
  | .ifDebugTokenC => true
  | .ifWarningTokenC => true
  | .ifCriticalTokenC => true
  | .ifFatalTokenC => true
  | _ => false

/-- The diagnostic line for a backtrace depth that is not a number greater than 0. -/
def depthLine : List Char :=
  "QT_MESSAGE_PATTERN: %{backtrace} depth must be a number greater than 0\n".toList

/-- The diagnostic line for an endif that is met while no if-* region is open. -/
def endifLine : List Char := "QT_MESSAGE_PATTERN: %{endif} without an %{if-*}\n".toList

/-- The diagnostic line for nested if-* placeholders. -/
def nestedLine : List Char := "QT_MESSAGE_PATTERN: %{if-*} cannot be nested\n".toList

/-- The diagnostic line for an if-* region that is still open at the end. -/
def missingEndifLine : List Char := "QT_MESSAGE_PATTERN: missing %{endif}\n".toList

/-- The diagnostic lines that one iteration of the tokenizer loop adds to `error`, in
terms of the token of the lexeme. -/
def stepLines (st : TokState) (lexeme : List Char) : List (List Char) :=
  match lexemeToken lexeme with
  | .backtraceTokenC =>
    (match captureAttribute " depth=".toList lexeme with
     | some captured => if toInt captured ≤ 0 then [depthLine] else []
     | none => [])
  | .endifTokenC => if st.inIf = false ∧ st.nestedIfError = false then [endifLine] else []
  | .emptyTokenC => [unknownPlaceholderLine lexeme]
  | _ => []

/-- The time format that a lexeme assigns: the argument of a time placeholder that
contains a blank; `none` when the lexeme assigns none. -/
def timeAssign (lexeme : List Char) : Option (List Char) :=
  if lexemeToken lexeme = Token.timeTokenC ∧ indexOf lexeme [' '] > 0 then
    some (mid lexeme (indexOf lexeme [' '] + 1) ((lexeme.length : Int) - indexOf lexeme [' '] - 2))
  else none

/-- The backtrace depth that a lexeme assigns: the depth attribute of a backtrace
placeholder when it is a number greater than 0; `none` when the lexeme assigns none. -/
def depthAssign (lexeme : List Char) : Option Int :=
  if lexemeToken lexeme = Token.backtraceTokenC then
    match captureAttribute " depth=".toList lexeme with
    | some captured => if toInt captured ≤ 0 then none else some (toInt captured)
    | none => none
  else none

/-- The backtrace separator that a lexeme assigns: the separator attribute of a
backtrace placeholder; `none` when the lexeme assigns none. -/
def separatorAssign (lexeme : List Char) : Option (List Char) :=
  if lexemeToken lexeme = Token.backtraceTokenC then
    captureAttribute " separator=".toList lexeme
  else none

/-- One iteration of the tokenizer loop written in terms of the token of the lexeme
(equal to `tokenizeStep`, see `tokenizeStep_eq`). -/
def stepByToken (st : TokState) (lexeme : List Char) : TokState :=
  { tokens := st.tokens ++ [lexemeToken lexeme],
    literalsVar :=
      (match lexemeToken lexeme with
       | .literal text => st.literalsVar ++ [text]
       | _ => st.literalsVar),
    nestedIfError := if (lexemeToken lexeme).isIf = true ∧ st.inIf = true then true
                     else st.nestedIfError,
    inIf := if (lexemeToken lexeme).isIf = true then true
            else if lexemeToken lexeme = Token.endifTokenC then false
            else st.inIf,
    error := st.error ++ (stepLines st lexeme).flatten,
    timeFormat := (timeAssign lexeme).getD st.timeFormat,
    backtraceDepth := (depthAssign lexeme).getD st.backtraceDepth,
    backtraceSeparator := (separatorAssign lexeme).getD st.backtraceSeparator }

/-- The last value that a list of items assigns, `none` when no item assigns one. -/
def lastSome {α β : Type} (f : α → Option β) : List α → Option β
  | [] => none
  | a :: rest =>
    match lastSome f rest with
    | some b => some b
    | none => f a

/-- Whether an if-* region is open after the given tokens, `inIf` telling whether one is
open before them: an if-* token opens a region, the next endif closes it. -/
def openEnd : List Token → Bool → Bool
  | [], inIf => inIf
  | token :: rest, inIf =>
    if token.isIf = true then openEnd rest true
    else if token = Token.endifTokenC then openEnd rest false
    else openEnd rest inIf

/-- Whether among the given tokens an if-* token occurs while an if-* region is open,
`inIf` telling whether one is open before them. -/
def hasNestedIf : List Token → Bool → Bool
  | [], _ => false
  | token :: rest, inIf =>
    if token.isIf = true then inIf || hasNestedIf rest true
    else if token = Token.endifTokenC then hasNestedIf rest false
    else hasNestedIf rest inIf

/-- The diagnostic lines that the tokenizer loop adds to `error`, in the order in which
it adds them. -/
def loopLines : TokState → List (List Char) → List (List Char)
  | _, [] => []
  | st, lexeme :: rest => stepLines st lexeme ++ loopLines (tokenizeStep st lexeme) rest

/-- The diagnostic line that `setPattern` adds after the tokenizer loop, if any. -/
def finishLines (st : TokState) : List (List Char) :=
  if st.nestedIfError then [nestedLine]
  else if st.inIf then [missingEndifLine]
  else []

/-- The diagnostic lines of `setPattern(pattern)` called on the pattern object `self`, in
the order in which the method adds them to `error`. -/
def diagnostics (self : QMessagePattern) (pattern : List Char) : List (List Char) :=
  loopLines (TokState.start self) (scan pattern)
    ++ finishLines (tokenize (TokState.start self) (scan pattern))

/-- A tokenizer state with tokens and diagnostics put in front of its own. -/
def TokState.prepend (toks : List Token) (err : List Char) (st : TokState) : TokState :=
  { st with tokens := toks ++ st.tokens, error := err ++ st.error }

/-- The text of a render result. -/
def Res.text : Res QString → Res (List Char)
  | .ok m => .ok m.text
  | .outOfRange => .outOfRange
  | .outOfFuel => .outOfFuel

/-- A platform for the examples: no variable set, a terminal, no journal, and one
context-aware handler (number 0) that logs a warning from inside the handler. -/
def samplePlatform : Platform :=
  { QT_MESSAGE_PATTERN := none, QT_FATAL_WARNINGS := none, QT_FATAL_CRITICALS := none,
    QT_LOGGING_TO_CONSOLE := none, devtty := 3, errno := 0, isattyStderr := true,
    useJournald := false, defaultCategory := none,
    toLocal8Bit := fun s => s, fromLocal8Bit := fun s => s,
    renderEnv := sampleEnv,
    messageHandlerBody := fun _ _ _ _ =>
      [Action.log QtWarningMsg QMessageLogContext.empty (some "nested".toList)],
    msgHandlerBody := fun _ _ _ => [] }

/-- The text for `%{time process}` in the words of the specification: the seconds in
decimal at their natural width, a dot, and the milliseconds with leading zeros in three
digits. -/
def specProcessTime (ms : Nat) : List Char :=
  Nat.toDigits 10 (ms / 1000) ++ ['.'] ++ List.leftpad 3 '0' (Nat.toDigits 10 (ms % 1000))

/-- A render environment for the examples whose stack holds one frame without a function
name, in the library `/usr/lib/libfoo.so`. -/
def unnamedFrameEnv : RenderEnv :=
  { sampleEnv with backtraceSymbols := fun _ => ["/usr/lib/libfoo.so(+0x10) [0x400]".toList] }

/-- A closed placeholder lexeme: it starts with `%{` and holds exactly one closing brace,
as its last character. -/
def isClosedPlaceholder (l : List Char) : Bool :=
  startsWith l "%\x7b".toList && l.getLast? == some '}' && l.count '}' == 1

/-- A literal run: a lexeme that holds no `%{`. -/
def isLiteralRun (l : List Char) : Bool :=
  !contains l "%\x7b".toList

/-- An unterminated placeholder lexeme: it starts with `%{` and holds no closing brace. -/
def isOpenPlaceholder (l : List Char) : Bool :=
  startsWith l "%\x7b".toList && !l.elem '}'

/-- An identifier character: an ASCII letter, an ASCII digit or the underscore. -/
def isIdentifierChar (c : Char) : Bool :=
  c.isAlphanum || c == '_'

/-- A process for the examples: a fresh process in which the application has installed
its context-aware handler number 0. -/
def handlerProcess : Process :=
  (qInstallMessageHandler (some (MessageHandlerPtr.custom 0)) Process.start).2

/-- A property of the state in which a call ends, for a call that ends within the
iteration budget. -/
def Outcome.Holds (P : Process → Prop) : Outcome → Prop
  | .returned w => P w
  | .aborted w => P w
  | .undefined w => P w
  | .outOfFuel => False

/-- A property of the state in which a call ends, if it ends within the iteration
budget. -/
def Outcome.All (P : Process → Prop) : Outcome → Prop
  | .returned w => P w
  | .aborted w => P w
  | .undefined w => P w
  | .outOfFuel => True

/-- The warnings-as-fatal toggle of a process: the static `fatalWarnings` of isFatal
when it is initialized, otherwise the value it is going to get, which is whether
QT_FATAL_WARNINGS is non-empty. -/
def warningsFatal (pl : Platform) (w : Process) : Bool :=
  w.fatalWarnings.getD (!qEnvironmentVariableIsEmpty pl.QT_FATAL_WARNINGS)

/-- The criticals-as-fatal toggle of a process: the static `fatalCriticals` of isFatal
when it is initialized, otherwise whether QT_FATAL_CRITICALS is non-empty. -/
def criticalsFatal (pl : Platform) (w : Process) : Bool :=
  w.fatalCriticals.getD (!qEnvironmentVariableIsEmpty pl.QT_FATAL_CRITICALS)

/-- The handler call that the specification expects of a dispatch: the legacy handler
when the legacy slot holds a non-default handler and the context-aware slot the default
one, the context-aware handler otherwise. -/
def expectedInvocation (pl : Platform) (w : Process) (msgType : QtMsgType)
    (context : QMessageLogContext) (message : QString) : Invocation :=
  if w.msgHandler ≠ MsgHandlerPtr.qDefaultMsgHandler
      ∧ w.messageHandler = MessageHandlerPtr.qDefaultMessageHandler then
    Invocation.msgHandler w.msgHandler msgType (cstr (pl.toLocal8Bit message.text))
  else Invocation.messageHandler w.messageHandler msgType context message

/-! ## Lemmas on the renderer -/

@[simp] theorem Res.bind_ok {α β : Type} (a : α) (f : α → Res β) : (Res.ok a).bind f = f a := rfl

@[simp] theorem Res.monad_bind {α β : Type} (r : Res α) (f : α → Res β) :
    (r >>= f) = r.bind f := rfl

@[simp] theorem QString.append_none (m : QString) : QString.append m none = m := rfl

@[simp] theorem QString.none_append (s : QString) : QString.append none s = s := by
  cases s <;> simp [QString.append, QString.text]

@[simp] theorem QString.text_append (m s : QString) :
    (QString.append m s).text = m.text ++ s.text := by
  cases s <;> simp [QString.append, QString.text]

/-! ## Termination of qCleanupFuncinfo -/

theorem Res.bind_ne_outOfFuel {α β : Type} (r : Res α) (f : α → Res β)
    (h1 : r ≠ .outOfFuel) (h2 : ∀ a, r = .ok a → f a ≠ .outOfFuel) :
    r.bind f ≠ .outOfFuel := by
  cases r with
  | ok a => exact h2 a rfl
  | outOfRange => simp [Res.bind]
  | outOfFuel => exact absurd rfl h1

theorem byteAt_ok (info : List Char) (i : Int) (c : Char) (h : byteAt info i = .ok c) :
    0 ≤ i ∧ i < info.length := by
  unfold byteAt at h
  split_ifs at h with hc
  exact hc

theorem byteAt_ne_outOfFuel (info : List Char) (i : Int) : byteAt info i ≠ .outOfFuel := by
  unfold byteAt
  split_ifs
  · split <;> simp
  · simp

theorem scanBack_fuel_pos (cl op : Char) (info : List Char) :
    ∀ (fuel : Nat) (pos count : Int), pos < fuel → 0 < fuel →
      scanBack cl op fuel info pos count ≠ .outOfFuel := by
  intro fuel
  induction fuel with
  | zero => intro pos count _ h; omega
  | succ n ih =>
    intro pos count hp _
    unfold scanBack
    split_ifs with hc
    · simp only [Res.monad_bind]
      apply Res.bind_ne_outOfFuel _ _ (byteAt_ne_outOfFuel _ _)
      intro c hcOk
      have hb := byteAt_ok info pos c hcOk
      apply ih
      · push_cast at hp; omega
      · omega
    · simp

theorem scanBack_fuel (cl op : Char) (info : List Char) (fuel : Nat) (pos count : Int)
    (h : info.length < fuel) : scanBack cl op fuel info pos count ≠ .outOfFuel := by
  by_cases hp : pos < fuel
  · exact scanBack_fuel_pos cl op info fuel pos count hp (by omega)
  · cases fuel with
    | zero => omega
    | succ n =>
      unfold scanBack
      split_ifs with hc
      · simp only [Res.monad_bind]
        apply Res.bind_ne_outOfFuel _ _ (byteAt_ne_outOfFuel _ _)
        intro c hcOk
        have hb := byteAt_ok info pos c hcOk
        push_cast at hp
        omega
      · simp

theorem scanBack_bounds (cl op : Char) (info : List Char) :
    ∀ (fuel : Nat) (pos count p c : Int), scanBack cl op fuel info pos count = .ok (p, c) →
      0 ≤ pos → 0 ≤ p ∧ p ≤ pos := by
  intro fuel
  induction fuel with
  | zero => intro pos count p c h; simp [scanBack] at h
  | succ n ih =>
    intro pos count p c h hpos
    unfold scanBack at h
    split_ifs at h with hc
    · simp only [Res.monad_bind] at h
      cases hb : byteAt info pos with
      | ok ch =>
        rw [hb] at h
        simp only [Res.bind_ok] at h
        have := ih _ _ _ _ h (by omega)
        omega
      | outOfRange => rw [hb] at h; simp [Res.bind] at h
      | outOfFuel => rw [hb] at h; simp [Res.bind] at h
    · simp only [Res.ok.injEq, Prod.mk.injEq] at h
      omega

theorem scanBack_negative (cl op : Char) (info : List Char) (fuel : Nat) (pos count : Int)
    (hpos : pos < 0) (hcount : count ≠ 0) (r : Int × Int) :
    scanBack cl op fuel info pos count ≠ .ok r := by
  cases fuel with
  | zero => simp [scanBack]
  | succ n =>
    unfold scanBack
    have hc : pos ≠ 0 ∧ count ≠ 0 := ⟨by omega, hcount⟩
    rw [if_pos hc]
    simp only [Res.monad_bind]
    cases hb : byteAt info pos with
    | ok ch => have := byteAt_ok info pos ch hb; omega
    | outOfRange => simp [Res.bind]
    | outOfFuel => simp [Res.bind]

theorem stripWithLoop_fuel :
    ∀ (fuel : Nat) (info : List Char) (pos : Int), pos ≤ fuel → 0 < fuel →
      stripWithLoop fuel info pos ≠ .outOfFuel := by
  intro fuel
  induction fuel with
  | zero => intro info pos _ h; omega
  | succ n ih =>
    intro info pos hp _
    unfold stripWithLoop
    dsimp only
    split_ifs with hc
    · simp
    · simp only [Res.monad_bind]
      apply Res.bind_ne_outOfFuel _ _ (byteAt_ne_outOfFuel _ _)
      intro c hcOk
      have hb := byteAt_ok info (pos - 1) c hcOk
      apply ih
      · push_cast at hp; omega
      · omega

theorem truncate_length_le (info : List Char) (pos : Int) :
    (truncate info pos).length ≤ info.length := by
  unfold truncate
  split_ifs <;> simp

theorem remove_length_le (info : List Char) (pos len : Int) :
    (remove info pos len).length ≤ info.length := by
  unfold remove
  split_ifs with h
  · simp
  · simp only [List.length_append, List.length_take, List.length_drop]
    omega

theorem remove_length_lt (info : List Char) (pos len : Int)
    (h1 : 0 < len) (h2 : 0 ≤ pos) (h3 : pos < info.length) :
    (remove info pos len).length < info.length := by
  unfold remove
  have hc : ¬ (len ≤ 0 ∨ pos < 0 ∨ pos ≥ info.length) := by omega
  rw [if_neg hc]
  simp only [List.length_append, List.length_take, List.length_drop]
  omega

theorem chop_one_length (info : List Char) : (chop info 1).length ≤ info.length - 1 := by
  unfold chop
  simp only [gt_iff_lt, zero_lt_one, if_true, List.length_take]
  omega

theorem mid_one_length (info : List Char) (h : 0 < info.length) :
    (mid info 1 (-1)).length < info.length := by
  unfold mid
  simp only
  split_ifs <;> simp <;> omega

theorem lastIndexOfChar_lt (s : List Char) (c : Char) : lastIndexOfChar s c < s.length := by
  unfold lastIndexOfChar
  split
  · omega
  · omega

theorem lastIndexOfChar_ge (s : List Char) (c : Char) : -1 ≤ lastIndexOfChar s c := by
  unfold lastIndexOfChar
  split
  · omega
  · rename_i i hi
    have : i < s.reverse.length := by
      have := List.findIdx?_eq_some_iff_findIdx_eq.mp hi
      exact this.1
    simp at this
    omega

theorem argListLoop_fuel :
    ∀ (fuel : Nat) (info : List Char), info.length < fuel →
      argListLoop fuel info ≠ .outOfFuel := by
  intro fuel
  induction fuel with
  | zero => intro info h; omega
  | succ n ih =>
    intro info hlen
    unfold argListLoop
    dsimp only
    by_cases h1 : lastIndexOfChar info ')' = -1
    · rw [if_pos h1]; simp
    · rw [if_neg h1]
      simp only [Res.monad_bind]
      apply Res.bind_ne_outOfFuel _ _ (scanBack_fuel _ _ _ _ _ _ (by omega))
      rintro ⟨pos1, parencount⟩ _
      dsimp only
      by_cases h2 : parencount ≠ 0
      · rw [if_pos h2]; simp
      · rw [if_neg h2]
        apply Res.bind_ne_outOfFuel _ _ (byteAt_ne_outOfFuel _ _)
        intro c hcOk
        have hb := byteAt_ok _ _ c hcOk
        have ht := truncate_length_le info (pos1 + 1)
        by_cases h3 : c = ')'
        · rw [if_pos h3]
          by_cases h4 : indexOf (truncate info (pos1 + 1)) operator_call
              = pos1 + 1 - (operator_call.length : Int)
          · rw [if_pos h4]; simp
          · rw [if_neg h4]
            apply ih
            have h5 := chop_one_length (remove (truncate info (pos1 + 1)) 0
              (indexOf (truncate info (pos1 + 1)) ['(']))
            have h6 := remove_length_le (truncate info (pos1 + 1)) 0
              (indexOf (truncate info (pos1 + 1)) ['('])
            omega
        · rw [if_neg h3]; simp

theorem nameLoop_fuel_pos (info : List Char) :
    ∀ (fuel : Nat) (pos parencount templatecount : Int), pos + 1 < fuel → 0 < fuel →
      nameLoop fuel info pos parencount templatecount ≠ .outOfFuel := by
  intro fuel
  induction fuel with
  | zero => intro pos _ _ _ h; omega
  | succ n ih =>
    intro pos pc tc hp _
    unfold nameLoop
    split_ifs with h1 h2
    · simp
    · simp only [Res.monad_bind]
      apply Res.bind_ne_outOfFuel _ _ (byteAt_ne_outOfFuel _ _)
      intro c hcOk
      have hb := byteAt_ok info pos c hcOk
      have hrec : ∀ a b, nameLoop n info (pos - 1) a b ≠ .outOfFuel := by
        intro a b
        apply ih
        · push_cast at hp; omega
        · push_cast at hp; omega
      split_ifs <;> first | exact hrec _ _ | simp
    · simp

theorem nameLoop_fuel (info : List Char) (fuel : Nat) (pos parencount templatecount : Int)
    (h : info.length + 1 < fuel) :
    nameLoop fuel info pos parencount templatecount ≠ .outOfFuel := by
  by_cases hp : pos + 1 < fuel
  · exact nameLoop_fuel_pos info fuel pos parencount templatecount hp (by omega)
  · cases fuel with
    | zero => omega
    | succ n =>
      unfold nameLoop
      split_ifs with h1 h2
      · simp
      · simp only [Res.monad_bind]
        apply Res.bind_ne_outOfFuel _ _ (byteAt_ne_outOfFuel _ _)
        intro c hcOk
        have hb := byteAt_ok info pos c hcOk
        push_cast at hp
        omega
      · simp

theorem stripRefLoop_fuel :
    ∀ (fuel : Nat) (info : List Char), info.length < fuel →
      stripRefLoop fuel info ≠ .outOfFuel := by
  intro fuel
  induction fuel with
  | zero => intro info h; omega
  | succ n ih =>
    intro info hlen
    unfold stripRefLoop
    simp only [Res.monad_bind]
    apply Res.bind_ne_outOfFuel _ _ (byteAt_ne_outOfFuel _ _)
    intro c hcOk
    have hb := byteAt_ok info 0 c hcOk
    split_ifs
    · apply ih
      have := mid_one_length info (by omega)
      omega
    · simp

theorem templateLoop_fuel :
    ∀ (fuel : Nat) (info : List Char), info.length < fuel →
      templateLoop fuel info ≠ .outOfFuel := by
  intro fuel
  induction fuel with
  | zero => intro info h; omega
  | succ n ih =>
    intro info hlen
    unfold templateLoop
    dsimp only
    split_ifs with h1 h2
    · simp
    · simp only [Res.monad_bind]
      apply Res.bind_ne_outOfFuel _ _ (scanBack_fuel _ _ _ _ _ _ (by omega))
      rintro ⟨pos1, cnt⟩ hOk
      dsimp only
      apply ih
      have hlt := lastIndexOfChar_lt info '>'
      have hge := lastIndexOfChar_ge info '>'
      by_cases hneg : lastIndexOfChar info '>' - 1 < 0
      · exact absurd hOk (scanBack_negative _ _ _ _ _ _ hneg (by decide) _)
      · have hb := scanBack_bounds _ _ _ _ _ _ _ _ hOk (by omega)
        have := remove_length_lt info (pos1 + 1) (lastIndexOfChar info '>' - (pos1 + 1) + 1)
          (by omega) (by omega) (by omega)
        omega
    · simp

theorem operatorAdjust_ne_outOfFuel (info : List Char) (pos : Int) :
    operatorAdjust info pos ≠ .outOfFuel := by
  unfold operatorAdjust
  by_cases h : pos > -1
  · rw [if_pos h]
    simp only [Res.monad_bind]
    apply Res.bind_ne_outOfFuel _ _ (byteAt_ne_outOfFuel _ _)
    intro c _
    split_ifs <;> simp
  · rw [if_neg h]; simp

theorem cleanupName_ne_outOfFuel (info3 : List Char) (pos3 : Int) :
    cleanupName info3 pos3 ≠ .outOfFuel := by
  unfold cleanupName
  apply Res.bind_ne_outOfFuel _ _ (operatorAdjust_ne_outOfFuel _ _)
  intro pos4 _
  apply Res.bind_ne_outOfFuel _ _ (nameLoop_fuel _ _ _ _ _ (by omega))
  intro o _
  cases o with
  | none => simp
  | some pos5 =>
    dsimp only
    apply Res.bind_ne_outOfFuel _ _ (stripRefLoop_fuel _ _ (by omega))
    intro info5 _
    exact templateLoop_fuel _ _ (by omega)

theorem qCleanupFuncinfo_ne_outOfFuel (info : List Char) :
    qCleanupFuncinfo info ≠ .outOfFuel := by
  unfold qCleanupFuncinfo
  by_cases h0 : info.isEmpty
  · rw [if_pos h0]; simp
  · rw [if_neg h0]
    apply Res.bind_ne_outOfFuel
    · unfold stripWith
      split_ifs
      · apply stripWithLoop_fuel <;> push_cast <;> omega
      · simp
    · intro info1 _
      apply Res.bind_ne_outOfFuel _ _ (argListLoop_fuel _ _ (by omega))
      intro e _
      cases e with
      | ret r => simp
      | brk info3 pos3 => exact cleanupName_ne_outOfFuel info3 pos3

theorem conditional_eq_none (type : QtMsgType) (context : QMessageLogContext) (t : Token)
    (h : t.isConditional = false) : conditional type context t = none := by
  cases t <;> simp_all [Token.isConditional, conditional]

theorem ne_endif_of_not_conditional (t : Token) (h : t.isConditional = false) :
    t ≠ Token.endifTokenC := by
  intro e
  subst e
  simp [Token.isConditional] at h

theorem renderLoop_append (env : RenderEnv) (p : QMessagePattern) (type : QtMsgType)
    (context : QMessageLogContext) (str : QString) (xs ys : List Token) :
    ∀ (skip : Bool) (message : QString),
      renderLoop env p type context str (xs ++ ys) skip message
        = (renderLoop env p type context str xs skip message).bind
            (fun m => renderLoop env p type context str ys (skipEnd type context xs skip) m) := by
  induction xs with
  | nil => intro skip message; simp [renderLoop, skipEnd]
  | cons t rest ih =>
    intro skip message
    simp only [List.cons_append, renderLoop, skipEnd]
    by_cases h1 : t = Token.endifTokenC
    · simp only [h1, if_true]; exact ih _ _
    · simp only [h1, if_false]
      by_cases h2 : skip = true
      · simp only [h2, if_true]; exact ih _ _
      · simp only [h2]
        cases hc : conditional type context t with
        | some u => simpa using ih _ _
        | none =>
          cases ha : appended env p type context str t with
          | ok piece => simpa using ih _ _
          | outOfRange => simp [Res.bind]
          | outOfFuel => simp [Res.bind]

theorem skipEnd_plain (type : QtMsgType) (context : QMessageLogContext) (body : List Token)
    (h : ∀ t ∈ body, t.isConditional = false) (skip : Bool) :
    skipEnd type context body skip = skip := by
  induction body with
  | nil => rfl
  | cons t rest ih =>
    have ht := h t (List.mem_cons_self _ _)
    have hr : ∀ t ∈ rest, t.isConditional = false := fun x hx => h x (List.mem_cons_of_mem _ hx)
    simp [skipEnd, ne_endif_of_not_conditional t ht, conditional_eq_none type context t ht, ih hr]

theorem renderLoop_skipped (env : RenderEnv) (p : QMessagePattern) (type : QtMsgType)
    (context : QMessageLogContext) (str : QString) (body : List Token)
    (h : ∀ t ∈ body, t.isConditional = false) (message : QString) :
    renderLoop env p type context str body true message = .ok message := by
  induction body with
  | nil => rfl
  | cons t rest ih =>
    have ht := h t (List.mem_cons_self _ _)
    have hr : ∀ t ∈ rest, t.isConditional = false := fun x hx => h x (List.mem_cons_of_mem _ hx)
    simp [renderLoop, ne_endif_of_not_conditional t ht, ih hr]

theorem renderLoop_levelToken (env : RenderEnv) (p : QMessagePattern) (type : QtMsgType)
    (context : QMessageLogContext) (str : QString) (level : QtMsgType) (rest : List Token)
    (message : QString) :
    renderLoop env p type context str (levelToken level :: rest) false message
      = renderLoop env p type context str rest (decide (type ≠ level)) message := by
  cases level <;> simp [renderLoop, levelToken, conditional]

theorem qFormatLogMessage_some (env : RenderEnv) (p : QMessagePattern) (type : QtMsgType)
    (context : QMessageLogContext) (str : QString) :
    qFormatLogMessage env (some p) type context str
      = renderLoop env p type context str p.tokens false none := rfl

/-! ## Totality of the renderer -/

theorem demangledName_ne_outOfFuel (env : RenderEnv) (function : List Char) :
    demangledName env function ≠ .outOfFuel := by
  unfold demangledName
  split_ifs
  · split
    · exact qCleanupFuncinfo_ne_outOfFuel _
    · simp
  · simp

theorem frameText_ne_outOfFuel (context : QMessageLogContext) (n : Int)
    (library function : List Char) : frameText context n library function ≠ .outOfFuel := by
  unfold frameText
  by_cases h : function.isEmpty
  · rw [if_pos h]
    split
    · exact qCleanupFuncinfo_ne_outOfFuel _
    · simp
  · rw [if_neg h]; simp

theorem backtraceLoop_ne_outOfFuel (env : RenderEnv) (p : QMessagePattern)
    (context : QMessageLogContext) (frames : List (List Char)) :
    ∀ (numberPrinted : Int) (acc : QString),
      backtraceLoop env p context frames numberPrinted acc ≠ .outOfFuel := by
  induction frames with
  | nil => intro n acc; simp [backtraceLoop]
  | cons trace rest ih =>
    intro n acc
    unfold backtraceLoop
    by_cases h1 : n < p.backtraceDepth
    · rw [if_pos h1]
      cases hm : matchFrame trace with
      | none =>
        dsimp only
        split_ifs <;> exact ih _ _
      | some lf =>
        obtain ⟨library, function⟩ := lf
        dsimp only
        split_ifs with h2
        · exact ih _ _
        all_goals
          apply Res.bind_ne_outOfFuel _ _ (demangledName_ne_outOfFuel _ _)
          intro function1 _
          apply Res.bind_ne_outOfFuel _ _ (frameText_ne_outOfFuel _ _ _ _)
          intro text _
          exact ih _ _
    · rw [if_neg h1]; simp

theorem appended_ne_outOfFuel (env : RenderEnv) (p : QMessagePattern) (type : QtMsgType)
    (context : QMessageLogContext) (str : QString) (t : Token) :
    appended env p type context str t ≠ .outOfFuel := by
  cases t <;> simp only [appended] <;> try simp
  · split <;> simp
  · split
    · apply Res.bind_ne_outOfFuel _ _ (qCleanupFuncinfo_ne_outOfFuel _)
      intro name _; simp
    · simp
  · split_ifs <;> simp
  · exact backtraceLoop_ne_outOfFuel _ _ _ _ _ _

theorem renderLoop_ne_outOfFuel (env : RenderEnv) (p : QMessagePattern) (type : QtMsgType)
    (context : QMessageLogContext) (str : QString) (toks : List Token) :
    ∀ (skip : Bool) (message : QString),
      renderLoop env p type context str toks skip message ≠ .outOfFuel := by
  induction toks with
  | nil => intro skip message; simp [renderLoop]
  | cons t rest ih =>
    intro skip message
    unfold renderLoop
    split_ifs
    · exact ih _ _
    · exact ih _ _
    · split
      · exact ih _ _
      · split
        · exact ih _ _
        · simp
        · rename_i h
          exact absurd h (appended_ne_outOfFuel _ _ _ _ _ _)

theorem qFormatLogMessage_ne_outOfFuel (env : RenderEnv) (pattern : Option QMessagePattern)
    (type : QtMsgType) (context : QMessageLogContext) (str : QString) :
    qFormatLogMessage env pattern type context str ≠ .outOfFuel := by
  cases pattern with
  | none => simp [qFormatLogMessage]
  | some p => exact renderLoop_ne_outOfFuel _ _ _ _ _ _ _ _

/-! ## Lemmas on the dispatcher -/

theorem Outcome.holds_bind {P Q : Process → Prop} {r : Outcome} {f : Process → Outcome}
    (h1 : r.Holds P) (h2 : ∀ w, P w → (f w).Holds Q) (h3 : ∀ w, P w → Q w) :
    (r.bind f).Holds Q := by
  cases r with
  | returned w => exact h2 w h1
  | aborted w => exact h3 w h1
  | undefined w => exact h3 w h1
  | outOfFuel => exact h1

theorem Outcome.holds_mono {P Q : Process → Prop} {r : Outcome}
    (h1 : r.Holds P) (h2 : ∀ w, P w → Q w) : r.Holds Q := by
  cases r with
  | returned w => exact h2 w h1
  | aborted w => exact h2 w h1
  | undefined w => exact h2 w h1
  | outOfFuel => exact h1

theorem Outcome.all_bind {P Q : Process → Prop} {r : Outcome} {f : Process → Outcome}
    (h1 : r.All P) (h2 : ∀ w, P w → (f w).All Q) (h3 : ∀ w, P w → Q w) :
    (r.bind f).All Q := by
  cases r with
  | returned w => exact h2 w h1
  | aborted w => exact h3 w h1
  | undefined w => exact h3 w h1
  | outOfFuel => trivial

theorem Outcome.all_mono {P Q : Process → Prop} {r : Outcome}
    (h1 : r.All P) (h2 : ∀ w, P w → Q w) : r.All Q := by
  cases r with
  | returned w => exact h2 w h1
  | aborted w => exact h2 w h1
  | undefined w => exact h2 w h1
  | outOfFuel => trivial

theorem Outcome.holds_all {P : Process → Prop} {r : Outcome} (h : r.Holds P) : r.All P := by
  cases r <;> first | exact h | trivial

theorem printDiagnostics_fields (pl : Platform) (error : List Char) (w : Process) :
    (printDiagnostics pl error w).invoked = w.invoked
    ∧ (printDiagnostics pl error w).msgHandlerGrabbed = w.msgHandlerGrabbed
    ∧ (printDiagnostics pl error w).fatalWarnings = w.fatalWarnings
    ∧ (printDiagnostics pl error w).fatalCriticals = w.fatalCriticals := by
  unfold printDiagnostics printStderr
  split_ifs <;> simp

theorem qMessagePattern_fields (pl : Platform) (w : Process) :
    (qMessagePattern pl w).2.invoked = w.invoked
    ∧ (qMessagePattern pl w).2.msgHandlerGrabbed = w.msgHandlerGrabbed
    ∧ (qMessagePattern pl w).2.fatalWarnings = w.fatalWarnings
    ∧ (qMessagePattern pl w).2.fatalCriticals = w.fatalCriticals := by
  unfold qMessagePattern
  split
  · exact printDiagnostics_fields pl _ _
  · simp
  · simp

theorem qSetMessagePattern_fields (pl : Platform) (pattern : List Char) (w : Process) :
    (qSetMessagePattern pl pattern w).Holds (fun w2 =>
      w2.invoked = w.invoked ∧ w2.msgHandlerGrabbed = w.msgHandlerGrabbed
      ∧ w2.fatalWarnings = w.fatalWarnings ∧ w2.fatalCriticals = w.fatalCriticals) := by
  have h := qMessagePattern_fields pl w
  unfold qSetMessagePattern
  cases hq : qMessagePattern pl w with
  | mk o w1 =>
    rw [hq] at h
    cases o with
    | none => exact h
    | some p =>
      dsimp only
      split_ifs
      · have h2 := printDiagnostics_fields pl (p.setPattern pattern).2
          { w1 with qMessagePattern := GlobalStatic.initialized (p.setPattern pattern).1 }
        simp only [Outcome.Holds]
        simp only at h h2
        refine ⟨?_, ?_, ?_, ?_⟩
        · rw [h2.1]; exact h.1
        · rw [h2.2.1]; exact h.2.1
        · rw [h2.2.2.1]; exact h.2.2.1
        · rw [h2.2.2.2]; exact h.2.2.2
      · exact h

theorem qDefaultMessageHandler_fields (pl : Platform) (type : QtMsgType)
    (context : QMessageLogContext) (buf : QString) (w : Process) :
    (qDefaultMessageHandler pl type context buf w).Holds (fun w2 =>
      w2.invoked = w.invoked ∧ w2.msgHandlerGrabbed = w.msgHandlerGrabbed
      ∧ w2.fatalWarnings = w.fatalWarnings ∧ w2.fatalCriticals = w.fatalCriticals) := by
  have h := qMessagePattern_fields pl w
  unfold qDefaultMessageHandler
  cases hq : qMessagePattern pl w with
  | mk o w1 =>
    rw [hq] at h
    dsimp only
    cases hf : qFormatLogMessage pl.renderEnv o type context buf with
    | ok m =>
      cases m with
      | none => exact h
      | some logMessage =>
        dsimp only
        have hc : (qt_logging_to_console pl w1).2.invoked = w1.invoked
            ∧ (qt_logging_to_console pl w1).2.msgHandlerGrabbed = w1.msgHandlerGrabbed
            ∧ (qt_logging_to_console pl w1).2.fatalWarnings = w1.fatalWarnings
            ∧ (qt_logging_to_console pl w1).2.fatalCriticals = w1.fatalCriticals := by
          unfold qt_logging_to_console
          split <;> simp
        simp only at h
        split_ifs
        · simp only [Outcome.Holds, systemd_default_message_handler]
          exact ⟨hc.1.trans h.1, hc.2.1.trans h.2.1, hc.2.2.1.trans h.2.2.1,
            hc.2.2.2.trans h.2.2.2⟩
        · simp only [Outcome.Holds]
          exact ⟨hc.1.trans h.1, hc.2.1.trans h.2.1, hc.2.2.1.trans h.2.2.1,
            hc.2.2.2.trans h.2.2.2⟩
    | outOfRange => exact h
    | outOfFuel => exact absurd hf (qFormatLogMessage_ne_outOfFuel _ _ _ _ _)

theorem isFatal_fields (pl : Platform) (msgType : QtMsgType) (w : Process) :
    (isFatal pl msgType w).2.invoked = w.invoked
    ∧ (isFatal pl msgType w).2.msgHandlerGrabbed = w.msgHandlerGrabbed
    ∧ (isFatal pl msgType w).2.stderr = w.stderr
    ∧ warningsFatal pl (isFatal pl msgType w).2 = warningsFatal pl w
    ∧ criticalsFatal pl (isFatal pl msgType w).2 = criticalsFatal pl w := by
  unfold isFatal
  split_ifs
  · simp
  · cases hc : w.fatalCriticals <;> simp [warningsFatal, criticalsFatal, hc]
  · cases hc : w.fatalWarnings <;> simp [warningsFatal, criticalsFatal, hc]
  · simp

theorem isFatal_warning (pl : Platform) (w : Process) :
    (isFatal pl QtWarningMsg w).1 = warningsFatal pl w := by
  cases hc : w.fatalWarnings <;> simp [isFatal, warningsFatal, hc]

theorem qt_message_print_grabbed (pl : Platform) (fuel : Nat) (msgType : QtMsgType)
    (context : QMessageLogContext) (message : QString) (w : Process)
    (hGrabbed : w.msgHandlerGrabbed = true) :
    qt_message_print pl (fuel + 1) msgType context message w
      = .returned
          (if droppedByCategory pl msgType context then w
           else { w with stderr := w.stderr ++ cstr (pl.toLocal8Bit message.text) ++ ['\n'] }) := by
  unfold qt_message_print
  split_ifs with h
  · rfl
  · simp [grabMessageHandler, hGrabbed]

theorem outputWith_grabbed (pl : Platform) (fuel : Nat) (msgType : QtMsgType)
    (context : QMessageLogContext) (message : QString) (w : Process)
    (hGrabbed : w.msgHandlerGrabbed = true) :
    (outputWith pl (qt_message_print pl (fuel + 1)) msgType context message w).Holds
      (fun w2 => w2.invoked = w.invoked ∧ w2.msgHandlerGrabbed = true) := by
  unfold outputWith
  rw [qt_message_print_grabbed pl fuel msgType context message w hGrabbed]
  have hw : ∀ w1 : Process, w1.invoked = w.invoked → w1.msgHandlerGrabbed = true →
      ((Outcome.returned w1).bind fun w1 =>
        match isFatal pl msgType w1 with
        | (fatal, w2) =>
          if fatal = true then qt_message_fatal msgType context message w2
          else Outcome.returned w2).Holds
        (fun w2 => w2.invoked = w.invoked ∧ w2.msgHandlerGrabbed = true) := by
    intro w1 h1 h2
    have hf := isFatal_fields pl msgType w1
    simp only [Outcome.bind]
    cases hi : isFatal pl msgType w1 with
    | mk fatal w2 =>
      rw [hi] at hf
      dsimp only
      split_ifs
      · exact ⟨hf.1.trans h1, hf.2.1.trans h2⟩
      · exact ⟨hf.1.trans h1, hf.2.1.trans h2⟩
  apply hw
  · split_ifs <;> rfl
  · split_ifs
    · exact hGrabbed
    · exact hGrabbed

theorem runActions_grabbed (pl : Platform) (fuel : Nat) (acts : List Action) :
    ∀ w : Process, w.msgHandlerGrabbed = true →
      (runActions pl (outputWith pl (qt_message_print pl (fuel + 1))) acts w).Holds
        (fun w2 => w2.invoked = w.invoked ∧ w2.msgHandlerGrabbed = true) := by
  induction acts with
  | nil => intro w h; exact ⟨rfl, h⟩
  | cons a rest ih =>
    intro w h
    cases a with
    | log msgType context message =>
      simp only [runActions]
      refine Outcome.holds_bind (outputWith_grabbed pl fuel msgType context message w h) ?_ ?_
      · intro w1 h1
        exact Outcome.holds_mono (ih w1 h1.2) (fun w2 h2 => ⟨h2.1.trans h1.1, h2.2⟩)
      · intro w1 h1; exact h1
    | installMessageHandler g =>
      simp only [runActions]
      exact ih _ h
    | installMsgHandler g =>
      simp only [runActions]
      exact ih _ h
    | setMessagePattern pattern =>
      simp only [runActions]
      refine Outcome.holds_bind (qSetMessagePattern_fields pl pattern w) ?_ ?_
      · intro w1 h1
        exact Outcome.holds_mono (ih w1 (h1.2.1.trans h))
          (fun w2 h2 => ⟨h2.1.trans h1.1, h2.2⟩)
      · intro w1 h1; exact ⟨h1.1, h1.2.1.trans h⟩

theorem qt_message_print_dispatch (pl : Platform) (fuel : Nat) (msgType : QtMsgType)
    (context : QMessageLogContext) (message : QString) (w : Process)
    (hGate : droppedByCategory pl msgType context = false)
    (hGuard : w.msgHandlerGrabbed = false) :
    (qt_message_print pl (fuel + 2) msgType context message w).Holds (fun w2 =>
      w2.invoked = w.invoked ++ [expectedInvocation pl w msgType context message]) := by
  unfold qt_message_print
  simp only [hGate, Bool.false_eq_true, if_false, grabMessageHandler, hGuard]
  by_cases hc : w.msgHandler = MsgHandlerPtr.qDefaultMsgHandler
      ∨ w.messageHandler ≠ MessageHandlerPtr.qDefaultMessageHandler
  · rw [if_pos hc]
    have he : expectedInvocation pl w msgType context message
        = Invocation.messageHandler w.messageHandler msgType context message := by
      unfold expectedInvocation
      rw [if_neg]
      intro hn
      rcases hc with h | h
      · exact hn.1 h
      · exact h hn.2
    rw [he]
    refine Outcome.holds_bind (P := fun w2 => w2.invoked = w.invoked
      ++ [Invocation.messageHandler w.messageHandler msgType context message]) ?_ ?_ ?_
    · unfold callMessageHandler
      dsimp only
      split
      · exact Outcome.holds_mono (qDefaultMessageHandler_fields pl msgType context message _)
          (fun w2 h2 => h2.1)
      · exact Outcome.holds_mono (runActions_grabbed pl fuel _ _ rfl) (fun w2 h2 => h2.1)
    · intro w2 h2; exact h2
    · intro w2 h2; exact h2
  · rw [if_neg hc]
    have he : expectedInvocation pl w msgType context message
        = Invocation.msgHandler w.msgHandler msgType (cstr (pl.toLocal8Bit message.text)) := by
      unfold expectedInvocation
      rw [if_pos]
      constructor
      · intro h; exact hc (Or.inl h)
      · by_contra h; exact hc (Or.inr h)
    rw [he]
    refine Outcome.holds_bind (P := fun w2 => w2.invoked = w.invoked
      ++ [Invocation.msgHandler w.msgHandler msgType (cstr (pl.toLocal8Bit message.text))]) ?_ ?_ ?_
    · unfold callMsgHandler
      dsimp only
      split
      · exact Outcome.holds_mono (qDefaultMessageHandler_fields pl msgType _ _ _)
          (fun w2 h2 => h2.1)
      · exact Outcome.holds_mono (runActions_grabbed pl fuel _ _ rfl) (fun w2 h2 => h2.1)
    · intro w2 h2; exact h2
    · intro w2 h2; exact h2

theorem qt_message_print_ne_outOfFuel (pl : Platform) (fuel : Nat) (msgType : QtMsgType)
    (context : QMessageLogContext) (message : QString) (w : Process) :
    qt_message_print pl (fuel + 2) msgType context message w ≠ .outOfFuel := by
  by_cases hg : w.msgHandlerGrabbed = true
  · rw [qt_message_print_grabbed pl (fuel + 1) msgType context message w hg]
    simp
  · by_cases hd : droppedByCategory pl msgType context = true
    · unfold qt_message_print
      simp [hd]
    · have h := qt_message_print_dispatch pl fuel msgType context message w
        (by simpa using hd) (by simpa using hg)
      intro e
      rw [e] at h
      exact h

/-- Both fatal-promotion toggles of the second state are those of the first. -/
theorem toggles_of_fields (pl : Platform) (w w2 : Process)
    (h1 : w2.fatalWarnings = w.fatalWarnings) (h2 : w2.fatalCriticals = w.fatalCriticals) :
    warningsFatal pl w2 = warningsFatal pl w ∧ criticalsFatal pl w2 = criticalsFatal pl w := by
  simp [warningsFatal, criticalsFatal, h1, h2]

theorem outputWith_toggles (pl : Platform)
    (print : QtMsgType → QMessageLogContext → QString → Process → Outcome)
    (hPrint : ∀ t c m w, (print t c m w).All (fun w2 =>
      warningsFatal pl w2 = warningsFatal pl w ∧ criticalsFatal pl w2 = criticalsFatal pl w))
    (msgType : QtMsgType) (context : QMessageLogContext) (message : QString) (w : Process) :
    (outputWith pl print msgType context message w).All (fun w2 =>
      warningsFatal pl w2 = warningsFatal pl w ∧ criticalsFatal pl w2 = criticalsFatal pl w) := by
  unfold outputWith
  refine Outcome.all_bind (hPrint msgType context message w) ?_ (fun _ h => h)
  intro w1 h1
  have hf := isFatal_fields pl msgType w1
  cases hi : isFatal pl msgType w1 with
  | mk fatal w2 =>
    rw [hi] at hf
    dsimp only
    split_ifs
    · exact ⟨hf.2.2.2.1.trans h1.1, hf.2.2.2.2.trans h1.2⟩
    · exact ⟨hf.2.2.2.1.trans h1.1, hf.2.2.2.2.trans h1.2⟩

theorem runActions_toggles (pl : Platform)
    (log : QtMsgType → QMessageLogContext → QString → Process → Outcome)
    (hLog : ∀ t c m w, (log t c m w).All (fun w2 =>
      warningsFatal pl w2 = warningsFatal pl w ∧ criticalsFatal pl w2 = criticalsFatal pl w))
    (acts : List Action) :
    ∀ w : Process, (runActions pl log acts w).All (fun w2 =>
      warningsFatal pl w2 = warningsFatal pl w ∧ criticalsFatal pl w2 = criticalsFatal pl w) := by
  induction acts with
  | nil => intro w; exact ⟨rfl, rfl⟩
  | cons a rest ih =>
    intro w
    cases a with
    | log msgType context message =>
      simp only [runActions]
      refine Outcome.all_bind (hLog msgType context message w) ?_ (fun _ h => h)
      intro w1 h1
      exact Outcome.all_mono (ih w1) (fun w2 h2 => ⟨h2.1.trans h1.1, h2.2.trans h1.2⟩)
    | installMessageHandler g =>
      simp only [runActions]
      exact ih _
    | installMsgHandler g =>
      simp only [runActions]
      exact ih _
    | setMessagePattern pattern =>
      simp only [runActions]
      have hs := Outcome.holds_all (qSetMessagePattern_fields pl pattern w)
      refine Outcome.all_bind (Outcome.all_mono hs
        (fun w1 h1 => toggles_of_fields pl w w1 h1.2.2.1 h1.2.2.2)) ?_ (fun _ h => h)
      intro w1 h1
      exact Outcome.all_mono (ih w1) (fun w2 h2 => ⟨h2.1.trans h1.1, h2.2.trans h1.2⟩)

theorem qt_message_print_toggles (pl : Platform) :
    ∀ (fuel : Nat) (msgType : QtMsgType) (context : QMessageLogContext) (message : QString)
      (w : Process),
      (qt_message_print pl fuel msgType context message w).All (fun w2 =>
        warningsFatal pl w2 = warningsFatal pl w ∧ criticalsFatal pl w2 = criticalsFatal pl w) := by
  intro fuel
  induction fuel with
  | zero => intro _ _ _ _; trivial
  | succ n ih =>
    intro msgType context message w
    have hLog := outputWith_toggles pl (qt_message_print pl n) ih
    unfold qt_message_print
    split_ifs with hd
    · exact ⟨rfl, rfl⟩
    · unfold grabMessageHandler
      by_cases hg : w.msgHandlerGrabbed = true
      · simp only [hg, if_true]
        exact ⟨rfl, rfl⟩
      · simp only [hg]
        refine Outcome.all_bind (P := fun w2 => warningsFatal pl w2 = warningsFatal pl w
          ∧ criticalsFatal pl w2 = criticalsFatal pl w) ?_ ?_ ?_
        · split_ifs
          · unfold callMessageHandler
            dsimp only
            split
            · exact Outcome.all_mono (Outcome.holds_all (qDefaultMessageHandler_fields pl msgType context message _))
                (fun w2 h2 => toggles_of_fields pl w w2 h2.2.2.1 h2.2.2.2)
            · exact runActions_toggles pl _ hLog _ _
          · unfold callMsgHandler
            dsimp only
            split
            · exact Outcome.all_mono (Outcome.holds_all (qDefaultMessageHandler_fields pl msgType _ _ _))
                (fun w2 h2 => toggles_of_fields pl w w2 h2.2.2.1 h2.2.2.2)
            · exact runActions_toggles pl _ hLog _ _
        · intro w2 h2; exact h2
        · intro w2 h2; exact h2

/-! ## C1 -/

/-- C1: against the pattern compiled from
`%{if-warning}W%{endif}%{if-critical}C%{endif}%{message}` a Warning event with message m
renders as "W" followed by m, a Critical event as "C" followed by m, and a Debug event as
m. In general, when the tokens of a pattern are `pre`, the if-token of a level, `body`,
endif and `post`, where the loop is not skipping after `pre` and `body` holds no if-*
or endif token, the render is the render of `pre`, then that of `body` exactly when the
type of the event is that level, then that of `post` (read without skipping for every
type). -/
theorem C1_conditional_regions (env : RenderEnv) (p0 : QMessagePattern)
    (context : QMessageLogContext) (m : QString)
    (p : QMessagePattern) (type level : QtMsgType) (str : QString)
    (pre body post : List Token)
    (hTokens : p.tokens = pre ++ levelToken level :: (body ++ Token.endifTokenC :: post))
    (hPre : skipEnd type context pre false = false)
    (hBody : ∀ t ∈ body, t.isConditional = false) :
    (qFormatLogMessage env
        (some (p0.setPattern "%{if-warning}W%{endif}%{if-critical}C%{endif}%{message}".toList).1)
        QtWarningMsg context m = .ok (some ('W' :: m.text))
      ∧ qFormatLogMessage env
        (some (p0.setPattern "%{if-warning}W%{endif}%{if-critical}C%{endif}%{message}".toList).1)
        QtCriticalMsg context m = .ok (some ('C' :: m.text))
      ∧ qFormatLogMessage env
        (some (p0.setPattern "%{if-warning}W%{endif}%{if-critical}C%{endif}%{message}".toList).1)
        QtDebugMsg context m = .ok m)
    ∧ qFormatLogMessage env (some p) type context str
        = ((renderLoop env p type context str pre false none).bind fun m1 =>
            (if type = level then renderLoop env p type context str body false m1
             else .ok m1).bind fun m2 =>
              renderLoop env p type context str post false m2) := by
  have hTok : (p0.setPattern "%{if-warning}W%{endif}%{if-critical}C%{endif}%{message}".toList).1.tokens
      = [Token.ifWarningTokenC, Token.literal ['W'], Token.endifTokenC,
         Token.ifCriticalTokenC, Token.literal ['C'], Token.endifTokenC,
         Token.messageTokenC] := rfl
  refine ⟨⟨?_, ?_, ?_⟩, ?_⟩
  · rw [qFormatLogMessage_some, hTok]
    cases m <;>
      simp [renderLoop, conditional, appended, QLatin1String, QString.append, QString.text]
  · rw [qFormatLogMessage_some, hTok]
    cases m <;>
      simp [renderLoop, conditional, appended, QLatin1String, QString.append, QString.text]
  · rw [qFormatLogMessage_some, hTok]
    cases m <;>
      simp [renderLoop, conditional, appended, QLatin1String, QString.append, QString.text]
  · simp only [qFormatLogMessage, hTokens]
    rw [renderLoop_append, hPre]
    congr 1
    funext m1
    rw [renderLoop_levelToken, renderLoop_append, skipEnd_plain type context body hBody]
    by_cases hl : type = level
    · simp [hl, renderLoop]
    · simp [hl, renderLoop, renderLoop_skipped env p type context str body hBody]

/-- C1 at a concrete pattern: the tokens of `a%{if-fatal}b%{endif}c`, rendered for a
Warning event. -/
theorem C1_conditional_regions_witness :
    (QMessagePattern.initial.setPattern "a%{if-fatal}b%{endif}c".toList).1.tokens
        = [Token.literal ['a']] ++ levelToken QtFatalMsg ::
            ([Token.literal ['b']] ++ Token.endifTokenC :: [Token.literal ['c']])
    ∧ qFormatLogMessage sampleEnv
        (some (QMessagePattern.initial.setPattern "a%{if-fatal}b%{endif}c".toList).1)
        QtWarningMsg sampleContext (some ['x'])
        = ((renderLoop sampleEnv (QMessagePattern.initial.setPattern "a%{if-fatal}b%{endif}c".toList).1
              QtWarningMsg sampleContext (some ['x']) [Token.literal ['a']] false none).bind fun m1 =>
            (if QtWarningMsg = QtFatalMsg then
                renderLoop sampleEnv (QMessagePattern.initial.setPattern "a%{if-fatal}b%{endif}c".toList).1
                  QtWarningMsg sampleContext (some ['x']) [Token.literal ['b']] false m1
             else .ok m1).bind fun m2 =>
              renderLoop sampleEnv (QMessagePattern.initial.setPattern "a%{if-fatal}b%{endif}c".toList).1
                QtWarningMsg sampleContext (some ['x']) [Token.literal ['c']] false m2) :=
  ⟨by rfl,
   (C1_conditional_regions sampleEnv QMessagePattern.initial sampleContext (some ['x'])
      (QMessagePattern.initial.setPattern "a%{if-fatal}b%{endif}c".toList).1
      QtWarningMsg QtFatalMsg (some ['x']) [Token.literal ['a']] [Token.literal ['b']]
      [Token.literal ['c']] (by rfl) (by rfl) (by decide)).2⟩

/-! ## C2 -/

/-- C2: for every message m and every category, the render of the default pattern
`%{if-category}%{category}: %{endif}%{message}` is m when the category is absent or is
"default", and the category, a colon, a blank and m otherwise; with the message "hello"
an absent category gives "hello" and the category "net" gives "net: hello". -/
theorem C2_default_pattern_category (env : RenderEnv) (p0 : QMessagePattern)
    (type : QtMsgType) (context : QMessageLogContext) (m : QString) :
    qFormatLogMessage env (some (p0.setPattern defaultPattern).1) type context m
        = .ok (match context.category with
               | none => m
               | some c =>
                 if c = "default".toList then m else some (c ++ ": ".toList ++ m.text))
    ∧ qFormatLogMessage env (some (p0.setPattern defaultPattern).1) type
        { context with category := none } (some "hello".toList) = .ok (some "hello".toList)
    ∧ qFormatLogMessage env (some (p0.setPattern defaultPattern).1) type
        { context with category := some "net".toList } (some "hello".toList)
        = .ok (some "net: hello".toList) := by
  have hTok : (p0.setPattern defaultPattern).1.tokens
      = [Token.ifCategoryTokenC, Token.categoryTokenC, Token.literal [':', ' '],
         Token.endifTokenC, Token.messageTokenC] := rfl
  have hGen : ∀ (ctx : QMessageLogContext) (msg : QString),
      qFormatLogMessage env (some (p0.setPattern defaultPattern).1) type ctx msg
        = .ok (match ctx.category with
               | none => msg
               | some c =>
                 if c = "default".toList then msg else some (c ++ ": ".toList ++ msg.text)) := by
    intro ctx msg
    rw [qFormatLogMessage_some, hTok]
    have hdef : "default".toList = ['d', 'e', 'f', 'a', 'u', 'l', 't'] := rfl
    cases hc : ctx.category with
    | none => simp [renderLoop, conditional, appended, hc]
    | some c =>
      by_cases hd : c = ['d', 'e', 'f', 'a', 'u', 'l', 't']
      · simp [renderLoop, conditional, appended, hc, hd]
      · cases msg <;>
          simp [renderLoop, conditional, appended, hc, hd, QLatin1String, QString.append,
            QString.text]
  refine ⟨hGen context m, ?_, ?_⟩
  · rw [hGen]
  · rw [hGen]
    simp [QString.text]

/-! ## C3 -/

theorem tokenizeStep_tokens (st : TokState) (lexeme : List Char) :
    (tokenizeStep st lexeme).tokens = st.tokens ++ [lexemeToken lexeme] := by
  unfold tokenizeStep lexemeToken
  by_cases h0 : startsWith lexeme "%\x7b".toList ∧ endsWith lexeme '}'
  swap
  · rw [if_neg h0, if_neg h0]
  rw [if_pos h0, if_pos h0]
  by_cases h1 : lexeme = Token.typeTokenC.chars
  · rw [if_pos h1, if_pos h1]
  rw [if_neg h1, if_neg h1]
  by_cases h2 : lexeme = Token.categoryTokenC.chars
  · rw [if_pos h2, if_pos h2]
  rw [if_neg h2, if_neg h2]
  by_cases h3 : lexeme = Token.messageTokenC.chars
  · rw [if_pos h3, if_pos h3]
  rw [if_neg h3, if_neg h3]
  by_cases h4 : lexeme = Token.fileTokenC.chars
  · rw [if_pos h4, if_pos h4]
  rw [if_neg h4, if_neg h4]
  by_cases h5 : lexeme = Token.lineTokenC.chars
  · rw [if_pos h5, if_pos h5]
  rw [if_neg h5, if_neg h5]
  by_cases h6 : lexeme = Token.functionTokenC.chars
  · rw [if_pos h6, if_pos h6]
  rw [if_neg h6, if_neg h6]
  by_cases h7 : lexeme = Token.pidTokenC.chars
  · rw [if_pos h7, if_pos h7]
  rw [if_neg h7, if_neg h7]
  by_cases h8 : lexeme = Token.appnameTokenC.chars
  · rw [if_pos h8, if_pos h8]
  rw [if_neg h8, if_neg h8]
  by_cases h9 : lexeme = Token.threadidTokenC.chars
  · rw [if_pos h9, if_pos h9]
  rw [if_neg h9, if_neg h9]
  by_cases h10 : startsWith lexeme Token.timeTokenC.chars
  · rw [if_pos h10, if_pos h10]
  rw [if_neg h10, if_neg h10]
  by_cases h11 : startsWith lexeme Token.backtraceTokenC.chars
  · rw [if_pos h11, if_pos h11]
    dsimp only
    split <;> split <;> (try split_ifs) <;> rfl
  rw [if_neg h11, if_neg h11]
  by_cases h12 : lexeme = Token.ifCategoryTokenC.chars
  · rw [if_pos h12, if_pos h12]; rfl
  rw [if_neg h12, if_neg h12]
  by_cases h13 : lexeme = Token.ifDebugTokenC.chars
  · rw [if_pos h13, if_pos h13]; rfl
  rw [if_neg h13, if_neg h13]
  by_cases h14 : lexeme = Token.ifWarningTokenC.chars
  · rw [if_pos h14, if_pos h14]; rfl
  rw [if_neg h14, if_neg h14]
  by_cases h15 : lexeme = Token.ifCriticalTokenC.chars
  · rw [if_pos h15, if_pos h15]; rfl
  rw [if_neg h15, if_neg h15]
  by_cases h16 : lexeme = Token.ifFatalTokenC.chars
  · rw [if_pos h16, if_pos h16]; rfl
  rw [if_neg h16, if_neg h16]
  by_cases h17 : lexeme = Token.endifTokenC.chars
  · rw [if_pos h17, if_pos h17]
  rw [if_neg h17, if_neg h17]

theorem tokenize_tokens (lexemes : List (List Char)) :
    ∀ st : TokState, (tokenize st lexemes).tokens = st.tokens ++ lexemes.map lexemeToken := by
  induction lexemes with
  | nil => intro st; simp [tokenize]
  | cons l rest ih =>
    intro st
    have h := ih (tokenizeStep st l)
    simp only [tokenize, List.foldl_cons] at h ⊢
    rw [h, tokenizeStep_tokens]
    simp

theorem setPattern_tokens (p0 : QMessagePattern) (pattern : List Char) :
    (p0.setPattern pattern).1.tokens = (scan pattern).map lexemeToken := by
  simp [QMessagePattern.setPattern, tokenize_tokens, TokState.start]

theorem cstr_toLatin1_of_latin1 (l : List Char)
    (h : ∀ c ∈ l, 0 < c.toNat ∧ c.toNat ≤ 255) : cstr (toLatin1 l) = l := by
  induction l with
  | nil => rfl
  | cons c rest ih =>
    have hc := h c (List.mem_cons_self _ _)
    have hr : ∀ c ∈ rest, 0 < c.toNat ∧ c.toNat ≤ 255 := fun x hx => h x (List.mem_cons_of_mem _ hx)
    have ih2 := ih hr
    have hle : ¬ (c.toNat > 255) := by omega
    have hne : c ≠ Char.ofNat 0 := by
      intro e
      rw [e] at hc
      simp at hc
    simp only [cstr, toLatin1, List.map_cons] at ih2 ⊢
    simp [hle, hne, ih2]

/-- C4: a dispatch in qt_message_print that passes the category gate and the recursion
guard adds exactly one handler call to the calls made so far: the call of the legacy
handler when the legacy slot holds a non-default handler and the context-aware slot the
default one, the call of the context-aware handler in every other case. So after
qInstallMsgHandler of an application handler alone the dispatch calls that handler, and
after qInstallMessageHandler of an application handler in addition the dispatch calls
the context-aware one, the legacy slot still holding the legacy handler. -/
theorem C4_dispatch_invokes_one_handler (pl : Platform) (fuel : Nat) (msgType : QtMsgType)
    (context : QMessageLogContext) (message : QString) (w : Process) (k j : Nat)
    (hFuel : 2 ≤ fuel)
    (hGate : droppedByCategory pl msgType context = false)
    (hGuard : w.msgHandlerGrabbed = false) :
    (qt_message_print pl fuel msgType context message w).Holds (fun w2 =>
        w2.invoked = w.invoked ++
          [if w.msgHandler ≠ MsgHandlerPtr.qDefaultMsgHandler
              ∧ w.messageHandler = MessageHandlerPtr.qDefaultMessageHandler then
             Invocation.msgHandler w.msgHandler msgType (cstr (pl.toLocal8Bit message.text))
           else Invocation.messageHandler w.messageHandler msgType context message])
    ∧ (w.messageHandler = MessageHandlerPtr.qDefaultMessageHandler →
        (qt_message_print pl fuel msgType context message
            (qInstallMsgHandler (some (MsgHandlerPtr.custom k)) w).2).Holds (fun w2 =>
          w2.invoked = w.invoked ++
            [Invocation.msgHandler (MsgHandlerPtr.custom k) msgType
              (cstr (pl.toLocal8Bit message.text))]))
    ∧ (qt_message_print pl fuel msgType context message
          (qInstallMessageHandler (some (MessageHandlerPtr.custom j))
            (qInstallMsgHandler (some (MsgHandlerPtr.custom k)) w).2).2).Holds (fun w2 =>
        w2.invoked = w.invoked ++
          [Invocation.messageHandler (MessageHandlerPtr.custom j) msgType context message])
    ∧ (qInstallMessageHandler (some (MessageHandlerPtr.custom j))
          (qInstallMsgHandler (some (MsgHandlerPtr.custom k)) w).2).2.msgHandler
        = MsgHandlerPtr.custom k := by
  obtain ⟨n, rfl⟩ : ∃ n, fuel = n + 2 := ⟨fuel - 2, by omega⟩
  refine ⟨?_, ?_, ?_, rfl⟩
  · exact qt_message_print_dispatch pl n msgType context message w hGate hGuard
  · intro hDefault
    have h := qt_message_print_dispatch pl n msgType context message
      (qInstallMsgHandler (some (MsgHandlerPtr.custom k)) w).2 hGate hGuard
    refine Outcome.holds_mono h ?_
    intro w2 h2
    rw [h2]
    simp [expectedInvocation, qInstallMsgHandler, hDefault]
  · have h := qt_message_print_dispatch pl n msgType context message
      (qInstallMessageHandler (some (MessageHandlerPtr.custom j))
        (qInstallMsgHandler (some (MsgHandlerPtr.custom k)) w).2).2 hGate hGuard
    refine Outcome.holds_mono h ?_
    intro w2 h2
    rw [h2]
    simp [expectedInvocation, qInstallMsgHandler, qInstallMessageHandler]

/-- C4 at a concrete dispatch: a legacy handler is installed in a fresh process of the
sample platform and a warning is dispatched. -/
theorem C4_dispatch_invokes_one_handler_witness :
    droppedByCategory samplePlatform QtWarningMsg sampleContext = false
    ∧ (qInstallMsgHandler (some (MsgHandlerPtr.custom 1)) Process.start).2.msgHandlerGrabbed = false
    ∧ (qt_message_print samplePlatform 2 QtWarningMsg sampleContext (some "x".toList)
          (qInstallMsgHandler (some (MsgHandlerPtr.custom 1)) Process.start).2).Holds (fun w2 =>
        w2.invoked = (qInstallMsgHandler (some (MsgHandlerPtr.custom 1)) Process.start).2.invoked ++
          [if (qInstallMsgHandler (some (MsgHandlerPtr.custom 1)) Process.start).2.msgHandler
                ≠ MsgHandlerPtr.qDefaultMsgHandler
              ∧ (qInstallMsgHandler (some (MsgHandlerPtr.custom 1)) Process.start).2.messageHandler
                = MessageHandlerPtr.qDefaultMessageHandler then
             Invocation.msgHandler
               (qInstallMsgHandler (some (MsgHandlerPtr.custom 1)) Process.start).2.msgHandler
               QtWarningMsg (cstr (samplePlatform.toLocal8Bit (QString.text (some "x".toList))))
           else Invocation.messageHandler
               (qInstallMsgHandler (some (MsgHandlerPtr.custom 1)) Process.start).2.messageHandler
               QtWarningMsg sampleContext (some "x".toList)]) :=
  ⟨by decide, rfl,
   (C4_dispatch_invokes_one_handler samplePlatform 2 QtWarningMsg sampleContext
      (some "x".toList) (qInstallMsgHandler (some (MsgHandlerPtr.custom 1)) Process.start).2
      0 0 (by decide) (by decide) rfl).1⟩

/-! ## C5 -/

/-- C5: qInstallMessageHandler and qInstallMsgHandler return the handler their slot held
before the call, leave in that slot the argument (the built-in default handler for a
null argument), change nothing else, and installing the returned handler again gives
back the state before the call. -/
theorem C5_install_returns_previous (h : Option MessageHandlerPtr) (g : Option MsgHandlerPtr)
    (w : Process) :
    ((qInstallMessageHandler h w).1 = w.messageHandler
      ∧ (qInstallMessageHandler h w).2
          = { w with messageHandler := h.getD MessageHandlerPtr.qDefaultMessageHandler }
      ∧ (qInstallMessageHandler h w).2.msgHandler = w.msgHandler
      ∧ (qInstallMessageHandler (some (qInstallMessageHandler h w).1)
            (qInstallMessageHandler h w).2).2 = w)
    ∧ ((qInstallMsgHandler g w).1 = w.msgHandler
      ∧ (qInstallMsgHandler g w).2
          = { w with msgHandler := g.getD MsgHandlerPtr.qDefaultMsgHandler }
      ∧ (qInstallMsgHandler g w).2.messageHandler = w.messageHandler
      ∧ (qInstallMsgHandler (some (qInstallMsgHandler g w).1) (qInstallMsgHandler g w).2).2 = w) := by
  refine ⟨⟨rfl, ?_, rfl, rfl⟩, ⟨rfl, ?_, rfl, rfl⟩⟩
  · cases h <;> rfl
  · cases g <;> rfl

/-! ## C6 -/

/-- C6: qt_message_output with level Fatal ends in qt_message_fatal (abort) whenever
qt_message_print returns, in the state that qt_message_print returned, for every
handler configuration, and it never returns; with level Warning it ends in qt_message_fatal when
qt_message_print returns if and only if the warnings-as-fatal toggle is active, the toggle
being whether QT_FATAL_WARNINGS is non-empty in a process that has not yet read it. With
a budget of two nested calls neither call runs out of budget. -/
theorem C6_fatal_escalation (pl : Platform) (fuel : Nat) (context : QMessageLogContext)
    (message : QString) (w : Process) :
    qt_message_output pl fuel QtFatalMsg context message w
        = (qt_message_print pl fuel QtFatalMsg context message w).bind
            (fun w1 => Outcome.aborted w1)
    ∧ qt_message_output pl fuel QtWarningMsg context message w
        = (qt_message_print pl fuel QtWarningMsg context message w).bind
            (fun w1 =>
              if warningsFatal pl w then Outcome.aborted (isFatal pl QtWarningMsg w1).2
              else Outcome.returned (isFatal pl QtWarningMsg w1).2)
    ∧ (∀ w2 : Process,
        qt_message_output pl fuel QtFatalMsg context message w ≠ Outcome.returned w2)
    ∧ (w.fatalWarnings = none →
        warningsFatal pl w = !qEnvironmentVariableIsEmpty pl.QT_FATAL_WARNINGS)
    ∧ (2 ≤ fuel →
        qt_message_output pl fuel QtFatalMsg context message w ≠ Outcome.outOfFuel
        ∧ qt_message_output pl fuel QtWarningMsg context message w ≠ Outcome.outOfFuel) := by
  have hFatal : qt_message_output pl fuel QtFatalMsg context message w
      = (qt_message_print pl fuel QtFatalMsg context message w).bind
          (fun w1 => Outcome.aborted w1) := by
    simp [qt_message_output, outputWith, isFatal, qt_message_fatal]
  refine ⟨hFatal, ?_, ?_, ?_, ?_⟩
  swap
  · intro w2
    rw [hFatal]
    cases qt_message_print pl fuel QtFatalMsg context message w <;> simp [Outcome.bind]
  · have ht := qt_message_print_toggles pl fuel QtWarningMsg context message w
    unfold qt_message_output outputWith
    cases hp : qt_message_print pl fuel QtWarningMsg context message w with
    | returned w1 =>
      rw [hp] at ht
      have h1 : (isFatal pl QtWarningMsg w1).1 = warningsFatal pl w :=
        (isFatal_warning pl w1).trans ht.1
      simp only [Outcome.bind, qt_message_fatal]
      rw [← h1]
    | aborted w1 => rfl
    | undefined w1 => rfl
    | outOfFuel => rfl
  · intro h
    simp [warningsFatal, h]
  · intro hFuel
    obtain ⟨n, rfl⟩ : ∃ n, fuel = n + 2 := ⟨fuel - 2, by omega⟩
    have key : ∀ t : QtMsgType,
        qt_message_output pl (n + 2) t context message w ≠ Outcome.outOfFuel := by
      intro t
      have hp := qt_message_print_ne_outOfFuel pl n t context message w
      unfold qt_message_output outputWith
      cases hq : qt_message_print pl (n + 2) t context message w with
      | returned w1 =>
        simp only [Outcome.bind, qt_message_fatal]
        cases isFatal pl t w1 with
        | mk fatal w2 => cases fatal <;> simp
      | aborted w1 => simp [Outcome.bind]
      | undefined w1 => simp [Outcome.bind]
      | outOfFuel => exact absurd hq hp
    exact ⟨key _, key _⟩

/-- C6 at a concrete process: a fatal message in a fresh process of the sample platform
is printed by the default handler and the process aborts. -/
theorem C6_fatal_escalation_witness :
    Process.start.fatalWarnings = none
    ∧ warningsFatal samplePlatform Process.start
        = !qEnvironmentVariableIsEmpty samplePlatform.QT_FATAL_WARNINGS
    ∧ (2 ≤ 2 ∧
        qt_message_output samplePlatform 2 QtFatalMsg QMessageLogContext.empty
          (some "x".toList) Process.start ≠ Outcome.outOfFuel)
    ∧ qt_message_output samplePlatform 2 QtFatalMsg QMessageLogContext.empty
        (some "x".toList) Process.start
      = Outcome.aborted
          { Process.start with
            logToConsole := some true,
            qMessagePattern := .initialized (QMessagePattern.construct []).1,
            stderr := "x\n".toList,
            invoked := [Invocation.messageHandler MessageHandlerPtr.qDefaultMessageHandler
                          QtFatalMsg QMessageLogContext.empty (some "x".toList)] } :=
  ⟨rfl,
   (C6_fatal_escalation samplePlatform 2 QMessageLogContext.empty (some "x".toList)
      Process.start).2.2.2.1 rfl,
   ⟨by decide,
    ((C6_fatal_escalation samplePlatform 2 QMessageLogContext.empty (some "x".toList)
      Process.start).2.2.2.2 (by decide)).1⟩,
   by decide⟩

/-! ## C7 -/

/-- C7: a qt_message_print call made while the flag msgHandlerGrabbed is set (by a
handler that logs while it is being run) and passing the category gate calls no handler,
appends the message and a newline to stderr, changes nothing else and returns; the code
of a handler, run with the flag set, adds no handler call however many messages it
logs and leaves the flag set; and qt_message_print runs the code of an application
handler with the flag set. -/
theorem C7_reentrant_call_bypasses_handlers (pl : Platform) (fuel : Nat) (msgType : QtMsgType)
    (context : QMessageLogContext) (message : QString) (w : Process) (acts : List Action)
    (w0 : Process) (id : Nat)
    (hFuel : 1 ≤ fuel)
    (hGrabbed : w.msgHandlerGrabbed = true)
    (hGate : droppedByCategory pl msgType context = false)
    (hFree : w0.msgHandlerGrabbed = false)
    (hSlot : w0.messageHandler = MessageHandlerPtr.custom id) :
    qt_message_print pl fuel msgType context message w
        = .returned { w with stderr := w.stderr ++ cstr (pl.toLocal8Bit message.text) ++ ['\n'] }
    ∧ (runActions pl (outputWith pl (qt_message_print pl fuel)) acts w).Holds
        (fun w2 => w2.invoked = w.invoked ∧ w2.msgHandlerGrabbed = true)
    ∧ qt_message_print pl (fuel + 1) msgType context message w0
        = (runActions pl (outputWith pl (qt_message_print pl fuel))
            (pl.messageHandlerBody id msgType context message)
            { w0 with
              msgHandlerGrabbed := true,
              invoked := w0.invoked ++
                [Invocation.messageHandler (MessageHandlerPtr.custom id) msgType context message] }).bind
          (fun w2 => .returned (ungrabMessageHandler w2)) := by
  obtain ⟨n, rfl⟩ : ∃ n, fuel = n + 1 := ⟨fuel - 1, by omega⟩
  refine ⟨?_, runActions_grabbed pl n acts w hGrabbed, ?_⟩
  · rw [qt_message_print_grabbed pl n msgType context message w hGrabbed]
    simp [hGate]
  · rw [qt_message_print]
    simp [hGate, grabMessageHandler, hFree, hSlot, callMessageHandler]

/-- C7 at a concrete run: in the sample platform the application handler 0 logs a
warning while it runs; the dispatch of a debug message to it ends with that nested
message on stderr, one handler call and the flag cleared. -/
theorem C7_reentrant_call_bypasses_handlers_witness :
    (1 ≤ 1 ∧ ({ Process.start with msgHandlerGrabbed := true } : Process).msgHandlerGrabbed = true
      ∧ droppedByCategory samplePlatform QtWarningMsg QMessageLogContext.empty = false)
    ∧ qt_message_print samplePlatform 1 QtWarningMsg QMessageLogContext.empty
        (some "nested".toList) { Process.start with msgHandlerGrabbed := true }
      = .returned { Process.start with msgHandlerGrabbed := true, stderr := "nested\n".toList }
    ∧ qt_message_print samplePlatform 2 QtDebugMsg sampleContext (some "x".toList)
        { Process.start with messageHandler := MessageHandlerPtr.custom 0 }
      = .returned
          { Process.start with
            messageHandler := MessageHandlerPtr.custom 0,
            fatalWarnings := some false,
            stderr := "nested\n".toList,
            invoked := [Invocation.messageHandler (MessageHandlerPtr.custom 0) QtDebugMsg
                          sampleContext (some "x".toList)] } :=
  ⟨⟨by decide, rfl, by decide⟩,
   (C7_reentrant_call_bypasses_handlers samplePlatform 1 QtWarningMsg QMessageLogContext.empty
      (some "nested".toList) { Process.start with msgHandlerGrabbed := true } []
      { Process.start with messageHandler := MessageHandlerPtr.custom 0 } 0
      (by decide) rfl (by decide) rfl rfl).1,
   by decide⟩

/-! ## C8 -/

/-- C8: when `qMessagePattern()` yields the pattern object `pat`, qSetMessagePattern(p)
returns without any change of state if `pat.fromEnvironment` is true (so the pattern
object, and with it every later render, is what it was), and otherwise leaves the
pattern object that `pat.setPattern(p)` produces, after printing its diagnostics. -/
theorem C8_setMessagePattern_environment_wins (pl : Platform) (p : List Char)
    (w w1 : Process) (pat : QMessagePattern)
    (hPat : qMessagePattern pl w = (some pat, w1)) :
    (pat.fromEnvironment = true →
        qSetMessagePattern pl p w = .returned w1
        ∧ qMessagePattern pl w1 = (some pat, w1))
    ∧ (pat.fromEnvironment = false →
        qSetMessagePattern pl p w
          = .returned (printDiagnostics pl (pat.setPattern p).2
              { w1 with qMessagePattern := .initialized (pat.setPattern p).1 })
        ∧ (printDiagnostics pl (pat.setPattern p).2
              { w1 with qMessagePattern := .initialized (pat.setPattern p).1 }).qMessagePattern
            = .initialized (pat.setPattern p).1) := by
  have hw1 : w1.qMessagePattern = .initialized pat := by
    unfold qMessagePattern at hPat
    cases hq : w.qMessagePattern with
    | uninitialized =>
      rw [hq] at hPat
      simp only [Prod.mk.injEq, Option.some.injEq] at hPat
      obtain ⟨h1, h2⟩ := hPat
      rw [← h2, ← h1]
      unfold printDiagnostics printStderr
      split_ifs <;> rfl
    | initialized q =>
      rw [hq] at hPat
      simp only [Prod.mk.injEq, Option.some.injEq] at hPat
      obtain ⟨h1, h2⟩ := hPat
      rw [← h2, hq, h1]
    | destroyed =>
      rw [hq] at hPat
      simp at hPat
  refine ⟨fun hEnv => ⟨?_, ?_⟩, fun hEnv => ⟨?_, ?_⟩⟩
  · simp [qSetMessagePattern, hPat, hEnv]
  · simp [qMessagePattern, hw1]
  · simp [qSetMessagePattern, hPat, hEnv]
  · unfold printDiagnostics printStderr
    split_ifs <;> rfl

/-- C8 at a concrete state: the pattern object was compiled from the environment value
`%{message}`, and qSetMessagePattern("x") changes nothing. -/
theorem C8_setMessagePattern_environment_wins_witness :
    qMessagePattern samplePlatform
        { Process.start with
          qMessagePattern := .initialized (QMessagePattern.construct "%{message}".toList).1 }
      = (some (QMessagePattern.construct "%{message}".toList).1,
         { Process.start with
           qMessagePattern := .initialized (QMessagePattern.construct "%{message}".toList).1 })
    ∧ (QMessagePattern.construct "%{message}".toList).1.fromEnvironment = true
    ∧ qSetMessagePattern samplePlatform ['x']
        { Process.start with
          qMessagePattern := .initialized (QMessagePattern.construct "%{message}".toList).1 }
      = .returned
        { Process.start with
          qMessagePattern := .initialized (QMessagePattern.construct "%{message}".toList).1 } :=
  ⟨rfl, rfl,
   ((C8_setMessagePattern_environment_wins samplePlatform ['x']
      { Process.start with
        qMessagePattern := .initialized (QMessagePattern.construct "%{message}".toList).1 }
      { Process.start with
        qMessagePattern := .initialized (QMessagePattern.construct "%{message}".toList).1 }
      (QMessagePattern.construct "%{message}".toList).1 rfl).1 rfl).1⟩

/-! ## C9 -/

/-- C9: the constructor compiles the value of QT_MESSAGE_PATTERN and sets fromEnvironment
when that value is not empty, and compiles the default pattern
`%{if-category}%{category}: %{endif}%{message}`, leaving fromEnvironment false, when it
is empty; the first `qMessagePattern()` call of a process constructs the object in this
way from the decoded value of the variable, an unset variable and one set to the empty
string both giving the empty value. -/
theorem C9_constructor_pattern_source (envPattern : List Char) (pl : Platform) (w : Process) :
    (QMessagePattern.construct envPattern).1
        = (if envPattern.isEmpty then (QMessagePattern.initial.setPattern defaultPattern).1
           else { (QMessagePattern.initial.setPattern envPattern).1 with fromEnvironment := true })
    ∧ (QMessagePattern.initial.setPattern defaultPattern).1
        = { literals := [": ".toList],
            tokens := [Token.ifCategoryTokenC, Token.categoryTokenC, Token.literal ": ".toList,
                       Token.endifTokenC, Token.messageTokenC],
            timeFormat := [], backtraceDepth := 5, backtraceSeparator := ['|'],
            fromEnvironment := false }
    ∧ (QMessagePattern.construct envPattern).1.fromEnvironment = !envPattern.isEmpty
    ∧ defaultPattern = "%{if-category}%{category}: %{endif}%{message}".toList
    ∧ (w.qMessagePattern = .uninitialized →
        (qMessagePattern pl w).1
          = some (QMessagePattern.construct
              (pl.fromLocal8Bit (pl.QT_MESSAGE_PATTERN.getD []))).1)
    ∧ (none : Option (List Char)).getD [] = (some []).getD [] := by
  refine ⟨?_, by decide, ?_, rfl, ?_, rfl⟩
  · unfold QMessagePattern.construct
    split_ifs <;> rfl
  · unfold QMessagePattern.construct
    split_ifs with h
    · simp [h]; rfl
    · simp [h]
  · intro hw
    simp [qMessagePattern, hw]

/-- C9 at a concrete process: QT_MESSAGE_PATTERN is unset in the sample platform, and
the first access constructs the default pattern. -/
theorem C9_constructor_pattern_source_witness :
    Process.start.qMessagePattern = .uninitialized
    ∧ (qMessagePattern samplePlatform Process.start).1
        = some (QMessagePattern.construct
            (samplePlatform.fromLocal8Bit (samplePlatform.QT_MESSAGE_PATTERN.getD []))).1 :=
  ⟨rfl, (C9_constructor_pattern_source [] samplePlatform Process.start).2.2.2.2.1 rfl⟩

/-! ## C10 -/

theorem tokenizeStep_prepend (toks : List Token) (err : List Char) (st : TokState)
    (lexeme : List Char) :
    tokenizeStep (st.prepend toks err) lexeme = (tokenizeStep st lexeme).prepend toks err := by
  unfold tokenizeStep
  by_cases h0 : startsWith lexeme "%\x7b".toList ∧ endsWith lexeme '}'
  swap
  · rw [if_neg h0, if_neg h0]
    simp [TokState.prepend]
  rw [if_pos h0, if_pos h0]
  by_cases h1 : lexeme = Token.typeTokenC.chars
  · rw [if_pos h1, if_pos h1]
    simp [TokState.prepend, ifToken]
  rw [if_neg h1, if_neg h1]
  by_cases h2 : lexeme = Token.categoryTokenC.chars
  · rw [if_pos h2, if_pos h2]
    simp [TokState.prepend, ifToken]
  rw [if_neg h2, if_neg h2]
  by_cases h3 : lexeme = Token.messageTokenC.chars
  · rw [if_pos h3, if_pos h3]
    simp [TokState.prepend, ifToken]
  rw [if_neg h3, if_neg h3]
  by_cases h4 : lexeme = Token.fileTokenC.chars
  · rw [if_pos h4, if_pos h4]
    simp [TokState.prepend, ifToken]
  rw [if_neg h4, if_neg h4]
  by_cases h5 : lexeme = Token.lineTokenC.chars
  · rw [if_pos h5, if_pos h5]
    simp [TokState.prepend, ifToken]
  rw [if_neg h5, if_neg h5]
  by_cases h6 : lexeme = Token.functionTokenC.chars
  · rw [if_pos h6, if_pos h6]
    simp [TokState.prepend, ifToken]
  rw [if_neg h6, if_neg h6]
  by_cases h7 : lexeme = Token.pidTokenC.chars
  · rw [if_pos h7, if_pos h7]
    simp [TokState.prepend, ifToken]
  rw [if_neg h7, if_neg h7]
  by_cases h8 : lexeme = Token.appnameTokenC.chars
  · rw [if_pos h8, if_pos h8]
    simp [TokState.prepend, ifToken]
  rw [if_neg h8, if_neg h8]
  by_cases h9 : lexeme = Token.threadidTokenC.chars
  · rw [if_pos h9, if_pos h9]
    simp [TokState.prepend, ifToken]
  rw [if_neg h9, if_neg h9]
  by_cases h10 : startsWith lexeme Token.timeTokenC.chars
  · rw [if_pos h10, if_pos h10]
    simp [TokState.prepend, ifToken]
  rw [if_neg h10, if_neg h10]
  by_cases h11 : startsWith lexeme Token.backtraceTokenC.chars
  · rw [if_pos h11, if_pos h11]
    dsimp only
    split <;> split <;> (try split_ifs) <;> simp [TokState.prepend]
  rw [if_neg h11, if_neg h11]
  by_cases h12 : lexeme = Token.ifCategoryTokenC.chars
  · rw [if_pos h12, if_pos h12]
    simp [TokState.prepend, ifToken]
  rw [if_neg h12, if_neg h12]
  by_cases h13 : lexeme = Token.ifDebugTokenC.chars
  · rw [if_pos h13, if_pos h13]
    simp [TokState.prepend, ifToken]
  rw [if_neg h13, if_neg h13]
  by_cases h14 : lexeme = Token.ifWarningTokenC.chars
  · rw [if_pos h14, if_pos h14]
    simp [TokState.prepend, ifToken]
  rw [if_neg h14, if_neg h14]
  by_cases h15 : lexeme = Token.ifCriticalTokenC.chars
  · rw [if_pos h15, if_pos h15]
    simp [TokState.prepend, ifToken]
  rw [if_neg h15, if_neg h15]
  by_cases h16 : lexeme = Token.ifFatalTokenC.chars
  · rw [if_pos h16, if_pos h16]
    simp [TokState.prepend, ifToken]
  rw [if_neg h16, if_neg h16]
  by_cases h17 : lexeme = Token.endifTokenC.chars
  · rw [if_pos h17, if_pos h17]
    simp only [TokState.prepend]
    split_ifs <;> simp
  rw [if_neg h17, if_neg h17]
  simp [TokState.prepend]

theorem tokenize_prepend (toks : List Token) (err : List Char) (lexemes : List (List Char)) :
    ∀ st : TokState,
      tokenize (st.prepend toks err) lexemes = (tokenize st lexemes).prepend toks err := by
  induction lexemes with
  | nil => intro st; rfl
  | cons l rest ih =>
    intro st
    simp only [tokenize, List.foldl_cons] at ih ⊢
    rw [tokenizeStep_prepend, ih]

theorem tokenize_append (st : TokState) (l1 l2 : List (List Char)) :
    tokenize st (l1 ++ l2) = tokenize (tokenize st l1) l2 := by
  simp [tokenize, List.foldl_append]

theorem tokenizeStep_unknown (st : TokState) (u : List Char)
    (hU : isUnknownPlaceholder u = true) :
    tokenizeStep st u
      = { st with tokens := st.tokens ++ [Token.emptyTokenC],
                  error := st.error ++ unknownPlaceholderLine u } := by
  simp only [isUnknownPlaceholder, exactKeywords, Bool.and_eq_true, Bool.not_eq_true',
    List.contains_cons, List.contains_nil, Bool.or_false, Bool.or_eq_false_iff,
    beq_eq_false_iff_ne, ne_eq] at hU
  obtain ⟨⟨⟨⟨a1, a2⟩, k⟩, t⟩, b⟩ := hU
  obtain ⟨k1, k2, k3, k4, k5, k6, k7, k8, k9, k10, k11, k12, k13, k14, k15⟩ := k
  have e : "%\x7b".toList = ['%', '{'] := rfl
  rw [e] at a1
  unfold tokenizeStep
  simp [a1, a2, k1, k2, k3, k4, k5, k6, k7, k8, k9, k10, k11, k12, k13, k14, k15, t, b,
    unknownPlaceholderLine]

theorem lexemeToken_unknown (u : List Char) (hU : isUnknownPlaceholder u = true) :
    lexemeToken u = Token.emptyTokenC := by
  have h := tokenizeStep_tokens (TokState.start QMessagePattern.initial) u
  rw [tokenizeStep_unknown _ u hU] at h
  simpa using h.symm

theorem renderLoop_text_congr (env : RenderEnv) (p : QMessagePattern) (type : QtMsgType)
    (context : QMessageLogContext) (str : QString) (toks : List Token) :
    ∀ (skip : Bool) (m m2 : QString), m.text = m2.text →
      (renderLoop env p type context str toks skip m).text
        = (renderLoop env p type context str toks skip m2).text := by
  induction toks with
  | nil => intro skip m m2 h; simp [renderLoop, Res.text, h]
  | cons t rest ih =>
    intro skip m m2 h
    simp only [renderLoop]
    by_cases h1 : t = Token.endifTokenC
    · simp only [h1, if_true]; exact ih _ _ _ h
    · simp only [h1, if_false]
      by_cases h2 : skip = true
      · simp only [h2, if_true]; exact ih _ _ _ h
      · simp only [h2]
        cases hc : conditional type context t with
        | some u => simpa using ih _ _ _ h
        | none =>
          cases ha : appended env p type context str t with
          | ok piece =>
            simp only [Bool.false_eq_true, if_false]
            exact ih _ _ _ (by simp [h])
          | outOfRange => rfl
          | outOfFuel => rfl

theorem Res.text_bind_congr (r : Res QString) (f g : QString → Res QString)
    (h : ∀ m, (f m).text = (g m).text) : (r.bind f).text = (r.bind g).text := by
  cases r with
  | ok a => simpa using h a
  | outOfRange => rfl
  | outOfFuel => rfl

theorem renderLoop_skip_empty (env : RenderEnv) (p : QMessagePattern) (type : QtMsgType)
    (context : QMessageLogContext) (str : QString) (xs ys : List Token) (skip : Bool)
    (m : QString) :
    (renderLoop env p type context str (xs ++ Token.emptyTokenC :: ys) skip m).text
      = (renderLoop env p type context str (xs ++ ys) skip m).text := by
  rw [renderLoop_append, renderLoop_append]
  apply Res.text_bind_congr
  intro m1
  by_cases hs : skipEnd type context xs skip = true
  · simp [renderLoop, hs]
  · simp only [renderLoop, hs]
    simp only [conditional, appended, QLatin1String, Token.chars]
    exact renderLoop_text_congr env p type context str ys _ _ _
      (by cases m1 <;> simp [QString.append, QString.text])

/-- C10: when the lexemes of a pattern are `l1`, an unknown placeholder `u` and `l2`,
the compiled pattern has the no-op token for `u` between the tokens of `l1` and of `l2`,
which are the tokens the tokenizer yields for `l1 ++ l2` alone; the no-op token appends
the empty string for every event, so the text of every render is that of the token
loop over the tokens of `l1 ++ l2`; the diagnostics are those of `l1 ++ l2` with the one line
"QT_MESSAGE_PATTERN: Unknown placeholder u" added after the diagnostics of `l1`; and
the literals, time format, backtrace depth and separator are those of `l1 ++ l2`. -/
theorem C10_unknown_placeholder (p0 : QMessagePattern) (pattern : List Char)
    (l1 l2 : List (List Char)) (u : List Char)
    (hScan : scan pattern = l1 ++ u :: l2)
    (hU : isUnknownPlaceholder u = true) :
    lexemeToken u = Token.emptyTokenC
    ∧ (∀ (env : RenderEnv) (p : QMessagePattern) (type : QtMsgType)
          (context : QMessageLogContext) (str : QString),
        appended env p type context str Token.emptyTokenC = .ok (some []))
    ∧ (p0.setPattern pattern).1.tokens
        = l1.map lexemeToken ++ Token.emptyTokenC :: l2.map lexemeToken
    ∧ (tokenize (TokState.start p0) (l1 ++ l2)).tokens
        = l1.map lexemeToken ++ l2.map lexemeToken
    ∧ (∀ (env : RenderEnv) (type : QtMsgType) (context : QMessageLogContext) (str : QString),
        (qFormatLogMessage env (some (p0.setPattern pattern).1) type context str).text
          = (renderLoop env (p0.setPattern pattern).1 type context str
              (tokenize (TokState.start p0) (l1 ++ l2)).tokens false none).text)
    ∧ (∃ err2 : List Char,
        (p0.setPattern pattern).2
          = (tokenize (TokState.start p0) l1).error ++ unknownPlaceholderLine u ++ err2
        ∧ finishError (tokenize (TokState.start p0) (l1 ++ l2))
          = (tokenize (TokState.start p0) l1).error ++ err2)
    ∧ (p0.setPattern pattern).1.literals = (tokenize (TokState.start p0) (l1 ++ l2)).literalsVar
    ∧ (p0.setPattern pattern).1.timeFormat = (tokenize (TokState.start p0) (l1 ++ l2)).timeFormat
    ∧ (p0.setPattern pattern).1.backtraceDepth
        = (tokenize (TokState.start p0) (l1 ++ l2)).backtraceDepth
    ∧ (p0.setPattern pattern).1.backtraceSeparator
        = (tokenize (TokState.start p0) (l1 ++ l2)).backtraceSeparator := by
  -- the tokenizer state after `l1`, with its tokens and diagnostics taken off
  let s1 := tokenize (TokState.start p0) l1
  let z : TokState := { s1 with tokens := [], error := [] }
  have hs1 : s1 = z.prepend s1.tokens s1.error := by
    simp [z, TokState.prepend]
  have hu : tokenizeStep s1 u = z.prepend (s1.tokens ++ [Token.emptyTokenC])
      (s1.error ++ unknownPlaceholderLine u) := by
    rw [tokenizeStep_unknown s1 u hU]
    simp [z, TokState.prepend]
  have hA : tokenize (TokState.start p0) (l1 ++ l2)
      = (tokenize z l2).prepend s1.tokens s1.error := by
    rw [tokenize_append, ← tokenize_prepend, ← hs1]
  have hB : tokenize (TokState.start p0) (l1 ++ u :: l2)
      = (tokenize z l2).prepend (s1.tokens ++ [Token.emptyTokenC])
          (s1.error ++ unknownPlaceholderLine u) := by
    rw [tokenize_append, ← tokenize_prepend, ← hu]
    rfl
  have hTokB : (p0.setPattern pattern).1.tokens
      = l1.map lexemeToken ++ Token.emptyTokenC :: l2.map lexemeToken := by
    rw [setPattern_tokens, hScan, List.map_append, List.map_cons, lexemeToken_unknown u hU]
  have hTokA : (tokenize (TokState.start p0) (l1 ++ l2)).tokens
      = l1.map lexemeToken ++ l2.map lexemeToken := by
    rw [tokenize_tokens]
    simp [TokState.start]
  refine ⟨lexemeToken_unknown u hU, fun _ _ _ _ _ => rfl, hTokB, hTokA, ?_, ?_, ?_, ?_, ?_, ?_⟩
  · intro env type context str
    rw [qFormatLogMessage_some, hTokB, hTokA]
    exact renderLoop_skip_empty env _ type context str _ _ false none
  · refine ⟨finishError (tokenize z l2), ?_, ?_⟩
    · show finishError (tokenize (TokState.start p0) (scan pattern)) = _
      rw [hScan, hB]
      simp only [finishError, TokState.prepend]
      split_ifs <;> simp [s1]
    · rw [hA]
      simp only [finishError, TokState.prepend]
      split_ifs <;> simp [s1]
  · show (tokenize (TokState.start p0) (scan pattern)).literalsVar = _
    rw [hScan, hA, hB]; rfl
  · show (tokenize (TokState.start p0) (scan pattern)).timeFormat = _
    rw [hScan, hA, hB]; rfl
  · show (tokenize (TokState.start p0) (scan pattern)).backtraceDepth = _
    rw [hScan, hA, hB]; rfl
  · show (tokenize (TokState.start p0) (scan pattern)).backtraceSeparator = _
    rw [hScan, hA, hB]; rfl

/-- C10 at a concrete pattern: `a%{foo}b`. -/
theorem C10_unknown_placeholder_witness :
    scan "a%{foo}b".toList = ["a".toList] ++ "%{foo}".toList :: ["b".toList]
    ∧ isUnknownPlaceholder "%{foo}".toList = true
    ∧ (QMessagePattern.initial.setPattern "a%{foo}b".toList).1.tokens
        = ["a".toList].map lexemeToken ++ Token.emptyTokenC :: ["b".toList].map lexemeToken
    ∧ (QMessagePattern.initial.setPattern "a%{foo}b".toList).2
        = "QT_MESSAGE_PATTERN: Unknown placeholder %{foo}\n".toList :=
  ⟨by decide, by decide,
   (C10_unknown_placeholder QMessagePattern.initial "a%{foo}b".toList ["a".toList]
      ["b".toList] "%{foo}".toList (by decide) (by decide)).2.2.1,
   by decide⟩

/-! ## Lemmas on the pattern compiler -/

theorem tokenizeStep_eq (st : TokState) (lexeme : List Char) :
    tokenizeStep st lexeme = stepByToken st lexeme := by
  by_cases h0 : startsWith lexeme "%\x7b".toList ∧ endsWith lexeme '}'
  swap
  · have ht : lexemeToken lexeme = Token.literal (cstr (toLatin1 lexeme)) := by
      unfold lexemeToken; rw [if_neg h0]
    unfold tokenizeStep
    rw [if_neg h0]
    simp [stepByToken, stepLines, timeAssign, depthAssign, separatorAssign, ht, Token.isIf]
  by_cases h1 : lexeme = Token.typeTokenC.chars
  · have ht : lexemeToken lexeme = Token.typeTokenC := by
      unfold lexemeToken; rw [if_pos h0, if_pos h1]
    unfold tokenizeStep
    rw [if_pos h0, if_pos h1]
    simp [stepByToken, stepLines, timeAssign, depthAssign, separatorAssign, ht,
      Token.isIf, ifToken]
  by_cases h2 : lexeme = Token.categoryTokenC.chars
  · have ht : lexemeToken lexeme = Token.categoryTokenC := by
      unfold lexemeToken; rw [if_pos h0, if_neg h1, if_pos h2]
    unfold tokenizeStep
    rw [if_pos h0, if_neg h1, if_pos h2]
    simp [stepByToken, stepLines, timeAssign, depthAssign, separatorAssign, ht,
      Token.isIf, ifToken]
  by_cases h3 : lexeme = Token.messageTokenC.chars
  · have ht : lexemeToken lexeme = Token.messageTokenC := by
      unfold lexemeToken; rw [if_pos h0, if_neg h1, if_neg h2, if_pos h3]
    unfold tokenizeStep
    rw [if_pos h0, if_neg h1, if_neg h2, if_pos h3]
    simp [stepByToken, stepLines, timeAssign, depthAssign, separatorAssign, ht,
      Token.isIf, ifToken]
  by_cases h4 : lexeme = Token.fileTokenC.chars
  · have ht : lexemeToken lexeme = Token.fileTokenC := by
      unfold lexemeToken; rw [if_pos h0, if_neg h1, if_neg h2, if_neg h3, if_pos h4]
    unfold tokenizeStep
    rw [if_pos h0, if_neg h1, if_neg h2, if_neg h3, if_pos h4]
    simp [stepByToken, stepLines, timeAssign, depthAssign, separatorAssign, ht,
      Token.isIf, ifToken]
  by_cases h5 : lexeme = Token.lineTokenC.chars
  · have ht : lexemeToken lexeme = Token.lineTokenC := by
      unfold lexemeToken; rw [if_pos h0, if_neg h1, if_neg h2, if_neg h3, if_neg h4, if_pos h5]
    unfold tokenizeStep
    rw [if_pos h0, if_neg h1, if_neg h2, if_neg h3, if_neg h4, if_pos h5]
    simp [stepByToken, stepLines, timeAssign, depthAssign, separatorAssign, ht,
      Token.isIf, ifToken]
  by_cases h6 : lexeme = Token.functionTokenC.chars
  · have ht : lexemeToken lexeme = Token.functionTokenC := by
      unfold lexemeToken; rw [if_pos h0, if_neg h1, if_neg h2, if_neg h3, if_neg h4, if_neg h5, if_pos h6]
    unfold tokenizeStep
    rw [if_pos h0, if_neg h1, if_neg h2, if_neg h3, if_neg h4, if_neg h5, if_pos h6]
    simp [stepByToken, stepLines, timeAssign, depthAssign, separatorAssign, ht,
      Token.isIf, ifToken]
  by_cases h7 : lexeme = Token.pidTokenC.chars
  · have ht : lexemeToken lexeme = Token.pidTokenC := by
      unfold lexemeToken; rw [if_pos h0, if_neg h1, if_neg h2, if_neg h3, if_neg h4, if_neg h5, if_neg h6, if_pos h7]
    unfold tokenizeStep
    rw [if_pos h0, if_neg h1, if_neg h2, if_neg h3, if_neg h4, if_neg h5, if_neg h6, if_pos h7]
    simp [stepByToken, stepLines, timeAssign, depthAssign, separatorAssign, ht,
      Token.isIf, ifToken]
  by_cases h8 : lexeme = Token.appnameTokenC.chars
  · have ht : lexemeToken lexeme = Token.appnameTokenC := by
      unfold lexemeToken; rw [if_pos h0, if_neg h1, if_neg h2, if_neg h3, if_neg h4, if_neg h5, if_neg h6, if_neg h7, if_pos h8]
    unfold tokenizeStep
    rw [if_pos h0, if_neg h1, if_neg h2, if_neg h3, if_neg h4, if_neg h5, if_neg h6, if_neg h7, if_pos h8]
    simp [stepByToken, stepLines, timeAssign, depthAssign, separatorAssign, ht,
      Token.isIf, ifToken]
  by_cases h9 : lexeme = Token.threadidTokenC.chars
  · have ht : lexemeToken lexeme = Token.threadidTokenC := by
      unfold lexemeToken; rw [if_pos h0, if_neg h1, if_neg h2, if_neg h3, if_neg h4, if_neg h5, if_neg h6, if_neg h7, if_neg h8, if_pos h9]
    unfold tokenizeStep
    rw [if_pos h0, if_neg h1, if_neg h2, if_neg h3, if_neg h4, if_neg h5, if_neg h6, if_neg h7, if_neg h8, if_pos h9]
    simp [stepByToken, stepLines, timeAssign, depthAssign, separatorAssign, ht,
      Token.isIf, ifToken]
  by_cases h10 : startsWith lexeme Token.timeTokenC.chars
  · have ht : lexemeToken lexeme = Token.timeTokenC := by
      unfold lexemeToken; rw [if_pos h0, if_neg h1, if_neg h2, if_neg h3, if_neg h4, if_neg h5, if_neg h6, if_neg h7, if_neg h8, if_neg h9, if_pos h10]
    unfold tokenizeStep
    rw [if_pos h0, if_neg h1, if_neg h2, if_neg h3, if_neg h4, if_neg h5, if_neg h6, if_neg h7, if_neg h8, if_neg h9, if_pos h10]
    by_cases hi : indexOf lexeme [' '] > 0 <;>
      simp [stepByToken, stepLines, timeAssign, depthAssign, separatorAssign, ht, Token.isIf, hi]
  by_cases h11 : startsWith lexeme Token.backtraceTokenC.chars
  · have ht : lexemeToken lexeme = Token.backtraceTokenC := by
      unfold lexemeToken; rw [if_pos h0, if_neg h1, if_neg h2, if_neg h3, if_neg h4, if_neg h5, if_neg h6, if_neg h7, if_neg h8, if_neg h9, if_neg h10, if_pos h11]
    unfold tokenizeStep
    rw [if_pos h0, if_neg h1, if_neg h2, if_neg h3, if_neg h4, if_neg h5, if_neg h6, if_neg h7, if_neg h8, if_neg h9, if_neg h10, if_pos h11]
    simp only [stepByToken, stepLines, timeAssign, depthAssign, separatorAssign, ht]
    generalize captureAttribute " depth=".toList lexeme = d
    generalize captureAttribute " separator=".toList lexeme = sp
    cases d with
    | none => cases sp <;> simp [Token.isIf]
    | some captured =>
      by_cases hc : toInt captured ≤ 0 <;> cases sp <;> simp [Token.isIf, depthLine, hc]
  by_cases h12 : lexeme = Token.ifCategoryTokenC.chars
  · have ht : lexemeToken lexeme = Token.ifCategoryTokenC := by
      unfold lexemeToken; rw [if_pos h0, if_neg h1, if_neg h2, if_neg h3, if_neg h4, if_neg h5, if_neg h6, if_neg h7, if_neg h8, if_neg h9, if_neg h10, if_neg h11, if_pos h12]
    unfold tokenizeStep
    rw [if_pos h0, if_neg h1, if_neg h2, if_neg h3, if_neg h4, if_neg h5, if_neg h6, if_neg h7, if_neg h8, if_neg h9, if_neg h10, if_neg h11, if_pos h12]
    simp [stepByToken, stepLines, timeAssign, depthAssign, separatorAssign, ht,
      Token.isIf, ifToken]
  by_cases h13 : lexeme = Token.ifDebugTokenC.chars
  · have ht : lexemeToken lexeme = Token.ifDebugTokenC := by
      unfold lexemeToken; rw [if_pos h0, if_neg h1, if_neg h2, if_neg h3, if_neg h4, if_neg h5, if_neg h6, if_neg h7, if_neg h8, if_neg h9, if_neg h10, if_neg h11, if_neg h12, if_pos h13]
    unfold tokenizeStep
    rw [if_pos h0, if_neg h1, if_neg h2, if_neg h3, if_neg h4, if_neg h5, if_neg h6, if_neg h7, if_neg h8, if_neg h9, if_neg h10, if_neg h11, if_neg h12, if_pos h13]
    simp [stepByToken, stepLines, timeAssign, depthAssign, separatorAssign, ht,
      Token.isIf, ifToken]
  by_cases h14 : lexeme = Token.ifWarningTokenC.chars
  · have ht : lexemeToken lexeme = Token.ifWarningTokenC := by
      unfold lexemeToken; rw [if_pos h0, if_neg h1, if_neg h2, if_neg h3, if_neg h4, if_neg h5, if_neg h6, if_neg h7, if_neg h8, if_neg h9, if_neg h10, if_neg h11, if_neg h12, if_neg h13, if_pos h14]
    unfold tokenizeStep
    rw [if_pos h0, if_neg h1, if_neg h2, if_neg h3, if_neg h4, if_neg h5, if_neg h6, if_neg h7, if_neg h8, if_neg h9, if_neg h10, if_neg h11, if_neg h12, if_neg h13, if_pos h14]
    simp [stepByToken, stepLines, timeAssign, depthAssign, separatorAssign, ht,
      Token.isIf, ifToken]
  by_cases h15 : lexeme = Token.ifCriticalTokenC.chars
  · have ht : lexemeToken lexeme = Token.ifCriticalTokenC := by
      unfold lexemeToken; rw [if_pos h0, if_neg h1, if_neg h2, if_neg h3, if_neg h4, if_neg h5, if_neg h6, if_neg h7, if_neg h8, if_neg h9, if_neg h10, if_neg h11, if_neg h12, if_neg h13, if_neg h14, if_pos h15]
    unfold tokenizeStep
    rw [if_pos h0, if_neg h1, if_neg h2, if_neg h3, if_neg h4, if_neg h5, if_neg h6, if_neg h7, if_neg h8, if_neg h9, if_neg h10, if_neg h11, if_neg h12, if_neg h13, if_neg h14, if_pos h15]
    simp [stepByToken, stepLines, timeAssign, depthAssign, separatorAssign, ht,
      Token.isIf, ifToken]
  by_cases h16 : lexeme = Token.ifFatalTokenC.chars
  · have ht : lexemeToken lexeme = Token.ifFatalTokenC := by
      unfold lexemeToken; rw [if_pos h0, if_neg h1, if_neg h2, if_neg h3, if_neg h4, if_neg h5, if_neg h6, if_neg h7, if_neg h8, if_neg h9, if_neg h10, if_neg h11, if_neg h12, if_neg h13, if_neg h14, if_neg h15, if_pos h16]
    unfold tokenizeStep
    rw [if_pos h0, if_neg h1, if_neg h2, if_neg h3, if_neg h4, if_neg h5, if_neg h6, if_neg h7, if_neg h8, if_neg h9, if_neg h10, if_neg h11, if_neg h12, if_neg h13, if_neg h14, if_neg h15, if_pos h16]
    simp [stepByToken, stepLines, timeAssign, depthAssign, separatorAssign, ht,
      Token.isIf, ifToken]
  by_cases h17 : lexeme = Token.endifTokenC.chars
  · have ht : lexemeToken lexeme = Token.endifTokenC := by
      unfold lexemeToken; rw [if_pos h0, if_neg h1, if_neg h2, if_neg h3, if_neg h4, if_neg h5, if_neg h6, if_neg h7, if_neg h8, if_neg h9, if_neg h10, if_neg h11, if_neg h12, if_neg h13, if_neg h14, if_neg h15, if_neg h16, if_pos h17]
    unfold tokenizeStep
    rw [if_pos h0, if_neg h1, if_neg h2, if_neg h3, if_neg h4, if_neg h5, if_neg h6, if_neg h7, if_neg h8, if_neg h9, if_neg h10, if_neg h11, if_neg h12, if_neg h13, if_neg h14, if_neg h15, if_neg h16, if_pos h17]
    by_cases hc : st.inIf = false ∧ st.nestedIfError = false <;>
      simp [stepByToken, stepLines, timeAssign, depthAssign, separatorAssign, ht, Token.isIf,
        endifLine, hc]
  have ht : lexemeToken lexeme = Token.emptyTokenC := by
    unfold lexemeToken; rw [if_pos h0, if_neg h1, if_neg h2, if_neg h3, if_neg h4, if_neg h5, if_neg h6, if_neg h7, if_neg h8, if_neg h9, if_neg h10, if_neg h11, if_neg h12, if_neg h13, if_neg h14, if_neg h15, if_neg h16, if_neg h17]
  unfold tokenizeStep
  rw [if_pos h0, if_neg h1, if_neg h2, if_neg h3, if_neg h4, if_neg h5, if_neg h6, if_neg h7, if_neg h8, if_neg h9, if_neg h10, if_neg h11, if_neg h12, if_neg h13, if_neg h14, if_neg h15, if_neg h16, if_neg h17]
  simp [stepByToken, stepLines, timeAssign, depthAssign, separatorAssign, ht, Token.isIf,
    unknownPlaceholderLine]

theorem tokenize_cons (st : TokState) (l : List Char) (ls : List (List Char)) :
    tokenize st (l :: ls) = tokenize (tokenizeStep st l) ls := rfl

theorem tokenize_inIf (ls : List (List Char)) :
    ∀ st : TokState, (tokenize st ls).inIf = openEnd (ls.map lexemeToken) st.inIf := by
  induction ls with
  | nil => intro st; rfl
  | cons l rest ih =>
    intro st
    rw [tokenize_cons, ih, tokenizeStep_eq]
    simp only [List.map_cons, openEnd, stepByToken]
    split_ifs <;> rfl

theorem tokenize_nestedIfError (ls : List (List Char)) :
    ∀ st : TokState, (tokenize st ls).nestedIfError
      = (st.nestedIfError || hasNestedIf (ls.map lexemeToken) st.inIf) := by
  induction ls with
  | nil => intro st; simp [tokenize, hasNestedIf]
  | cons l rest ih =>
    intro st
    rw [tokenize_cons, ih, tokenizeStep_eq]
    simp only [List.map_cons, hasNestedIf, stepByToken]
    by_cases h1 : (lexemeToken l).isIf = true
    · cases h2 : st.inIf <;> simp [h1, h2]
    · by_cases h3 : lexemeToken l = Token.endifTokenC
      · simp [h3, Token.isIf]
      · simp [h1, h3]

theorem tokenize_error (ls : List (List Char)) :
    ∀ st : TokState, (tokenize st ls).error = st.error ++ (loopLines st ls).flatten := by
  induction ls with
  | nil => intro st; simp [tokenize, loopLines]
  | cons l rest ih =>
    intro st
    rw [tokenize_cons, ih]
    simp only [loopLines, List.flatten_append, ← List.append_assoc]
    congr 1
    rw [tokenizeStep_eq]
    rfl

theorem finishError_eq (st : TokState) :
    finishError st = st.error ++ (finishLines st).flatten := by
  unfold finishError finishLines
  split_ifs <;> simp [nestedLine, missingEndifLine]

theorem setPattern_diagnostics (self : QMessagePattern) (pattern : List Char) :
    (self.setPattern pattern).2 = (diagnostics self pattern).flatten := by
  show finishError (tokenize (TokState.start self) (scan pattern)) = _
  rw [finishError_eq, tokenize_error]
  simp [diagnostics, TokState.start]

theorem stepLines_mem (st : TokState) (l line : List Char) (h : line ∈ stepLines st l) :
    line = depthLine ∨ line = endifLine ∨ line = unknownPlaceholderLine l := by
  unfold stepLines at h
  split at h
  · split at h
    · split_ifs at h
      · simp at h; exact Or.inl h
      · simp at h
    · simp at h
  · split_ifs at h
    · simp at h; exact Or.inr (Or.inl h)
    · simp at h
  · simp at h; exact Or.inr (Or.inr h)
  · simp at h

theorem loopLines_mem (ls : List (List Char)) :
    ∀ (st : TokState) (line : List Char), line ∈ loopLines st ls →
      line = depthLine ∨ line = endifLine ∨ ∃ l, line = unknownPlaceholderLine l := by
  induction ls with
  | nil => intro st line h; simp [loopLines] at h
  | cons l rest ih =>
    intro st line h
    simp only [loopLines, List.mem_append] at h
    rcases h with h | h
    · rcases stepLines_mem st l line h with h1 | h1 | h1
      · exact Or.inl h1
      · exact Or.inr (Or.inl h1)
      · exact Or.inr (Or.inr ⟨l, h1⟩)
    · exact ih _ _ h

theorem unknownPlaceholderLine_take (l : List Char) :
    (unknownPlaceholderLine l).take 21 = "QT_MESSAGE_PATTERN: U".toList := by
  simp [unknownPlaceholderLine]

theorem missingEndifLine_not_loop (ls : List (List Char)) (st : TokState) :
    missingEndifLine ∉ loopLines st ls := by
  intro h
  rcases loopLines_mem ls st _ h with h1 | h1 | ⟨l, h1⟩
  · exact absurd h1 (by decide)
  · exact absurd h1 (by decide)
  · have h2 := congrArg (fun s => s.take 21) h1
    simp only [unknownPlaceholderLine_take] at h2
    exact absurd h2 (by decide)

theorem nestedLine_not_loop (ls : List (List Char)) (st : TokState) :
    nestedLine ∉ loopLines st ls := by
  intro h
  rcases loopLines_mem ls st _ h with h1 | h1 | ⟨l, h1⟩
  · exact absurd h1 (by decide)
  · exact absurd h1 (by decide)
  · have h2 := congrArg (fun s => s.take 21) h1
    simp only [unknownPlaceholderLine_take] at h2
    exact absurd h2 (by decide)

theorem tokenize_timeFormat (ls : List (List Char)) :
    ∀ st : TokState, (tokenize st ls).timeFormat = (lastSome timeAssign ls).getD st.timeFormat := by
  induction ls with
  | nil => intro st; rfl
  | cons l rest ih =>
    intro st
    rw [tokenize_cons, ih, tokenizeStep_eq]
    simp only [lastSome, stepByToken]
    cases lastSome timeAssign rest <;> rfl

theorem tokenize_backtraceDepth (ls : List (List Char)) :
    ∀ st : TokState,
      (tokenize st ls).backtraceDepth = (lastSome depthAssign ls).getD st.backtraceDepth := by
  induction ls with
  | nil => intro st; rfl
  | cons l rest ih =>
    intro st
    rw [tokenize_cons, ih, tokenizeStep_eq]
    simp only [lastSome, stepByToken]
    cases lastSome depthAssign rest <;> rfl

theorem tokenize_backtraceSeparator (ls : List (List Char)) :
    ∀ st : TokState,
      (tokenize st ls).backtraceSeparator
        = (lastSome separatorAssign ls).getD st.backtraceSeparator := by
  induction ls with
  | nil => intro st; rfl
  | cons l rest ih =>
    intro st
    rw [tokenize_cons, ih, tokenizeStep_eq]
    simp only [lastSome, stepByToken]
    cases lastSome separatorAssign rest <;> rfl

theorem tokenize_control (ls : List (List Char)) :
    ∀ st st2 : TokState, st.tokens = st2.tokens → st.literalsVar = st2.literalsVar →
      st.nestedIfError = st2.nestedIfError → st.inIf = st2.inIf → st.error = st2.error →
      (tokenize st ls).tokens = (tokenize st2 ls).tokens
      ∧ (tokenize st ls).literalsVar = (tokenize st2 ls).literalsVar
      ∧ (tokenize st ls).nestedIfError = (tokenize st2 ls).nestedIfError
      ∧ (tokenize st ls).inIf = (tokenize st2 ls).inIf
      ∧ (tokenize st ls).error = (tokenize st2 ls).error := by
  induction ls with
  | nil => intro st st2 h1 h2 h3 h4 h5; exact ⟨h1, h2, h3, h4, h5⟩
  | cons l rest ih =>
    intro st st2 h1 h2 h3 h4 h5
    rw [tokenize_cons, tokenize_cons]
    apply ih
    · rw [tokenizeStep_eq, tokenizeStep_eq]; simp [stepByToken, h1]
    · rw [tokenizeStep_eq, tokenizeStep_eq]; simp [stepByToken, h2]
    · rw [tokenizeStep_eq, tokenizeStep_eq]; simp [stepByToken, h3, h4]
    · rw [tokenizeStep_eq, tokenizeStep_eq]; simp [stepByToken, h4]
    · rw [tokenizeStep_eq, tokenizeStep_eq]; simp [stepByToken, stepLines, h3, h4, h5]

theorem openEnd_append (a b : List Token) :
    ∀ i : Bool, openEnd (a ++ b) i = openEnd b (openEnd a i) := by
  induction a with
  | nil => intro i; rfl
  | cons t rest ih =>
    intro i
    simp only [List.cons_append, openEnd]
    split_ifs <;> exact ih _

theorem hasNestedIf_append (a b : List Token) :
    ∀ i : Bool, hasNestedIf (a ++ b) i = (hasNestedIf a i || hasNestedIf b (openEnd a i)) := by
  induction a with
  | nil => intro i; simp [hasNestedIf, openEnd]
  | cons t rest ih =>
    intro i
    simp only [List.cons_append, openEnd, hasNestedIf]
    split_ifs
    · show (i || hasNestedIf (rest ++ b) true) = _
      rw [ih, Bool.or_assoc]
    · exact ih _
    · exact ih _

theorem isConditional_of_isIf (t : Token) (h : t.isIf = true) : t.isConditional = true := by
  cases t <;> simp_all [Token.isIf, Token.isConditional]

theorem isIf_of_not_isConditional (t : Token) (h : t.isConditional = false) :
    t.isIf = false := by
  cases t <;> simp_all [Token.isIf, Token.isConditional]

theorem ne_endif_of_isIf (t : Token) (h : t.isIf = true) : t ≠ Token.endifTokenC := by
  intro e
  subst e
  simp [Token.isIf] at h

theorem conditional_of_not_isIf (type : QtMsgType) (context : QMessageLogContext) (t : Token)
    (h : ¬ t.isIf = true) : conditional type context t = none := by
  cases t <;> simp_all [Token.isIf, conditional]

theorem openEnd_plain (post : List Token) (h : ∀ u ∈ post, u.isConditional = false) (i : Bool) :
    openEnd post i = i := by
  induction post with
  | nil => rfl
  | cons t rest ih =>
    have ht := h t (List.mem_cons_self _ _)
    have hr : ∀ u ∈ rest, u.isConditional = false := fun x hx => h x (List.mem_cons_of_mem _ hx)
    simp [openEnd, isIf_of_not_isConditional t ht, ne_endif_of_not_conditional t ht, ih hr]

theorem hasNestedIf_plain (post : List Token) (h : ∀ u ∈ post, u.isConditional = false)
    (i : Bool) : hasNestedIf post i = false := by
  induction post with
  | nil => rfl
  | cons t rest ih =>
    have ht := h t (List.mem_cons_self _ _)
    have hr : ∀ u ∈ rest, u.isConditional = false := fun x hx => h x (List.mem_cons_of_mem _ hx)
    simp [hasNestedIf, isIf_of_not_isConditional t ht, ne_endif_of_not_conditional t ht, ih hr]

/-- The loop of qFormatLogMessage skips only inside a region that the tokenizer counts as
open. -/
theorem skipEnd_openEnd (type : QtMsgType) (context : QMessageLogContext) (toks : List Token) :
    ∀ s o : Bool, (s = true → o = true) → skipEnd type context toks s = true →
      openEnd toks o = true := by
  induction toks with
  | nil => intro s o h hs; exact h hs
  | cons t rest ih =>
    intro s o h hs
    simp only [skipEnd] at hs
    simp only [openEnd]
    by_cases hIf : t.isIf = true
    · rw [if_pos hIf]
      rw [if_neg (ne_endif_of_isIf t hIf)] at hs
      by_cases hsk : s = true
      · rw [if_pos hsk] at hs
        exact ih s true (fun _ => rfl) hs
      · rw [if_neg hsk] at hs
        cases hc : conditional type context t with
        | none => rw [hc] at hs; exact ih s true (fun _ => rfl) hs
        | some u => rw [hc] at hs; exact ih (u s) true (fun _ => rfl) hs
    · rw [if_neg hIf]
      by_cases he : t = Token.endifTokenC
      · rw [if_pos he] at hs ⊢
        exact ih false false (fun x => x) hs
      · rw [if_neg he] at hs ⊢
        by_cases hsk : s = true
        · rw [if_pos hsk] at hs
          exact ih s o h hs
        · rw [if_neg hsk, conditional_of_not_isIf type context t hIf] at hs
          exact ih s o h hs

theorem skipEnd_of_closed (type : QtMsgType) (context : QMessageLogContext) (toks : List Token)
    (h : openEnd toks false = false) : skipEnd type context toks false = false := by
  cases hs : skipEnd type context toks false with
  | false => rfl
  | true =>
    have := skipEnd_openEnd type context toks false false (fun x => x) hs
    rw [h] at this
    exact absurd this (by decide)

theorem start_inIf (self : QMessagePattern) : (TokState.start self).inIf = false := rfl

theorem start_nestedIfError (self : QMessagePattern) :
    (TokState.start self).nestedIfError = false := rfl

theorem count_loopLines_missing (self : QMessagePattern) (pattern : List Char) :
    (loopLines (TokState.start self) (scan pattern)).count missingEndifLine = 0 :=
  List.count_eq_zero.mpr (missingEndifLine_not_loop _ _)

theorem count_loopLines_nested (self : QMessagePattern) (pattern : List Char) :
    (loopLines (TokState.start self) (scan pattern)).count nestedLine = 0 :=
  List.count_eq_zero.mpr (nestedLine_not_loop _ _)

theorem finishLines_setPattern (self : QMessagePattern) (pattern : List Char) :
    finishLines (tokenize (TokState.start self) (scan pattern))
      = if hasNestedIf ((scan pattern).map lexemeToken) false = true then [nestedLine]
        else if openEnd ((scan pattern).map lexemeToken) false = true then [missingEndifLine]
        else [] := by
  unfold finishLines
  rw [tokenize_nestedIfError, tokenize_inIf, start_inIf, start_nestedIfError, Bool.false_or]

/-- A nested if-* cannot be the first if-* token: before an if-* token of a pattern without
nesting, no region is open. -/
theorem openEnd_before_if (pre post : List Token) (t : Token) (hIf : t.isIf = true)
    (h : hasNestedIf (pre ++ t :: post) false = false) : openEnd pre false = false := by
  rw [hasNestedIf_append] at h
  simp only [hasNestedIf, if_pos hIf, Bool.or_eq_false_iff] at h
  exact h.2.1

theorem lexemeToken_endif : lexemeToken Token.endifTokenC.chars = Token.endifTokenC := by
  decide

theorem tokenizeStep_endif (st : TokState) (hIn : st.inIf = false) :
    tokenizeStep st Token.endifTokenC.chars
      = { st with tokens := st.tokens ++ [Token.endifTokenC],
                  error := st.error ++ (if st.nestedIfError = false then endifLine else []) } := by
  rw [tokenizeStep_eq]
  cases hn : st.nestedIfError <;>
    simp [stepByToken, stepLines, timeAssign, depthAssign, separatorAssign, lexemeToken_endif,
      Token.isIf, hIn, hn]

theorem renderLoop_skip_endif (env : RenderEnv) (p : QMessagePattern) (type : QtMsgType)
    (context : QMessageLogContext) (str : QString) (xs ys : List Token) (m : QString)
    (h : skipEnd type context xs false = false) :
    renderLoop env p type context str (xs ++ Token.endifTokenC :: ys) false m
      = renderLoop env p type context str (xs ++ ys) false m := by
  rw [renderLoop_append, renderLoop_append, h]
  simp [renderLoop]

theorem setPattern_backtraceDepth (p0 : QMessagePattern) (pattern : List Char) :
    (p0.setPattern pattern).1.backtraceDepth
      = (lastSome depthAssign (scan pattern)).getD p0.backtraceDepth := by
  show (tokenize (TokState.start p0) (scan pattern)).backtraceDepth = _
  rw [tokenize_backtraceDepth]
  rfl

theorem setPattern_backtraceSeparator (p0 : QMessagePattern) (pattern : List Char) :
    (p0.setPattern pattern).1.backtraceSeparator
      = (lastSome separatorAssign (scan pattern)).getD p0.backtraceSeparator := by
  show (tokenize (TokState.start p0) (scan pattern)).backtraceSeparator = _
  rw [tokenize_backtraceSeparator]
  rfl

theorem setPattern_timeFormat (p0 : QMessagePattern) (pattern : List Char) :
    (p0.setPattern pattern).1.timeFormat
      = (lastSome timeAssign (scan pattern)).getD p0.timeFormat := by
  show (tokenize (TokState.start p0) (scan pattern)).timeFormat = _
  rw [tokenize_timeFormat]
  rfl

/-! ## C14 -/

/-- C14: one iteration of the tokenizer loop on a backtrace placeholder (a lexeme whose
token is the backtrace token), from any state. When the depth attribute is present and
its value as an integer is at most 0, the iteration adds the line
"QT_MESSAGE_PATTERN: %{backtrace} depth must be a number greater than 0" to the
diagnostics and keeps the backtrace depth; when the value is greater than 0 it becomes
the backtrace depth and nothing is added; without a depth attribute depth and diagnostics
are kept, and without a separator attribute the separator is kept. A value that is not a
number ("x") has the integer value 0. For whole patterns and every prior pattern object:
`%{backtrace depth=0}`, `%{backtrace depth=-3}` and `%{backtrace depth=x}` give that one
diagnostic and keep the prior depth, `%{backtrace depth=7}` gives depth 7 and no
diagnostic, and `%{backtrace}` keeps depth and separator, which are 5 and "|" on a
freshly constructed object. -/
theorem C14_backtrace_depth (st : TokState) (lexeme : List Char) (p0 : QMessagePattern)
    (hTok : lexemeToken lexeme = Token.backtraceTokenC) :
    (∀ captured, captureAttribute " depth=".toList lexeme = some captured →
        toInt captured ≤ 0 →
        (tokenizeStep st lexeme).error = st.error ++ depthLine
        ∧ (tokenizeStep st lexeme).backtraceDepth = st.backtraceDepth)
    ∧ (∀ captured, captureAttribute " depth=".toList lexeme = some captured →
        0 < toInt captured →
        (tokenizeStep st lexeme).error = st.error
        ∧ (tokenizeStep st lexeme).backtraceDepth = toInt captured)
    ∧ (captureAttribute " depth=".toList lexeme = none →
        (tokenizeStep st lexeme).error = st.error
        ∧ (tokenizeStep st lexeme).backtraceDepth = st.backtraceDepth)
    ∧ (captureAttribute " separator=".toList lexeme = none →
        (tokenizeStep st lexeme).backtraceSeparator = st.backtraceSeparator)
    ∧ toInt ['x'] = 0
    ∧ ((p0.setPattern "%{backtrace depth=0}".toList).2 = depthLine
        ∧ (p0.setPattern "%{backtrace depth=0}".toList).1.backtraceDepth = p0.backtraceDepth)
    ∧ ((p0.setPattern "%{backtrace depth=-3}".toList).2 = depthLine
        ∧ (p0.setPattern "%{backtrace depth=-3}".toList).1.backtraceDepth = p0.backtraceDepth)
    ∧ ((p0.setPattern "%{backtrace depth=x}".toList).2 = depthLine
        ∧ (p0.setPattern "%{backtrace depth=x}".toList).1.backtraceDepth = p0.backtraceDepth)
    ∧ ((p0.setPattern "%{backtrace depth=7}".toList).2 = []
        ∧ (p0.setPattern "%{backtrace depth=7}".toList).1.backtraceDepth = 7)
    ∧ ((p0.setPattern "%{backtrace}".toList).2 = []
        ∧ (p0.setPattern "%{backtrace}".toList).1.backtraceDepth = p0.backtraceDepth
        ∧ (p0.setPattern "%{backtrace}".toList).1.backtraceSeparator = p0.backtraceSeparator)
    ∧ (QMessagePattern.initial.setPattern "%{backtrace}".toList).1.backtraceDepth = 5
    ∧ (QMessagePattern.initial.setPattern "%{backtrace}".toList).1.backtraceSeparator = ['|'] := by
  refine ⟨?_, ?_, ?_, ?_, by decide, ⟨?_, ?_⟩, ⟨?_, ?_⟩, ⟨?_, ?_⟩, ⟨?_, ?_⟩, ⟨?_, ?_, ?_⟩, ?_, ?_⟩
  · intro captured hc hle
    rw [tokenizeStep_eq]
    simp only [stepByToken, stepLines, depthAssign, hTok, hc, if_pos hle]
    simp
  · intro captured hc hlt
    have hle : ¬ toInt captured ≤ 0 := not_le.mpr hlt
    rw [tokenizeStep_eq]
    simp only [stepByToken, stepLines, depthAssign, hTok, hc, if_neg hle]
    simp
  · intro hc
    rw [tokenizeStep_eq]
    simp only [stepByToken, stepLines, depthAssign, hTok, hc]
    simp
  · intro hc
    rw [tokenizeStep_eq]
    simp only [stepByToken, separatorAssign, hTok, hc]
    simp
  · rfl
  · rw [setPattern_backtraceDepth]
    have : lastSome depthAssign (scan "%{backtrace depth=0}".toList) = none := by decide
    rw [this]; rfl
  · rfl
  · rw [setPattern_backtraceDepth]
    have : lastSome depthAssign (scan "%{backtrace depth=-3}".toList) = none := by decide
    rw [this]; rfl
  · rfl
  · rw [setPattern_backtraceDepth]
    have : lastSome depthAssign (scan "%{backtrace depth=x}".toList) = none := by decide
    rw [this]; rfl
  · rfl
  · rw [setPattern_backtraceDepth]
    have : lastSome depthAssign (scan "%{backtrace depth=7}".toList) = some 7 := by decide
    rw [this]; rfl
  · rfl
  · rw [setPattern_backtraceDepth]
    have : lastSome depthAssign (scan "%{backtrace}".toList) = none := by decide
    rw [this]; rfl
  · rw [setPattern_backtraceSeparator]
    have : lastSome separatorAssign (scan "%{backtrace}".toList) = none := by decide
    rw [this]; rfl
  · rw [setPattern_backtraceDepth]
    have : lastSome depthAssign (scan "%{backtrace}".toList) = none := by decide
    rw [this]; rfl
  · rw [setPattern_backtraceSeparator]
    have : lastSome separatorAssign (scan "%{backtrace}".toList) = none := by decide
    rw [this]; rfl

/-- C14 at the lexeme `%{backtrace depth=0 separator=/}` read on the start state of a
fresh pattern object. -/
theorem C14_backtrace_depth_witness :
    lexemeToken "%{backtrace depth=0 separator=/}".toList = Token.backtraceTokenC
    ∧ captureAttribute " depth=".toList "%{backtrace depth=0 separator=/}".toList = some ['0']
    ∧ toInt ['0'] ≤ 0
    ∧ (tokenizeStep (TokState.start QMessagePattern.initial)
          "%{backtrace depth=0 separator=/}".toList).error = [] ++ depthLine
    ∧ (tokenizeStep (TokState.start QMessagePattern.initial)
          "%{backtrace depth=0 separator=/}".toList).backtraceDepth = 5 :=
  ⟨by decide, by decide, by decide,
   (C14_backtrace_depth (TokState.start QMessagePattern.initial)
      "%{backtrace depth=0 separator=/}".toList QMessagePattern.initial
      (by decide)).1 ['0'] (by decide) (by decide)⟩

theorem droppedByCategory_other (pl : Platform) (msgType : QtMsgType)
    (context : QMessageLogContext)
    (h1 : context.category ≠ none) (h2 : context.category ≠ some "default".toList) :
    droppedByCategory pl msgType context = false := by
  unfold droppedByCategory
  rw [if_neg]
  intro h
  rcases h with h | h
  · exact h1 h
  · exact h2 h

/-! ## C15 -/

/-- C15: in qt_message_print, when the category of the event is absent or "default" and
the default category exists and reports the type of the event as disabled, the call
returns with the process state unchanged: no handler call is recorded, the pattern
object is not touched, nothing is written to stderr or the journal. When the event
carries any other category, the gate lets it pass whatever the default category is or
reports, and the event is dispatched: with the recursion guard free exactly one handler
call is added, with the guard set the message is written to stderr. -/
theorem C15_category_gate (pl : Platform) (fuel : Nat) (msgType : QtMsgType)
    (context : QMessageLogContext) (message : QString) (w : Process) :
    (∀ isEnabled : QtMsgType → Bool,
        (context.category = none ∨ context.category = some "default".toList) →
        pl.defaultCategory = some isEnabled → isEnabled msgType = false →
        qt_message_print pl (fuel + 1) msgType context message w = .returned w)
    ∧ (context.category ≠ none → context.category ≠ some "default".toList →
        (∀ d : Option (QtMsgType → Bool),
          droppedByCategory { pl with defaultCategory := d } msgType context = false)
        ∧ (w.msgHandlerGrabbed = false →
            (qt_message_print pl (fuel + 2) msgType context message w).Holds (fun w2 =>
              w2.invoked = w.invoked ++ [expectedInvocation pl w msgType context message]))
        ∧ (w.msgHandlerGrabbed = true →
            qt_message_print pl (fuel + 1) msgType context message w
              = .returned
                  { w with stderr := w.stderr ++ cstr (pl.toLocal8Bit message.text) ++ ['\n'] })) := by
  refine ⟨?_, ?_⟩
  · intro isEnabled hc hd he
    have hg : droppedByCategory pl msgType context = true := by
      unfold droppedByCategory
      rw [if_pos hc, hd]
      simp [he]
    unfold qt_message_print
    rw [if_pos hg]
  · intro h1 h2
    have hg := droppedByCategory_other pl msgType context h1 h2
    refine ⟨fun d => droppedByCategory_other _ msgType context h1 h2, ?_, ?_⟩
    · intro hGuard
      exact qt_message_print_dispatch pl fuel msgType context message w hg hGuard
    · intro hGuard
      rw [qt_message_print_grabbed pl fuel msgType context message w hGuard, hg]
      rfl

/-- C15 at a debug event without category on a platform whose default category has
debug output disabled, and at a debug event of category "net" on the same platform. -/
theorem C15_category_gate_witness :
    qt_message_print { samplePlatform with defaultCategory := some (fun t => t != QtDebugMsg) } 2
        QtDebugMsg QMessageLogContext.empty (some ['x']) Process.start
      = .returned Process.start
    ∧ (qt_message_print { samplePlatform with defaultCategory := some (fun t => t != QtDebugMsg) }
          2 QtDebugMsg sampleContext (some ['x']) Process.start).Holds (fun w2 =>
        w2.invoked = Process.start.invoked ++
          [expectedInvocation { samplePlatform with defaultCategory := some (fun t => t != QtDebugMsg) }
            Process.start QtDebugMsg sampleContext (some ['x'])]) :=
  ⟨(C15_category_gate { samplePlatform with defaultCategory := some (fun t => t != QtDebugMsg) } 1
      QtDebugMsg QMessageLogContext.empty (some ['x']) Process.start).1
      (fun t => t != QtDebugMsg) (Or.inl rfl) rfl rfl,
   ((C15_category_gate { samplePlatform with defaultCategory := some (fun t => t != QtDebugMsg) } 0
      QtDebugMsg sampleContext (some ['x']) Process.start).2 (by decide) (by decide)).2.1 rfl⟩

/-! ## C16 -/

/-- C16 as stated fails for a debug event of category "net" with message "x", dispatched
in a fresh process of the sample platform with an application handler installed: the
handler is called with the message "x", while the render of the event against the
current pattern is "net: x". -/
theorem C16_counterexample :
    (qt_message_print samplePlatform 2 QtDebugMsg sampleContext (some ['x'])
        handlerProcess).Holds
      (fun w2 => w2.invoked.head?
        = some (Invocation.messageHandler (MessageHandlerPtr.custom 0) QtDebugMsg sampleContext
            (some ['x'])))
    ∧ qFormatLogMessage samplePlatform.renderEnv
        (qMessagePattern samplePlatform
          handlerProcess).1
        QtDebugMsg sampleContext (some ['x'])
      = .ok (some "net: x".toList) := by
  refine ⟨?_, by decide⟩
  have h := qt_message_print_dispatch samplePlatform 0 QtDebugMsg sampleContext (some ['x'])
    handlerProcess
    (by decide) rfl
  refine Outcome.holds_mono h ?_
  intro w2 h2
  rw [h2]
  rfl

/-- C16, amended: a dispatch that passes the category gate and the recursion guard hands
the handler the message as it was logged, not a render of it. When the context-aware
slot holds an application handler, qt_message_print is the run of that handler's code
for the arguments (type, context, message), entered in the state of the call with only
the guard set and the call recorded (no pattern object constructed, nothing written),
followed by the release of the guard. When the context-aware slot holds the default
handler and the legacy slot an application handler, the legacy handler's code is run
for the type and the local 8-bit encoding of the message, cut at the first NUL. Only
when both slots hold the default handlers is the message rendered, inside
qDefaultMessageHandler. -/
theorem C16_handlers_receive_raw_message (pl : Platform) (fuel : Nat) (msgType : QtMsgType)
    (context : QMessageLogContext) (message : QString) (w : Process) (id : Nat)
    (hGate : droppedByCategory pl msgType context = false)
    (hGuard : w.msgHandlerGrabbed = false) :
    (w.messageHandler = MessageHandlerPtr.custom id →
        qt_message_print pl (fuel + 1) msgType context message w
          = (runActions pl (outputWith pl (qt_message_print pl fuel))
              (pl.messageHandlerBody id msgType context message)
              { w with msgHandlerGrabbed := true,
                       invoked := w.invoked ++
                         [Invocation.messageHandler (MessageHandlerPtr.custom id) msgType context
                           message] }).bind
            fun w2 => .returned (ungrabMessageHandler w2))
    ∧ (w.messageHandler = MessageHandlerPtr.qDefaultMessageHandler →
        w.msgHandler = MsgHandlerPtr.custom id →
        qt_message_print pl (fuel + 1) msgType context message w
          = (runActions pl (outputWith pl (qt_message_print pl fuel))
              (pl.msgHandlerBody id msgType (cstr (pl.toLocal8Bit message.text)))
              { w with msgHandlerGrabbed := true,
                       invoked := w.invoked ++
                         [Invocation.msgHandler (MsgHandlerPtr.custom id) msgType
                           (cstr (pl.toLocal8Bit message.text))] }).bind
            fun w2 => .returned (ungrabMessageHandler w2))
    ∧ (w.messageHandler = MessageHandlerPtr.qDefaultMessageHandler →
        w.msgHandler = MsgHandlerPtr.qDefaultMsgHandler →
        qt_message_print pl (fuel + 1) msgType context message w
          = (qDefaultMessageHandler pl msgType context message
              { w with msgHandlerGrabbed := true,
                       invoked := w.invoked ++
                         [Invocation.messageHandler MessageHandlerPtr.qDefaultMessageHandler
                           msgType context message] }).bind
            fun w2 => .returned (ungrabMessageHandler w2)) := by
  refine ⟨?_, ?_, ?_⟩
  · intro hm
    unfold qt_message_print
    simp [hGate, grabMessageHandler, hGuard, hm, callMessageHandler]
  · intro hm hl
    unfold qt_message_print
    simp [hGate, grabMessageHandler, hGuard, hm, hl, callMsgHandler]
  · intro hm hl
    unfold qt_message_print
    simp [hGate, grabMessageHandler, hGuard, hm, hl, callMessageHandler]

/-- C16 at a debug event of category "net" dispatched in a fresh process of the sample
platform with the application handler 0 installed. -/
theorem C16_handlers_receive_raw_message_witness :
    droppedByCategory samplePlatform QtDebugMsg sampleContext = false
    ∧ handlerProcess.msgHandlerGrabbed
        = false
    ∧ qt_message_print samplePlatform 2 QtDebugMsg sampleContext (some ['x'])
          handlerProcess
        = (runActions samplePlatform (outputWith samplePlatform (qt_message_print samplePlatform 1))
            (samplePlatform.messageHandlerBody 0 QtDebugMsg sampleContext (some ['x']))
            { handlerProcess with
                msgHandlerGrabbed := true,
                invoked := handlerProcess.invoked ++
                    [Invocation.messageHandler (MessageHandlerPtr.custom 0) QtDebugMsg
                      sampleContext (some ['x'])] }).bind
          fun w2 => .returned (ungrabMessageHandler w2) :=
  ⟨by decide, rfl,
   (C16_handlers_receive_raw_message samplePlatform 1 QtDebugMsg sampleContext (some ['x'])
      handlerProcess 0
      (by decide) rfl).1 rfl⟩

theorem cstr_of_no_nul (bytes : List Char) (h : Char.ofNat 0 ∉ bytes) : cstr bytes = bytes := by
  unfold cstr
  rw [List.takeWhile_eq_self_iff]
  intro c hc
  have : c ≠ Char.ofNat 0 := fun e => h (e ▸ hc)
  simpa using this

theorem qMessagePattern_journal (pl : Platform) (w : Process) :
    (qMessagePattern pl w).2.journal = w.journal := by
  unfold qMessagePattern
  split
  · simp only [printDiagnostics, printStderr]
    split_ifs <;> rfl
  · rfl
  · rfl

theorem qt_logging_to_console_sinks (pl : Platform) (w : Process) :
    (qt_logging_to_console pl w).2.stderr = w.stderr
    ∧ (qt_logging_to_console pl w).2.journal = w.journal := by
  unfold qt_logging_to_console
  split <;> exact ⟨rfl, rfl⟩

/-! ## C17 -/

/-- C17 as stated fails for a debug event of category "net" whose message is "a", a NUL
character and "b", handled by the default handler in a fresh process of the sample
platform (console output, identity encoding): qFormatLogMessage yields "net: a", NUL,
"b", and the handler writes "net: a" and a newline to stderr, which is not that text
followed by a newline. -/
theorem C17_counterexample :
    qFormatLogMessage samplePlatform.renderEnv (qMessagePattern samplePlatform Process.start).1
        QtDebugMsg sampleContext (some ['a', Char.ofNat 0, 'b'])
      = .ok (some ("net: a".toList ++ [Char.ofNat 0, 'b']))
    ∧ qDefaultMessageHandler samplePlatform QtDebugMsg sampleContext
        (some ['a', Char.ofNat 0, 'b']) Process.start
      = .returned
          { Process.start with
            qMessagePattern := .initialized (QMessagePattern.construct []).1,
            logToConsole := some true,
            stderr := "net: a\n".toList }
    ∧ "net: a\n".toList ≠ "net: a".toList ++ [Char.ofNat 0, 'b'] ++ ['\n'] := by
  refine ⟨by decide, by decide, by decide⟩

/-- C17, amended: when qFormatLogMessage yields the non-null string `text` for an event,
qDefaultMessageHandler returns after a write to exactly one sink. When the process does
not log to the console and the build uses the journal, one record with `text` as its
message is added to the journal and stderr is left as it is; otherwise stderr receives
the local 8-bit encoding of `text` cut at the first NUL, followed by one newline, and the
journal is left as it is. The bytes written are the whole encoding of `text` when it
contains no NUL. The state before the write is the one after the pattern object has been
fetched, which is the state of the call when the object exists already. -/
theorem C17_default_handler_output (pl : Platform) (type : QtMsgType)
    (context : QMessageLogContext) (buf : QString) (w : Process) (text : List Char)
    (hRender : qFormatLogMessage pl.renderEnv (qMessagePattern pl w).1 type context buf
      = .ok (some text)) :
    (∃ w3 : Process,
        qDefaultMessageHandler pl type context buf w = .returned w3
        ∧ (if (qt_logging_to_console pl (qMessagePattern pl w).2).1 = false
              ∧ pl.useJournald = true then
             w3.stderr = (qMessagePattern pl w).2.stderr
             ∧ w3.journal = w.journal ++
                 [{ message := text, priority := journalPriority type,
                    codeFunc := context.function.getD "unknown".toList,
                    codeLine := context.line,
                    codeFile := context.file.getD "unknown".toList,
                    qtCategory := context.category.getD "unknown".toList }]
           else
             w3.stderr = (qMessagePattern pl w).2.stderr ++ cstr (pl.toLocal8Bit text) ++ ['\n']
             ∧ w3.journal = w.journal))
    ∧ (Char.ofNat 0 ∉ pl.toLocal8Bit text → cstr (pl.toLocal8Bit text) = pl.toLocal8Bit text)
    ∧ (∀ p : QMessagePattern, w.qMessagePattern = GlobalStatic.initialized p →
        (qMessagePattern pl w).2 = w) := by
  refine ⟨?_, cstr_of_no_nul _, ?_⟩
  · have hj := qMessagePattern_journal pl w
    unfold qDefaultMessageHandler
    cases hq : qMessagePattern pl w with
    | mk o w1 =>
      rw [hq] at hRender hj
      simp only at hRender hj
      simp only [hRender]
      have hs := qt_logging_to_console_sinks pl w1
      by_cases hc : (qt_logging_to_console pl w1).1 = false ∧ pl.useJournald = true
      · rw [if_pos hc]
        refine ⟨_, rfl, ?_⟩
        rw [if_pos hc]
        refine ⟨?_, ?_⟩
        · simp only [systemd_default_message_handler]
          exact hs.1
        · simp only [systemd_default_message_handler]
          rw [hs.2, hj]
      · rw [if_neg hc]
        refine ⟨_, rfl, ?_⟩
        rw [if_neg hc]
        refine ⟨?_, ?_⟩
        · simp only
          rw [hs.1]
        · simp only
          rw [hs.2, hj]
  · intro p hp
    unfold qMessagePattern
    rw [hp]

/-- C17 at a debug event of category "net" with message "x", handled in a fresh process
of the sample platform. -/
theorem C17_default_handler_output_witness :
    qFormatLogMessage samplePlatform.renderEnv (qMessagePattern samplePlatform Process.start).1
        QtDebugMsg sampleContext (some ['x'])
      = .ok (some "net: x".toList)
    ∧ ∃ w3 : Process,
        qDefaultMessageHandler samplePlatform QtDebugMsg sampleContext (some ['x']) Process.start
          = .returned w3
        ∧ (if (qt_logging_to_console samplePlatform
                (qMessagePattern samplePlatform Process.start).2).1 = false
              ∧ samplePlatform.useJournald = true then
             w3.stderr = (qMessagePattern samplePlatform Process.start).2.stderr
             ∧ w3.journal = Process.start.journal ++
                 [{ message := "net: x".toList, priority := journalPriority QtDebugMsg,
                    codeFunc := sampleContext.function.getD "unknown".toList,
                    codeLine := sampleContext.line,
                    codeFile := sampleContext.file.getD "unknown".toList,
                    qtCategory := sampleContext.category.getD "unknown".toList }]
           else
             w3.stderr = (qMessagePattern samplePlatform Process.start).2.stderr
                 ++ cstr (samplePlatform.toLocal8Bit "net: x".toList) ++ ['\n']
             ∧ w3.journal = Process.start.journal) :=
  ⟨by decide,
   (C17_default_handler_output samplePlatform QtDebugMsg sampleContext (some ['x'])
      Process.start "net: x".toList (by decide)).1⟩

theorem finishError_congr (st st2 : TokState) (h3 : st.nestedIfError = st2.nestedIfError)
    (h4 : st.inIf = st2.inIf) (h5 : st.error = st2.error) :
    finishError st = finishError st2 := by
  unfold finishError
  rw [h3, h4, h5]

theorem getD_getD {α : Type} (o : Option α) (a : α) : o.getD (o.getD a) = o.getD a := by
  cases o <;> rfl

theorem setPattern_fromEnvironment (p0 : QMessagePattern) (pattern : List Char) :
    (p0.setPattern pattern).1.fromEnvironment = p0.fromEnvironment := rfl

theorem setPattern_idempotent (p0 : QMessagePattern) (pattern : List Char) :
    (p0.setPattern pattern).1.setPattern pattern = p0.setPattern pattern := by
  obtain ⟨h1, h2, h3, h4, h5⟩ := tokenize_control (scan pattern)
    (TokState.start (p0.setPattern pattern).1) (TokState.start p0) rfl rfl rfl rfl rfl
  have ht := setPattern_timeFormat (p0.setPattern pattern).1 pattern
  have hd := setPattern_backtraceDepth (p0.setPattern pattern).1 pattern
  have hs := setPattern_backtraceSeparator (p0.setPattern pattern).1 pattern
  rw [setPattern_timeFormat p0 pattern, getD_getD, ← setPattern_timeFormat p0 pattern] at ht
  rw [setPattern_backtraceDepth p0 pattern, getD_getD, ← setPattern_backtraceDepth p0 pattern]
    at hd
  rw [setPattern_backtraceSeparator p0 pattern, getD_getD,
    ← setPattern_backtraceSeparator p0 pattern] at hs
  apply Prod.ext
  · have e : ∀ a b : QMessagePattern, a.literals = b.literals → a.tokens = b.tokens →
        a.timeFormat = b.timeFormat → a.backtraceDepth = b.backtraceDepth →
        a.backtraceSeparator = b.backtraceSeparator → a.fromEnvironment = b.fromEnvironment →
        a = b := by
      intro a b k1 k2 k3 k4 k5 k6
      cases a; cases b
      simp_all
    exact e _ _ h2 h1 ht hd hs rfl
  · exact finishError_congr _ _ h3 h4 h5

/-! ## C18 -/

/-- C18: for every pattern and every prior pattern object, a second call of
setPattern with the same pattern leaves the object as the first call left it (literals,
tokens, time format, backtrace depth, separator and origin flag) and produces the same
diagnostics, so for every event the render against the object after two calls is the
render against the object after one call. -/
theorem C18_setPattern_idempotent (p0 : QMessagePattern) (pattern : List Char)
    (env : RenderEnv) (type : QtMsgType) (context : QMessageLogContext) (str : QString) :
    (p0.setPattern pattern).1.setPattern pattern = p0.setPattern pattern
    ∧ ((p0.setPattern pattern).1.setPattern pattern).1.tokens = (p0.setPattern pattern).1.tokens
    ∧ ((p0.setPattern pattern).1.setPattern pattern).1.timeFormat
        = (p0.setPattern pattern).1.timeFormat
    ∧ ((p0.setPattern pattern).1.setPattern pattern).1.backtraceDepth
        = (p0.setPattern pattern).1.backtraceDepth
    ∧ ((p0.setPattern pattern).1.setPattern pattern).1.backtraceSeparator
        = (p0.setPattern pattern).1.backtraceSeparator
    ∧ qFormatLogMessage env (some ((p0.setPattern pattern).1.setPattern pattern).1)
          type context str
        = qFormatLogMessage env (some (p0.setPattern pattern).1) type context str := by
  have h := setPattern_idempotent p0 pattern
  refine ⟨h, ?_, ?_, ?_, ?_, ?_⟩ <;> rw [h]

theorem renderLoop_appended (env : RenderEnv) (p : QMessagePattern) (type : QtMsgType)
    (context : QMessageLogContext) (str : QString) (t : Token) (rest : List Token)
    (message piece : QString) (hPlain : t.isConditional = false)
    (hPiece : appended env p type context str t = .ok piece) :
    renderLoop env p type context str (t :: rest) false message
      = renderLoop env p type context str rest false (message.append piece) := by
  simp only [renderLoop, ne_endif_of_not_conditional t hPlain,
    conditional_eq_none type context t hPlain, hPiece]
  simp

theorem lastSome_append {α β : Type} (f : α → Option β) (a b : List α) :
    lastSome f (a ++ b) = (lastSome f b).orElse (fun _ => lastSome f a) := by
  induction a with
  | nil => cases h : lastSome f b <;> simp [lastSome, h]
  | cons x rest ih =>
    show (match lastSome f (rest ++ b) with
      | some y => some y
      | none => f x) = _
    rw [ih]
    cases h : lastSome f b <;> simp [lastSome]

theorem lastSome_none {α β : Type} (f : α → Option β) (a : List α)
    (h : ∀ x ∈ a, f x = none) : lastSome f a = none := by
  induction a with
  | nil => rfl
  | cons x rest ih =>
    have hx := h x (List.mem_cons_self _ _)
    have hr : ∀ y ∈ rest, f y = none := fun y hy => h y (List.mem_cons_of_mem _ hy)
    simp [lastSome, ih hr, hx]

/-! ## C19 -/

/-- C19: for every event and pattern object, when the file of the event is absent the
file token appends "unknown", when the function is absent the function token appends
"unknown", and when the category is absent the category token appends the null (empty)
string; in each case the token loop goes on with the tokens that follow, not skipping.
The pattern `%{file}:%{function}:%{category}:%{message}` renders an event without file,
function and category as "unknown:unknown::" followed by the message. -/
theorem C19_absent_fields (env : RenderEnv) (p p0 : QMessagePattern) (type : QtMsgType)
    (context : QMessageLogContext) (str : QString) (rest : List Token) (message : QString) :
    (context.file = none →
        appended env p type context str Token.fileTokenC = .ok (some "unknown".toList)
        ∧ renderLoop env p type context str (Token.fileTokenC :: rest) false message
          = renderLoop env p type context str rest false
              (message.append (some "unknown".toList)))
    ∧ (context.function = none →
        appended env p type context str Token.functionTokenC = .ok (some "unknown".toList)
        ∧ renderLoop env p type context str (Token.functionTokenC :: rest) false message
          = renderLoop env p type context str rest false
              (message.append (some "unknown".toList)))
    ∧ (context.category = none →
        appended env p type context str Token.categoryTokenC = .ok none
        ∧ renderLoop env p type context str (Token.categoryTokenC :: rest) false message
          = renderLoop env p type context str rest false message)
    ∧ qFormatLogMessage env
        (some (p0.setPattern "%{file}:%{function}:%{category}:%{message}".toList).1)
        type QMessageLogContext.empty str
      = .ok (some ("unknown:unknown::".toList ++ str.text)) := by
  refine ⟨?_, ?_, ?_, ?_⟩
  · intro h
    have ha : appended env p type context str Token.fileTokenC = .ok (some "unknown".toList) := by
      simp only [appended, h, QLatin1String]
    exact ⟨ha, renderLoop_appended env p type context str Token.fileTokenC rest message _ rfl ha⟩
  · intro h
    have ha : appended env p type context str Token.functionTokenC
        = .ok (some "unknown".toList) := by
      simp only [appended, h, QLatin1String]
    exact ⟨ha, renderLoop_appended env p type context str Token.functionTokenC rest message _ rfl ha⟩
  · intro h
    have ha : appended env p type context str Token.categoryTokenC = .ok none := by
      simp only [appended, h, QLatin1String]
    exact ⟨ha, renderLoop_appended env p type context str Token.categoryTokenC rest message _ rfl ha⟩
  · have hTok : (p0.setPattern "%{file}:%{function}:%{category}:%{message}".toList).1.tokens
        = [Token.fileTokenC, Token.literal [':'], Token.functionTokenC, Token.literal [':'],
           Token.categoryTokenC, Token.literal [':'], Token.messageTokenC] := rfl
    rw [qFormatLogMessage_some, hTok]
    cases str <;>
      simp [renderLoop, conditional, appended, QLatin1String, QString.append, QString.text,
        QMessageLogContext.empty]

/-- C19 at a warning without file, function and category. -/
theorem C19_absent_fields_witness :
    QMessageLogContext.empty.file = none
    ∧ appended sampleEnv QMessagePattern.initial QtWarningMsg QMessageLogContext.empty
        (some ['m']) Token.fileTokenC = .ok (some "unknown".toList)
    ∧ renderLoop sampleEnv QMessagePattern.initial QtWarningMsg QMessageLogContext.empty
        (some ['m']) (Token.fileTokenC :: [Token.messageTokenC]) false none
      = renderLoop sampleEnv QMessagePattern.initial QtWarningMsg QMessageLogContext.empty
          (some ['m']) [Token.messageTokenC] false
          (QString.append none (some "unknown".toList)) :=
  ⟨rfl,
   (C19_absent_fields sampleEnv QMessagePattern.initial QMessagePattern.initial QtWarningMsg
      QMessageLogContext.empty (some ['m']) [Token.messageTokenC] none).1 rfl⟩

theorem toDigits_length_le_three (k : Nat) (h : k < 1000) : (Nat.toDigits 10 k).length ≤ 3 :=
  Nat.toDigitsCore_length 10 (by decide) (k + 1) k 3 (by simpa using h) (by decide)

theorem toDigits_ne_nil (k : Nat) : 0 < (Nat.toDigits 10 k).length := by
  unfold Nat.toDigits Nat.toDigitsCore
  simp only
  split_ifs
  · simp
  · rw [Nat.toDigitsCore_lens_eq]
    omega

/-! ## C21 -/

/-- C21 as stated fails at 1234567 ms: the time token of a pattern with the format
"process" renders "  1234.567", the seconds padded with blanks to six characters, and
not "1234.567", the seconds at their natural width. -/
theorem C21_counterexample :
    qFormatLogMessage sampleEnv
        (some (QMessagePattern.initial.setPattern "%{time process}".toList).1)
        QtDebugMsg sampleContext none = .ok (some "  1234.567".toList)
    ∧ sampleEnv.elapsed = 1234567
    ∧ specProcessTime 1234567 = "1234.567".toList
    ∧ processTime 1234567 ≠ specProcessTime 1234567 := by
  refine ⟨by decide, rfl, by decide, by decide⟩

/-- C21, amended: for every elapsed time of ms milliseconds whose seconds fit a signed
32-bit integer, the time token of a pattern with the format "process" renders the decimal
digits of ms div 1000 padded on the left with blanks to at least six characters, then
".", then the decimal digits of ms mod 1000 padded on the left with zeros to exactly
three characters. -/
theorem C21_process_time (ms : Nat) (env : RenderEnv) (p : QMessagePattern)
    (type : QtMsgType) (context : QMessageLogContext) (str : QString)
    (hFits : ms / 1000 < 2147483648) :
    processTime ms
      = List.leftpad 6 ' ' (Nat.toDigits 10 (ms / 1000)) ++ ['.']
          ++ List.leftpad 3 '0' (Nat.toDigits 10 (ms % 1000))
    ∧ (List.leftpad 6 ' ' (Nat.toDigits 10 (ms / 1000))).length
        = max 6 (Nat.toDigits 10 (ms / 1000)).length
    ∧ (List.leftpad 3 '0' (Nat.toDigits 10 (ms % 1000))).length = 3
    ∧ (p.timeFormat = "process".toList → env.elapsed = ms →
        appended env p type context str Token.timeTokenC = .ok (some (processTime ms))) := by
  refine ⟨?_, List.leftpad_length _ _ _, ?_, ?_⟩
  · have h1 : ms / 1000 % 4294967296 = ms / 1000 := Nat.mod_eq_of_lt (by omega)
    have h2 : ¬ (ms / 1000 ≥ 2147483648) := by omega
    simp only [processTime, h1, if_neg h2, number]
    have h3 : ¬ ((↑(ms / 1000) : Int) < 0) := by omega
    have h4 : ¬ ((↑(ms % 1000) : Int) < 0) := by omega
    rw [if_neg h3, if_neg h4, Int.toNat_ofNat, Int.toNat_ofNat]
  · rw [List.leftpad_length]
    have := toDigits_length_le_three (ms % 1000) (Nat.mod_lt _ (by decide))
    omega
  · intro hf he
    simp only [appended, hf, he, if_true]

/-- C21 at 5 ms: the text is five blanks, "0", ".", "005". -/
theorem C21_process_time_witness :
    5 / 1000 < 2147483648
    ∧ processTime 5
      = List.leftpad 6 ' ' (Nat.toDigits 10 (5 / 1000)) ++ ['.']
          ++ List.leftpad 3 '0' (Nat.toDigits 10 (5 % 1000))
    ∧ processTime 5 = "     0.005".toList :=
  ⟨by decide,
   (C21_process_time 5 sampleEnv QMessagePattern.initial QtDebugMsg sampleContext none
      (by decide)).1,
   by decide⟩

/-! ## C22 -/

/-- C22: when the pattern object no longer exists, qFormatLogMessage returns the
message it was given, for every type, context and message (a null message stays null);
and in a process whose pattern object has been destroyed the accessor qMessagePattern()
returns the null pointer and leaves the state as it is, so the render of every event in
that process is its message. -/
theorem C22_pattern_destroyed (env : RenderEnv) (type : QtMsgType)
    (context : QMessageLogContext) (str : QString) (pl : Platform) (w : Process)
    (hGone : w.qMessagePattern = GlobalStatic.destroyed) :
    qFormatLogMessage env none type context str = .ok str
    ∧ qMessagePattern pl w = (none, w)
    ∧ qFormatLogMessage pl.renderEnv (qMessagePattern pl w).1 type context str = .ok str := by
  have h1 : qFormatLogMessage env none type context str = .ok str := by
    simp [qFormatLogMessage]
  have h2 : qMessagePattern pl w = (none, w) := by
    unfold qMessagePattern
    rw [hGone]
  refine ⟨h1, h2, ?_⟩
  rw [h2]
  simp [qFormatLogMessage]

/-- C22 at a fatal event with message "bye" in a process after teardown. -/
theorem C22_pattern_destroyed_witness :
    ({ Process.start with qMessagePattern := GlobalStatic.destroyed } : Process).qMessagePattern
        = GlobalStatic.destroyed
    ∧ qFormatLogMessage samplePlatform.renderEnv
        (qMessagePattern samplePlatform
          { Process.start with qMessagePattern := GlobalStatic.destroyed }).1
        QtFatalMsg sampleContext (some "bye".toList) = .ok (some "bye".toList) :=
  ⟨rfl,
   (C22_pattern_destroyed sampleEnv QtFatalMsg sampleContext (some "bye".toList) samplePlatform
      { Process.start with qMessagePattern := GlobalStatic.destroyed } rfl).2.2⟩

/-! ## C24 -/

/-- C24: grabMessageHandler returns true and sets the flag `msgHandlerGrabbed` when the
flag is clear, and returns false and leaves the state as it is when the flag is set;
ungrabMessageHandler clears the flag and changes nothing else. So from a state with the
flag clear, two calls of grabMessageHandler return true and then false, and
grabMessageHandler, ungrabMessageHandler, grabMessageHandler returns true both times. -/
theorem C24_grab_ungrab (w : Process) :
    (w.msgHandlerGrabbed = false →
        grabMessageHandler w = (true, { w with msgHandlerGrabbed := true }))
    ∧ (w.msgHandlerGrabbed = true → grabMessageHandler w = (false, w))
    ∧ ungrabMessageHandler w = { w with msgHandlerGrabbed := false }
    ∧ (w.msgHandlerGrabbed = false →
        (grabMessageHandler w).1 = true
        ∧ (grabMessageHandler (grabMessageHandler w).2).1 = false
        ∧ (grabMessageHandler (grabMessageHandler w).2).2.msgHandlerGrabbed = true)
    ∧ (w.msgHandlerGrabbed = false →
        (grabMessageHandler w).1 = true
        ∧ (grabMessageHandler (ungrabMessageHandler (grabMessageHandler w).2)).1 = true) := by
  refine ⟨?_, ?_, rfl, ?_, ?_⟩
  · intro h
    simp [grabMessageHandler, h]
  · intro h
    simp [grabMessageHandler, h]
  · intro h
    simp [grabMessageHandler, h]
  · intro h
    simp [grabMessageHandler, ungrabMessageHandler, h]

/-- C24 at a fresh process. -/
theorem C24_grab_ungrab_witness :
    Process.start.msgHandlerGrabbed = false
    ∧ (grabMessageHandler Process.start).1 = true
    ∧ (grabMessageHandler (grabMessageHandler Process.start).2).1 = false
    ∧ (grabMessageHandler (grabMessageHandler Process.start).2).2.msgHandlerGrabbed = true :=
  ⟨rfl, (C24_grab_ungrab Process.start).2.2.2.1 rfl⟩

/-! ## C27 -/

/-- C27: willLogToConsole returns false when QT_LOGGING_TO_CONSOLE is "0" and true when
it is "1", whatever the terminal detection finds; when the variable is unset, the result
is that of the terminal detection: the result of isatty on stderr when /dev/tty cannot be
opened because it does not exist or access is denied, otherwise whether /dev/tty could
be opened. -/
theorem C27_console_choice (pl : Platform) :
    (pl.QT_LOGGING_TO_CONSOLE = some ['0'] → willLogToConsole pl = false)
    ∧ (pl.QT_LOGGING_TO_CONSOLE = some ['1'] → willLogToConsole pl = true)
    ∧ (pl.QT_LOGGING_TO_CONSOLE = none →
        willLogToConsole pl
          = if pl.devtty = -1 ∧ (pl.errno = ENOENT ∨ pl.errno = EPERM) then pl.isattyStderr
            else decide (pl.devtty ≠ -1)) := by
  have h0 : toUInt ['0'] = some 0 := by decide
  have h1 : toUInt ['1'] = some 1 := by decide
  have hn : toUInt [] = none := by decide
  refine ⟨?_, ?_, ?_⟩
  · intro h
    simp only [willLogToConsole, h, Option.getD_some, h0]
    rfl
  · intro h
    simp only [willLogToConsole, h, Option.getD_some, h1]
    rfl
  · intro h
    simp only [willLogToConsole, h, Option.getD_none, hn]
    split_ifs <;> simp_all

/-- C27 on platforms with a controlling terminal and the variable set to "0", and
without a terminal and the variable set to "1". -/
theorem C27_console_choice_witness :
    willLogToConsole { samplePlatform with QT_LOGGING_TO_CONSOLE := some ['0'] } = false
    ∧ willLogToConsole
        { samplePlatform with QT_LOGGING_TO_CONSOLE := some ['1'], devtty := -1, errno := 6,
                              isattyStderr := false } = true :=
  ⟨(C27_console_choice { samplePlatform with QT_LOGGING_TO_CONSOLE := some ['0'] }).1 rfl,
   (C27_console_choice
      { samplePlatform with QT_LOGGING_TO_CONSOLE := some ['1'], devtty := -1, errno := 6,
                            isattyStderr := false }).2.1 rfl⟩

/-! ## C28 -/

/-- C28 as stated fails for the frame `/usr/lib/libfoo.so(+0x10) [0x400]`, whose function
name is empty and whose library is `libfoo.so`: as the first frame printed for an event
with the function `int main()`, the backtrace token emits "main", not "?libfoo.so?". -/
theorem C28_counterexample :
    matchFrame "/usr/lib/libfoo.so(+0x10) [0x400]".toList = some ("libfoo.so".toList, [])
    ∧ sampleContext.function = some "int main()".toList
    ∧ qFormatLogMessage unnamedFrameEnv
        (some (QMessagePattern.initial.setPattern "%{backtrace}".toList).1)
        QtDebugMsg sampleContext none = .ok (some "main".toList) := by
  refine ⟨by decide, rfl, by decide⟩

/-- C28, amended: for a stack frame that the backtrace token prints (the line matches,
the depth is not reached, the frame is not one of the skipped frames of QtCore) and whose
function name after demangling is empty: when a frame has been printed before it, or the
event has no function, the text for the frame is "?", the library, "?", after the
separator if a frame has been printed before; when it is the first frame printed and the
event has a function, the text is the cleaned-up function of the event instead. The
library is the module name without its directory path: for the line
`/usr/lib/libfoo.so(+0x10) [0x400]` it is `libfoo.so`. -/
theorem C28_unnamed_frame (env : RenderEnv) (p : QMessagePattern)
    (context : QMessageLogContext) (trace : List Char) (rest : List (List Char))
    (numberPrinted : Int) (acc : QString) (library function : List Char)
    (hMatch : matchFrame trace = some (library, function))
    (hDepth : numberPrinted < p.backtraceDepth)
    (hKept : ¬ (numberPrinted = 0 ∧ contains library "Qt5Core".toList
        ∧ (function.isEmpty ∨ contains (function.map Char.toLower) "message".toList
            ∨ contains function "QDebug".toList)))
    (hName : demangledName env function = .ok []) :
    (numberPrinted ≠ 0 ∨ context.function = none →
        backtraceLoop env p context (trace :: rest) numberPrinted acc
          = backtraceLoop env p context rest (numberPrinted + 1)
              ((if numberPrinted > 0 then acc.append (some p.backtraceSeparator)
                else acc).append (some ('?' :: library ++ ['?']))))
    ∧ (∀ f : CString, numberPrinted = 0 → context.function = some f →
        backtraceLoop env p context (trace :: rest) numberPrinted acc
          = (qCleanupFuncinfo f).bind fun text =>
              backtraceLoop env p context rest 1 (acc.append (some text)))
    ∧ matchFrame "/usr/lib/libfoo.so(+0x10) [0x400]".toList = some ("libfoo.so".toList, [])
    ∧ qFormatLogMessage unnamedFrameEnv
        (some (QMessagePattern.initial.setPattern "%{backtrace}".toList).1)
        QtDebugMsg QMessageLogContext.empty none = .ok (some "?libfoo.so?".toList) := by
  have hStep : backtraceLoop env p context (trace :: rest) numberPrinted acc
      = (frameText context numberPrinted library []).bind fun text =>
          backtraceLoop env p context rest (numberPrinted + 1)
            ((if numberPrinted > 0 then acc.append (some p.backtraceSeparator)
              else acc).append (some text)) := by
    rw [backtraceLoop, if_pos hDepth, hMatch]
    simp only
    rw [if_neg hKept, hName]
    rfl
  refine ⟨?_, ?_, by decide, by decide⟩
  · intro h
    rw [hStep]
    have hf : frameText context numberPrinted library [] = .ok ('?' :: library ++ ['?']) := by
      unfold frameText
      rcases h with h | h
      · simp [h]
      · simp [h]
    rw [hf]
    rfl
  · intro f h0 hf
    rw [hStep]
    have hft : frameText context numberPrinted library [] = qCleanupFuncinfo f := by
      unfold frameText
      simp [h0, hf]
    rw [hft, h0]
    simp

/-- C28 at the second printed frame of an event: the frame without a name follows one
printed frame and is rendered as "?libfoo.so?" after the separator. -/
theorem C28_unnamed_frame_witness :
    matchFrame "/usr/lib/libfoo.so(+0x10) [0x400]".toList = some ("libfoo.so".toList, [])
    ∧ (1 : Int) < QMessagePattern.initial.backtraceDepth
    ∧ demangledName sampleEnv [] = .ok []
    ∧ backtraceLoop sampleEnv QMessagePattern.initial sampleContext
        ("/usr/lib/libfoo.so(+0x10) [0x400]".toList :: []) 1 (some "main".toList)
      = backtraceLoop sampleEnv QMessagePattern.initial sampleContext [] (1 + 1)
          ((if (1 : Int) > 0 then
              QString.append (some "main".toList) (some QMessagePattern.initial.backtraceSeparator)
            else some "main".toList).append (some ('?' :: "libfoo.so".toList ++ ['?']))) :=
  ⟨by decide, by decide, by decide,
   (C28_unnamed_frame sampleEnv QMessagePattern.initial sampleContext
      "/usr/lib/libfoo.so(+0x10) [0x400]".toList [] 1 (some "main".toList)
      "libfoo.so".toList [] (by decide) (by decide) (by decide) (by decide)).1
      (Or.inl (by decide))⟩

/-! ## Lemmas on the string operations -/

theorem indexOfFrom_eq_neg_one_iff (needle : List Char) (s : List Char) :
    ∀ i : Nat, indexOfFrom needle s i = -1 ↔ ¬ needle <:+: s := by
  induction s with
  | nil =>
    intro i
    unfold indexOfFrom
    cases needle with
    | nil => simp
    | cons a t => simp
  | cons c rest ih =>
    intro i
    unfold indexOfFrom
    rw [List.infix_cons_iff]
    by_cases hp : needle.isPrefixOf (c :: rest) = true
    · rw [if_pos hp]
      have hp2 : needle <+: c :: rest := List.isPrefixOf_iff_prefix.mp hp
      constructor
      · intro h; omega
      · intro h; exact absurd (Or.inl hp2) h
    · rw [if_neg hp, ih]
      have hp2 : ¬ needle <+: c :: rest := fun h => hp (List.isPrefixOf_iff_prefix.mpr h)
      constructor
      · intro h hor
        rcases hor with h1 | h1
        · exact hp2 h1
        · exact h h1
      · intro h h1
        exact h (Or.inr h1)

theorem contains_eq_false_iff (s needle : List Char) :
    contains s needle = false ↔ ¬ needle <:+: s := by
  unfold contains indexOf
  rw [← indexOfFrom_eq_neg_one_iff needle s 0]
  simp

theorem not_infix_of_suffix {needle s t : List Char} (h : ¬ needle <:+: s) (ht : t <:+ s) :
    ¬ needle <:+: t :=
  fun hn => h (hn.trans ht.isInfix)

theorem replaceGo_of_absent (before after : List Char) (s : List Char)
    (h : ¬ before <:+: s) : replaceGo before after 0 s = s := by
  induction s with
  | nil => rfl
  | cons c rest ih =>
    unfold replaceGo
    have hp : ¬ (before.isPrefixOf (c :: rest) = true) := by
      intro hp
      exact h (List.isPrefixOf_iff_prefix.mp hp).isInfix
    rw [if_neg hp, ih (not_infix_of_suffix h (List.suffix_cons c rest))]

theorem lastIndexOfChar_of_not_mem (s : List Char) (c : Char) (h : c ∉ s) :
    lastIndexOfChar s c = -1 := by
  unfold lastIndexOfChar
  have : s.reverse.indexOf? c = none := by
    unfold List.indexOf?
    rw [List.findIdx?_eq_none_iff]
    intro x hx
    have hx2 : x ∈ s := List.mem_reverse.mp hx
    simp only [beq_eq_false_iff_ne, ne_eq]
    intro e
    exact h (e ▸ hx2)
  rw [this]

theorem lastIndexOfChar_append_cons (a b : List Char) (c : Char) (h : c ∉ b) :
    lastIndexOfChar (a ++ c :: b) c = a.length := by
  unfold lastIndexOfChar
  have : (a ++ c :: b).reverse.indexOf? c = some b.length := by
    unfold List.indexOf?
    rw [List.reverse_append, List.reverse_cons, List.append_assoc, List.findIdx?_append]
    have h1 : b.reverse.findIdx? (fun x => x == c) = none := by
      rw [List.findIdx?_eq_none_iff]
      intro x hx
      have hx2 : x ∈ b := List.mem_reverse.mp hx
      simp only [beq_eq_false_iff_ne, ne_eq]
      intro e
      exact h (e ▸ hx2)
    rw [h1]
    simp [List.findIdx?_cons]
  rw [this]
  simp only [List.length_append, List.length_cons]
  push_cast
  omega

theorem byteAt_append_cons (a b : List Char) (c : Char) (i : Int) (h : i = a.length) :
    byteAt (a ++ c :: b) i = .ok c := by
  subst h
  unfold byteAt
  have hc : (0 : Int) ≤ (a.length : Int) ∧ (a.length : Int) < ((a ++ c :: b).length : Nat) := by
    simp only [List.length_append, List.length_cons]
    push_cast
    omega
  rw [if_pos hc]
  have hg : (a ++ c :: b).get? (a.length : Int).toNat = some c := by
    rw [Int.toNat_ofNat, List.get?_eq_getElem?, List.getElem?_append_right (Nat.le_refl _)]
    simp
  rw [hg]

theorem byteAt_mem (info : List Char) (i : Int) (c : Char) (h : byteAt info i = .ok c) :
    c ∈ info := by
  unfold byteAt at h
  split_ifs at h
  split at h
  · rename_i x hx
    have : x = c := by simpa using h
    subst this
    exact List.get?_mem hx
  · simp at h

/-! ## Lemmas on the scanner -/

theorem isClosedPlaceholder_of_shape (body : List Char) (h : '}' ∉ body) :
    isClosedPlaceholder ('%' :: '{' :: (body ++ ['}'])) = true := by
  have hc : List.count '}' body = 0 := List.count_eq_zero.mpr h
  have hs : startsWith ('%' :: '{' :: (body ++ ['}'])) ['%', '{'] = true := by
    simp [startsWith, List.isPrefixOf]
  have hl : ('%' :: '{' :: (body ++ ['}'])).getLast? = some '}' := by
    have e : '%' :: '{' :: (body ++ ['}']) = ('%' :: '{' :: body) ++ ['}'] := by simp
    rw [e, List.getLast?_append]
    rfl
  have hn : ('%' :: '{' :: (body ++ ['}'])).count '}' = 1 := by
    simp [List.count_cons, List.count_append, hc]
  simp [isClosedPlaceholder, hs, hl, hn]

theorem isOpenPlaceholder_of_shape (body : List Char) (h : '}' ∉ body) :
    isOpenPlaceholder ('%' :: '{' :: body) = true := by
  have hs : startsWith ('%' :: '{' :: body) ['%', '{'] = true := by
    simp [startsWith, List.isPrefixOf]
  have he : ('%' :: '{' :: body).elem '}' = false := by
    simp [List.elem_eq_mem, h]
  simp [isOpenPlaceholder, hs, h]

theorem isLiteralRun_of_absent (l : List Char) (h : ¬ ['%', '{'] <:+: l) :
    isLiteralRun l = true := by
  have := (contains_eq_false_iff l ['%', '{']).mpr h
  have e : "%\x7b".toList = ['%', '{'] := rfl
  simp [isLiteralRun, e, this]

/-- The invariant of the scanner loop, `rest` being the characters still to be read: the
lexemes flushed so far are non-empty closed placeholders or literal runs; inside a
placeholder the current lexeme is `%` and a text without closing brace, and `{` follows
the `%`; outside a placeholder the current lexeme, with the next character, holds no
`%{`. -/
theorem scanStep_invariant (st : ScanState) (c : Char) (rest : List Char)
    (hLex : ∀ l ∈ st.lexemes, l ≠ [] ∧ (isClosedPlaceholder l = true ∨ isLiteralRun l = true))
    (hIn : st.inPlaceholder = true →
      ∃ body, st.lexeme = '%' :: body ∧ '}' ∉ body ∧ (body ++ c :: rest).head? = some '{')
    (hOut : st.inPlaceholder = false → ¬ ['%', '{'] <:+: st.lexeme ++ [c]) :
    (∀ l ∈ (scanStep st c rest.head?).lexemes,
        l ≠ [] ∧ (isClosedPlaceholder l = true ∨ isLiteralRun l = true))
    ∧ ((scanStep st c rest.head?).inPlaceholder = true →
        ∃ body, (scanStep st c rest.head?).lexeme = '%' :: body ∧ '}' ∉ body
          ∧ (body ++ rest).head? = some '{')
    ∧ ((scanStep st c rest.head?).inPlaceholder = false →
        ¬ ['%', '{'] <:+: (scanStep st c rest.head?).lexeme ++ rest.head?.toList)
    ∧ (scanStep st c rest.head?).lexemes.flatten ++ (scanStep st c rest.head?).lexeme
        = st.lexemes.flatten ++ st.lexeme ++ [c] := by
  have hTwo : ∀ x : Option Char, ¬ ['%', '{'] <:+: ([] : List Char) ++ x.toList := by
    intro x h
    have := h.length_le
    cases x <;> simp at this
  cases hp : st.inPlaceholder with
  | true =>
    obtain ⟨body, hb, hnb, hhead⟩ := hIn hp
    have h1 : ¬ (c = '%' ∧ st.inPlaceholder = false ∧ rest.head? = some '{') := by
      rw [hp]; simp
    by_cases hc : c = '}'
    · -- the placeholder is closed
      subst hc
      have hbody : ∃ b2, body = '{' :: b2 := by
        cases body with
        | nil => simp at hhead
        | cons x b2 =>
          simp only [List.cons_append, List.head?_cons, Option.some.injEq] at hhead
          exact ⟨b2, by rw [hhead]⟩
      obtain ⟨b2, rfl⟩ := hbody
      have hnb2 : '}' ∉ b2 := fun h => hnb (List.mem_cons_of_mem _ h)
      have hs : scanStep st '}' rest.head?
          = { lexemes := st.lexemes ++ ['%' :: '{' :: (b2 ++ ['}'])], lexeme := [],
              inPlaceholder := false } := by
        simp [scanStep, hp, hb]
      rw [hs]
      refine ⟨?_, ?_, ?_, ?_⟩
      · intro l hl
        rcases List.mem_append.mp hl with h | h
        · exact hLex l h
        · rw [List.mem_singleton.mp h]
          exact ⟨by simp, Or.inl (isClosedPlaceholder_of_shape b2 hnb2)⟩
      · intro h; simp at h
      · intro _; exact hTwo _
      · simp [hb]
    · -- the placeholder goes on
      have hs : scanStep st c rest.head? = { st with lexeme := st.lexeme ++ [c] } := by
        simp [scanStep, hp, hc]
      rw [hs]
      refine ⟨hLex, ?_, ?_, (List.append_assoc _ _ _).symm⟩
      · intro _
        refine ⟨body ++ [c], by simp [hb], ?_, ?_⟩
        · intro h
          rcases List.mem_append.mp h with h | h
          · exact hnb h
          · exact hc (List.mem_singleton.mp h).symm
        · simpa using hhead
      · intro h
        simp [hp] at h
  | false =>
    have hlit := hOut hp
    by_cases h1 : c = '%' ∧ rest.head? = some '{'
    · -- a placeholder begins
      obtain ⟨hc, hn⟩ := h1
      subst hc
      have hs : scanStep st '%' rest.head?
          = { lexemes := if st.lexeme.isEmpty then st.lexemes else st.lexemes ++ [st.lexeme],
              lexeme := ['%'], inPlaceholder := true } := by
        simp [scanStep, hp, hn]
      rw [hs]
      refine ⟨?_, ?_, ?_, ?_⟩
      · intro l hl
        by_cases he : st.lexeme.isEmpty = true
        · rw [if_pos he] at hl
          exact hLex l hl
        · rw [if_neg he] at hl
          rcases List.mem_append.mp hl with h | h
          · exact hLex l h
          · rw [List.mem_singleton.mp h]
            refine ⟨fun e => he (by simp [e]), Or.inr (isLiteralRun_of_absent _ ?_)⟩
            intro hi
            exact hlit (hi.trans (List.prefix_append _ _).isInfix)
      · intro _
        exact ⟨[], rfl, by simp, by simpa using hn⟩
      · intro h; simp at h
      · by_cases he : st.lexeme.isEmpty = true
        · rw [if_pos he]
          have : st.lexeme = [] := by simpa using he
          simp [this]
        · rw [if_neg he]
          simp
    · -- a character of a literal run
      have h2 : ¬ (c = '%' ∧ st.inPlaceholder = false ∧ rest.head? = some '{') := by
        intro h; exact h1 ⟨h.1, h.2.2⟩
      have hs : scanStep st c rest.head? = { st with lexeme := st.lexeme ++ [c] } := by
        simp [scanStep, hp, h1]
      rw [hs]
      refine ⟨hLex, ?_, ?_, (List.append_assoc _ _ _).symm⟩
      · intro h
        simp [hp] at h
      · intro _
        cases hr : rest.head? with
        | none => simpa using hlit
        | some d =>
          simp only [Option.toList_some]
          intro hi
          rcases List.infix_concat_iff.mp hi with h | h
          · -- the occurrence ends at `d`
            rcases List.suffix_concat_iff.mp h with h | ⟨t, ht, hsuf⟩
            · simp at h
            · have e : ['%', '{'] = ['%'] ++ ['{'] := rfl
              rw [e] at ht
              have hd := List.append_inj' ht rfl
              have ht2 : t = ['%'] := hd.1.symm
              have hdd : d = '{' := by
                have := hd.2
                simp at this
                exact this.symm
              subst ht2
              rcases List.suffix_concat_iff.mp hsuf with h3 | ⟨t3, ht3, _⟩
              · simp at h3
              · have hc : c = '%' := by
                  have := List.append_inj' (show [] ++ ['%'] = t3 ++ [c] from ht3) rfl
                  simpa using this.2.symm
                exact h1 ⟨hc, by rw [hr, hdd]⟩
          · exact hlit h

theorem scanLoop_invariant (rest : List Char) :
    ∀ st : ScanState,
      (∀ l ∈ st.lexemes, l ≠ [] ∧ (isClosedPlaceholder l = true ∨ isLiteralRun l = true)) →
      (st.inPlaceholder = true →
        ∃ body, st.lexeme = '%' :: body ∧ '}' ∉ body ∧ (body ++ rest).head? = some '{') →
      (st.inPlaceholder = false → ¬ ['%', '{'] <:+: st.lexeme ++ rest.head?.toList) →
      (∀ l ∈ (scanLoop rest st).lexemes,
          l ≠ [] ∧ (isClosedPlaceholder l = true ∨ isLiteralRun l = true))
      ∧ ((scanLoop rest st).inPlaceholder = true →
          ∃ body, (scanLoop rest st).lexeme = '%' :: '{' :: body ∧ '}' ∉ body)
      ∧ ((scanLoop rest st).inPlaceholder = false →
          ¬ ['%', '{'] <:+: (scanLoop rest st).lexeme)
      ∧ (scanLoop rest st).lexemes.flatten ++ (scanLoop rest st).lexeme
          = st.lexemes.flatten ++ st.lexeme ++ rest := by
  induction rest with
  | nil =>
    intro st hLex hIn hOut
    refine ⟨hLex, ?_, ?_, by simp [scanLoop]⟩
    · intro h
      obtain ⟨body, hb, hnb, hhead⟩ := hIn h
      cases body with
      | nil => simp at hhead
      | cons x b2 =>
        simp only [List.append_nil, List.head?_cons, Option.some.injEq] at hhead
        subst hhead
        exact ⟨b2, hb, fun h2 => hnb (List.mem_cons_of_mem _ h2)⟩
    · intro h
      simpa using hOut h
  | cons c r ih =>
    intro st hLex hIn hOut
    obtain ⟨k1, k2, k3, k4⟩ := scanStep_invariant st c r hLex hIn
      (fun h => by simpa using hOut h)
    obtain ⟨j1, j2, j3, j4⟩ := ih (scanStep st c r.head?) k1 k2 k3
    refine ⟨j1, j2, j3, ?_⟩
    show (scanLoop r (scanStep st c r.head?)).lexemes.flatten
        ++ (scanLoop r (scanStep st c r.head?)).lexeme = _
    rw [j4, k4]
    simp

/-! ## C25 -/

/-- C25: for every pattern string, the lexemes that the scanner of setPattern yields
are non-empty and their concatenation in order is the pattern; every lexeme but the last
is a closed placeholder (it starts with `%{` and holds exactly one closing brace, as its
last character) or a literal run (it holds no `%{`); the last lexeme is one of these or
an unterminated placeholder (it starts with `%{` and holds no closing brace). -/
theorem C25_scanner_lexemes (pattern : List Char) :
    (scan pattern).flatten = pattern
    ∧ (∀ l ∈ scan pattern, l ≠ [])
    ∧ (∀ l ∈ (scan pattern).dropLast, isClosedPlaceholder l = true ∨ isLiteralRun l = true)
    ∧ (∀ l, (scan pattern).getLast? = some l →
        isClosedPlaceholder l = true ∨ isLiteralRun l = true ∨ isOpenPlaceholder l = true) := by
  obtain ⟨h1, h2, h3, h4⟩ := scanLoop_invariant pattern
    { lexemes := [], lexeme := [], inPlaceholder := false }
    (by intro l hl; simp at hl) (by intro h; simp at h)
    (by
      intro _ h
      have := h.length_le
      cases pattern <;> simp at this)
  simp only [List.flatten_nil, List.nil_append] at h4
  unfold scan
  simp only
  by_cases he : (scanLoop pattern { lexemes := [], lexeme := [], inPlaceholder := false }).lexeme.isEmpty
      = true
  · rw [if_pos he]
    have he2 : (scanLoop pattern { lexemes := [], lexeme := [], inPlaceholder := false }).lexeme
        = [] := by simpa using he
    rw [he2, List.append_nil] at h4
    refine ⟨h4, fun l hl => (h1 l hl).1, fun l hl => (h1 l (List.mem_of_mem_dropLast hl)).2, ?_⟩
    intro l hl
    rcases (h1 l (List.mem_of_getLast?_eq_some hl)).2 with h | h
    · exact Or.inl h
    · exact Or.inr (Or.inl h)
  · rw [if_neg he]
    have hne : (scanLoop pattern { lexemes := [], lexeme := [], inPlaceholder := false }).lexeme
        ≠ [] := by
      intro e
      exact he (by simp [e])
    refine ⟨by simpa using h4, ?_, ?_, ?_⟩
    · intro l hl
      rcases List.mem_append.mp hl with h | h
      · exact (h1 l h).1
      · rw [List.mem_singleton.mp h]
        exact hne
    · intro l hl
      rw [List.dropLast_concat] at hl
      exact (h1 l hl).2
    · intro l hl
      rw [List.getLast?_concat] at hl
      have e : (scanLoop pattern { lexemes := [], lexeme := [], inPlaceholder := false }).lexeme
          = l := by simpa using hl
      cases hp : (scanLoop pattern
          { lexemes := [], lexeme := [], inPlaceholder := false }).inPlaceholder with
      | true =>
        obtain ⟨body, hb, hnb⟩ := h2 hp
        rw [← e, hb]
        exact Or.inr (Or.inr (isOpenPlaceholder_of_shape body hnb))
      | false =>
        rw [← e]
        exact Or.inr (Or.inl (isLiteralRun_of_absent _ (h3 hp)))

/-- C25 at the pattern `a%{b}%{c`, whose last lexeme is an unterminated placeholder. -/
theorem C25_scanner_lexemes_witness :
    scan "a%{b}%\x7bc".toList = ["a".toList, "%{b}".toList, "%\x7bc".toList]
    ∧ (scan "a%{b}%\x7bc".toList).getLast? = some "%\x7bc".toList
    ∧ (isClosedPlaceholder "%\x7bc".toList = true ∨ isLiteralRun "%\x7bc".toList = true
        ∨ isOpenPlaceholder "%\x7bc".toList = true) :=
  ⟨by decide, by decide,
   (C25_scanner_lexemes "a%{b}%\x7bc".toList).2.2.2 "%\x7bc".toList (by decide)⟩

/-! ## Lemmas on the loops of qCleanupFuncinfo -/

theorem byteAt_of_lt (info : List Char) (i : Int) (h0 : 0 ≤ i) (h1 : i < info.length) :
    ∃ c, byteAt info i = .ok c ∧ c ∈ info := by
  unfold byteAt
  rw [if_pos ⟨h0, h1⟩]
  have hlt : i.toNat < info.length := by omega
  have hg : info.get? i.toNat = some (info.get ⟨i.toNat, hlt⟩) := List.get?_eq_get hlt
  rw [hg]
  exact ⟨_, rfl, List.get_mem _ _ _⟩

theorem stripWithLoop_of_no_bracket (info : List Char) (h : '[' ∉ info) :
    ∀ (fuel : Nat) (pos : Int), 1 ≤ pos → pos ≤ info.length → pos ≤ fuel →
      stripWithLoop fuel info pos = .ok info := by
  intro fuel
  induction fuel with
  | zero => intro pos h1 _ h3; simp at h3; omega
  | succ n ih =>
    intro pos h1 h2 h3
    unfold stripWithLoop
    dsimp only
    by_cases hz : pos - 1 = 0
    · rw [if_pos hz]
    · rw [if_neg hz]
      obtain ⟨c, hc, hm⟩ := byteAt_of_lt info (pos - 1) (by omega) (by omega)
      simp only [Res.monad_bind, hc, Res.bind_ok]
      have hne : c ≠ '[' := fun e => h (e ▸ hm)
      rw [if_neg hne]
      apply ih
      · omega
      · omega
      · push_cast at h3; omega

theorem stripWith_of_no_bracket (info : List Char) (h : '[' ∉ info) (hlen : 2 ≤ info.length) :
    stripWith info = .ok info := by
  unfold stripWith
  split_ifs
  · apply stripWithLoop_of_no_bracket info h
    · omega
    · omega
    · push_cast; omega
  · rfl

theorem stripWith_of_not_endsWith (info : List Char) (h : endsWith info ']' = false) :
    stripWith info = .ok info := by
  unfold stripWith
  rw [if_neg]
  simp [h]

theorem scanBack_succ (cl op : Char) (fuel : Nat) (info : List Char) (pos count : Int) :
    scanBack cl op (fuel + 1) info pos count
      = if pos ≠ 0 ∧ count ≠ 0 then
          (byteAt info pos).bind fun c =>
            scanBack cl op fuel info (pos - 1)
              (if c = cl then count + 1 else if c = op then count - 1 else count)
        else .ok (pos, count) := rfl

/-- Walking back from the last character of `mid` with one bracket open, over characters
that are no brackets, the loop stops right before the opening bracket. -/
theorem scanBack_segment (cl op : Char) (hne : op ≠ cl) (pre : List Char) (hpre : pre ≠ [])
    (mid : List Char) :
    ∀ (post : List Char) (fuel : Nat), (∀ c ∈ mid, c ≠ cl ∧ c ≠ op) → mid.length + 2 ≤ fuel →
      scanBack cl op fuel (pre ++ op :: (mid ++ post)) ((pre.length : Int) + mid.length) 1
        = .ok ((pre.length : Int) - 1, 0) := by
  have hlen : 0 < pre.length := List.length_pos.mpr hpre
  induction mid using List.reverseRecOn with
  | nil =>
    intro post fuel _ hf
    obtain ⟨f, rfl⟩ : ∃ f, fuel = f + 1 + 1 :=
      ⟨fuel - 2, by simp only [List.length_nil] at hf; omega⟩
    rw [scanBack_succ]
    have hc : ((pre.length : Int) + ([] : List Char).length ≠ 0) ∧ (1 : Int) ≠ 0 :=
      ⟨by simp only [List.length_append, List.length_cons, List.length_singleton, List.length_nil]; omega, by decide⟩
    rw [if_pos hc, byteAt_append_cons pre _ op _ (by simp only [List.length_append, List.length_cons, List.length_singleton, List.length_nil]; omega)]
    simp only [Res.bind_ok, if_neg hne, if_true]
    rw [scanBack_succ]
    simp
  | append_singleton m x ih =>
    intro post fuel hmid hf
    obtain ⟨f, rfl⟩ : ∃ f, fuel = f + 1 := ⟨fuel - 1, by omega⟩
    have hx := hmid x (by simp)
    have e : pre ++ op :: (m ++ [x] ++ post) = (pre ++ op :: m) ++ x :: post := by simp
    rw [scanBack_succ]
    have hc : ((pre.length : Int) + ((m ++ [x]).length : Nat) ≠ 0) ∧ (1 : Int) ≠ 0 :=
      ⟨by simp only [List.length_append, List.length_cons, List.length_singleton, List.length_nil]; omega, by decide⟩
    rw [if_pos hc, e, byteAt_append_cons (pre ++ op :: m) post x _ (by simp only [List.length_append, List.length_cons, List.length_singleton, List.length_nil]; omega)]
    simp only [Res.bind_ok, if_neg hx.1, if_neg hx.2]
    have e2 : (pre ++ op :: m) ++ x :: post = pre ++ op :: (m ++ x :: post) := by simp
    have e3 : (pre.length : Int) + ((m ++ [x]).length : Nat) - 1 = (pre.length : Int) + m.length := by
      simp only [List.length_append, List.length_cons, List.length_singleton, List.length_nil]; omega
    rw [e2, e3]
    apply ih
    · intro c hcm
      exact hmid c (by simp [hcm])
    · simp only [List.length_append, List.length_singleton] at hf; omega

theorem nameLoop_succ (fuel : Nat) (info : List Char) (pos parencount templatecount : Int) :
    nameLoop (fuel + 1) info pos parencount templatecount
      = if pos > -1 then
          if parencount < 0 ∨ templatecount < 0 then .ok none
          else
            (byteAt info pos).bind fun c =>
              if c = ')' then nameLoop fuel info (pos - 1) (parencount + 1) templatecount
              else if c = '(' then nameLoop fuel info (pos - 1) (parencount - 1) templatecount
              else if c = '>' then nameLoop fuel info (pos - 1) parencount (templatecount + 1)
              else if c = '<' then nameLoop fuel info (pos - 1) parencount (templatecount - 1)
              else if c = ' ' ∧ templatecount = 0 ∧ parencount = 0 then .ok (some pos)
              else nameLoop fuel info (pos - 1) parencount templatecount
        else .ok (some pos) := rfl

/-- One iteration of the loop that finds the beginning of the name, at the character `c`
that follows `a`. -/
theorem nameLoop_at (fuel : Nat) (a b : List Char) (c : Char) (pc tc : Int)
    (hpc : 0 ≤ pc) (htc : 0 ≤ tc) :
    nameLoop (fuel + 1) (a ++ c :: b) (a.length : Int) pc tc
      = if c = ')' then nameLoop fuel (a ++ c :: b) ((a.length : Int) - 1) (pc + 1) tc
        else if c = '(' then nameLoop fuel (a ++ c :: b) ((a.length : Int) - 1) (pc - 1) tc
        else if c = '>' then nameLoop fuel (a ++ c :: b) ((a.length : Int) - 1) pc (tc + 1)
        else if c = '<' then nameLoop fuel (a ++ c :: b) ((a.length : Int) - 1) pc (tc - 1)
        else if c = ' ' ∧ tc = 0 ∧ pc = 0 then .ok (some (a.length : Int))
        else nameLoop fuel (a ++ c :: b) ((a.length : Int) - 1) pc tc := by
  rw [nameLoop_succ]
  have h1 : (a.length : Int) > -1 := by omega
  have h2 : ¬ (pc < 0 ∨ tc < 0) := by omega
  rw [if_pos h1, if_neg h2, byteAt_append_cons a b c _ rfl]
  rfl

/-- Walking back over a segment of characters that neither are brackets nor end the
name, the loop reaches the character before the segment with its counters unchanged. -/
theorem nameLoop_segment (pre : List Char) (pc tc : Int) (hpc : 0 ≤ pc) (htc : 0 ≤ tc)
    (seg : List Char) :
    ∀ (post : List Char) (fuel : Nat),
      (∀ c ∈ seg, c ≠ ')' ∧ c ≠ '(' ∧ c ≠ '>' ∧ c ≠ '<' ∧ ¬ (c = ' ' ∧ tc = 0 ∧ pc = 0)) →
      nameLoop (fuel + seg.length) (pre ++ (seg ++ post))
          ((pre.length : Int) + seg.length - 1) pc tc
        = nameLoop fuel (pre ++ (seg ++ post)) ((pre.length : Int) - 1) pc tc := by
  induction seg using List.reverseRecOn with
  | nil => intro post fuel _; simp
  | append_singleton s x ih =>
    intro post fuel hseg
    obtain ⟨k1, k2, k3, k4, k5⟩ := hseg x (by simp)
    have e : pre ++ (s ++ [x] ++ post) = (pre ++ s) ++ x :: post := by simp
    have e1 : fuel + (s ++ [x]).length = (fuel + s.length) + 1 := by
      simp only [List.length_append, List.length_cons, List.length_singleton, List.length_nil]; omega
    have e2 : (pre.length : Int) + ((s ++ [x]).length : Nat) - 1 = ((pre ++ s).length : Nat) := by
      simp only [List.length_append, List.length_cons, List.length_singleton, List.length_nil]; omega
    rw [e, e1, e2, nameLoop_at _ _ _ _ _ _ hpc htc, if_neg k1, if_neg k2, if_neg k3, if_neg k4,
      if_neg k5]
    have e3 : (pre ++ s) ++ x :: post = pre ++ (s ++ x :: post) := by simp
    have e4 : (((pre ++ s).length : Nat) : Int) - 1 = (pre.length : Int) + s.length - 1 := by
      simp only [List.length_append, List.length_cons, List.length_singleton, List.length_nil]; omega
    rw [e3, e4]
    apply ih
    intro c hcs
    exact hseg c (by simp [hcs])

theorem mid_rest (a b : List Char) (p : Int) (h : p = a.length) : mid (a ++ b) p (-1) = b := by
  subst h
  unfold mid
  have h1 : ¬ ((a.length : Int) > ((a ++ b).length : Nat)) := by simp
  have h2 : ¬ ((a.length : Int) < 0) := by omega
  simp only [h1, h2, if_false]
  simp

theorem stripRefLoop_plain (fuel : Nat) (c : Char) (t : List Char) (h1 : c ≠ '*')
    (h2 : c ≠ '&') : stripRefLoop (fuel + 1) (c :: t) = .ok (c :: t) := by
  unfold stripRefLoop
  have hb : byteAt (c :: t) 0 = .ok c := byteAt_append_cons [] t c 0 rfl
  simp only [Res.monad_bind, hb, Res.bind_ok]
  rw [if_neg]
  intro h
  rcases h with h | h
  · exact h1 h
  · exact h2 h

theorem templateLoop_plain (fuel : Nat) (info : List Char) (h : '>' ∉ info) :
    templateLoop (fuel + 1) info = .ok info := by
  unfold templateLoop
  simp [lastIndexOfChar_of_not_mem info '>' h]

theorem truncate_append (a b : List Char) (p : Int) (h : p = a.length) :
    truncate (a ++ b) p = a := by
  subst h
  unfold truncate
  split_ifs <;> simp_all

/-- One pass of the loop that removes the argument list, on a string that ends in an
argument list without nested parentheses and a tail without closing parenthesis: the
loop breaks with the text before the argument list, unless that text ends in a closing
parenthesis that is not the one of `operator()`. -/
theorem argListLoop_once (fuel : Nat) (P0 A Q : List Char) (c : Char)
    (hA : ∀ x ∈ A, x ≠ ')' ∧ x ≠ '(') (hQ : ')' ∉ Q)
    (hc : c ≠ ')' ∨ indexOf (P0 ++ [c]) operator_call
        = (((P0 ++ [c]).length : Nat) : Int) - (operator_call.length : Int)) :
    argListLoop (fuel + 1) ((P0 ++ [c]) ++ '(' :: (A ++ ')' :: Q))
      = .ok (.brk (P0 ++ [c]) (((P0 ++ [c]).length : Nat) : Int)) := by
  have hl : lastIndexOfChar ((P0 ++ [c]) ++ '(' :: (A ++ ')' :: Q)) ')'
      = ((P0 ++ [c]).length : Int) + A.length + 1 := by
    have e : (P0 ++ [c]) ++ '(' :: (A ++ ')' :: Q) = ((P0 ++ [c]) ++ '(' :: A) ++ ')' :: Q := by
      simp
    rw [e, lastIndexOfChar_append_cons _ _ _ hQ]
    simp only [List.length_append, List.length_cons, List.length_singleton, List.length_nil]; omega
  have hs : scanBack ')' '(' (((P0 ++ [c]) ++ '(' :: (A ++ ')' :: Q)).length + 1)
      ((P0 ++ [c]) ++ '(' :: (A ++ ')' :: Q)) (((P0 ++ [c]).length : Int) + A.length + 1 - 1) 1
      = .ok (((P0 ++ [c]).length : Int) - 1, 0) := by
    have e : ((P0 ++ [c]).length : Int) + A.length + 1 - 1 = ((P0 ++ [c]).length : Int) + A.length := by
      omega
    rw [e]
    apply scanBack_segment ')' '(' (by decide) (P0 ++ [c]) (by simp) A (')' :: Q) _ hA
    simp only [List.length_append, List.length_cons, List.length_singleton, List.length_nil]; omega
  unfold argListLoop
  dsimp only
  have h1 : ¬ (lastIndexOfChar ((P0 ++ [c]) ++ '(' :: (A ++ ')' :: Q)) ')' = -1) := by
    rw [hl]; omega
  rw [if_neg h1]
  simp only [Res.monad_bind]
  rw [hl, hs]
  simp only [Res.bind_ok, ne_eq, not_true_eq_false, if_false]
  have ht : truncate ((P0 ++ [c]) ++ '(' :: (A ++ ')' :: Q)) (((P0 ++ [c]).length : Int) - 1 + 1)
      = P0 ++ [c] := truncate_append _ _ _ (by omega)
  have hb : byteAt (P0 ++ [c]) (((P0 ++ [c]).length : Int) - 1 + 1 - 1) = .ok c :=
    byteAt_append_cons P0 [] c _ (by
      simp only [List.length_append, List.length_cons, List.length_singleton, List.length_nil]; omega)
  rw [ht, hb]
  simp only [Res.bind_ok]
  have e : ((P0 ++ [c]).length : Int) - 1 + 1 = (((P0 ++ [c]).length : Nat) : Int) := by omega
  rw [e]
  rcases hc with hc | hc
  · rw [if_neg hc]
  · by_cases h : c = ')'
    · rw [if_pos h, if_pos hc]
    · rw [if_neg h]

theorem operatorAdjust_plain (P0 : List Char) (c : Char) (h1 : c ≠ ')') (h2 : c ≠ '<')
    (h3 : c ≠ '>') (h4 : c ≠ '=') :
    operatorAdjust (P0 ++ [c]) ((((P0 ++ [c]).length : Nat) : Int) - 1) = .ok (P0.length : Int) := by
  unfold operatorAdjust
  have hp : (((P0 ++ [c]).length : Nat) : Int) - 1 > -1 := by
    simp only [List.length_append, List.length_cons, List.length_singleton, List.length_nil]; omega
  have hb : byteAt (P0 ++ [c]) ((((P0 ++ [c]).length : Nat) : Int) - 1) = .ok c :=
    byteAt_append_cons P0 [] c _ (by
      simp only [List.length_append, List.length_cons, List.length_singleton, List.length_nil]; omega)
  rw [if_pos hp]
  simp only [Res.monad_bind, hb, Res.bind_ok, if_neg h1, if_neg h2, if_neg h3, if_neg h4]
  congr 1
  simp only [List.length_append, List.length_cons, List.length_singleton, List.length_nil]; omega

/-- The last part of qCleanupFuncinfo on a return type, a blank and a name that holds no
blank and no bracket, does not begin with `*` or `&` and does not end in `=`: the result
is the name. -/
theorem cleanupName_plain (R name : List Char) (hne : name ≠ [])
    (hname : ∀ x ∈ name, x ≠ ')' ∧ x ≠ '(' ∧ x ≠ '>' ∧ x ≠ '<' ∧ x ≠ ' ')
    (hfirst : ∀ x, name.head? = some x → x ≠ '*' ∧ x ≠ '&')
    (hlast : ∀ x, name.getLast? = some x → x ≠ '=') :
    cleanupName (R ++ ' ' :: name) (((R ++ ' ' :: name).length : Nat) : Int) = .ok name := by
  obtain ⟨n0, c, rfl⟩ : ∃ n0 c, name = n0 ++ [c] := by
    rcases List.eq_nil_or_concat name with h | ⟨n0, c, h⟩
    · exact absurd h hne
    · exact ⟨n0, c, by simpa using h⟩
  have hcm := hname c (by simp)
  have hceq := hlast c (by simp)
  have e0 : R ++ ' ' :: (n0 ++ [c]) = (R ++ ' ' :: n0) ++ [c] := by simp
  unfold cleanupName
  rw [e0, operatorAdjust_plain (R ++ ' ' :: n0) c hcm.1 hcm.2.2.2.1 hcm.2.2.1 hceq]
  simp only [Res.bind_ok]
  -- the walk back over the name
  have hwalk : nameLoop (((R ++ ' ' :: n0) ++ [c]).length + 2) ((R ++ ' ' :: n0) ++ [c])
      ((R ++ ' ' :: n0).length : Int) 0 0 = .ok (some (R.length : Int)) := by
    have e1 : (R ++ ' ' :: n0) ++ [c] = (R ++ [' ']) ++ ((n0 ++ [c]) ++ []) := by simp
    have e2 : ((R ++ ' ' :: n0) ++ [c]).length + 2 = (R.length + 3) + (n0 ++ [c]).length := by
      simp only [List.length_append, List.length_cons, List.length_singleton, List.length_nil]; omega
    have e3 : ((R ++ ' ' :: n0).length : Int)
        = ((R ++ [' ']).length : Int) + ((n0 ++ [c]).length : Nat) - 1 := by
      simp only [List.length_append, List.length_cons, List.length_singleton, List.length_nil]; omega
    rw [e2, e3, e1, nameLoop_segment (R ++ [' ']) 0 0 (le_refl _) (le_refl _) (n0 ++ [c]) []
      (R.length + 3)]
    · have e4 : (R ++ [' ']) ++ ((n0 ++ [c]) ++ []) = R ++ ' ' :: (n0 ++ [c]) := by simp
      have e5 : ((R ++ [' ']).length : Int) - 1 = (R.length : Int) := by
        simp only [List.length_append, List.length_cons, List.length_singleton, List.length_nil]; omega
      rw [e4, e5, nameLoop_at (R.length + 2) R (n0 ++ [c]) ' ' 0 0 (le_refl _) (le_refl _)]
      simp
    · intro x hx
      have := hname x hx
      exact ⟨this.1, this.2.1, this.2.2.1, this.2.2.2.1, fun h => this.2.2.2.2 h.1⟩
  rw [hwalk]
  simp only [Res.bind_ok]
  have hm : mid ((R ++ ' ' :: n0) ++ [c]) ((R.length : Int) + 1) (-1) = n0 ++ [c] := by
    have e : (R ++ ' ' :: n0) ++ [c] = (R ++ [' ']) ++ (n0 ++ [c]) := by simp
    rw [e]
    exact mid_rest _ _ _ (by simp)
  rw [hm]
  obtain ⟨d, t, hd⟩ : ∃ d t, n0 ++ [c] = d :: t := by
    cases n0 with
    | nil => exact ⟨c, [], rfl⟩
    | cons d t => exact ⟨d, t ++ [c], rfl⟩
  have hf := hfirst d (by rw [hd]; rfl)
  have hs : stripRefLoop ((n0 ++ [c]).length + 1) (n0 ++ [c]) = .ok (n0 ++ [c]) := by
    rw [hd]
    exact stripRefLoop_plain _ d t hf.1 hf.2
  rw [hs]
  simp only [Res.bind_ok]
  apply templateLoop_plain
  intro h
  exact (hname _ h).2.2.1 rfl

theorem isIdentifierChar_plain (c : Char) (h : isIdentifierChar c = true ∨ c = ':') :
    c ≠ ')' ∧ c ≠ '(' ∧ c ≠ '>' ∧ c ≠ '<' ∧ c ≠ ' ' ∧ c ≠ '*' ∧ c ≠ '&' ∧ c ≠ '=' := by
  refine ⟨?_, ?_, ?_, ?_, ?_, ?_, ?_, ?_⟩ <;>
    (intro e; subst e; rcases h with h | h <;> revert h <;> decide)

theorem no_operator_blank (info : List Char) (h : ¬ "operator".toList <:+: info) :
    ¬ "operator ".toList <:+: info := by
  intro hi
  have hp : "operator".toList <:+: "operator ".toList := ⟨[], [' '], rfl⟩
  exact h (hp.trans hi)

/-- The function qCleanupFuncinfo on a string that needs no preparation (no trailing
`[with ...]`, no `operator ` to canonize) and ends in one argument list and a tail. -/
theorem qCleanupFuncinfo_once (P0 A Q : List Char) (c : Char)
    (hWith : stripWith ((P0 ++ [c]) ++ '(' :: (A ++ ')' :: Q))
      = .ok ((P0 ++ [c]) ++ '(' :: (A ++ ')' :: Q)))
    (hOp : ¬ "operator ".toList <:+: (P0 ++ [c]) ++ '(' :: (A ++ ')' :: Q))
    (hA : ∀ x ∈ A, x ≠ ')' ∧ x ≠ '(') (hQ : ')' ∉ Q)
    (hc : c ≠ ')' ∨ indexOf (P0 ++ [c]) operator_call
        = (((P0 ++ [c]).length : Nat) : Int) - (operator_call.length : Int)) :
    qCleanupFuncinfo ((P0 ++ [c]) ++ '(' :: (A ++ ')' :: Q))
      = cleanupName (P0 ++ [c]) (((P0 ++ [c]).length : Nat) : Int) := by
  unfold qCleanupFuncinfo
  have he : ((P0 ++ [c]) ++ '(' :: (A ++ ')' :: Q)).isEmpty = false := by simp
  rw [he, hWith]
  simp only [Bool.false_eq_true, if_false, Res.bind_ok]
  rw [replaceGo_of_absent _ _ _ hOp, argListLoop_once _ P0 A Q c hA hQ hc]
  rfl

/-! ## C23 -/

/-- C23: for a function-info string made of a return type R, a blank, a non-empty name N
of identifier characters and colons, an argument list "(" A ")" with A free of
parentheses, and a tail Q without closing parenthesis, the whole string holding no `[`
and no "operator", qCleanupFuncinfo returns N; and for the empty string it returns the
empty string. (That the string holds no `<` or `>` is not needed.) -/
theorem C23_plain_function_name (R N A Q : List Char)
    (hN : N ≠ [])
    (hChars : ∀ c ∈ N, isIdentifierChar c = true ∨ c = ':')
    (hA : ∀ c ∈ A, c ≠ ')' ∧ c ≠ '(')
    (hQ : ')' ∉ Q)
    (hBracket : '[' ∉ R ++ ' ' :: (N ++ '(' :: (A ++ ')' :: Q)))
    (hOperator : contains (R ++ ' ' :: (N ++ '(' :: (A ++ ')' :: Q))) "operator".toList = false) :
    qCleanupFuncinfo (R ++ ' ' :: (N ++ '(' :: (A ++ ')' :: Q))) = .ok N
    ∧ qCleanupFuncinfo [] = .ok [] := by
  refine ⟨?_, rfl⟩
  obtain ⟨n0, c, rfl⟩ : ∃ n0 c, N = n0 ++ [c] := by
    rcases List.eq_nil_or_concat N with h | ⟨n0, c, h⟩
    · exact absurd h hN
    · exact ⟨n0, c, by simpa using h⟩
  have e : R ++ ' ' :: ((n0 ++ [c]) ++ '(' :: (A ++ ')' :: Q))
      = ((R ++ ' ' :: n0) ++ [c]) ++ '(' :: (A ++ ')' :: Q) := by simp
  have hc := isIdentifierChar_plain c (hChars c (by simp))
  rw [e] at hBracket hOperator ⊢
  rw [qCleanupFuncinfo_once (R ++ ' ' :: n0) A Q c
    (stripWith_of_no_bracket _ hBracket (by
      simp only [List.length_append, List.length_cons, List.length_singleton]; omega))
    (no_operator_blank _ ((contains_eq_false_iff _ _).mp hOperator)) hA hQ (Or.inl hc.1)]
  have e2 : (R ++ ' ' :: n0) ++ [c] = R ++ ' ' :: (n0 ++ [c]) := by simp
  rw [e2]
  apply cleanupName_plain R (n0 ++ [c]) (by simp)
  · intro x hx
    have := isIdentifierChar_plain x (hChars x hx)
    exact ⟨this.1, this.2.1, this.2.2.1, this.2.2.2.1, this.2.2.2.2.1⟩
  · intro x hx
    have hm : x ∈ n0 ++ [c] := List.mem_of_mem_head? hx
    have := isIdentifierChar_plain x (hChars x hm)
    exact ⟨this.2.2.2.2.2.1, this.2.2.2.2.2.2.1⟩
  · intro x hx
    have hm : x ∈ n0 ++ [c] := List.mem_of_getLast?_eq_some hx
    exact (isIdentifierChar_plain x (hChars x hm)).2.2.2.2.2.2.2

/-- C23 at the string `void Foo::bar(int x) const`. -/
theorem C23_plain_function_name_witness :
    "void Foo::bar(int x) const".toList
        = "void".toList ++ ' ' :: ("Foo::bar".toList ++ '(' :: ("int x".toList ++ ')' :: " const".toList))
    ∧ qCleanupFuncinfo
        ("void".toList ++ ' ' :: ("Foo::bar".toList ++ '(' :: ("int x".toList ++ ')' :: " const".toList)))
      = .ok "Foo::bar".toList :=
  ⟨by decide,
   (C23_plain_function_name "void".toList "Foo::bar".toList "int x".toList " const".toList
      (by decide) (by decide) (by decide) (by decide) (by decide) (by decide)).1⟩

theorem qCleanupFuncinfo_no_paren (f : List Char) (h1 : ')' ∉ f) (h2 : endsWith f ']' = false)
    (h3 : contains f "operator ".toList = false) : qCleanupFuncinfo f = .ok f := by
  unfold qCleanupFuncinfo
  by_cases he : f.isEmpty = true
  · rw [if_pos he]
  · rw [if_neg he, stripWith_of_not_endsWith f h2]
    simp only [Res.bind_ok]
    rw [replaceGo_of_absent _ _ _ ((contains_eq_false_iff _ _).mp h3)]
    unfold argListLoop
    simp [lastIndexOfChar_of_not_mem f ')' h1]

/-! ## C26 -/

/-- C26 as stated fails for an event with the function `int main()`: the function token
renders "main", not "int main()". -/
theorem C26_counterexample :
    sampleContext.function = some "int main()".toList
    ∧ qFormatLogMessage sampleEnv
        (some (QMessagePattern.initial.setPattern "%{function}".toList).1)
        QtDebugMsg sampleContext none = .ok (some "main".toList) := by
  refine ⟨rfl, by decide⟩

/-- C26, amended: for an event whose function f is present, the function token renders
the result of qCleanupFuncinfo on f, the function name cut out of the signature;
rendering is undefined where qCleanupFuncinfo reads outside the string. The render is f
itself when f holds no closing parenthesis and no "operator " and does not end in `]`. -/
theorem C26_function_placeholder (env : RenderEnv) (p : QMessagePattern) (type : QtMsgType)
    (context : QMessageLogContext) (str : QString) (f : CString)
    (hf : context.function = some f) :
    appended env p type context str Token.functionTokenC
      = (qCleanupFuncinfo f).bind (fun name => .ok (some name))
    ∧ (∀ name, qCleanupFuncinfo f = .ok name →
        ∀ (rest : List Token) (message : QString),
          renderLoop env p type context str (Token.functionTokenC :: rest) false message
            = renderLoop env p type context str rest false (message.append (some name)))
    ∧ (')' ∉ f → endsWith f ']' = false → contains f "operator ".toList = false →
        appended env p type context str Token.functionTokenC = .ok (some f)) := by
  have h : appended env p type context str Token.functionTokenC
      = (qCleanupFuncinfo f).bind (fun name => .ok (some name)) := by
    simp only [appended, hf]
  refine ⟨h, ?_, ?_⟩
  · intro name hn rest message
    apply renderLoop_appended env p type context str Token.functionTokenC rest message _ rfl
    rw [h, hn]
    rfl
  · intro h1 h2 h3
    rw [h, qCleanupFuncinfo_no_paren f h1 h2 h3]
    rfl

/-- C26 at an event with the function `main`, which is rendered as it is, and at the
sample event. -/
theorem C26_function_placeholder_witness :
    ({ sampleContext with function := some "main".toList } : QMessageLogContext).function
        = some "main".toList
    ∧ appended sampleEnv QMessagePattern.initial QtDebugMsg
        { sampleContext with function := some "main".toList } none Token.functionTokenC
      = .ok (some "main".toList) :=
  ⟨rfl,
   (C26_function_placeholder sampleEnv QMessagePattern.initial QtDebugMsg
      { sampleContext with function := some "main".toList } none "main".toList rfl).2.2
      (by decide) (by decide) (by decide)⟩

theorem prefix_of_prefix_append_cons {needle u v : List Char} {x : Char} (hx : x ∉ needle)
    (h : needle <+: u ++ x :: v) : needle <+: u := by
  have h2 : u ++ [x] <+: u ++ x :: v := ⟨v, by simp⟩
  rcases List.prefix_or_prefix_of_prefix h h2 with h3 | h3
  · rcases List.prefix_concat_iff.mp h3 with h4 | h4
    · exact absurd (h4 ▸ (by simp : x ∈ u ++ [x])) hx
    · exact h4
  · exact absurd (h3.mem (by simp : x ∈ u ++ [x])) hx

theorem infix_split {needle : List Char} {x : Char} (hx : x ∉ needle) (a b : List Char)
    (h : needle <:+: a ++ x :: b) : needle <:+: a ∨ needle <:+: b := by
  induction a with
  | nil =>
    rcases List.infix_cons_iff.mp h with h1 | h1
    · left
      exact (prefix_of_prefix_append_cons (u := []) hx h1).isInfix
    · exact Or.inr h1
  | cons y a2 ih =>
    rcases List.infix_cons_iff.mp h with h1 | h1
    · left
      exact (prefix_of_prefix_append_cons (u := y :: a2) hx h1).isInfix
    · rcases ih h1 with h2 | h2
      · exact Or.inl (h2.trans (List.suffix_cons y a2).isInfix)
      · exact Or.inr h2

/-- The replacement works on each side of a character that does not occur in the text
searched for. -/
theorem replaceGo_separator (before after : List Char) (x : Char) (hx : x ∉ before)
    (hb : before ≠ []) (V : List Char) (U : List Char) :
    ∀ k : Nat, k ≤ U.length →
      replaceGo before after k (U ++ x :: V)
        = replaceGo before after k U ++ x :: replaceGo before after 0 V := by
  induction U with
  | nil =>
    intro k hk
    have hk0 : k = 0 := by simpa using hk
    subst hk0
    have hp : ¬ (before.isPrefixOf (x :: V) = true) := by
      intro hp
      have := prefix_of_prefix_append_cons (u := []) hx (List.isPrefixOf_iff_prefix.mp hp)
      exact hb (List.prefix_nil.mp this)
    simp only [List.nil_append, replaceGo, if_neg hp]
  | cons u U2 ih =>
    intro k hk
    cases k with
    | succ k2 =>
      simp only [List.cons_append, replaceGo, List.append_eq]
      exact ih k2 (by simpa using hk)
    | zero =>
      simp only [List.cons_append, replaceGo, List.append_eq]
      by_cases hp : before.isPrefixOf (u :: (U2 ++ x :: V)) = true
      · have hpre : before <+: u :: U2 :=
          prefix_of_prefix_append_cons (u := u :: U2) hx (List.isPrefixOf_iff_prefix.mp hp)
        have hp2 : before.isPrefixOf (u :: U2) = true := List.isPrefixOf_iff_prefix.mpr hpre
        have hlen := hpre.length_le
        have hpos : 0 < before.length := List.length_pos.mpr hb
        rw [if_pos hp, if_pos hp2, ih (before.length - 1) (by simp at hlen; omega)]
        simp
      · have hp2 : ¬ (before.isPrefixOf (u :: U2) = true) := by
          intro h
          apply hp
          have := List.isPrefixOf_iff_prefix.mp h
          exact List.isPrefixOf_iff_prefix.mpr
            (this.trans (List.prefix_append (u :: U2) (x :: V)))
        rw [if_neg hp, if_neg hp2, ih 0 (Nat.zero_le _)]
        rfl

theorem replaceGo_mem (before after : List Char) (s : List Char) :
    ∀ (k : Nat) (y : Char), y ∈ replaceGo before after k s → y ∈ s ∨ y ∈ after := by
  induction s with
  | nil => intro k y h; cases k <;> simp [replaceGo] at h
  | cons c rest ih =>
    intro k y h
    cases k with
    | succ k2 =>
      simp only [replaceGo] at h
      rcases ih k2 y h with h1 | h1
      · exact Or.inl (List.mem_cons_of_mem _ h1)
      · exact Or.inr h1
    | zero =>
      simp only [replaceGo] at h
      split_ifs at h
      · rcases List.mem_append.mp h with h1 | h1
        · exact Or.inr h1
        · rcases ih _ y h1 with h2 | h2
          · exact Or.inl (List.mem_cons_of_mem _ h2)
          · exact Or.inr h2
      · rcases List.mem_cons.mp h with h1 | h1
        · exact Or.inl (h1 ▸ List.mem_cons_self _ _)
        · rcases ih _ y h1 with h2 | h2
          · exact Or.inl (List.mem_cons_of_mem _ h2)
          · exact Or.inr h2

/-- The first occurrence of a text that ends the string and does not start earlier. -/
theorem indexOfFrom_append (needle V : List Char) (hV : needle <+: V) (U : List Char) :
    ∀ i : Nat, (∀ t, t <:+ U → t ≠ [] → ¬ needle <+: t ++ V) →
      indexOfFrom needle (U ++ V) i = ((i + U.length : Nat) : Int) := by
  induction U with
  | nil =>
    intro i _
    have hp : needle.isPrefixOf V = true := List.isPrefixOf_iff_prefix.mpr hV
    cases V with
    | nil =>
      have : needle = [] := List.prefix_nil.mp hV
      simp [indexOfFrom, this]
    | cons c rest => simp [indexOfFrom, hp]
  | cons u U2 ih =>
    intro i h
    have hp : ¬ (needle.isPrefixOf (u :: (U2 ++ V)) = true) := by
      intro hp
      exact h (u :: U2) (List.suffix_refl _) (by simp) (List.isPrefixOf_iff_prefix.mp hp)
    simp only [List.cons_append, indexOfFrom, List.append_eq, if_neg hp]
    rw [ih (i + 1) (fun t ht hne => h t (ht.trans (List.suffix_cons u U2)) hne)]
    simp only [List.length_cons]
    congr 1
    omega

theorem no_operator_across_blank (R C : List Char) (hR : ¬ "operator".toList <:+: R)
    (hC : ¬ "operator".toList <:+: C) : ¬ "operator".toList <:+: R ++ ' ' :: C := by
  intro h
  rcases infix_split (by decide) R C h with h1 | h1
  · exact hR h1
  · exact hC h1

/-- The function qCleanupFuncinfo on a string without trailing `[with ...]` that, after
the operator names have been canonized, ends in one argument list and a tail. -/
theorem qCleanupFuncinfo_prepared (info P0 A Q : List Char) (c : Char) (hne : info ≠ [])
    (hWith : stripWith info = .ok info)
    (hRep : replaceGo "operator ".toList "operator".toList 0 info
      = (P0 ++ [c]) ++ '(' :: (A ++ ')' :: Q))
    (hA : ∀ x ∈ A, x ≠ ')' ∧ x ≠ '(') (hQ : ')' ∉ Q)
    (hc : c ≠ ')' ∨ indexOf (P0 ++ [c]) operator_call
        = (((P0 ++ [c]).length : Nat) : Int) - (operator_call.length : Int)) :
    qCleanupFuncinfo info = cleanupName (P0 ++ [c]) (((P0 ++ [c]).length : Nat) : Int) := by
  unfold qCleanupFuncinfo
  have he : info.isEmpty = false := by
    cases info with
    | nil => exact absurd rfl hne
    | cons a t => rfl
  rw [he, hWith]
  simp only [Bool.false_eq_true, if_false, Res.bind_ok]
  rw [hRep, argListLoop_once _ P0 A Q c hA hQ hc]
  rfl

theorem indexOf_operator_call (R C : List Char) (hR : ¬ "operator".toList <:+: R)
    (hC : ¬ "operator".toList <:+: C) :
    indexOf (R ++ ' ' :: (C ++ "::operator()".toList)) operator_call
      = ((R.length + 1 + C.length + 2 : Nat) : Int) := by
  have e : R ++ ' ' :: (C ++ "::operator()".toList)
      = (R ++ ' ' :: (C ++ [':']) ++ [':']) ++ operator_call := by
    simp [operator_call]
  unfold indexOf
  rw [e, indexOfFrom_append operator_call operator_call (List.prefix_refl _) _ 0]
  · congr 1
    simp only [List.length_append, List.length_cons, List.length_singleton, List.length_nil]
    omega
  · intro t ht hne hp
    rcases List.suffix_concat_iff.mp ht with h | ⟨t2, ht2, hsuf⟩
    · exact hne h
    · subst ht2
      have hw : "operator".toList <+: (t2 ++ [':']) ++ operator_call :=
        List.IsPrefix.trans ⟨"()".toList, rfl⟩ hp
      have hw2 : "operator".toList <+: t2 := by
        apply prefix_of_prefix_append_cons (x := ':') (v := operator_call) (by decide)
        simpa using hw
      have hw3 : "operator".toList <:+: R ++ ' ' :: (C ++ [':']) := hw2.isInfix.trans hsuf.isInfix
      have e2 : R ++ ' ' :: (C ++ [':']) = (R ++ ' ' :: C) ++ ':' :: [] := by simp
      rw [e2] at hw3
      rcases infix_split (by decide) _ _ hw3 with h1 | h1
      · exact no_operator_across_blank R C hR hC h1
      · have := h1.length_le
        simp at this

theorem no_operator_blank_before_call (R C : List Char) (hR : ¬ "operator".toList <:+: R)
    (hC : ¬ "operator".toList <:+: C) :
    ¬ "operator ".toList <:+: R ++ ' ' :: (C ++ "::operator()".toList) := by
  intro h
  have e : R ++ ' ' :: (C ++ "::operator()".toList)
      = (R ++ ' ' :: C) ++ ':' :: ":operator()".toList := by simp
  rw [e] at h
  rcases infix_split (by decide) _ _ h with h1 | h1
  · have hw : "operator".toList <:+: "operator ".toList := ⟨[], [' '], rfl⟩
    exact no_operator_across_blank R C hR hC (hw.trans h1)
  · revert h1
    decide

/-- The last part of qCleanupFuncinfo on a return type, a blank, a class name without
blank and brackets, and `::operator()`: the result is the class name with
`::operator()`. -/
theorem cleanupName_call_operator (R C : List Char)
    (hR : ¬ "operator".toList <:+: R) (hCop : ¬ "operator".toList <:+: C)
    (hC : ∀ x ∈ C, x ≠ ')' ∧ x ≠ '(' ∧ x ≠ '<' ∧ x ≠ '>' ∧ x ≠ ' ')
    (hfirst : ∀ x, C.head? = some x → x ≠ '*' ∧ x ≠ '&') :
    cleanupName (R ++ ' ' :: (C ++ "::operator()".toList))
        (((R ++ ' ' :: (C ++ "::operator()".toList)).length : Nat) : Int)
      = .ok (C ++ "::operator()".toList) := by
  have hidx := indexOf_operator_call R C hR hCop
  have hlenX : (R ++ ' ' :: (C ++ "::operator()".toList)).length = R.length + C.length + 13 := by
    simp only [List.length_append, List.length_cons]
    have : "::operator()".toList.length = 12 := rfl
    omega
  unfold cleanupName
  -- the closing parenthesis of `operator()` is kept
  have hadj : operatorAdjust (R ++ ' ' :: (C ++ "::operator()".toList))
      ((((R ++ ' ' :: (C ++ "::operator()".toList)).length : Nat) : Int) - 1)
      = .ok ((R.length : Int) + C.length + 10) := by
    unfold operatorAdjust
    have hp : (((R ++ ' ' :: (C ++ "::operator()".toList)).length : Nat) : Int) - 1 > -1 := by
      omega
    have e : R ++ ' ' :: (C ++ "::operator()".toList)
        = (R ++ ' ' :: (C ++ "::operator(".toList)) ++ ')' :: [] := by simp
    have hb : byteAt (R ++ ' ' :: (C ++ "::operator()".toList))
        ((((R ++ ' ' :: (C ++ "::operator()".toList)).length : Nat) : Int) - 1) = .ok ')' := by
      rw [hlenX]
      rw [e]
      apply byteAt_append_cons
      simp only [List.length_append, List.length_cons]
      have : "::operator(".toList.length = 11 := rfl
      omega
    rw [if_pos hp]
    simp only [Res.monad_bind, hb, Res.bind_ok, if_true]
    have hl : (operator_call.length : Int) = 10 := rfl
    rw [hidx, hlenX, hl]
    have hcond : ((R.length + 1 + C.length + 2 : Nat) : Int)
        = ((R.length + C.length + 13 : Nat) : Int) - 1 - 10 + 1 := by omega
    rw [if_pos hcond]
    congr 1
    omega
  rw [hadj]
  simp only [Res.bind_ok]
  -- the walk back over `::operator` and the class name
  have hwalk : nameLoop ((R ++ ' ' :: (C ++ "::operator()".toList)).length + 2)
      (R ++ ' ' :: (C ++ "::operator()".toList)) ((R.length : Int) + C.length + 10) 0 0
      = .ok (some (R.length : Int)) := by
    have e1 : R ++ ' ' :: (C ++ "::operator()".toList)
        = (R ++ [' ']) ++ ((C ++ "::operator".toList) ++ "()".toList) := by simp
    have e2 : (R ++ ' ' :: (C ++ "::operator()".toList)).length + 2
        = (R.length + 5) + (C ++ "::operator".toList).length := by
      rw [hlenX]
      simp only [List.length_append]
      have : "::operator".toList.length = 10 := rfl
      omega
    have e3 : (R.length : Int) + C.length + 10
        = ((R ++ [' ']).length : Int) + ((C ++ "::operator".toList).length : Nat) - 1 := by
      simp only [List.length_append, List.length_singleton]
      have : "::operator".toList.length = 10 := rfl
      omega
    rw [e2, e3, e1, nameLoop_segment (R ++ [' ']) 0 0 (le_refl _) (le_refl _)
      (C ++ "::operator".toList) "()".toList (R.length + 5)]
    · have e4 : (R ++ [' ']) ++ ((C ++ "::operator".toList) ++ "()".toList)
          = R ++ ' ' :: ((C ++ "::operator".toList) ++ "()".toList) := by simp
      have e5 : ((R ++ [' ']).length : Int) - 1 = (R.length : Int) := by
        simp only [List.length_append, List.length_singleton]; omega
      rw [e4, e5, nameLoop_at (R.length + 4) R _ ' ' 0 0 (le_refl _) (le_refl _)]
      simp
    · intro x hx
      rcases List.mem_append.mp hx with h | h
      · have := hC x h
        exact ⟨this.1, this.2.1, this.2.2.2.1, this.2.2.1, fun h2 => this.2.2.2.2 h2.1⟩
      · have key : ∀ y ∈ "::operator".toList,
            y ≠ ')' ∧ y ≠ '(' ∧ y ≠ '>' ∧ y ≠ '<' ∧ ¬ (y = ' ' ∧ (0 : Int) = 0 ∧ (0 : Int) = 0) := by
          decide
        exact key x h
  rw [hwalk]
  simp only [Res.bind_ok]
  have hm : mid (R ++ ' ' :: (C ++ "::operator()".toList)) ((R.length : Int) + 1) (-1)
      = C ++ "::operator()".toList := by
    have e : R ++ ' ' :: (C ++ "::operator()".toList)
        = (R ++ [' ']) ++ (C ++ "::operator()".toList) := by simp
    rw [e]
    exact mid_rest _ _ _ (by simp)
  rw [hm]
  obtain ⟨d, t, hd, hd1, hd2⟩ : ∃ d t, C ++ "::operator()".toList = d :: t ∧ d ≠ '*' ∧ d ≠ '&' := by
    cases C with
    | nil => exact ⟨':', ":operator()".toList, rfl, by decide, by decide⟩
    | cons d t =>
      have := hfirst d rfl
      exact ⟨d, t ++ "::operator()".toList, rfl, this.1, this.2⟩
  have hs : stripRefLoop ((C ++ "::operator()".toList).length + 1) (C ++ "::operator()".toList)
      = .ok (C ++ "::operator()".toList) := by
    rw [hd]
    exact stripRefLoop_plain _ d t hd1 hd2
  rw [hs]
  simp only [Res.bind_ok]
  apply templateLoop_plain
  intro h
  rcases List.mem_append.mp h with h1 | h1
  · exact (hC _ h1).2.2.2.1 rfl
  · revert h1
    decide

theorem endsWith_concat_ne (s : List Char) (c d : Char) (h : c ≠ d) :
    endsWith (s ++ [c]) d = false := by
  simp [endsWith, h]

/-! ## C30 -/

/-- C30 as stated fails for `int a b::operator()(int)` with the return type `int` and the
class text `a b`, and for `int *Foo::operator()(int)` with the class text `*Foo`: neither
class text holds a parenthesis, an angle bracket or "operator", and qCleanupFuncinfo
returns `b::operator()` and `Foo::operator()`, not the class text followed by
`::operator()`. -/
theorem C30_counterexample :
    ("int a b::operator()(int)".toList
        = "int".toList ++ ' ' :: ("a b".toList ++ "::operator()(".toList ++ "int".toList ++ [')'])
      ∧ qCleanupFuncinfo "int a b::operator()(int)".toList = .ok "b::operator()".toList
      ∧ "b::operator()".toList ≠ "a b".toList ++ "::operator()".toList)
    ∧ ("int *Foo::operator()(int)".toList
        = "int".toList ++ ' ' :: ("*Foo".toList ++ "::operator()(".toList ++ "int".toList ++ [')'])
      ∧ qCleanupFuncinfo "int *Foo::operator()(int)".toList = .ok "Foo::operator()".toList
      ∧ "Foo::operator()".toList ≠ "*Foo".toList ++ "::operator()".toList)
    ∧ (∀ c ∈ "int".toList ++ "a b".toList ++ "*Foo".toList,
        c ≠ '(' ∧ c ≠ ')' ∧ c ≠ '<' ∧ c ≠ '>')
    ∧ contains "int".toList "operator".toList = false
    ∧ contains "a b".toList "operator".toList = false
    ∧ contains "*Foo".toList "operator".toList = false := by
  refine ⟨⟨by decide, by decide, by decide⟩, ⟨by decide, by decide, by decide⟩, by decide,
    by decide, by decide, by decide⟩

/-- C30, amended: for a function-info string made of a return type R, a blank, a class
text C, `::operator()` and an argument list "(" A ")", where R and C hold no "operator",
C holds no parenthesis, angle bracket or blank and does not begin with `*` or `&`, and A
holds no parenthesis, qCleanupFuncinfo returns C followed by `::operator()`. (That R
holds no parenthesis or angle bracket is not needed.) -/
theorem C30_call_operator (R C A : List Char)
    (hR : contains R "operator".toList = false)
    (hCop : contains C "operator".toList = false)
    (hC : ∀ c ∈ C, c ≠ ')' ∧ c ≠ '(' ∧ c ≠ '<' ∧ c ≠ '>' ∧ c ≠ ' ')
    (hFirst : ∀ c, C.head? = some c → c ≠ '*' ∧ c ≠ '&')
    (hA : ∀ c ∈ A, c ≠ ')' ∧ c ≠ '(') :
    qCleanupFuncinfo (R ++ ' ' :: (C ++ "::operator()(".toList ++ A ++ [')']))
      = .ok (C ++ "::operator()".toList) := by
  have hR2 := (contains_eq_false_iff _ _).mp hR
  have hC2 := (contains_eq_false_iff _ _).mp hCop
  have hshape : R ++ ' ' :: (C ++ "::operator()(".toList ++ A ++ [')'])
      = (R ++ ' ' :: (C ++ "::operator()".toList)) ++ '(' :: (A ++ ')' :: []) := by simp
  -- canonizing the operator names changes the argument list at most
  have hrep : replaceGo "operator ".toList "operator".toList 0
      (R ++ ' ' :: (C ++ "::operator()(".toList ++ A ++ [')']))
      = ((R ++ ' ' :: (C ++ "::operator(".toList)) ++ [')'])
          ++ '(' :: (replaceGo "operator ".toList "operator".toList 0 A ++ ')' :: []) := by
    rw [hshape, replaceGo_separator _ _ '(' (by decide) (by decide) _ _ 0 (Nat.zero_le _),
      replaceGo_separator _ _ ')' (by decide) (by decide) _ _ 0 (Nat.zero_le _),
      replaceGo_of_absent _ _ _ (no_operator_blank_before_call R C hR2 hC2)]
    simp [replaceGo]
  have hA2 : ∀ x ∈ replaceGo "operator ".toList "operator".toList 0 A, x ≠ ')' ∧ x ≠ '(' := by
    intro x hx
    rcases replaceGo_mem _ _ _ _ _ hx with h | h
    · exact hA x h
    · have key : ∀ y ∈ "operator".toList, y ≠ ')' ∧ y ≠ '(' := by decide
      exact key x h
  have e : (R ++ ' ' :: (C ++ "::operator(".toList)) ++ [')']
      = R ++ ' ' :: (C ++ "::operator()".toList) := by simp
  rw [qCleanupFuncinfo_prepared _ (R ++ ' ' :: (C ++ "::operator(".toList))
    (replaceGo "operator ".toList "operator".toList 0 A) [] ')' (by simp)
    (stripWith_of_not_endsWith _ (by
      have e3 : R ++ ' ' :: (C ++ "::operator()(".toList ++ A ++ [')'])
          = (R ++ ' ' :: (C ++ "::operator()(".toList ++ A)) ++ [')'] := by simp
      rw [e3]
      exact endsWith_concat_ne _ _ _ (by decide)))
    hrep hA2 (by simp) (Or.inr (by
      rw [e, indexOf_operator_call R C hR2 hC2]
      simp only [List.length_append, List.length_cons]
      have h1 : "::operator()".toList.length = 12 := rfl
      have h2 : (operator_call.length : Int) = 10 := rfl
      rw [h1, h2]
      omega)), e]
  exact cleanupName_call_operator R C hR2 hC2 hC hFirst

/-- C30 at the string `bool ns::Functor::operator()(int a, char b)`. -/
theorem C30_call_operator_witness :
    "bool ns::Functor::operator()(int a, char b)".toList
        = "bool".toList ++ ' ' :: ("ns::Functor".toList ++ "::operator()(".toList
            ++ "int a, char b".toList ++ [')'])
    ∧ qCleanupFuncinfo ("bool".toList ++ ' ' :: ("ns::Functor".toList ++ "::operator()(".toList
          ++ "int a, char b".toList ++ [')']))
      = .ok ("ns::Functor".toList ++ "::operator()".toList) :=
  ⟨by decide,
   C30_call_operator "bool".toList "ns::Functor".toList "int a, char b".toList
      (by decide) (by decide) (by decide) (by decide) (by decide)⟩

theorem infix_of_last_not_mem {w a : List Char} {z : Char} (b : List Char) (hz : z ∉ b)
    (h : w ++ [z] <:+: a ++ b) : w ++ [z] <:+: a := by
  induction b using List.reverseRecOn with
  | nil => simpa using h
  | append_singleton b2 y ih =>
    have hy : z ≠ y := fun e => hz (by simp [e])
    have hz2 : z ∉ b2 := fun hm => hz (by simp [hm])
    rw [← List.append_assoc] at h
    rcases List.infix_concat_iff.mp h with h1 | h1
    · exfalso
      obtain ⟨s, hs⟩ := h1
      have := List.append_inj' (show (s ++ w) ++ [z] = (a ++ b2) ++ [y] by simpa using hs) rfl
      exact hy (by simpa using this.2)
    · exact ih hz2 h1

theorem no_operator_blank_before_name (R C : List Char) (hR : ¬ "operator".toList <:+: R)
    (hC : ' ' ∉ C) : ¬ "operator ".toList <:+: R ++ ' ' :: C := by
  intro h
  have e : R ++ ' ' :: C = (R ++ [' ']) ++ C := by simp
  have e2 : "operator ".toList = "operator".toList ++ [' '] := rfl
  rw [e, e2] at h
  have h2 := infix_of_last_not_mem C hC h
  rcases List.infix_concat_iff.mp h2 with h3 | h3
  · obtain ⟨s, hs⟩ := h3
    have := List.append_inj' (show (s ++ "operator".toList) ++ [' '] = R ++ [' '] by
      simpa using hs) rfl
    exact hR ⟨s, [], by simpa using this.1⟩
  · have hw : "operator".toList <:+: "operator".toList ++ [' '] := ⟨[], [' '], rfl⟩
    exact hR (hw.trans h3)

theorem no_operator_blank_of_no_blank (M : List Char) (hM : ' ' ∉ M) :
    ¬ "operator ".toList <:+: M := by
  intro h
  exact hM (h.mem (by decide))

theorem remove_middle (a b c : List Char) (hb : b ≠ []) (p n : Int) (hp : p = a.length)
    (hn : n = b.length) : remove (a ++ (b ++ c)) p n = a ++ c := by
  subst hp hn
  have hlen : 0 < b.length := List.length_pos.mpr hb
  unfold remove
  have hc : ¬ ((b.length : Int) ≤ 0 ∨ (a.length : Int) < 0
      ∨ (a.length : Int) ≥ ((a ++ (b ++ c)).length : Nat)) := by
    simp only [List.length_append]
    omega
  rw [if_neg hc]
  have e1 : (a.length : Int).toNat = a.length := Int.toNat_ofNat _
  have e2 : ((a.length : Int) + (b.length : Int)).toNat = a.length + b.length := by omega
  rw [e1, e2]
  simp [List.drop_append]

/-- One pass of the loop that removes template argument lists, on a name with one
argument list without nested angle brackets. -/
theorem templateLoop_once (fuel : Nat) (C T rest : List Char) (hC : C ≠ [])
    (hT : ∀ x ∈ T, x ≠ '>' ∧ x ≠ '<') (hrest : '>' ∉ rest) :
    templateLoop (fuel + 1) (C ++ '<' :: (T ++ '>' :: rest))
      = templateLoop fuel (C ++ rest) := by
  have hl : lastIndexOfChar (C ++ '<' :: (T ++ '>' :: rest)) '>'
      = (C.length : Int) + T.length + 1 := by
    have e : C ++ '<' :: (T ++ '>' :: rest) = (C ++ '<' :: T) ++ '>' :: rest := by simp
    rw [e, lastIndexOfChar_append_cons _ _ _ hrest]
    simp only [List.length_append, List.length_cons]
    omega
  have hs : scanBack '>' '<' ((C ++ '<' :: (T ++ '>' :: rest)).length + 1)
      (C ++ '<' :: (T ++ '>' :: rest)) ((C.length : Int) + T.length + 1 - 1) 1
      = .ok ((C.length : Int) - 1, 0) := by
    have e : (C.length : Int) + T.length + 1 - 1 = (C.length : Int) + T.length := by omega
    rw [e]
    apply scanBack_segment '>' '<' (by decide) C hC T ('>' :: rest) _ hT
    simp only [List.length_append, List.length_cons]
    omega
  have hcont : contains (C ++ '<' :: (T ++ '>' :: rest)) ['<'] = true := by
    cases h : contains (C ++ '<' :: (T ++ '>' :: rest)) ['<'] with
    | true => rfl
    | false =>
      exfalso
      exact (contains_eq_false_iff _ _).mp h ⟨C, T ++ '>' :: rest, by simp⟩
  conv_lhs => unfold templateLoop
  dsimp only
  have h1 : lastIndexOfChar (C ++ '<' :: (T ++ '>' :: rest)) '>' ≠ -1 := by
    rw [hl]; omega
  rw [if_pos h1, hcont]
  simp only [Bool.not_true, Bool.false_eq_true, if_false, Res.monad_bind]
  rw [hl, hs]
  simp only [Res.bind_ok]
  congr 1
  have e : C ++ '<' :: (T ++ '>' :: rest) = C ++ (('<' :: (T ++ ['>'])) ++ rest) := by simp
  rw [e]
  apply remove_middle C ('<' :: (T ++ ['>'])) rest (by simp)
  · omega
  · simp only [List.length_append, List.length_cons, List.length_singleton, List.length_nil]
    omega

theorem nameLoop_at_gt (fuel : Nat) (a b : List Char) (pc tc : Int) (hpc : 0 ≤ pc)
    (htc : 0 ≤ tc) :
    nameLoop (fuel + 1) (a ++ '>' :: b) (a.length : Int) pc tc
      = nameLoop fuel (a ++ '>' :: b) ((a.length : Int) - 1) pc (tc + 1) := by
  rw [nameLoop_at _ _ _ _ _ _ hpc htc]
  simp

theorem nameLoop_at_lt (fuel : Nat) (a b : List Char) (pc tc : Int) (hpc : 0 ≤ pc)
    (htc : 0 ≤ tc) :
    nameLoop (fuel + 1) (a ++ '<' :: b) (a.length : Int) pc tc
      = nameLoop fuel (a ++ '<' :: b) ((a.length : Int) - 1) pc (tc - 1) := by
  rw [nameLoop_at _ _ _ _ _ _ hpc htc]
  simp

theorem nameLoop_at_blank (fuel : Nat) (a b : List Char) :
    nameLoop (fuel + 1) (a ++ ' ' :: b) (a.length : Int) 0 0 = .ok (some (a.length : Int)) := by
  rw [nameLoop_at _ _ _ _ _ _ (le_refl _) (le_refl _)]
  simp

/-- The walk back from the end of `R C<T>::M` to the blank before the class name. -/
theorem nameLoop_template_member (R C T M : List Char) (fuel : Nat)
    (hC : ∀ x ∈ C, x ≠ ')' ∧ x ≠ '(' ∧ x ≠ '>' ∧ x ≠ '<' ∧ x ≠ ' ')
    (hM : ∀ x ∈ M, x ≠ ')' ∧ x ≠ '(' ∧ x ≠ '>' ∧ x ≠ '<' ∧ x ≠ ' ')
    (hT : ∀ x ∈ T, x ≠ ')' ∧ x ≠ '(' ∧ x ≠ '>' ∧ x ≠ '<') :
    nameLoop (fuel + 1 + C.length + 1 + T.length + 1 + (M.length + 2))
        (R ++ ' ' :: (C ++ '<' :: (T ++ '>' :: ':' :: ':' :: M)))
        ((R.length : Int) + C.length + T.length + M.length + 4) 0 0
      = .ok (some (R.length : Int)) := by
  -- over `::M`
  have e1 : R ++ ' ' :: (C ++ '<' :: (T ++ '>' :: ':' :: ':' :: M))
      = (R ++ ' ' :: (C ++ '<' :: (T ++ ['>']))) ++ ((':' :: ':' :: M) ++ []) := by simp
  have p1 : (R.length : Int) + C.length + T.length + M.length + 4
      = ((R ++ ' ' :: (C ++ '<' :: (T ++ ['>']))).length : Int)
          + ((':' :: ':' :: M).length : Nat) - 1 := by
    simp only [List.length_append, List.length_cons, List.length_singleton, List.length_nil]
    omega
  have l1 : M.length + 2 = (':' :: ':' :: M).length := by simp
  rw [l1, p1, e1, nameLoop_segment _ 0 0 (le_refl _) (le_refl _) (':' :: ':' :: M) []
    (fuel + 1 + C.length + 1 + T.length + 1) (by
      intro x hx
      rcases List.mem_cons.mp hx with h | h
      · subst h; decide
      · rcases List.mem_cons.mp h with h | h
        · subst h; decide
        · have := hM x h
          exact ⟨this.1, this.2.1, this.2.2.1, this.2.2.2.1, fun h2 => this.2.2.2.2 h2.1⟩)]
  -- the closing angle bracket
  have e2 : (R ++ ' ' :: (C ++ '<' :: (T ++ ['>']))) ++ ((':' :: ':' :: M) ++ [])
      = (R ++ ' ' :: (C ++ '<' :: T)) ++ '>' :: (':' :: ':' :: M) := by simp
  have p2 : ((R ++ ' ' :: (C ++ '<' :: (T ++ ['>']))).length : Int) - 1
      = ((R ++ ' ' :: (C ++ '<' :: T)).length : Int) := by
    simp only [List.length_append, List.length_cons, List.length_singleton, List.length_nil]
    omega
  rw [e2, p2, nameLoop_at_gt _ _ _ 0 0 (le_refl _) (le_refl _)]
  -- over the template arguments
  have e3 : (R ++ ' ' :: (C ++ '<' :: T)) ++ '>' :: (':' :: ':' :: M)
      = (R ++ ' ' :: (C ++ ['<'])) ++ (T ++ ('>' :: ':' :: ':' :: M)) := by simp
  have p3 : ((R ++ ' ' :: (C ++ '<' :: T)).length : Int) - 1
      = ((R ++ ' ' :: (C ++ ['<'])).length : Int) + (T.length : Nat) - 1 := by
    simp only [List.length_append, List.length_cons, List.length_singleton, List.length_nil]
    omega
  have c3 : (0 : Int) + 1 = 1 := rfl
  rw [e3, p3, c3, nameLoop_segment _ 0 1 (le_refl _) (by decide) T _ (fuel + 1 + C.length + 1) (by
      intro x hx
      have := hT x hx
      exact ⟨this.1, this.2.1, this.2.2.1, this.2.2.2, fun h2 => by simp at h2⟩)]
  -- the opening angle bracket
  have e4 : (R ++ ' ' :: (C ++ ['<'])) ++ (T ++ ('>' :: ':' :: ':' :: M))
      = (R ++ ' ' :: C) ++ '<' :: (T ++ ('>' :: ':' :: ':' :: M)) := by simp
  have p4 : ((R ++ ' ' :: (C ++ ['<'])).length : Int) - 1 = ((R ++ ' ' :: C).length : Int) := by
    simp only [List.length_append, List.length_cons, List.length_singleton, List.length_nil]
    omega
  rw [e4, p4, nameLoop_at_lt _ _ _ 0 1 (le_refl _) (by decide)]
  -- over the class name
  have e5 : (R ++ ' ' :: C) ++ '<' :: (T ++ ('>' :: ':' :: ':' :: M))
      = (R ++ [' ']) ++ (C ++ ('<' :: (T ++ ('>' :: ':' :: ':' :: M)))) := by simp
  have p5 : ((R ++ ' ' :: C).length : Int) - 1
      = ((R ++ [' ']).length : Int) + (C.length : Nat) - 1 := by
    simp only [List.length_append, List.length_cons, List.length_singleton, List.length_nil]
    omega
  have c5 : (1 : Int) - 1 = 0 := rfl
  rw [e5, p5, c5, nameLoop_segment _ 0 0 (le_refl _) (le_refl _) C _ (fuel + 1) (by
      intro x hx
      have := hC x hx
      exact ⟨this.1, this.2.1, this.2.2.1, this.2.2.2.1, fun h2 => this.2.2.2.2 h2.1⟩)]
  -- the blank
  have e6 : (R ++ [' ']) ++ (C ++ ('<' :: (T ++ ('>' :: ':' :: ':' :: M))))
      = R ++ ' ' :: (C ++ ('<' :: (T ++ ('>' :: ':' :: ':' :: M)))) := by simp
  have p6 : ((R ++ [' ']).length : Int) - 1 = (R.length : Int) := by
    simp only [List.length_append, List.length_singleton]
    omega
  rw [e6, p6, nameLoop_at_blank]

theorem isIdentifierChar_name (c : Char) (h : isIdentifierChar c = true) :
    c ≠ ')' ∧ c ≠ '(' ∧ c ≠ '>' ∧ c ≠ '<' ∧ c ≠ ' ' :=
  have k := isIdentifierChar_plain c (Or.inl h)
  ⟨k.1, k.2.1, k.2.2.1, k.2.2.2.1, k.2.2.2.2.1⟩

/-- The last part of qCleanupFuncinfo on `R C<T>::M`: the result is `C::M`. -/
theorem cleanupName_template_member (R C T M : List Char) (hCne : C ≠ []) (hMne : M ≠ [])
    (hC : ∀ x ∈ C, isIdentifierChar x = true) (hM : ∀ x ∈ M, isIdentifierChar x = true)
    (hT : ∀ x ∈ T, x ≠ ')' ∧ x ≠ '(' ∧ x ≠ '>' ∧ x ≠ '<') :
    cleanupName (R ++ ' ' :: (C ++ '<' :: (T ++ '>' :: ':' :: ':' :: M)))
        (((R ++ ' ' :: (C ++ '<' :: (T ++ '>' :: ':' :: ':' :: M))).length : Nat) : Int)
      = .ok (C ++ ':' :: ':' :: M) := by
  obtain ⟨m0, c, rfl⟩ : ∃ m0 c, M = m0 ++ [c] := by
    rcases List.eq_nil_or_concat M with h | ⟨m0, c, h⟩
    · exact absurd h hMne
    · exact ⟨m0, c, by simpa using h⟩
  have hc := isIdentifierChar_plain c (Or.inl (hM c (by simp)))
  have e0 : R ++ ' ' :: (C ++ '<' :: (T ++ '>' :: ':' :: ':' :: (m0 ++ [c])))
      = (R ++ ' ' :: (C ++ '<' :: (T ++ '>' :: ':' :: ':' :: m0))) ++ [c] := by simp
  unfold cleanupName
  rw [e0, operatorAdjust_plain _ c hc.1 hc.2.2.2.1 hc.2.2.1 hc.2.2.2.2.2.2.2, ← e0]
  simp only [Res.bind_ok]
  have hfuel : (R ++ ' ' :: (C ++ '<' :: (T ++ '>' :: ':' :: ':' :: (m0 ++ [c])))).length + 2
      = (R.length + 2) + 1 + C.length + 1 + T.length + 1 + ((m0 ++ [c]).length + 2) := by
    simp only [List.length_append, List.length_cons, List.length_singleton, List.length_nil]
    omega
  have hpos : ((R ++ ' ' :: (C ++ '<' :: (T ++ '>' :: ':' :: ':' :: m0))).length : Int)
      = (R.length : Int) + C.length + T.length + ((m0 ++ [c]).length : Nat) + 4 := by
    simp only [List.length_append, List.length_cons, List.length_singleton, List.length_nil]
    omega
  rw [hfuel, hpos, nameLoop_template_member R C T (m0 ++ [c]) (R.length + 2)
    (fun x hx => isIdentifierChar_name x (hC x hx))
    (fun x hx => isIdentifierChar_name x (hM x hx)) hT]
  simp only [Res.bind_ok]
  have hm : mid (R ++ ' ' :: (C ++ '<' :: (T ++ '>' :: ':' :: ':' :: (m0 ++ [c]))))
      ((R.length : Int) + 1) (-1) = C ++ '<' :: (T ++ '>' :: ':' :: ':' :: (m0 ++ [c])) := by
    have e : R ++ ' ' :: (C ++ '<' :: (T ++ '>' :: ':' :: ':' :: (m0 ++ [c])))
        = (R ++ [' ']) ++ (C ++ '<' :: (T ++ '>' :: ':' :: ':' :: (m0 ++ [c]))) := by simp
    rw [e]
    exact mid_rest _ _ _ (by simp)
  rw [hm]
  obtain ⟨d, t, hd⟩ : ∃ d t, C = d :: t := by
    cases C with
    | nil => exact absurd rfl hCne
    | cons d t => exact ⟨d, t, rfl⟩
  have hdI := isIdentifierChar_plain d (Or.inl (hC d (by simp [hd])))
  have hs : stripRefLoop ((C ++ '<' :: (T ++ '>' :: ':' :: ':' :: (m0 ++ [c]))).length + 1)
      (C ++ '<' :: (T ++ '>' :: ':' :: ':' :: (m0 ++ [c])))
      = .ok (C ++ '<' :: (T ++ '>' :: ':' :: ':' :: (m0 ++ [c]))) := by
    rw [hd]
    exact stripRefLoop_plain _ d _ hdI.2.2.2.2.2.1 hdI.2.2.2.2.2.2.1
  rw [hs]
  simp only [Res.bind_ok]
  have hrest : '>' ∉ ':' :: ':' :: (m0 ++ [c]) := by
    intro h
    rcases List.mem_cons.mp h with h | h
    · exact absurd h (by decide)
    · rcases List.mem_cons.mp h with h | h
      · exact absurd h (by decide)
      · exact (isIdentifierChar_name _ (hM _ h)).2.2.1 rfl
  have hlen : (C ++ '<' :: (T ++ '>' :: ':' :: ':' :: (m0 ++ [c]))).length + 1
      = (C.length + T.length + (m0 ++ [c]).length + 3) + 1 + 1 := by
    simp only [List.length_append, List.length_cons, List.length_singleton, List.length_nil]
    omega
  rw [hlen, templateLoop_once _ C T _ hCne (fun x hx => ⟨(hT x hx).2.2.1, (hT x hx).2.2.2⟩) hrest]
  apply templateLoop_plain
  intro h
  rcases List.mem_append.mp h with h1 | h1
  · exact (isIdentifierChar_name _ (hC _ h1)).2.2.1 rfl
  · exact hrest h1

/-- The function qCleanupFuncinfo on `R C<T>::M(A)` where C and M are non-empty
identifiers, T holds no bracket, A no parenthesis, and R no "operator": the result is
`C::M`. -/
theorem qCleanupFuncinfo_template_member (R C T M A : List Char)
    (hCne : C ≠ []) (hMne : M ≠ [])
    (hC : ∀ x ∈ C, isIdentifierChar x = true) (hM : ∀ x ∈ M, isIdentifierChar x = true)
    (hT : ∀ x ∈ T, x ≠ ')' ∧ x ≠ '(' ∧ x ≠ '>' ∧ x ≠ '<')
    (hA : ∀ x ∈ A, x ≠ ')' ∧ x ≠ '(')
    (hR : contains R "operator".toList = false) :
    qCleanupFuncinfo (R ++ ' ' :: (C ++ '<' :: (T ++ '>' :: ':' :: ':' :: (M ++ '(' :: (A ++ [')'])))))
      = .ok (C ++ ':' :: ':' :: M) := by
  have hR2 := (contains_eq_false_iff _ _).mp hR
  have hCb : ' ' ∉ C := fun h => (isIdentifierChar_name _ (hC _ h)).2.2.2.2 rfl
  have hMb : ' ' ∉ M := fun h => (isIdentifierChar_name _ (hM _ h)).2.2.2.2 rfl
  obtain ⟨m0, c, hMc⟩ : ∃ m0 c, M = m0 ++ [c] := by
    rcases List.eq_nil_or_concat M with h | ⟨m0, c, h⟩
    · exact absurd h hMne
    · exact ⟨m0, c, by simpa using h⟩
  have hc := isIdentifierChar_plain c (Or.inl (hM c (by simp [hMc])))
  -- canonizing the operator names changes the template and function arguments at most
  have hrep : replaceGo "operator ".toList "operator".toList 0
      (R ++ ' ' :: (C ++ '<' :: (T ++ '>' :: ':' :: ':' :: (M ++ '(' :: (A ++ [')'])))))
      = ((R ++ ' ' :: (C ++ '<' :: (replaceGo "operator ".toList "operator".toList 0 T
            ++ '>' :: ':' :: ':' :: m0))) ++ [c])
          ++ '(' :: (replaceGo "operator ".toList "operator".toList 0 A ++ ')' :: []) := by
    have e : R ++ ' ' :: (C ++ '<' :: (T ++ '>' :: ':' :: ':' :: (M ++ '(' :: (A ++ [')']))))
        = (R ++ ' ' :: C) ++ '<' :: (T ++ '>' :: ([] ++ ':' :: ([] ++ ':' ::
            (M ++ '(' :: (A ++ ')' :: []))))) := by simp
    rw [e, replaceGo_separator _ _ '<' (by decide) (by decide) _ _ 0 (Nat.zero_le _),
      replaceGo_separator _ _ '>' (by decide) (by decide) _ _ 0 (Nat.zero_le _),
      replaceGo_separator _ _ ':' (by decide) (by decide) _ _ 0 (Nat.zero_le _),
      replaceGo_separator _ _ ':' (by decide) (by decide) _ _ 0 (Nat.zero_le _),
      replaceGo_separator _ _ '(' (by decide) (by decide) _ _ 0 (Nat.zero_le _),
      replaceGo_separator _ _ ')' (by decide) (by decide) _ _ 0 (Nat.zero_le _),
      replaceGo_of_absent _ _ _ (no_operator_blank_before_name R C hR2 hCb),
      replaceGo_of_absent _ _ _ (no_operator_blank_of_no_blank M hMb), hMc]
    simp [replaceGo]
  have hT2 : ∀ x ∈ replaceGo "operator ".toList "operator".toList 0 T,
      x ≠ ')' ∧ x ≠ '(' ∧ x ≠ '>' ∧ x ≠ '<' := by
    intro x hx
    rcases replaceGo_mem _ _ _ _ _ hx with h | h
    · exact hT x h
    · have key : ∀ y ∈ "operator".toList, y ≠ ')' ∧ y ≠ '(' ∧ y ≠ '>' ∧ y ≠ '<' := by decide
      exact key x h
  have hA2 : ∀ x ∈ replaceGo "operator ".toList "operator".toList 0 A, x ≠ ')' ∧ x ≠ '(' := by
    intro x hx
    rcases replaceGo_mem _ _ _ _ _ hx with h | h
    · exact hA x h
    · have key : ∀ y ∈ "operator".toList, y ≠ ')' ∧ y ≠ '(' := by decide
      exact key x h
  rw [qCleanupFuncinfo_prepared _ _ _ [] c (by simp)
    (stripWith_of_not_endsWith _ (by
      have e3 : R ++ ' ' :: (C ++ '<' :: (T ++ '>' :: ':' :: ':' :: (M ++ '(' :: (A ++ [')']))))
          = (R ++ ' ' :: (C ++ '<' :: (T ++ '>' :: ':' :: ':' :: (M ++ '(' :: A)))) ++ [')'] := by
        simp
      rw [e3]
      exact endsWith_concat_ne _ _ _ (by decide)))
    hrep hA2 (by simp) (Or.inl hc.1)]
  have e4 : (R ++ ' ' :: (C ++ '<' :: (replaceGo "operator ".toList "operator".toList 0 T
      ++ '>' :: ':' :: ':' :: m0))) ++ [c]
      = R ++ ' ' :: (C ++ '<' :: (replaceGo "operator ".toList "operator".toList 0 T
          ++ '>' :: ':' :: ':' :: M)) := by
    simp [hMc]
  rw [e4]
  exact cleanupName_template_member R C _ M hCne hMne hC hM hT2

/-! ## C29 -/

/-- C29: qCleanupFuncinfo at `binary_operator Foo<int>::bar()`, a string of the form of
the claim with the return type `binary_operator`, the class `Foo`, the template argument
`int`, the member `bar` and no arguments. Canonizing the operator names removes the blank
after the return type, which ends in "operator", and the result is
`binary_operatorFoo::bar`, not `Foo::bar`; for `void Foo<int>::bar()` the result is
`Foo::bar`. -/
theorem C29_operator_suffix_return_type :
    "binary_operator Foo<int>::bar()".toList
        = "binary_operator".toList ++ ' ' :: ("Foo".toList ++ '<' :: ("int".toList
            ++ '>' :: ':' :: ':' :: ("bar".toList ++ '(' :: ([] ++ [')']))))
    ∧ replaceGo "operator ".toList "operator".toList 0 "binary_operator Foo<int>::bar()".toList
        = "binary_operatorFoo<int>::bar()".toList
    ∧ qCleanupFuncinfo "binary_operator Foo<int>::bar()".toList
        = .ok "binary_operatorFoo::bar".toList
    ∧ "binary_operatorFoo::bar".toList ≠ "Foo".toList ++ "::".toList ++ "bar".toList
    ∧ qCleanupFuncinfo "void Foo<int>::bar()".toList = .ok "Foo::bar".toList := by
  refine ⟨by decide, by decide, by decide, by decide, by decide⟩

theorem isFatal_critical (pl : Platform) (w : Process) :
    (isFatal pl QtCriticalMsg w).1 = criticalsFatal pl w := by
  cases hc : w.fatalCriticals <;> simp [isFatal, criticalsFatal, hc]

/-! ## C31 -/

/-- C31: isFatal(QtCriticalMsg) returns the criticals-as-fatal toggle, which in a process
that has not read QT_FATAL_CRITICALS yet is whether that variable is non-empty, whatever
QT_FATAL_WARNINGS and the warnings-as-fatal toggle are; so with QT_FATAL_WARNINGS set
and QT_FATAL_CRITICALS unset or empty a critical message is not fatal.
isFatal(QtDebugMsg) returns false and changes nothing, for every environment and state. -/
theorem C31_isFatal_critical (pl : Platform) (w : Process) (v : Option (List Char))
    (b : Option Bool) :
    (isFatal pl QtCriticalMsg w).1 = criticalsFatal pl w
    ∧ (w.fatalCriticals = none →
        ((isFatal pl QtCriticalMsg w).1 = true
          ↔ qEnvironmentVariableIsEmpty pl.QT_FATAL_CRITICALS = false))
    ∧ (isFatal { pl with QT_FATAL_WARNINGS := v } QtCriticalMsg { w with fatalWarnings := b }).1
        = (isFatal pl QtCriticalMsg w).1
    ∧ (w.fatalCriticals = none → qEnvironmentVariableIsEmpty pl.QT_FATAL_CRITICALS = true →
        (isFatal { pl with QT_FATAL_WARNINGS := some ['1'] } QtCriticalMsg w).1 = false)
    ∧ isFatal pl QtDebugMsg w = (false, w) := by
  refine ⟨isFatal_critical pl w, ?_, ?_, ?_, ?_⟩
  · intro h
    simp [isFatal, h]
  · cases hc : w.fatalCriticals <;> simp [isFatal, hc]
  · intro h he
    simp [isFatal, h, he]
  · simp [isFatal]

/-- C31 in a fresh process with only QT_FATAL_WARNINGS set. -/
theorem C31_isFatal_critical_witness :
    Process.start.fatalCriticals = none
    ∧ qEnvironmentVariableIsEmpty samplePlatform.QT_FATAL_CRITICALS = true
    ∧ (isFatal { samplePlatform with QT_FATAL_WARNINGS := some ['1'] } QtCriticalMsg
        Process.start).1 = false :=
  ⟨rfl, rfl,
   (C31_isFatal_critical samplePlatform Process.start none none).2.2.2.1 rfl rfl⟩

/-! ## C32 -/

/-- C32: when isFatal holds for the type of an event and qt_message_print drops the
event at the category gate, qt_message_output ends in qt_message_fatal (abort), in the
state of the call but for the toggle that isFatal has read: no handler call has been
added, nothing has been written to stderr or to the journal, and no pattern object has
been made. -/
theorem C32_fatal_after_drop (pl : Platform) (fuel : Nat) (msgType : QtMsgType)
    (context : QMessageLogContext) (message : QString) (w : Process)
    (hFatal : (isFatal pl msgType w).1 = true)
    (hDropped : droppedByCategory pl msgType context = true) :
    qt_message_print pl (fuel + 1) msgType context message w = .returned w
    ∧ qt_message_output pl (fuel + 1) msgType context message w
        = .aborted (isFatal pl msgType w).2
    ∧ (isFatal pl msgType w).2.invoked = w.invoked
    ∧ (isFatal pl msgType w).2.stderr = w.stderr
    ∧ (isFatal pl msgType w).2.journal = w.journal
    ∧ (isFatal pl msgType w).2.qMessagePattern = w.qMessagePattern := by
  have hp : qt_message_print pl (fuel + 1) msgType context message w = .returned w := by
    unfold qt_message_print
    rw [if_pos hDropped]
  have hf := isFatal_fields pl msgType w
  refine ⟨hp, ?_, hf.1, hf.2.2.1, ?_, ?_⟩
  · unfold qt_message_output outputWith
    rw [hp]
    simp only [Outcome.bind]
    rw [hFatal]
    rfl
  · unfold isFatal
    split_ifs
    · rfl
    · cases w.fatalCriticals <;> rfl
    · cases w.fatalWarnings <;> rfl
    · rfl
  · unfold isFatal
    split_ifs
    · rfl
    · cases w.fatalCriticals <;> rfl
    · cases w.fatalWarnings <;> rfl
    · rfl

/-- C32 at a fatal message without category on a platform whose default category has
every type disabled. -/
theorem C32_fatal_after_drop_witness :
    (isFatal { samplePlatform with defaultCategory := some (fun _ => false) } QtFatalMsg
        Process.start).1 = true
    ∧ droppedByCategory { samplePlatform with defaultCategory := some (fun _ => false) }
        QtFatalMsg QMessageLogContext.empty = true
    ∧ qt_message_output { samplePlatform with defaultCategory := some (fun _ => false) } 1
        QtFatalMsg QMessageLogContext.empty (some ['x']) Process.start
      = .aborted (isFatal { samplePlatform with defaultCategory := some (fun _ => false) }
          QtFatalMsg Process.start).2 :=
  ⟨rfl, rfl,
   (C32_fatal_after_drop { samplePlatform with defaultCategory := some (fun _ => false) } 0
      QtFatalMsg QMessageLogContext.empty (some ['x']) Process.start rfl rfl).2.1⟩

theorem isFatal_written (pl : Platform) (msgType : QtMsgType) (w : Process) :
    (isFatal pl msgType w).2.journal = w.journal
    ∧ (isFatal pl msgType w).2.qMessagePattern = w.qMessagePattern
    ∧ (isFatal pl msgType w).2.messageHandler = w.messageHandler
    ∧ (isFatal pl msgType w).2.msgHandler = w.msgHandler := by
  unfold isFatal
  split_ifs
  · simp
  · cases w.fatalCriticals <;> simp
  · cases w.fatalWarnings <;> simp
  · simp

theorem Outcome.bind_returned (r : Outcome) (f : Process → Outcome) (w2 : Process)
    (h : r.bind f = .returned w2) : ∃ w1, r = .returned w1 ∧ f w1 = .returned w2 := by
  cases r with
  | returned w1 => exact ⟨w1, rfl, h⟩
  | aborted w1 => simp [Outcome.bind] at h
  | undefined w1 => simp [Outcome.bind] at h
  | outOfFuel => simp [Outcome.bind] at h

theorem qt_message_print_flag (pl : Platform) (fuel : Nat) (msgType : QtMsgType)
    (context : QMessageLogContext) (message : QString) (w w2 : Process)
    (h : qt_message_print pl fuel msgType context message w = .returned w2) :
    w2.msgHandlerGrabbed = w.msgHandlerGrabbed := by
  cases fuel with
  | zero => simp [qt_message_print] at h
  | succ n =>
    by_cases hd : droppedByCategory pl msgType context = true
    · unfold qt_message_print at h
      rw [if_pos hd] at h
      injection h with h
      rw [← h]
    · by_cases hg : w.msgHandlerGrabbed = true
      · rw [qt_message_print_grabbed pl n msgType context message w hg, if_neg hd] at h
        injection h with h
        rw [← h]
      · have hg2 : w.msgHandlerGrabbed = false := by simpa using hg
        unfold qt_message_print at h
        rw [if_neg hd] at h
        simp only [grabMessageHandler, hg2, Bool.false_eq_true, if_false] at h
        obtain ⟨w1, -, h1⟩ := Outcome.bind_returned _ _ _ h
        injection h1 with h1
        rw [← h1, hg2]
        rfl

/-! ## C33 -/

/-- C33: QMessageLogger::warning(cat, ...) and QMessageLogger::critical(cat, ...) return
at once in the state of the call (nothing dispatched, nothing written, no termination)
when the category is disabled for the level, whatever the fatal-promotion toggles are;
QMessageLogger::warning(msg, ...) without category, when the warnings-as-fatal toggle
is active and the default category has dropped the message in qt_message_print, ends in
qt_message_fatal (abort) with no handler call and nothing written. -/
theorem C33_category_entry_points (pl : Platform) (fuel : Nat) (context : QMessageLogContext)
    (cat : QLoggingCategory) (formatted : QString) (w : Process) :
    (cat.isEnabled QtWarningMsg = false →
      QMessageLogger.warningCategory pl fuel context cat formatted w = .returned w)
    ∧ (cat.isEnabled QtCriticalMsg = false →
      QMessageLogger.criticalCategory pl fuel context cat formatted w = .returned w)
    ∧ (warningsFatal pl w = true → droppedByCategory pl QtWarningMsg context = true →
      QMessageLogger.warning pl (fuel + 1) context formatted w
          = .aborted (isFatal pl QtWarningMsg w).2
        ∧ (isFatal pl QtWarningMsg w).2.invoked = w.invoked
        ∧ (isFatal pl QtWarningMsg w).2.stderr = w.stderr
        ∧ (isFatal pl QtWarningMsg w).2.journal = w.journal) := by
  refine ⟨?_, ?_, ?_⟩
  · intro h
    simp [QMessageLogger.warningCategory, h]
  · intro h
    simp [QMessageLogger.criticalCategory, h]
  · intro hT hD
    have hf := isFatal_fields pl QtWarningMsg w
    refine ⟨?_, hf.1, hf.2.2.1, (isFatal_written pl QtWarningMsg w).1⟩
    have hp : qt_message_print pl (fuel + 1) QtWarningMsg context formatted w = .returned w := by
      unfold qt_message_print
      rw [if_pos hD]
    unfold QMessageLogger.warning qt_message
    rw [hp]
    simp only [Outcome.bind]
    have h1 : (isFatal pl QtWarningMsg w).1 = true := by rw [isFatal_warning]; exact hT
    rw [h1]
    rfl

/-- C33 at a platform on which QT_FATAL_WARNINGS is set and the
default category has every type disabled. -/
theorem C33_category_entry_points_witness :
    (warningsFatal { samplePlatform with QT_FATAL_WARNINGS := some ['1'],
                                          defaultCategory := some (fun _ => false) }
        Process.start = true
      ∧ droppedByCategory { samplePlatform with QT_FATAL_WARNINGS := some ['1'],
                                                 defaultCategory := some (fun _ => false) }
          QtWarningMsg QMessageLogContext.empty = true)
    ∧ QMessageLogger.warningCategory
        { samplePlatform with QT_FATAL_WARNINGS := some ['1'],
                              defaultCategory := some (fun _ => false) } 2 sampleContext
        { categoryName := "net".toList, isEnabled := fun _ => false } (some ['x'])
        Process.start = .returned Process.start
    ∧ QMessageLogger.warning
        { samplePlatform with QT_FATAL_WARNINGS := some ['1'],
                              defaultCategory := some (fun _ => false) } 1
        QMessageLogContext.empty (some ['x']) Process.start
      = .aborted { Process.start with fatalWarnings := some true } :=
  ⟨⟨rfl, rfl⟩,
   (C33_category_entry_points
      { samplePlatform with QT_FATAL_WARNINGS := some ['1'],
                            defaultCategory := some (fun _ => false) } 2 sampleContext
      { categoryName := "net".toList, isEnabled := fun _ => false } (some ['x'])
      Process.start).1 rfl,
   by decide⟩

/-! ## C34 -/

/-- C34: a qt_message_print call that returns leaves the flag msgHandlerGrabbed as it
was at entry (clear stays clear, set stays set); when the flag is clear at entry and the
event passes the category gate, the handler is called in a state with the flag set and
the flag is cleared after the handler has returned; the flag is clear in a fresh
process, and with a budget of two nested calls the model of the call always ends. -/
theorem C34_grabbed_flag_restored (pl : Platform) (fuel : Nat) (msgType : QtMsgType)
    (context : QMessageLogContext) (message : QString) (w w2 : Process)
    (hReturned : qt_message_print pl fuel msgType context message w = .returned w2) :
    w2.msgHandlerGrabbed = w.msgHandlerGrabbed
    ∧ (w.msgHandlerGrabbed = false → w2.msgHandlerGrabbed = false)
    ∧ (w.msgHandlerGrabbed = true → w2.msgHandlerGrabbed = true)
    ∧ (w.msgHandlerGrabbed = false → droppedByCategory pl msgType context = false →
        ∃ r : Outcome, ∃ w1 : Process,
          (r = callMessageHandler pl (outputWith pl (qt_message_print pl (fuel - 1)))
                w.messageHandler msgType context message { w with msgHandlerGrabbed := true }
            ∨ r = callMsgHandler pl (outputWith pl (qt_message_print pl (fuel - 1)))
                w.msgHandler msgType (cstr (pl.toLocal8Bit message.text))
                { w with msgHandlerGrabbed := true })
          ∧ r = .returned w1 ∧ w2 = ungrabMessageHandler w1)
    ∧ Process.start.msgHandlerGrabbed = false
    ∧ qt_message_print pl (fuel + 2) msgType context message w ≠ .outOfFuel := by
  have hflag := qt_message_print_flag pl fuel msgType context message w w2 hReturned
  refine ⟨hflag, fun h => hflag.trans h, fun h => hflag.trans h, ?_, rfl,
    qt_message_print_ne_outOfFuel pl fuel msgType context message w⟩
  intro hg hd
  cases fuel with
  | zero => simp [qt_message_print] at hReturned
  | succ n =>
    unfold qt_message_print at hReturned
    simp only [hd, Bool.false_eq_true, if_false, grabMessageHandler, hg] at hReturned
    obtain ⟨w1, h1, h2⟩ := Outcome.bind_returned _ _ _ hReturned
    injection h2 with h2
    refine ⟨_, w1, ?_, h1, h2.symm⟩
    split_ifs
    · exact Or.inl rfl
    · exact Or.inr rfl

/-- C34 at the dispatch of a debug message to the application handler of the sample
platform, which logs a warning while it runs. -/
theorem C34_grabbed_flag_restored_witness :
    qt_message_print samplePlatform 2 QtDebugMsg sampleContext (some "x".toList) handlerProcess
      = .returned
          { handlerProcess with
            fatalWarnings := some false,
            stderr := "nested\n".toList,
            invoked := [Invocation.messageHandler (MessageHandlerPtr.custom 0) QtDebugMsg
                          sampleContext (some "x".toList)] }
    ∧ ({ handlerProcess with
            fatalWarnings := some false,
            stderr := "nested\n".toList,
            invoked := [Invocation.messageHandler (MessageHandlerPtr.custom 0) QtDebugMsg
                          sampleContext (some "x".toList)] } : Process).msgHandlerGrabbed
        = handlerProcess.msgHandlerGrabbed :=
  ⟨by decide,
   (C34_grabbed_flag_restored samplePlatform 2 QtDebugMsg sampleContext (some "x".toList)
      handlerProcess _ (by decide)).1⟩

theorem renderLoop_skipping (env : RenderEnv) (p : QMessagePattern) (type : QtMsgType)
    (context : QMessageLogContext) (str : QString) (body : List Token)
    (h : ∀ t ∈ body, t ≠ Token.endifTokenC) (message : QString) :
    renderLoop env p type context str body true message = .ok message
    ∧ skipEnd type context body true = true := by
  induction body with
  | nil => exact ⟨rfl, rfl⟩
  | cons t rest ih =>
    have ht := h t (List.mem_cons_self _ _)
    have hr : ∀ t ∈ rest, t ≠ Token.endifTokenC := fun x hx => h x (List.mem_cons_of_mem _ hx)
    simp [renderLoop, skipEnd, ht, ih hr]

theorem levelToken_ne_endif (level : QtMsgType) : levelToken level ≠ Token.endifTokenC := by
  cases level <;> simp [levelToken]

/-- The tokens from two nested level conditions up to the next endif add nothing to the
render and leave the loop not skipping. -/
theorem renderLoop_nested (env : RenderEnv) (p : QMessagePattern) (type : QtMsgType)
    (context : QMessageLogContext) (str : QString) (A B : QtMsgType) (body post : List Token)
    (hDistinct : A ≠ B) (hBody : ∀ t ∈ body, t ≠ Token.endifTokenC)
    (skip : Bool) (message : QString) :
    renderLoop env p type context str
        (levelToken A :: levelToken B :: (body ++ Token.endifTokenC :: post)) skip message
      = renderLoop env p type context str post false message := by
  have hAll : ∀ t ∈ levelToken B :: body, t ≠ Token.endifTokenC := by
    intro t ht
    rcases List.mem_cons.mp ht with h | h
    · rw [h]; exact levelToken_ne_endif B
    · exact hBody t h
  have hEnd : ∀ (s : Bool) (m : QString),
      renderLoop env p type context str (Token.endifTokenC :: post) s m
        = renderLoop env p type context str post false m := by
    intro s m
    simp [renderLoop]
  have hSkipped : ∀ (l : List Token), (∀ t ∈ l, t ≠ Token.endifTokenC) →
      renderLoop env p type context str (l ++ Token.endifTokenC :: post) true message
        = renderLoop env p type context str post false message := by
    intro l hl
    rw [renderLoop_append, (renderLoop_skipping env p type context str l hl message).1]
    simp only [Res.bind]
    exact hEnd _ _
  cases skip with
  | true =>
    have h := hSkipped (levelToken A :: levelToken B :: body) (by
      intro t ht
      rcases List.mem_cons.mp ht with h | h
      · rw [h]; exact levelToken_ne_endif A
      · exact hAll t h)
    simpa using h
  | false =>
    rw [renderLoop_levelToken]
    by_cases hA : type = A
    · have hB : type ≠ B := by rw [hA]; exact hDistinct
      have h1 : decide (type ≠ A) = false := by simp [hA]
      rw [h1, renderLoop_levelToken]
      have h2 : decide (type ≠ B) = true := by simp [hB]
      rw [h2]
      exact hSkipped body hBody
    · have h1 : decide (type ≠ A) = true := by simp [hA]
      rw [h1]
      have h := hSkipped (levelToken B :: body) hAll
      simpa using h

/-! ## C35 -/

/-- C35: when the tokens of a pattern are `pre`, the if-tokens of two distinct levels A
and B, `body` (any tokens other than endif, if-* tokens included), endif and `post`,
then for every event, of whatever type, the render is that of `pre` followed by that of
`post` read without skipping: `body` adds nothing for any type, and the first endif
ends the skipping. While the loop is skipping, a token other than endif (an if-* token
too) is passed over and the loop keeps skipping. For example
`%{if-debug}%{if-warning}x%{endif}y` renders "y" for every event. -/
theorem C35_nested_conditions (env : RenderEnv) (p0 p : QMessagePattern) (type : QtMsgType)
    (context : QMessageLogContext) (str : QString) (A B : QtMsgType)
    (pre body post : List Token)
    (hDistinct : A ≠ B)
    (hTokens : p.tokens
      = pre ++ levelToken A :: levelToken B :: (body ++ Token.endifTokenC :: post))
    (hBody : ∀ t ∈ body, t ≠ Token.endifTokenC) :
    qFormatLogMessage env (some p) type context str
        = ((renderLoop env p type context str pre false none).bind fun m1 =>
            renderLoop env p type context str post false m1)
    ∧ (∀ (skip : Bool) (message : QString),
        renderLoop env p type context str
            (levelToken A :: levelToken B :: (body ++ Token.endifTokenC :: post)) skip message
          = renderLoop env p type context str post false message)
    ∧ (∀ (t : Token) (rest : List Token) (message : QString), t ≠ Token.endifTokenC →
        renderLoop env p type context str (t :: rest) true message
          = renderLoop env p type context str rest true message)
    ∧ (p0.setPattern "%{if-debug}%{if-warning}x%{endif}y".toList).1.tokens
        = [] ++ levelToken QtDebugMsg :: levelToken QtWarningMsg ::
            ([Token.literal ['x']] ++ Token.endifTokenC :: [Token.literal ['y']])
    ∧ qFormatLogMessage env
        (some (p0.setPattern "%{if-debug}%{if-warning}x%{endif}y".toList).1) type context str
        = .ok (some ['y']) := by
  have hTok : (p0.setPattern "%{if-debug}%{if-warning}x%{endif}y".toList).1.tokens
      = [] ++ levelToken QtDebugMsg :: levelToken QtWarningMsg ::
          ([Token.literal ['x']] ++ Token.endifTokenC :: [Token.literal ['y']]) := rfl
  refine ⟨?_, ?_, ?_, hTok, ?_⟩
  · rw [qFormatLogMessage_some, hTokens, renderLoop_append]
    congr 1
    funext m1
    exact renderLoop_nested env p type context str A B body post hDistinct hBody _ m1
  · intro skip message
    exact renderLoop_nested env p type context str A B body post hDistinct hBody skip message
  · intro t rest message ht
    simp [renderLoop, ht]
  · rw [qFormatLogMessage_some, hTok, List.nil_append,
      renderLoop_nested env _ type context str QtDebugMsg QtWarningMsg [Token.literal ['x']]
        [Token.literal ['y']] (by decide) (by decide) false none]
    simp [renderLoop, conditional, appended, QLatin1String, QString.append, QString.text]

/-- C35 at the pattern `a%{if-fatal}%{if-critical}b%{if-debug}c%{endif}d`, rendered for
a Fatal event. -/
theorem C35_nested_conditions_witness :
    QtFatalMsg ≠ QtCriticalMsg
    ∧ (QMessagePattern.initial.setPattern
          "a%{if-fatal}%{if-critical}b%{if-debug}c%{endif}d".toList).1.tokens
        = [Token.literal ['a']] ++ levelToken QtFatalMsg :: levelToken QtCriticalMsg ::
            ([Token.literal ['b'], Token.ifDebugTokenC, Token.literal ['c']]
              ++ Token.endifTokenC :: [Token.literal ['d']])
    ∧ qFormatLogMessage sampleEnv
        (some (QMessagePattern.initial.setPattern
          "a%{if-fatal}%{if-critical}b%{if-debug}c%{endif}d".toList).1)
        QtFatalMsg sampleContext (some ['m'])
      = ((renderLoop sampleEnv
            (QMessagePattern.initial.setPattern
              "a%{if-fatal}%{if-critical}b%{if-debug}c%{endif}d".toList).1
            QtFatalMsg sampleContext (some ['m']) [Token.literal ['a']] false none).bind fun m1 =>
          renderLoop sampleEnv
            (QMessagePattern.initial.setPattern
              "a%{if-fatal}%{if-critical}b%{if-debug}c%{endif}d".toList).1
            QtFatalMsg sampleContext (some ['m']) [Token.literal ['d']] false m1)
    ∧ qFormatLogMessage sampleEnv
        (some (QMessagePattern.initial.setPattern
          "a%{if-fatal}%{if-critical}b%{if-debug}c%{endif}d".toList).1)
        QtFatalMsg sampleContext (some ['m']) = .ok (some ['a', 'd']) :=
  ⟨by decide, by rfl,
   (C35_nested_conditions sampleEnv QMessagePattern.initial
      (QMessagePattern.initial.setPattern
        "a%{if-fatal}%{if-critical}b%{if-debug}c%{endif}d".toList).1
      QtFatalMsg sampleContext (some ['m']) QtFatalMsg QtCriticalMsg
      [Token.literal ['a']] [Token.literal ['b'], Token.ifDebugTokenC, Token.literal ['c']]
      [Token.literal ['d']] (by decide) (by rfl) (by decide)).1,
   by rfl⟩

theorem startsWith_trans (l a b : List Char) (h1 : startsWith l a = true)
    (h2 : startsWith a b = true) : startsWith l b = true := by
  unfold startsWith at *
  rw [List.isPrefixOf_iff_prefix] at *
  exact h2.trans h1

theorem startsWith_append (a b k : List Char) (h : startsWith a k = true) :
    startsWith (a ++ b) k = true := by
  unfold startsWith at *
  rw [List.isPrefixOf_iff_prefix] at *
  exact h.trans (List.prefix_append a b)

theorem lexemeToken_time (l : List Char) (h1 : startsWith l Token.timeTokenC.chars = true)
    (h2 : endsWith l '}' = true) : lexemeToken l = Token.timeTokenC := by
  have h0 : startsWith l "%\x7b".toList = true := startsWith_trans l _ _ h1 (by decide)
  have key : ∀ kw ∈ exactKeywords, startsWith kw Token.timeTokenC.chars = false := by decide
  have hne : ∀ kw ∈ exactKeywords, l ≠ kw := by
    intro kw hk e
    rw [e, key kw hk] at h1
    exact absurd h1 (by decide)
  unfold lexemeToken
  rw [if_pos ⟨h0, h2⟩, if_neg (hne _ (by decide)), if_neg (hne _ (by decide)),
    if_neg (hne _ (by decide)), if_neg (hne _ (by decide)), if_neg (hne _ (by decide)),
    if_neg (hne _ (by decide)), if_neg (hne _ (by decide)), if_neg (hne _ (by decide)),
    if_neg (hne _ (by decide)), if_pos h1]

theorem lexemeToken_backtrace (l : List Char)
    (h1 : startsWith l Token.backtraceTokenC.chars = true)
    (h2 : endsWith l '}' = true) : lexemeToken l = Token.backtraceTokenC := by
  have h0 : startsWith l "%\x7b".toList = true := startsWith_trans l _ _ h1 (by decide)
  have key : ∀ kw ∈ exactKeywords, startsWith kw Token.backtraceTokenC.chars = false := by
    decide
  have hne : ∀ kw ∈ exactKeywords, l ≠ kw := by
    intro kw hk e
    rw [e, key kw hk] at h1
    exact absurd h1 (by decide)
  have ht : ¬ (startsWith l Token.timeTokenC.chars = true) := by
    intro h
    unfold startsWith at h h1
    rw [List.isPrefixOf_iff_prefix] at h h1
    rcases List.prefix_or_prefix_of_prefix h h1 with h3 | h3
    · exact absurd (List.isPrefixOf_iff_prefix.mpr h3) (by decide)
    · exact absurd (List.isPrefixOf_iff_prefix.mpr h3) (by decide)
  unfold lexemeToken
  rw [if_pos ⟨h0, h2⟩, if_neg (hne _ (by decide)), if_neg (hne _ (by decide)),
    if_neg (hne _ (by decide)), if_neg (hne _ (by decide)), if_neg (hne _ (by decide)),
    if_neg (hne _ (by decide)), if_neg (hne _ (by decide)), if_neg (hne _ (by decide)),
    if_neg (hne _ (by decide)), if_neg ht, if_pos h1]

theorem lexemeToken_literal (l : List Char)
    (h : ¬ (startsWith l "%\x7b".toList = true ∧ endsWith l '}' = true)) :
    lexemeToken l = Token.literal (cstr (toLatin1 l)) := by
  unfold lexemeToken
  rw [if_neg h]

theorem endsWith_concat (s : List Char) (c : Char) : endsWith (s ++ [c]) c = true := by
  unfold endsWith
  rw [List.getLast?_append]
  simp

theorem startsWith_of_lexemeToken_time (l : List Char)
    (ht : lexemeToken l = Token.timeTokenC) :
    startsWith l Token.timeTokenC.chars = true ∧ endsWith l '}' = true := by
  by_cases h0 : startsWith l "%\x7b".toList = true ∧ endsWith l '}' = true
  · refine ⟨?_, h0.2⟩
    by_contra hs
    unfold lexemeToken at ht
    rw [if_pos h0] at ht
    by_cases h0 : l = Token.typeTokenC.chars
    · rw [if_pos h0] at ht; cases ht
    rw [if_neg h0] at ht
    by_cases h1 : l = Token.categoryTokenC.chars
    · rw [if_pos h1] at ht; cases ht
    rw [if_neg h1] at ht
    by_cases h2 : l = Token.messageTokenC.chars
    · rw [if_pos h2] at ht; cases ht
    rw [if_neg h2] at ht
    by_cases h3 : l = Token.fileTokenC.chars
    · rw [if_pos h3] at ht; cases ht
    rw [if_neg h3] at ht
    by_cases h4 : l = Token.lineTokenC.chars
    · rw [if_pos h4] at ht; cases ht
    rw [if_neg h4] at ht
    by_cases h5 : l = Token.functionTokenC.chars
    · rw [if_pos h5] at ht; cases ht
    rw [if_neg h5] at ht
    by_cases h6 : l = Token.pidTokenC.chars
    · rw [if_pos h6] at ht; cases ht
    rw [if_neg h6] at ht
    by_cases h7 : l = Token.appnameTokenC.chars
    · rw [if_pos h7] at ht; cases ht
    rw [if_neg h7] at ht
    by_cases h8 : l = Token.threadidTokenC.chars
    · rw [if_pos h8] at ht; cases ht
    rw [if_neg h8] at ht
    rw [if_neg hs] at ht
    by_cases hb : startsWith l Token.backtraceTokenC.chars = true
    · rw [if_pos hb] at ht; cases ht
    rw [if_neg hb] at ht
    by_cases h11 : l = Token.ifCategoryTokenC.chars
    · rw [if_pos h11] at ht; cases ht
    rw [if_neg h11] at ht
    by_cases h12 : l = Token.ifDebugTokenC.chars
    · rw [if_pos h12] at ht; cases ht
    rw [if_neg h12] at ht
    by_cases h13 : l = Token.ifWarningTokenC.chars
    · rw [if_pos h13] at ht; cases ht
    rw [if_neg h13] at ht
    by_cases h14 : l = Token.ifCriticalTokenC.chars
    · rw [if_pos h14] at ht; cases ht
    rw [if_neg h14] at ht
    by_cases h15 : l = Token.ifFatalTokenC.chars
    · rw [if_pos h15] at ht; cases ht
    rw [if_neg h15] at ht
    by_cases h16 : l = Token.endifTokenC.chars
    · rw [if_pos h16] at ht; cases ht
    rw [if_neg h16] at ht
    cases ht
  · rw [lexemeToken_literal l h0] at ht
    cases ht

theorem indexOfFrom_char (c : Char) (a b : List Char) (h : c ∉ a) :
    ∀ i : Nat, indexOfFrom [c] (a ++ c :: b) i = ((i + a.length : Nat) : Int) := by
  induction a with
  | nil => intro i; simp [indexOfFrom, List.isPrefixOf]
  | cons x a2 ih =>
    intro i
    have hx : x ≠ c := fun e => h (e ▸ List.mem_cons_self _ _)
    have h2 : c ∉ a2 := fun hm => h (List.mem_cons_of_mem _ hm)
    simp only [List.cons_append, indexOfFrom, List.isPrefixOf, List.append_eq]
    have hb : (c == x) = false := by simpa using (Ne.symm hx)
    simp only [hb, Bool.false_and, Bool.false_eq_true, if_false]
    rw [ih h2 (i + 1)]
    simp only [List.length_cons]
    congr 1
    omega

theorem indexOfFrom_char_absent (c : Char) (s : List Char) (h : c ∉ s) (i : Nat) :
    indexOfFrom [c] s i = -1 := by
  rw [indexOfFrom_eq_neg_one_iff]
  intro hi
  exact h (hi.subset (List.mem_singleton_self c))

/-- The time format that a time placeholder with an argument assigns. -/
theorem timeAssign_argument (a arg : List Char)
    (hKey : startsWith a Token.timeTokenC.chars = true) (hBlank : ' ' ∉ a) :
    timeAssign (a ++ ' ' :: (arg ++ ['}'])) = some arg := by
  have hne : a ≠ [] := by
    intro e
    rw [e] at hKey
    exact absurd hKey (by decide)
  have hpos : 0 < a.length := List.length_pos.mpr hne
  have hs : startsWith (a ++ ' ' :: (arg ++ ['}'])) Token.timeTokenC.chars = true :=
    startsWith_append a _ _ hKey
  have he : endsWith (a ++ ' ' :: (arg ++ ['}'])) '}' = true := by
    have e : a ++ ' ' :: (arg ++ ['}']) = (a ++ ' ' :: arg) ++ ['}'] := by simp
    rw [e]
    exact endsWith_concat _ _
  have ht := lexemeToken_time _ hs he
  have hi : indexOf (a ++ ' ' :: (arg ++ ['}'])) [' '] = (a.length : Int) := by
    unfold indexOf
    rw [indexOfFrom_char ' ' a _ hBlank 0]
    simp
  unfold timeAssign
  rw [hi, if_pos ⟨ht, by omega⟩]
  congr 1
  have e : a ++ ' ' :: (arg ++ ['}']) = (a ++ [' ']) ++ (arg ++ ['}']) := by simp
  unfold mid
  have h1 : ¬ ((a.length : Int) + 1 > ((a ++ ' ' :: (arg ++ ['}'])).length : Nat)) := by
    simp only [List.length_append, List.length_cons, List.length_singleton, List.length_nil]
    omega
  have h2 : ¬ ((a.length : Int) + 1 < 0) := by omega
  have h3 : ¬ (((a ++ ' ' :: (arg ++ ['}'])).length : Int) - (a.length : Int) - 2 < 0
      ∨ ((a ++ ' ' :: (arg ++ ['}'])).length : Int) - (a.length : Int) - 2
          > ((a ++ ' ' :: (arg ++ ['}'])).length : Nat) - ((a.length : Int) + 1)) := by
    simp only [List.length_append, List.length_cons, List.length_singleton, List.length_nil]
    omega
  simp only [h1, h2, h3, if_false]
  have h4 : ((a.length : Int) + 1).toNat = (a ++ [' ']).length := by
    simp only [List.length_append, List.length_singleton]
    omega
  have h5 : (((a ++ ' ' :: (arg ++ ['}'])).length : Int) - (a.length : Int) - 2).toNat
      = arg.length := by
    simp only [List.length_append, List.length_cons, List.length_singleton, List.length_nil]
    omega
  rw [h4, h5, e, List.drop_left, List.take_left]

/-- A lexeme that does not start with the time keyword, does not end with a closing
brace or holds no blank assigns no time format. -/
theorem timeAssign_none (l : List Char)
    (h : startsWith l Token.timeTokenC.chars = false ∨ endsWith l '}' = false ∨ ' ' ∉ l) :
    timeAssign l = none := by
  unfold timeAssign
  rw [if_neg]
  rintro ⟨ht, hi⟩
  have hk := startsWith_of_lexemeToken_time l ht
  rcases h with h | h | h
  · rw [h] at hk
    exact absurd hk.1 (by decide)
  · rw [h] at hk
    exact absurd hk.2 (by decide)
  · rw [indexOf, indexOfFrom_char_absent ' ' l h 0] at hi
    omega

/-! ## C36 -/

/-- C36: the time format is one member of the pattern object. After setPattern(P) on an
object it is the format that the last lexeme of P assigning one assigns, and the format
the object had before the call when no lexeme of P assigns one; a closed placeholder
lexeme that starts with "%{time" and holds a blank assigns the text between its first
blank and its closing brace, and a lexeme that does not start with "%{time", does not
end with a closing brace, or holds no blank assigns none. The time token carries no
format of its own: each time token of a pattern is rendered from that one member (the
process time when it is "process", the ISO date-time when it is empty, the date-time in
that format otherwise), so `%{time yyyy}%{time}` renders the date-time in the format
"yyyy" twice. -/
theorem C36_time_format_of_pattern (env : RenderEnv) (p0 : QMessagePattern)
    (pattern : List Char) (type : QtMsgType) (context : QMessageLogContext) (str : QString)
    (l1 l2 : List (List Char)) (a arg : List Char)
    (hScan : scan pattern = l1 ++ (a ++ ' ' :: (arg ++ ['}'])) :: l2)
    (hKey : startsWith a "%\x7btime".toList = true)
    (hBlank : ' ' ∉ a)
    (hLast : ∀ l ∈ l2, startsWith l "%\x7btime".toList = false ∨ endsWith l '}' = false
      ∨ ' ' ∉ l) :
    (p0.setPattern pattern).1.timeFormat = arg
    ∧ (∀ (q0 : QMessagePattern) (pattern2 : List Char),
        (∀ l ∈ scan pattern2, startsWith l "%\x7btime".toList = false ∨ endsWith l '}' = false
          ∨ ' ' ∉ l) →
        (q0.setPattern pattern2).1.timeFormat = q0.timeFormat)
    ∧ (∀ (q0 : QMessagePattern) (pattern2 : List Char),
        (q0.setPattern pattern2).1.timeFormat
          = (lastSome timeAssign (scan pattern2)).getD q0.timeFormat)
    ∧ (p0.setPattern pattern).1.tokens
        = l1.map lexemeToken ++ Token.timeTokenC :: l2.map lexemeToken
    ∧ (∀ p : QMessagePattern, appended env p type context str Token.timeTokenC
        = if p.timeFormat = "process".toList then .ok (some (processTime env.elapsed))
          else if p.timeFormat = [] then .ok (env.currentDateTime none)
          else .ok (env.currentDateTime (some p.timeFormat)))
    ∧ (p0.setPattern "%{time yyyy}%{time}".toList).1.tokens
        = [Token.timeTokenC, Token.timeTokenC]
    ∧ (p0.setPattern "%{time yyyy}%{time}".toList).1.timeFormat = "yyyy".toList
    ∧ qFormatLogMessage env (some (p0.setPattern "%{time yyyy}%{time}".toList).1)
        type context str
        = .ok ((QString.append none (env.currentDateTime (some "yyyy".toList))).append
            (env.currentDateTime (some "yyyy".toList))) := by
  have hApp : ∀ p : QMessagePattern, appended env p type context str Token.timeTokenC
      = if p.timeFormat = "process".toList then .ok (some (processTime env.elapsed))
        else if p.timeFormat = [] then .ok (env.currentDateTime none)
        else .ok (env.currentDateTime (some p.timeFormat)) := by
    intro p
    simp only [appended, List.isEmpty_iff]
  have hK : startsWith a Token.timeTokenC.chars = true := hKey
  have hTokE : (p0.setPattern "%{time yyyy}%{time}".toList).1.tokens
      = [Token.timeTokenC, Token.timeTokenC] := rfl
  have hFmtE : (p0.setPattern "%{time yyyy}%{time}".toList).1.timeFormat
      = ['y', 'y', 'y', 'y'] := by
    rw [setPattern_timeFormat]
    rfl
  refine ⟨?_, ?_, setPattern_timeFormat, ?_, hApp, hTokE, hFmtE, ?_⟩
  · rw [setPattern_timeFormat, hScan, lastSome_append]
    have hl2 : ∀ l ∈ l2, timeAssign l = none := fun l hl => timeAssign_none l (hLast l hl)
    simp only [lastSome, lastSome_none timeAssign l2 hl2, timeAssign_argument a arg hK hBlank]
    rfl
  · intro q0 pattern2 h
    rw [setPattern_timeFormat,
      lastSome_none timeAssign _ (fun l hl => timeAssign_none l (h l hl))]
    rfl
  · rw [setPattern_tokens, hScan, List.map_append, List.map_cons]
    congr 2
    apply lexemeToken_time
    · exact startsWith_append a _ _ hK
    · have e : a ++ ' ' :: (arg ++ ['}']) = (a ++ ' ' :: arg) ++ ['}'] := by simp
      rw [e]
      exact endsWith_concat _ _
  · rw [qFormatLogMessage_some, hTokE]
    have hA := hApp (p0.setPattern "%{time yyyy}%{time}".toList).1
    rw [hFmtE] at hA
    have hn1 : ¬ (['y', 'y', 'y', 'y'] = "process".toList) := by decide
    have hn2 : ¬ (['y', 'y', 'y', 'y'] = ([] : List Char)) := by decide
    rw [if_neg hn1, if_neg hn2] at hA
    have hne : ¬ (Token.timeTokenC = Token.endifTokenC) := by decide
    simp only [renderLoop, conditional, hA, if_neg hne, Bool.false_eq_true, if_false]
    rfl

/-- C36 at the pattern `%{time hh:mm}-%{time}`. -/
theorem C36_time_format_of_pattern_witness :
    (scan "%{time hh:mm}-%{time}".toList
        = [] ++ ("%\x7btime".toList ++ ' ' :: ("hh:mm".toList ++ ['}']))
            :: ["-".toList, "%{time}".toList]
      ∧ startsWith "%\x7btime".toList "%\x7btime".toList = true
      ∧ ' ' ∉ "%\x7btime".toList)
    ∧ (QMessagePattern.initial.setPattern "%{time hh:mm}-%{time}".toList).1.timeFormat
        = "hh:mm".toList :=
  ⟨⟨by decide, by decide, by decide⟩,
   (C36_time_format_of_pattern sampleEnv QMessagePattern.initial
      "%{time hh:mm}-%{time}".toList QtDebugMsg sampleContext none []
      ["-".toList, "%{time}".toList] "%\x7btime".toList "hh:mm".toList
      (by decide) (by decide) (by decide) (by decide)).1⟩

theorem stepLines_mem_unknown (st : TokState) (l line : List Char)
    (h : line ∈ stepLines st l) :
    line = depthLine ∨ line = endifLine
      ∨ (lexemeToken l = Token.emptyTokenC ∧ line = unknownPlaceholderLine l) := by
  unfold stepLines at h
  split at h
  · split at h
    · split_ifs at h
      · simp at h; exact Or.inl h
      · simp at h
    · simp at h
  · split_ifs at h
    · simp at h; exact Or.inr (Or.inl h)
    · simp at h
  · rename_i ht
    simp at h; exact Or.inr (Or.inr ⟨ht, h⟩)
  · simp at h

theorem loopLines_mem_unknown (ls : List (List Char)) :
    ∀ (st : TokState) (line : List Char), line ∈ loopLines st ls →
      line = depthLine ∨ line = endifLine
        ∨ ∃ l ∈ ls, lexemeToken l = Token.emptyTokenC ∧ line = unknownPlaceholderLine l := by
  induction ls with
  | nil => intro st line h; simp [loopLines] at h
  | cons l rest ih =>
    intro st line h
    simp only [loopLines, List.mem_append] at h
    rcases h with h | h
    · rcases stepLines_mem_unknown st l line h with h1 | h1 | h1
      · exact Or.inl h1
      · exact Or.inr (Or.inl h1)
      · exact Or.inr (Or.inr ⟨l, List.mem_cons_self _ _, h1⟩)
    · rcases ih _ _ h with h1 | h1 | ⟨l2, hm, h1⟩
      · exact Or.inl h1
      · exact Or.inr (Or.inl h1)
      · exact Or.inr (Or.inr ⟨l2, List.mem_cons_of_mem _ hm, h1⟩)

theorem unknownPlaceholderLine_injective (a b : List Char)
    (h : unknownPlaceholderLine a = unknownPlaceholderLine b) : a = b := by
  unfold unknownPlaceholderLine at h
  rw [List.append_assoc, List.append_assoc] at h
  exact List.append_cancel_right (List.append_cancel_left h)

/-- No diagnostic line of `setPattern` names a lexeme as an unknown placeholder unless the
tokenizer gives that lexeme the no-op token. -/
theorem unknownPlaceholderLine_not_mem (p0 : QMessagePattern) (pattern lexeme : List Char)
    (h : lexemeToken lexeme ≠ Token.emptyTokenC) :
    unknownPlaceholderLine lexeme ∉ diagnostics p0 pattern := by
  intro hm
  have hU := unknownPlaceholderLine_take lexeme
  unfold diagnostics at hm
  rcases List.mem_append.mp hm with h1 | h1
  · rcases loopLines_mem_unknown _ _ _ h1 with h2 | h2 | ⟨l, -, ht, h2⟩
    · rw [h2] at hU; exact absurd hU (by decide)
    · rw [h2] at hU; exact absurd hU (by decide)
    · rw [unknownPlaceholderLine_injective _ _ h2] at h
      exact h ht
  · unfold finishLines at h1
    split_ifs at h1
    · rw [List.mem_singleton.mp h1] at hU; exact absurd hU (by decide)
    · rw [List.mem_singleton.mp h1] at hU; exact absurd hU (by decide)
    · simp at h1

/-! ## C37 -/

/-- C37: a lexeme that ends with a closing brace and starts with "%{time", whatever
follows the keyword, is given the time token by the tokenizer loop of setPattern, which
adds nothing to the diagnostics for it; one that starts with "%{backtrace" is given the
backtrace token (in a build with backtrace support), and the only diagnostic that the
loop can add for it is the one on the backtrace depth. In both cases no diagnostic of
any pattern names the lexeme as an unknown placeholder. For example `%{timezone}`
compiles to the time token and `%{backtracefoo}` to the backtrace token, both without
diagnostics. -/
theorem C37_keyword_is_matched_as_a_start (st : TokState) (p0 : QMessagePattern)
    (pattern lexeme : List Char)
    (hClosed : endsWith lexeme '}' = true) :
    (startsWith lexeme "%\x7btime".toList = true →
        lexemeToken lexeme = Token.timeTokenC
        ∧ (tokenizeStep st lexeme).tokens = st.tokens ++ [Token.timeTokenC]
        ∧ (tokenizeStep st lexeme).error = st.error
        ∧ isUnknownPlaceholder lexeme = false
        ∧ unknownPlaceholderLine lexeme ∉ diagnostics p0 pattern)
    ∧ (startsWith lexeme "%\x7bbacktrace".toList = true →
        lexemeToken lexeme = Token.backtraceTokenC
        ∧ (tokenizeStep st lexeme).tokens = st.tokens ++ [Token.backtraceTokenC]
        ∧ ((tokenizeStep st lexeme).error = st.error
            ∨ (tokenizeStep st lexeme).error = st.error ++ depthLine)
        ∧ isUnknownPlaceholder lexeme = false
        ∧ unknownPlaceholderLine lexeme ∉ diagnostics p0 pattern)
    ∧ (p0.setPattern "%{timezone}".toList).1.tokens = [Token.timeTokenC]
    ∧ (p0.setPattern "%{timezone}".toList).2 = []
    ∧ (p0.setPattern "%{backtracefoo}".toList).1.tokens = [Token.backtraceTokenC]
    ∧ (p0.setPattern "%{backtracefoo}".toList).2 = [] := by
  refine ⟨?_, ?_, rfl, rfl, rfl, rfl⟩
  · intro hKey
    have hK : startsWith lexeme Token.timeTokenC.chars = true := hKey
    have ht := lexemeToken_time lexeme hK hClosed
    refine ⟨ht, ?_, ?_, ?_, ?_⟩
    · rw [tokenizeStep_eq]
      simp only [stepByToken, ht]
    · rw [tokenizeStep_eq]
      simp [stepByToken, stepLines, ht]
    · simp [isUnknownPlaceholder, hK]
    · exact unknownPlaceholderLine_not_mem p0 pattern lexeme (by rw [ht]; decide)
  · intro hKey
    have hK : startsWith lexeme Token.backtraceTokenC.chars = true := hKey
    have ht := lexemeToken_backtrace lexeme hK hClosed
    refine ⟨ht, ?_, ?_, ?_, ?_⟩
    · rw [tokenizeStep_eq]
      simp only [stepByToken, ht]
    · rw [tokenizeStep_eq]
      simp only [stepByToken, stepLines, ht]
      cases captureAttribute " depth=".toList lexeme with
      | none => left; simp
      | some captured =>
        by_cases hd : toInt captured ≤ 0
        · right; simp [hd]
        · left; simp [hd]
    · simp [isUnknownPlaceholder, hK]
    · exact unknownPlaceholderLine_not_mem p0 pattern lexeme (by rw [ht]; decide)

/-- C37 at the lexemes `%{timezone}` and `%{backtracefoo}`. -/
theorem C37_keyword_is_matched_as_a_start_witness :
    (endsWith "%{timezone}".toList '}' = true
      ∧ startsWith "%{timezone}".toList "%\x7btime".toList = true
      ∧ lexemeToken "%{timezone}".toList = Token.timeTokenC)
    ∧ (endsWith "%{backtracefoo}".toList '}' = true
      ∧ startsWith "%{backtracefoo}".toList "%\x7bbacktrace".toList = true
      ∧ lexemeToken "%{backtracefoo}".toList = Token.backtraceTokenC) :=
  ⟨⟨by decide, by decide,
    ((C37_keyword_is_matched_as_a_start (TokState.start QMessagePattern.initial)
        QMessagePattern.initial [] "%{timezone}".toList (by decide)).1 (by decide)).1⟩,
   ⟨by decide, by decide,
    ((C37_keyword_is_matched_as_a_start (TokState.start QMessagePattern.initial)
        QMessagePattern.initial [] "%{backtracefoo}".toList (by decide)).2.1 (by decide)).1⟩⟩

theorem scanStep_inside (st : ScanState) (c : Char) (next : Option Char)
    (h : st.inPlaceholder = true) (hc : c ≠ '}') :
    (scanStep st c next).inPlaceholder = true := by
  simp [scanStep, h, hc]

theorem scanLoop_inside (R : List Char) :
    ∀ st : ScanState, st.inPlaceholder = true → '}' ∉ R →
      (scanLoop R st).inPlaceholder = true := by
  induction R with
  | nil => intro st h _; exact h
  | cons c rest ih =>
    intro st h hR
    have hc : c ≠ '}' := fun e => hR (e ▸ List.mem_cons_self _ _)
    have hr : '}' ∉ rest := fun hm => hR (List.mem_cons_of_mem _ hm)
    exact ih _ (scanStep_inside st c _ h hc) hr

theorem scanStep_opening (st : ScanState) :
    (scanStep st '%' (some '{')).inPlaceholder = true := by
  cases h : st.inPlaceholder <;> simp [scanStep, h]

theorem scanLoop_append_exists (A T : List Char) :
    ∀ st : ScanState, ∃ st2 : ScanState, scanLoop (A ++ T) st = scanLoop T st2 := by
  induction A with
  | nil => intro st; exact ⟨st, rfl⟩
  | cons c rest ih =>
    intro st
    exact ih (scanStep st c (rest ++ T).head?)

/-- The scanner on a pattern that ends in an unterminated placeholder: the last lexeme
starts with `%{` and holds no closing brace. -/
theorem scan_unterminated (pattern A B : List Char) (hP : pattern = A ++ '%' :: '{' :: B)
    (hOpen : '}' ∉ B) :
    ∃ (l1 : List (List Char)) (u : List Char),
      scan pattern = l1 ++ [u] ∧ isOpenPlaceholder u = true ∧ l1.flatten ++ u = pattern := by
  obtain ⟨h1, h2, h3, h4⟩ := scanLoop_invariant pattern
    { lexemes := [], lexeme := [], inPlaceholder := false }
    (by intro l hl; simp at hl) (by intro h; simp at h)
    (by
      intro _ h
      have := h.length_le
      cases pattern <;> simp at this)
  simp only [List.flatten_nil, List.nil_append] at h4
  have hin : (scanLoop pattern
      { lexemes := [], lexeme := [], inPlaceholder := false }).inPlaceholder = true := by
    rw [hP]
    obtain ⟨st2, hst⟩ := scanLoop_append_exists A ('%' :: '{' :: B)
      { lexemes := [], lexeme := [], inPlaceholder := false }
    rw [hst]
    show (scanLoop ('{' :: B) (scanStep st2 '%' (some '{'))).inPlaceholder = true
    apply scanLoop_inside _ _ (scanStep_opening st2)
    intro hm
    rcases List.mem_cons.mp hm with e | e
    · exact absurd e (by decide)
    · exact hOpen e
  obtain ⟨body, hb, hnb⟩ := h2 hin
  refine ⟨(scanLoop pattern { lexemes := [], lexeme := [], inPlaceholder := false }).lexemes,
    '%' :: '{' :: body, ?_, isOpenPlaceholder_of_shape body hnb, ?_⟩
  · unfold scan
    simp only
    rw [if_neg (by rw [hb]; simp), hb]
  · rw [← hb]
    exact h4

theorem lexemeToken_unterminated (u : List Char) (h : isOpenPlaceholder u = true) :
    lexemeToken u = Token.literal (cstr (toLatin1 u)) := by
  apply lexemeToken_literal
  rintro ⟨-, he⟩
  unfold isOpenPlaceholder at h
  simp only [Bool.and_eq_true, Bool.not_eq_true', List.elem_eq_mem, decide_eq_false_iff_not] at h
  unfold endsWith at he
  have hl : u.getLast? = some '}' := by simpa using he
  exact h.2 (List.mem_of_getLast?_eq_some hl)

theorem tokenizeStep_literal (st : TokState) (l : List Char)
    (h : lexemeToken l = Token.literal (cstr (toLatin1 l))) :
    (tokenizeStep st l).error = st.error
    ∧ (tokenizeStep st l).inIf = st.inIf
    ∧ (tokenizeStep st l).nestedIfError = st.nestedIfError := by
  rw [tokenizeStep_eq]
  simp [stepByToken, stepLines, h, Token.isIf]

/-! ## C38 -/

/-- C38 as stated fails at the pattern `a%{` followed by the character U+20AC, which
ends in an unterminated placeholder and renders as "a%{?", and at the pattern
`%{if-debug}%{x`, whose unterminated text a Warning event does not render at all. -/
theorem C38_counterexample :
    (scan ['a', '%', '{', Char.ofNat 0x20AC] = [['a'], ['%', '{', Char.ofNat 0x20AC]]
      ∧ isOpenPlaceholder ['%', '{', Char.ofNat 0x20AC] = true
      ∧ qFormatLogMessage sampleEnv
          (some (QMessagePattern.initial.setPattern ['a', '%', '{', Char.ofNat 0x20AC]).1)
          QtDebugMsg sampleContext (some "x".toList) = .ok (some ['a', '%', '{', '?'])
      ∧ qFormatLogMessage sampleEnv
          (some (QMessagePattern.initial.setPattern ['a', '%', '{', Char.ofNat 0x20AC]).1)
          QtDebugMsg sampleContext (some "x".toList)
          ≠ .ok (some ['a', '%', '{', Char.ofNat 0x20AC]))
    ∧ (scan "%{if-debug}%\x7bx".toList = ["%{if-debug}".toList, "%\x7bx".toList]
      ∧ isOpenPlaceholder "%\x7bx".toList = true
      ∧ qFormatLogMessage sampleEnv
          (some (QMessagePattern.initial.setPattern "%{if-debug}%\x7bx".toList).1)
          QtWarningMsg sampleContext (some "x".toList) = .ok none
      ∧ qFormatLogMessage sampleEnv
          (some (QMessagePattern.initial.setPattern "%{if-debug}%\x7bx".toList).1)
          QtWarningMsg sampleContext (some "x".toList) ≠ .ok (some "%\x7bx".toList)) := by
  refine ⟨⟨by decide, by decide, by decide, by decide⟩, ⟨by decide, by decide, by decide, by decide⟩⟩

/-- C38, amended: a pattern that ends in an unterminated placeholder (a `%{` with no
closing brace after it) has as its last lexeme u a text that starts with `%{` and holds
no closing brace, the rest of the pattern being the lexemes before it. The tokenizer
gives u a literal token whose text is the Latin-1 conversion of u cut at the first NUL
character, which is u itself when all characters of u lie in U+0001..U+00FF; it adds no
diagnostic for u, so the diagnostics of the pattern are those of the lexemes before u
and none names u as an unknown placeholder. For every event the render is that of the
tokens before, followed by the text of the literal token unless the token loop is
skipping when it reaches the token. For example `a%{message` renders "a%{message" for
every event. -/
theorem C38_unterminated_placeholder (env : RenderEnv) (p0 : QMessagePattern)
    (pattern A B : List Char) (type : QtMsgType) (context : QMessageLogContext)
    (str : QString)
    (hPattern : pattern = A ++ '%' :: '{' :: B)
    (hOpen : '}' ∉ B) :
    (∃ (l1 : List (List Char)) (u : List Char),
      scan pattern = l1 ++ [u]
      ∧ isOpenPlaceholder u = true
      ∧ l1.flatten ++ u = pattern
      ∧ lexemeToken u = Token.literal (cstr (toLatin1 u))
      ∧ ((∀ c ∈ u, 0 < c.toNat ∧ c.toNat ≤ 255) → cstr (toLatin1 u) = u)
      ∧ (p0.setPattern pattern).1.tokens
          = l1.map lexemeToken ++ [Token.literal (cstr (toLatin1 u))]
      ∧ (p0.setPattern pattern).2 = finishError (tokenize (TokState.start p0) l1)
      ∧ unknownPlaceholderLine u ∉ diagnostics p0 pattern
      ∧ qFormatLogMessage env (some (p0.setPattern pattern).1) type context str
          = (renderLoop env (p0.setPattern pattern).1 type context str
                (l1.map lexemeToken) false none).bind fun m =>
              .ok (if skipEnd type context (l1.map lexemeToken) false = true then m
                   else m.append (some (cstr (toLatin1 u)))))
    ∧ qFormatLogMessage env (some (p0.setPattern "a%\x7bmessage".toList).1) type context str
        = .ok (some "a%\x7bmessage".toList) := by
  constructor
  · obtain ⟨l1, u, hScan, hU, hFlat⟩ := scan_unterminated pattern A B hPattern hOpen
    have hTok := lexemeToken_unterminated u hU
    have hTokens : (p0.setPattern pattern).1.tokens
        = l1.map lexemeToken ++ [Token.literal (cstr (toLatin1 u))] := by
      rw [setPattern_tokens, hScan, List.map_append, List.map_singleton, hTok]
    refine ⟨l1, u, hScan, hU, hFlat, hTok, cstr_toLatin1_of_latin1 u, hTokens, ?_, ?_, ?_⟩
    · show finishError (tokenize (TokState.start p0) (scan pattern)) = _
      rw [hScan, tokenize_append]
      have hs := tokenizeStep_literal (tokenize (TokState.start p0) l1) u hTok
      have e : tokenize (tokenize (TokState.start p0) l1) [u]
          = tokenizeStep (tokenize (TokState.start p0) l1) u := rfl
      rw [e]
      unfold finishError
      rw [hs.1, hs.2.1, hs.2.2]
    · exact unknownPlaceholderLine_not_mem p0 pattern u (by rw [hTok]; simp)
    · rw [qFormatLogMessage_some, hTokens, renderLoop_append]
      congr 1
      funext m
      by_cases hs : skipEnd type context (l1.map lexemeToken) false = true
      · rw [hs]
        simp [renderLoop]
      · have hs2 : skipEnd type context (l1.map lexemeToken) false = false := by
          simpa using hs
        rw [hs2]
        simp [renderLoop, conditional, appended, QLatin1String]
  · have hTok : (p0.setPattern "a%\x7bmessage".toList).1.tokens
        = [Token.literal ['a'], Token.literal "%\x7bmessage".toList] := rfl
    rw [qFormatLogMessage_some, hTok]
    simp [renderLoop, conditional, appended, QLatin1String, QString.append, QString.text]

/-- C38 at the pattern `a%{message`. -/
theorem C38_unterminated_placeholder_witness :
    ("a%\x7bmessage".toList = "a".toList ++ '%' :: '{' :: "message".toList
      ∧ '}' ∉ "message".toList)
    ∧ qFormatLogMessage sampleEnv
        (some (QMessagePattern.initial.setPattern "a%\x7bmessage".toList).1)
        QtCriticalMsg sampleContext (some "x".toList) = .ok (some "a%\x7bmessage".toList) :=
  ⟨⟨by decide, by decide⟩,
   (C38_unterminated_placeholder sampleEnv QMessagePattern.initial "a%\x7bmessage".toList
      "a".toList "message".toList QtCriticalMsg sampleContext (some "x".toList)
      (by decide) (by decide)).2⟩

/-! ## C39 -/

/-- C39: qCleanupFuncinfo at `Foo::operator const char *() const`, the signature of a
conversion operator to a pointer type as Clang prints it. After the operator name has
been canonized and the argument list removed the string is `Foo::operatorconst char *`;
the search for the beginning of the name stops at the blank before the `*`, so the name
is `*`; the loop that removes leading `*` and `&` empties it and then reads `info.at(0)`
in a string of size 0, outside the range. At `]` the loop over the trailing `[with ...]`
starts with `--pos` at `pos` 0 and reads `info.at(-1)`. The iteration budgets of the
model are never exhausted: up to such an access every loop ends. -/
theorem C39_conversion_operator_out_of_range :
    replaceGo "operator ".toList "operator".toList 0 "Foo::operator const char *() const".toList
        = "Foo::operatorconst char *() const".toList
    ∧ argListLoop 34 "Foo::operatorconst char *() const".toList
        = .ok (.brk "Foo::operatorconst char *".toList 25)
    ∧ operatorAdjust "Foo::operatorconst char *".toList 24 = .ok 24
    ∧ nameLoop 27 "Foo::operatorconst char *".toList 24 0 0 = .ok (some 23)
    ∧ mid "Foo::operatorconst char *".toList 24 (-1) = ['*']
    ∧ mid ['*'] 1 (-1) = []
    ∧ byteAt [] 0 = .outOfRange
    ∧ stripRefLoop 2 ['*'] = .outOfRange
    ∧ qCleanupFuncinfo "Foo::operator const char *() const".toList = .outOfRange
    ∧ byteAt "]".toList (-1) = .outOfRange
    ∧ qCleanupFuncinfo "]".toList = .outOfRange
    ∧ ∀ info : List Char, qCleanupFuncinfo info ≠ .outOfFuel := by
  refine ⟨by decide, by decide, by decide, by decide, by decide, by decide, by decide,
    by decide, by decide, by decide, by decide, qCleanupFuncinfo_ne_outOfFuel⟩

/-! ## Lemmas on the printing of the diagnostics -/

theorem scan_flatten (pattern : List Char) : (scan pattern).flatten = pattern := by
  obtain ⟨-, -, -, h4⟩ := scanLoop_invariant pattern
    { lexemes := [], lexeme := [], inPlaceholder := false }
    (by intro l hl; simp at hl) (by intro h; simp at h)
    (by
      intro _ h
      have := h.length_le
      cases pattern <;> simp at this)
  simp only [List.flatten_nil, List.nil_append] at h4
  unfold scan
  simp only
  split_ifs with he
  · have he2 : (scanLoop pattern { lexemes := [], lexeme := [], inPlaceholder := false }).lexeme
        = [] := by simpa using he
    rw [he2, List.append_nil] at h4
    exact h4
  · simpa using h4

/-- The diagnostics of a pattern without a NUL character hold no NUL character. -/
theorem diagnostics_no_nul (p : QMessagePattern) (pattern : List Char)
    (h : Char.ofNat 0 ∉ pattern) : Char.ofNat 0 ∉ (diagnostics p pattern).flatten := by
  intro hm
  obtain ⟨line, hl, hc⟩ := List.mem_flatten.mp hm
  unfold diagnostics at hl
  rcases List.mem_append.mp hl with h1 | h1
  · rcases loopLines_mem_unknown _ _ _ h1 with h2 | h2 | ⟨l, hls, -, h2⟩
    · rw [h2] at hc; exact absurd hc (by decide)
    · rw [h2] at hc; exact absurd hc (by decide)
    · rw [h2] at hc
      unfold unknownPlaceholderLine at hc
      rcases List.mem_append.mp hc with h3 | h3
      · rcases List.mem_append.mp h3 with h4 | h4
        · exact absurd h4 (by decide)
        · apply h
          rw [← scan_flatten pattern]
          exact List.mem_flatten.mpr ⟨l, hls, h4⟩
      · exact absurd h3 (by decide)
  · unfold finishLines at h1
    split_ifs at h1
    · rw [List.mem_singleton.mp h1] at hc; exact absurd hc (by decide)
    · rw [List.mem_singleton.mp h1] at hc; exact absurd hc (by decide)
    · simp at h1

/-- The diagnostics text of `setPattern` does not depend on the object it is called on. -/
theorem setPattern_error_indep (p q : QMessagePattern) (pattern : List Char) :
    (p.setPattern pattern).2 = (q.setPattern pattern).2 := by
  obtain ⟨-, -, h3, h4, h5⟩ := tokenize_control (scan pattern)
    (TokState.start p) (TokState.start q) rfl rfl rfl rfl rfl
  exact finishError_congr _ _ h3 h4 h5

theorem flatten_ne_nil_of_mem {ls : List (List Char)} {line : List Char} (hm : line ∈ ls)
    (hne : line ≠ []) : ls.flatten ≠ [] := by
  intro e
  exact hne (List.flatten_eq_nil_iff.mp e line hm)

theorem printDiagnostics_stderr (pl : Platform) (error : List Char) (w : Process)
    (h : error ≠ []) :
    printDiagnostics pl error w = { w with stderr := w.stderr ++ cstr (pl.toLocal8Bit error) } := by
  unfold printDiagnostics printStderr
  rw [if_neg (by simpa using h)]

/-- What `setPattern` prints: when the diagnostics text of a pattern is not empty, a call
of qSetMessagePattern on the existing pattern object, and the construction of the
pattern object from QT_MESSAGE_PATTERN, append to stderr the local 8-bit form of that
text as a C string, which is the text itself when the conversion leaves it unchanged and
the pattern holds no NUL character. -/
theorem setPattern_prints (p0 : QMessagePattern) (pattern : List Char)
    (hErr : (p0.setPattern pattern).2 ≠ []) :
    (∀ (pl : Platform) (w : Process),
        w.qMessagePattern = .initialized p0 → p0.fromEnvironment = false →
        ∃ w2 : Process, qSetMessagePattern pl pattern w = .returned w2
          ∧ w2.qMessagePattern = .initialized (p0.setPattern pattern).1
          ∧ w2.stderr = w.stderr ++ cstr (pl.toLocal8Bit (p0.setPattern pattern).2)
          ∧ (pl.toLocal8Bit (p0.setPattern pattern).2 = (p0.setPattern pattern).2 →
              Char.ofNat 0 ∉ pattern → w2.stderr = w.stderr ++ (p0.setPattern pattern).2))
    ∧ (∀ (pl : Platform) (w : Process),
        w.qMessagePattern = .uninitialized →
        pl.fromLocal8Bit (pl.QT_MESSAGE_PATTERN.getD []) = pattern →
        (qMessagePattern pl w).2.stderr
            = w.stderr ++ cstr (pl.toLocal8Bit (p0.setPattern pattern).2)
          ∧ (pl.toLocal8Bit (p0.setPattern pattern).2 = (p0.setPattern pattern).2 →
              Char.ofNat 0 ∉ pattern →
              (qMessagePattern pl w).2.stderr = w.stderr ++ (p0.setPattern pattern).2)) := by
  have hCut : ∀ pl : Platform,
      pl.toLocal8Bit (p0.setPattern pattern).2 = (p0.setPattern pattern).2 →
      Char.ofNat 0 ∉ pattern →
      cstr (pl.toLocal8Bit (p0.setPattern pattern).2) = (p0.setPattern pattern).2 := by
    intro pl hc hn
    rw [hc]
    apply cstr_of_no_nul
    rw [setPattern_diagnostics]
    exact diagnostics_no_nul p0 pattern hn
  constructor
  · intro pl w hInit hApp
    have hq : qMessagePattern pl w = (some p0, w) := by
      unfold qMessagePattern
      rw [hInit]
    have hcall : qSetMessagePattern pl pattern w
        = .returned (printDiagnostics pl (p0.setPattern pattern).2
            { w with qMessagePattern := .initialized (p0.setPattern pattern).1 }) := by
      unfold qSetMessagePattern
      rw [hq]
      simp [hApp]
    rw [printDiagnostics_stderr _ _ _ hErr] at hcall
    refine ⟨_, hcall, rfl, rfl, ?_⟩
    intro hc hn
    show w.stderr ++ cstr (pl.toLocal8Bit (p0.setPattern pattern).2) = _
    rw [hCut pl hc hn]
  · intro pl w hFresh hEnv
    have hne : pattern ≠ [] := by
      intro e
      apply hErr
      rw [e]
      rfl
    have hi : (QMessagePattern.initial.setPattern pattern).2 = (p0.setPattern pattern).2 :=
      setPattern_error_indep _ _ _
    have hq : (qMessagePattern pl w).2.stderr
        = w.stderr ++ cstr (pl.toLocal8Bit (p0.setPattern pattern).2) := by
      unfold qMessagePattern
      rw [hFresh]
      simp only [QMessagePattern.construct, hEnv]
      rw [if_neg (by simpa using hne)]
      simp only
      rw [hi, printDiagnostics_stderr _ _ _ hErr]
    refine ⟨hq, ?_⟩
    intro hc hn
    rw [hq, hCut pl hc hn]

/-! ## C11 -/

/-- C11: the pattern `%{if-debug}x` compiles with the single diagnostic
"QT_MESSAGE_PATTERN: missing %{endif}", which qSetMessagePattern prints to stderr, and
renders "x" for a Debug event and the null (empty) string for an event of any other
type. In general, for a pattern in which no if-* token occurs inside an open if-* region
and whose tokens are `pre`, an if-* token `t`, and `post` without if-* and endif tokens:
the diagnostics text of setPattern is the concatenation of the lines of `diagnostics`,
the line "missing %{endif}" occurs exactly once among them, the tokens are stored, and
the render is the render of `pre`, followed by that of `post` exactly when the condition
of `t` holds for the event. The diagnostics text is printed: a call of
qSetMessagePattern on the existing pattern object, and the construction of the pattern
object from QT_MESSAGE_PATTERN, append to stderr the local 8-bit form of that text as a
C string, which is the text itself when the conversion leaves it unchanged and the
pattern holds no NUL character. -/
theorem C11_missing_endif (env : RenderEnv) (p0 : QMessagePattern) (pattern : List Char)
    (type : QtMsgType) (context : QMessageLogContext) (str : QString)
    (pre post : List Token) (t : Token)
    (hTokens : (scan pattern).map lexemeToken = pre ++ t :: post)
    (hIf : t.isIf = true)
    (hPost : ∀ u ∈ post, u.isConditional = false)
    (hFlat : hasNestedIf ((scan pattern).map lexemeToken) false = false) :
    ((p0.setPattern "%{if-debug}x".toList).2 = missingEndifLine
      ∧ qFormatLogMessage env (some (p0.setPattern "%{if-debug}x".toList).1)
          QtDebugMsg context str = .ok (some ['x'])
      ∧ (type ≠ QtDebugMsg →
          qFormatLogMessage env (some (p0.setPattern "%{if-debug}x".toList).1)
            type context str = .ok none))
    ∧ (p0.setPattern pattern).2 = (diagnostics p0 pattern).flatten
    ∧ (diagnostics p0 pattern).count missingEndifLine = 1
    ∧ (p0.setPattern pattern).1.tokens = pre ++ t :: post
    ∧ qFormatLogMessage env (some (p0.setPattern pattern).1) type context str
        = ((renderLoop env (p0.setPattern pattern).1 type context str pre false none).bind
            fun m =>
              if skipEnd type context [t] false = true then .ok m
              else renderLoop env (p0.setPattern pattern).1 type context str post false m)
    ∧ (∀ (pl : Platform) (w : Process),
        w.qMessagePattern = .initialized p0 → p0.fromEnvironment = false →
        ∃ w2 : Process, qSetMessagePattern pl pattern w = .returned w2
          ∧ w2.qMessagePattern = .initialized (p0.setPattern pattern).1
          ∧ w2.stderr = w.stderr ++ cstr (pl.toLocal8Bit (p0.setPattern pattern).2)
          ∧ (pl.toLocal8Bit (p0.setPattern pattern).2 = (p0.setPattern pattern).2 →
              Char.ofNat 0 ∉ pattern → w2.stderr = w.stderr ++ (p0.setPattern pattern).2))
    ∧ (∀ (pl : Platform) (w : Process),
        w.qMessagePattern = .uninitialized →
        pl.fromLocal8Bit (pl.QT_MESSAGE_PATTERN.getD []) = pattern →
        (qMessagePattern pl w).2.stderr
            = w.stderr ++ cstr (pl.toLocal8Bit (p0.setPattern pattern).2)
          ∧ (pl.toLocal8Bit (p0.setPattern pattern).2 = (p0.setPattern pattern).2 →
              Char.ofNat 0 ∉ pattern →
              (qMessagePattern pl w).2.stderr = w.stderr ++ (p0.setPattern pattern).2))
    ∧ (∃ w2 : Process,
        qSetMessagePattern samplePlatform "%{if-debug}x".toList Process.start = .returned w2
          ∧ w2.stderr = missingEndifLine) := by
  have hTok : (p0.setPattern "%{if-debug}x".toList).1.tokens
      = [Token.ifDebugTokenC, Token.literal ['x']] := rfl
  have hCount : (diagnostics p0 pattern).count missingEndifLine = 1 := by
    have hOpen : openEnd ((scan pattern).map lexemeToken) false = true := by
      rw [hTokens, openEnd_append]
      simp only [openEnd, if_pos hIf]
      exact openEnd_plain post hPost true
    unfold diagnostics
    rw [List.count_append, count_loopLines_missing, finishLines_setPattern, hFlat, hOpen]
    simp
  have hErr : (p0.setPattern pattern).2 ≠ [] := by
    rw [setPattern_diagnostics]
    exact flatten_ne_nil_of_mem
      (List.count_pos_iff.mp (by rw [hCount]; exact Nat.one_pos)) (by decide)
  refine ⟨⟨rfl, ?_, ?_⟩, setPattern_diagnostics p0 pattern, hCount, ?_, ?_,
    (setPattern_prints p0 pattern hErr).1, (setPattern_prints p0 pattern hErr).2,
    ⟨_, rfl, by decide⟩⟩
  · rw [qFormatLogMessage_some, hTok]
    simp [renderLoop, conditional, appended, QLatin1String, QString.append, QString.text]
  · intro hne
    rw [qFormatLogMessage_some, hTok]
    simp [renderLoop, conditional, hne]
  · rw [setPattern_tokens, hTokens]
  · have hPre : skipEnd type context pre false = false :=
      skipEnd_of_closed type context pre
        (openEnd_before_if pre post t hIf (by rw [← hTokens]; exact hFlat))
    rw [qFormatLogMessage_some, setPattern_tokens, hTokens, renderLoop_append, hPre]
    congr 1
    funext m
    have hne := ne_endif_of_isIf t hIf
    cases hc : conditional type context t with
    | none =>
      have := conditional_eq_none type context t
      cases t <;> simp_all [Token.isIf, conditional]
    | some u =>
      simp only [renderLoop, skipEnd, if_neg hne, hc]
      cases hu : u false with
      | true => simp [renderLoop_skipped env _ type context str post hPost]
      | false => simp

/-- C11 at the pattern `a%{if-category}b%{file}`, whose if-category region is left open,
set by qSetMessagePattern in a process whose pattern object holds the default pattern:
the line "missing %{endif}" is what the call writes to stderr. -/
theorem C11_missing_endif_witness :
    ((scan "a%{if-category}b%{file}".toList).map lexemeToken
        = [Token.literal ['a']] ++ Token.ifCategoryTokenC :: [Token.literal ['b'], Token.fileTokenC]
      ∧ (qMessagePattern samplePlatform Process.start).2.qMessagePattern
          = .initialized (QMessagePattern.construct []).1
      ∧ (QMessagePattern.construct []).1.fromEnvironment = false)
    ∧ (diagnostics (QMessagePattern.construct []).1 "a%{if-category}b%{file}".toList).count
        missingEndifLine = 1
    ∧ ∃ w2 : Process,
        qSetMessagePattern samplePlatform "a%{if-category}b%{file}".toList
            (qMessagePattern samplePlatform Process.start).2 = .returned w2
          ∧ w2.stderr = missingEndifLine := by
  have h := C11_missing_endif sampleEnv (QMessagePattern.construct []).1
    "a%{if-category}b%{file}".toList QtWarningMsg sampleContext (some ['x'])
    [Token.literal ['a']] [Token.literal ['b'], Token.fileTokenC] Token.ifCategoryTokenC
    (by rfl) (by rfl) (by decide) (by rfl)
  obtain ⟨w2, h1, -, h3, -⟩ := h.2.2.2.2.2.1 samplePlatform
    (qMessagePattern samplePlatform Process.start).2 (by rfl) (by rfl)
  exact ⟨⟨by rfl, by rfl, by rfl⟩, h.2.2.1, w2, h1, h3.trans (by decide)⟩

/-! ## C12 -/

/-- C12: the pattern `%{if-debug}%{if-warning}%{endif}%{endif}` compiles with the single
diagnostic "QT_MESSAGE_PATTERN: %{if-*} cannot be nested", which qSetMessagePattern
prints to stderr, and so does the pattern `%{if-debug}%{if-warning}` that closes no
region. In general, for every pattern in which an if-* token occurs while an if-* region
is open, the line "%{if-*} cannot be nested" occurs exactly once among the diagnostic
lines of setPattern and the line "missing %{endif}" does not occur. The diagnostics text
is printed: a call of qSetMessagePattern on the existing pattern object, and the
construction of the pattern object from QT_MESSAGE_PATTERN, append to stderr the local
8-bit form of that text as a C string, which is the text itself when the conversion
leaves it unchanged and the pattern holds no NUL character. -/
theorem C12_nested_if (p0 : QMessagePattern) (pattern : List Char)
    (hNested : hasNestedIf ((scan pattern).map lexemeToken) false = true) :
    ((p0.setPattern "%{if-debug}%{if-warning}%{endif}%{endif}".toList).2 = nestedLine
      ∧ (p0.setPattern "%{if-debug}%{if-warning}".toList).2 = nestedLine)
    ∧ (p0.setPattern pattern).2 = (diagnostics p0 pattern).flatten
    ∧ (diagnostics p0 pattern).count nestedLine = 1
    ∧ (diagnostics p0 pattern).count missingEndifLine = 0
    ∧ (∀ (pl : Platform) (w : Process),
        w.qMessagePattern = .initialized p0 → p0.fromEnvironment = false →
        ∃ w2 : Process, qSetMessagePattern pl pattern w = .returned w2
          ∧ w2.qMessagePattern = .initialized (p0.setPattern pattern).1
          ∧ w2.stderr = w.stderr ++ cstr (pl.toLocal8Bit (p0.setPattern pattern).2)
          ∧ (pl.toLocal8Bit (p0.setPattern pattern).2 = (p0.setPattern pattern).2 →
              Char.ofNat 0 ∉ pattern → w2.stderr = w.stderr ++ (p0.setPattern pattern).2))
    ∧ (∀ (pl : Platform) (w : Process),
        w.qMessagePattern = .uninitialized →
        pl.fromLocal8Bit (pl.QT_MESSAGE_PATTERN.getD []) = pattern →
        (qMessagePattern pl w).2.stderr
            = w.stderr ++ cstr (pl.toLocal8Bit (p0.setPattern pattern).2)
          ∧ (pl.toLocal8Bit (p0.setPattern pattern).2 = (p0.setPattern pattern).2 →
              Char.ofNat 0 ∉ pattern →
              (qMessagePattern pl w).2.stderr = w.stderr ++ (p0.setPattern pattern).2))
    ∧ (∃ w2 : Process,
        qSetMessagePattern samplePlatform "%{if-debug}%{if-warning}%{endif}%{endif}".toList
            Process.start = .returned w2
          ∧ w2.stderr = nestedLine)
    ∧ (∃ w2 : Process,
        qSetMessagePattern samplePlatform "%{if-debug}%{if-warning}".toList
            Process.start = .returned w2
          ∧ w2.stderr = nestedLine) := by
  have hCount : (diagnostics p0 pattern).count nestedLine = 1 := by
    unfold diagnostics
    rw [List.count_append, count_loopLines_nested, finishLines_setPattern, if_pos hNested]
    simp
  have hErr : (p0.setPattern pattern).2 ≠ [] := by
    rw [setPattern_diagnostics]
    exact flatten_ne_nil_of_mem
      (List.count_pos_iff.mp (by rw [hCount]; exact Nat.one_pos)) (by decide)
  refine ⟨⟨rfl, rfl⟩, setPattern_diagnostics p0 pattern, hCount, ?_,
    (setPattern_prints p0 pattern hErr).1, (setPattern_prints p0 pattern hErr).2,
    ⟨_, rfl, by decide⟩, ⟨_, rfl, by decide⟩⟩
  unfold diagnostics
  rw [List.count_append, count_loopLines_missing, finishLines_setPattern, if_pos hNested]
  rw [Nat.zero_add]
  exact List.count_eq_zero.mpr (fun h => absurd (List.mem_singleton.mp h) (by decide))

/-- C12 at the pattern `%{if-fatal}a%{if-category}b%{endif}`, set by qSetMessagePattern
in a process whose pattern object holds the default pattern: the line
"%{if-*} cannot be nested" is what the call writes to stderr. -/
theorem C12_nested_if_witness :
    (hasNestedIf ((scan "%{if-fatal}a%{if-category}b%{endif}".toList).map lexemeToken)
        false = true
      ∧ (qMessagePattern samplePlatform Process.start).2.qMessagePattern
          = .initialized (QMessagePattern.construct []).1
      ∧ (QMessagePattern.construct []).1.fromEnvironment = false)
    ∧ (diagnostics (QMessagePattern.construct []).1
          "%{if-fatal}a%{if-category}b%{endif}".toList).count nestedLine = 1
    ∧ (diagnostics (QMessagePattern.construct []).1
          "%{if-fatal}a%{if-category}b%{endif}".toList).count missingEndifLine = 0
    ∧ ∃ w2 : Process,
        qSetMessagePattern samplePlatform "%{if-fatal}a%{if-category}b%{endif}".toList
            (qMessagePattern samplePlatform Process.start).2 = .returned w2
          ∧ w2.stderr = nestedLine := by
  have h := C12_nested_if (QMessagePattern.construct []).1
    "%{if-fatal}a%{if-category}b%{endif}".toList (by rfl)
  obtain ⟨w2, h1, -, h3, -⟩ := h.2.2.2.2.1 samplePlatform
    (qMessagePattern samplePlatform Process.start).2 (by rfl) (by rfl)
  exact ⟨⟨by rfl, by rfl, by rfl⟩, h.2.2.1, h.2.2.2.1, w2, h1, h3.trans (by decide)⟩

/-! ## C13 -/

/-- C13 as stated fails at `%{if-debug}%{if-warning}%{endif}%{endif}%{endif}`: the
pattern has two if-* placeholders and three `%{endif}`, the last `%{endif}` is met while
no region is open, and the diagnostics are the single line "%{if-*} cannot be nested":
the line "%{endif} without an %{if-*}" is not among them. -/
theorem C13_counterexample :
    scan "%{if-debug}%{if-warning}%{endif}%{endif}%{endif}".toList
        = ["%{if-debug}".toList, "%{if-warning}".toList, "%{endif}".toList, "%{endif}".toList]
            ++ [Token.endifTokenC.chars]
    ∧ openEnd (["%{if-debug}".toList, "%{if-warning}".toList, "%{endif}".toList,
          "%{endif}".toList].map lexemeToken) false = false
    ∧ diagnostics QMessagePattern.initial
          "%{if-debug}%{if-warning}%{endif}%{endif}%{endif}".toList = [nestedLine]
    ∧ endifLine ∉ diagnostics QMessagePattern.initial
          "%{if-debug}%{if-warning}%{endif}%{endif}%{endif}".toList := by
  refine ⟨by decide, by decide, by decide, by decide⟩

/-- C13, amended: the pattern `a%{endif}b` compiles with the single diagnostic
"QT_MESSAGE_PATTERN: %{endif} without an %{if-*}" and renders "ab" for every event. In
general, when the lexemes of a pattern are `l1`, `%{endif}` and `l2` and no if-* region is
open after `l1`: if no if-* token of `l1` occurs inside an open region, the diagnostics
are those of `l1 ++ l2` with the one line "%{endif} without an %{if-*}" added after the
diagnostics of `l1`; if one does, the diagnostics are those of `l1 ++ l2` (the endif is not
reported). In both cases the endif token is stored between the tokens of `l1` and of
`l2`, no region is open after it, the render for every event is the render of the tokens
of `l1 ++ l2`, and the literals, time format, backtrace depth and separator are those of
`l1 ++ l2`. The diagnostics text is printed: a call of qSetMessagePattern on the existing
pattern object, and the construction of the pattern object from QT_MESSAGE_PATTERN,
append to stderr the local 8-bit form of that text as a C string, which is the text
itself when the conversion leaves it unchanged and the pattern holds no NUL character;
so `a%{endif}b` makes qSetMessagePattern write the line "%{endif} without an %{if-*}". -/
theorem C13_stray_endif (p0 : QMessagePattern) (pattern : List Char)
    (l1 l2 : List (List Char))
    (hScan : scan pattern = l1 ++ Token.endifTokenC.chars :: l2)
    (hClosed : openEnd (l1.map lexemeToken) false = false) :
    ((p0.setPattern "a%{endif}b".toList).2 = endifLine
      ∧ ∀ (env : RenderEnv) (type : QtMsgType) (context : QMessageLogContext) (str : QString),
          qFormatLogMessage env (some (p0.setPattern "a%{endif}b".toList).1) type context str
            = .ok (some ['a', 'b']))
    ∧ (hasNestedIf (l1.map lexemeToken) false = false →
        ∃ err2 : List Char,
          (p0.setPattern pattern).2
            = (tokenize (TokState.start p0) l1).error ++ endifLine ++ err2
          ∧ finishError (tokenize (TokState.start p0) (l1 ++ l2))
            = (tokenize (TokState.start p0) l1).error ++ err2)
    ∧ (hasNestedIf (l1.map lexemeToken) false = true →
        (p0.setPattern pattern).2 = finishError (tokenize (TokState.start p0) (l1 ++ l2)))
    ∧ (p0.setPattern pattern).1.tokens
        = l1.map lexemeToken ++ Token.endifTokenC :: l2.map lexemeToken
    ∧ (tokenize (TokState.start p0) (l1 ++ l2)).tokens
        = l1.map lexemeToken ++ l2.map lexemeToken
    ∧ (tokenize (TokState.start p0) (l1 ++ [Token.endifTokenC.chars])).inIf = false
    ∧ (∀ (env : RenderEnv) (type : QtMsgType) (context : QMessageLogContext) (str : QString),
        qFormatLogMessage env (some (p0.setPattern pattern).1) type context str
          = renderLoop env (p0.setPattern pattern).1 type context str
              (tokenize (TokState.start p0) (l1 ++ l2)).tokens false none)
    ∧ (p0.setPattern pattern).1.literals = (tokenize (TokState.start p0) (l1 ++ l2)).literalsVar
    ∧ (p0.setPattern pattern).1.timeFormat = (tokenize (TokState.start p0) (l1 ++ l2)).timeFormat
    ∧ (p0.setPattern pattern).1.backtraceDepth
        = (tokenize (TokState.start p0) (l1 ++ l2)).backtraceDepth
    ∧ (p0.setPattern pattern).1.backtraceSeparator
        = (tokenize (TokState.start p0) (l1 ++ l2)).backtraceSeparator
    ∧ (∀ (pl : Platform) (w : Process),
        w.qMessagePattern = .initialized p0 → p0.fromEnvironment = false →
        ∃ w2 : Process, qSetMessagePattern pl pattern w = .returned w2
          ∧ w2.qMessagePattern = .initialized (p0.setPattern pattern).1
          ∧ w2.stderr = w.stderr ++ cstr (pl.toLocal8Bit (p0.setPattern pattern).2)
          ∧ (pl.toLocal8Bit (p0.setPattern pattern).2 = (p0.setPattern pattern).2 →
              Char.ofNat 0 ∉ pattern → w2.stderr = w.stderr ++ (p0.setPattern pattern).2))
    ∧ (∀ (pl : Platform) (w : Process),
        w.qMessagePattern = .uninitialized →
        pl.fromLocal8Bit (pl.QT_MESSAGE_PATTERN.getD []) = pattern →
        (qMessagePattern pl w).2.stderr
            = w.stderr ++ cstr (pl.toLocal8Bit (p0.setPattern pattern).2)
          ∧ (pl.toLocal8Bit (p0.setPattern pattern).2 = (p0.setPattern pattern).2 →
              Char.ofNat 0 ∉ pattern →
              (qMessagePattern pl w).2.stderr = w.stderr ++ (p0.setPattern pattern).2))
    ∧ (∃ w2 : Process,
        qSetMessagePattern samplePlatform "a%{endif}b".toList Process.start = .returned w2
          ∧ w2.stderr = endifLine) := by
  -- the tokenizer state after `l1`, with its tokens and diagnostics taken off
  let s1 := tokenize (TokState.start p0) l1
  let z : TokState := { s1 with tokens := [], error := [] }
  let line : List Char := if s1.nestedIfError = false then endifLine else []
  have hIn : s1.inIf = false := by
    show (tokenize (TokState.start p0) l1).inIf = false
    rw [tokenize_inIf]
    exact hClosed
  have hNe : s1.nestedIfError = hasNestedIf (l1.map lexemeToken) false := by
    show (tokenize (TokState.start p0) l1).nestedIfError = _
    rw [tokenize_nestedIfError]
    rfl
  have hs1 : s1 = z.prepend s1.tokens s1.error := by
    simp [z, TokState.prepend]
  have hu : tokenizeStep s1 Token.endifTokenC.chars
      = z.prepend (s1.tokens ++ [Token.endifTokenC]) (s1.error ++ line) := by
    rw [tokenizeStep_endif s1 hIn]
    simp [z, line, TokState.prepend]
  have hA : tokenize (TokState.start p0) (l1 ++ l2)
      = (tokenize z l2).prepend s1.tokens s1.error := by
    rw [tokenize_append, ← tokenize_prepend, ← hs1]
  have hB : tokenize (TokState.start p0) (l1 ++ Token.endifTokenC.chars :: l2)
      = (tokenize z l2).prepend (s1.tokens ++ [Token.endifTokenC]) (s1.error ++ line) := by
    rw [tokenize_append, ← tokenize_prepend, ← hu]
    rfl
  have hErrB : (p0.setPattern pattern).2 = s1.error ++ line ++ finishError (tokenize z l2) := by
    show finishError (tokenize (TokState.start p0) (scan pattern)) = _
    rw [hScan, hB]
    simp only [finishError, TokState.prepend]
    split_ifs <;> simp
  have hErrA : finishError (tokenize (TokState.start p0) (l1 ++ l2))
      = s1.error ++ finishError (tokenize z l2) := by
    rw [hA]
    simp only [finishError, TokState.prepend]
    split_ifs <;> simp
  have hTokB : (p0.setPattern pattern).1.tokens
      = l1.map lexemeToken ++ Token.endifTokenC :: l2.map lexemeToken := by
    rw [setPattern_tokens, hScan, List.map_append, List.map_cons, lexemeToken_endif]
  have hTokA : (tokenize (TokState.start p0) (l1 ++ l2)).tokens
      = l1.map lexemeToken ++ l2.map lexemeToken := by
    rw [tokenize_tokens]
    simp [TokState.start]
  have hEx : (p0.setPattern "a%{endif}b".toList).1.tokens
      = [Token.literal ['a'], Token.endifTokenC, Token.literal ['b']] := rfl
  have hErr : (p0.setPattern pattern).2 ≠ [] := by
    cases hn : s1.nestedIfError with
    | false =>
      rw [hErrB]
      simp [line, hn, endifLine]
    | true =>
      have hW : hasNestedIf ((scan pattern).map lexemeToken) false = true := by
        rw [hScan, List.map_append, hasNestedIf_append, ← hNe, hn]
        rfl
      rw [setPattern_diagnostics]
      refine @flatten_ne_nil_of_mem _ nestedLine ?_ (by decide)
      unfold diagnostics
      rw [finishLines_setPattern, if_pos hW]
      simp
  refine ⟨⟨rfl, ?_⟩, ?_, ?_, hTokB, hTokA, ?_, ?_, ?_, ?_, ?_, ?_,
    (setPattern_prints p0 pattern hErr).1, (setPattern_prints p0 pattern hErr).2,
    ⟨_, rfl, by decide⟩⟩
  · intro env type context str
    rw [qFormatLogMessage_some, hEx]
    simp [renderLoop, conditional, appended, QLatin1String, QString.append, QString.text]
  · intro hFlat
    refine ⟨finishError (tokenize z l2), ?_, hErrA⟩
    rw [hErrB]
    simp [line, hNe, hFlat]
  · intro hNested
    rw [hErrB, hErrA]
    simp [line, hNe, hNested]
  · rw [tokenize_inIf, List.map_append, openEnd_append]
    simp [lexemeToken_endif, openEnd, Token.isIf]
  · intro env type context str
    rw [qFormatLogMessage_some, hTokB, hTokA]
    exact renderLoop_skip_endif env _ type context str _ _ none
      (skipEnd_of_closed type context _ hClosed)
  · show (tokenize (TokState.start p0) (scan pattern)).literalsVar = _
    rw [hScan, hA, hB]; rfl
  · show (tokenize (TokState.start p0) (scan pattern)).timeFormat = _
    rw [hScan, hA, hB]; rfl
  · show (tokenize (TokState.start p0) (scan pattern)).backtraceDepth = _
    rw [hScan, hA, hB]; rfl
  · show (tokenize (TokState.start p0) (scan pattern)).backtraceSeparator = _
    rw [hScan, hA, hB]; rfl

/-- C13 at the pattern `%{if-debug}d%{endif}%{endif}%{message}`, whose second endif is
met after the region has been closed, set by qSetMessagePattern in a process whose
pattern object holds the default pattern: the line "%{endif} without an %{if-*}" is what
the call writes to stderr. -/
theorem C13_stray_endif_witness :
    (scan "%{if-debug}d%{endif}%{endif}%{message}".toList
        = ["%{if-debug}".toList, "d".toList, "%{endif}".toList]
            ++ Token.endifTokenC.chars :: ["%{message}".toList]
      ∧ openEnd (["%{if-debug}".toList, "d".toList, "%{endif}".toList].map lexemeToken) false
          = false
      ∧ (qMessagePattern samplePlatform Process.start).2.qMessagePattern
          = .initialized (QMessagePattern.construct []).1
      ∧ (QMessagePattern.construct []).1.fromEnvironment = false)
    ∧ ((QMessagePattern.construct []).1.setPattern
          "%{if-debug}d%{endif}%{endif}%{message}".toList).1.tokens
        = ["%{if-debug}".toList, "d".toList, "%{endif}".toList].map lexemeToken
            ++ Token.endifTokenC :: ["%{message}".toList].map lexemeToken
    ∧ ((QMessagePattern.construct []).1.setPattern
          "%{if-debug}d%{endif}%{endif}%{message}".toList).2 = endifLine
    ∧ ∃ w2 : Process,
        qSetMessagePattern samplePlatform "%{if-debug}d%{endif}%{endif}%{message}".toList
            (qMessagePattern samplePlatform Process.start).2 = .returned w2
          ∧ w2.stderr = endifLine := by
  have h := C13_stray_endif (QMessagePattern.construct []).1
    "%{if-debug}d%{endif}%{endif}%{message}".toList
    ["%{if-debug}".toList, "d".toList, "%{endif}".toList] ["%{message}".toList]
    (by decide) (by decide)
  obtain ⟨w2, h1, -, h3, -⟩ := h.2.2.2.2.2.2.2.2.2.2.2.1 samplePlatform
    (qMessagePattern samplePlatform Process.start).2 (by rfl) (by rfl)
  exact ⟨⟨by decide, by decide, by rfl, by rfl⟩, h.2.2.2.1, by decide, w2, h1,
    h3.trans (by decide)⟩

/-- The time token is rendered with the one time format of the pattern object: the
elapsed process time when that format is "process", the ISO date-time when it is empty,
the date-time formatted with it otherwise. After setPattern, for a time placeholder that
no time placeholder with an argument follows, that format is the argument of the
placeholder (the text after its first blank) when it has one, and otherwise the argument
of the last time placeholder before it that has one, or the format of the object before
the call. So such a placeholder renders according to its own format when it has one, and
as the ISO date-time when neither it nor a placeholder before it has one and the format
of the object was empty before the call. -/
theorem time_placeholder_render (env : RenderEnv) (p0 : QMessagePattern) (pattern : List Char)
    (type : QtMsgType) (context : QMessageLogContext) (str : QString)
    (l1 l2 : List (List Char)) (lexeme : List Char)
    (hScan : scan pattern = l1 ++ lexeme :: l2)
    (hTime : lexemeToken lexeme = Token.timeTokenC)
    (hLater : ∀ l ∈ l2, timeAssign l = none) :
    (∀ p : QMessagePattern, appended env p type context str Token.timeTokenC
        = if p.timeFormat = "process".toList then .ok (some (processTime env.elapsed))
          else if p.timeFormat = [] then .ok (env.currentDateTime none)
          else .ok (env.currentDateTime (some p.timeFormat)))
    ∧ (p0.setPattern pattern).1.tokens
        = l1.map lexemeToken ++ Token.timeTokenC :: l2.map lexemeToken
    ∧ (p0.setPattern pattern).1.timeFormat
        = (timeAssign lexeme).getD ((lastSome timeAssign l1).getD p0.timeFormat)
    ∧ (timeAssign lexeme = some "process".toList →
        appended env (p0.setPattern pattern).1 type context str Token.timeTokenC
          = .ok (some (processTime env.elapsed)))
    ∧ (∀ f : List Char, timeAssign lexeme = some f → f ≠ [] → f ≠ "process".toList →
        appended env (p0.setPattern pattern).1 type context str Token.timeTokenC
          = .ok (env.currentDateTime (some f)))
    ∧ (timeAssign lexeme = none → (∀ l ∈ l1, timeAssign l = none) → p0.timeFormat = [] →
        appended env (p0.setPattern pattern).1 type context str Token.timeTokenC
          = .ok (env.currentDateTime none))
    ∧ qFormatLogMessage env (some (QMessagePattern.initial.setPattern "%{time}".toList).1)
        type context str = .ok (env.currentDateTime none)
    ∧ qFormatLogMessage env
        (some (QMessagePattern.initial.setPattern "%{time process}".toList).1)
        type context str = .ok (some (processTime env.elapsed))
    ∧ qFormatLogMessage env
        (some (QMessagePattern.initial.setPattern "%{time hh:mm}".toList).1)
        type context str = .ok (env.currentDateTime (some "hh:mm".toList)) := by
  have hApp : ∀ p : QMessagePattern, appended env p type context str Token.timeTokenC
      = if p.timeFormat = "process".toList then .ok (some (processTime env.elapsed))
        else if p.timeFormat = [] then .ok (env.currentDateTime none)
        else .ok (env.currentDateTime (some p.timeFormat)) := by
    intro p
    simp only [appended, List.isEmpty_iff]
  have hFmt : (p0.setPattern pattern).1.timeFormat
      = (timeAssign lexeme).getD ((lastSome timeAssign l1).getD p0.timeFormat) := by
    rw [setPattern_timeFormat, hScan, lastSome_append]
    simp only [lastSome, lastSome_none timeAssign l2 hLater]
    cases timeAssign lexeme <;> cases lastSome timeAssign l1 <;> rfl
  have hp : "process".toList ≠ ([] : List Char) := by decide
  refine ⟨hApp, ?_, hFmt, ?_, ?_, ?_, ?_, ?_, ?_⟩
  · rw [setPattern_tokens, hScan, List.map_append, List.map_cons, hTime]
  · intro h
    rw [hApp, hFmt, h]
    simp
  · intro f h hne hnp
    rw [hApp, hFmt, h]
    simp only [Option.getD_some]
    rw [if_neg hnp, if_neg hne]
  · intro h h1 h0
    rw [hApp, hFmt, h, lastSome_none timeAssign l1 h1, h0]
    simp
  · have hTok : (QMessagePattern.initial.setPattern "%{time}".toList).1.tokens
        = [Token.timeTokenC] := rfl
    have hF : (QMessagePattern.initial.setPattern "%{time}".toList).1.timeFormat = [] := rfl
    rw [qFormatLogMessage_some, hTok]
    simp only [renderLoop, conditional, hApp, hF]
    simp
  · have hTok : (QMessagePattern.initial.setPattern "%{time process}".toList).1.tokens
        = [Token.timeTokenC] := rfl
    have hF : (QMessagePattern.initial.setPattern "%{time process}".toList).1.timeFormat
        = "process".toList := by decide
    rw [qFormatLogMessage_some, hTok]
    simp only [renderLoop, conditional, hApp, hF]
    simp
  · have hTok : (QMessagePattern.initial.setPattern "%{time hh:mm}".toList).1.tokens
        = [Token.timeTokenC] := rfl
    have hF : (QMessagePattern.initial.setPattern "%{time hh:mm}".toList).1.timeFormat
        = "hh:mm".toList := by decide
    rw [qFormatLogMessage_some, hTok]
    simp only [renderLoop, conditional, hApp, hF]
    simp

/-! ## C20 -/

/-- C20: at the pattern `%{time}%{time process}`, compiled on a fresh pattern object,
the first placeholder carries no format and is nevertheless rendered as the elapsed
process time, not as the ISO date-time: in the sample environment, whose ISO date-time
is "2014-12-10T09:00:00", the render is "  1234.567  1234.567", and in every environment
it is the process time twice. The format also outlives the pattern: after
setPattern of `%{time process}`, setPattern of `%{time}` on the same object renders the
process time. On a fresh object `%{time}` alone renders the ISO date-time,
`%{time process}` the process time and `%{time hh:mm}` the date-time in the format
"hh:mm". -/
theorem C20_time_without_format (env : RenderEnv) (type : QtMsgType)
    (context : QMessageLogContext) (str : QString) :
    scan "%{time}%{time process}".toList = ["%{time}".toList, "%{time process}".toList]
    ∧ timeAssign "%{time}".toList = none
    ∧ sampleEnv.currentDateTime none = some "2014-12-10T09:00:00".toList
    ∧ appended sampleEnv (QMessagePattern.initial.setPattern "%{time}%{time process}".toList).1
        QtDebugMsg sampleContext none Token.timeTokenC = .ok (some "  1234.567".toList)
    ∧ qFormatLogMessage sampleEnv
        (some (QMessagePattern.initial.setPattern "%{time}%{time process}".toList).1)
        QtDebugMsg sampleContext none = .ok (some "  1234.567  1234.567".toList)
    ∧ qFormatLogMessage env
        (some (QMessagePattern.initial.setPattern "%{time}%{time process}".toList).1)
        type context str = .ok (some (processTime env.elapsed ++ processTime env.elapsed))
    ∧ qFormatLogMessage env
        (some ((QMessagePattern.initial.setPattern "%{time process}".toList).1.setPattern
          "%{time}".toList).1)
        type context str = .ok (some (processTime env.elapsed))
    ∧ qFormatLogMessage env (some (QMessagePattern.initial.setPattern "%{time}".toList).1)
        type context str = .ok (env.currentDateTime none)
    ∧ qFormatLogMessage env
        (some (QMessagePattern.initial.setPattern "%{time process}".toList).1)
        type context str = .ok (some (processTime env.elapsed))
    ∧ qFormatLogMessage env
        (some (QMessagePattern.initial.setPattern "%{time hh:mm}".toList).1)
        type context str = .ok (env.currentDateTime (some "hh:mm".toList)) := by
  have hApp : ∀ p : QMessagePattern, appended env p type context str Token.timeTokenC
      = if p.timeFormat = "process".toList then .ok (some (processTime env.elapsed))
        else if p.timeFormat = [] then .ok (env.currentDateTime none)
        else .ok (env.currentDateTime (some p.timeFormat)) := by
    intro p
    simp only [appended, List.isEmpty_iff]
  refine ⟨by decide, by decide, rfl, by decide, by decide, ?_, ?_, ?_, ?_, ?_⟩
  · have hTok : (QMessagePattern.initial.setPattern "%{time}%{time process}".toList).1.tokens
        = [Token.timeTokenC, Token.timeTokenC] := rfl
    have hF : (QMessagePattern.initial.setPattern
        "%{time}%{time process}".toList).1.timeFormat = "process".toList := by decide
    rw [qFormatLogMessage_some, hTok]
    simp only [renderLoop, conditional, hApp, hF]
    simp [QString.append, QString.text]
  · have hTok : ((QMessagePattern.initial.setPattern "%{time process}".toList).1.setPattern
        "%{time}".toList).1.tokens = [Token.timeTokenC] := rfl
    have hF : ((QMessagePattern.initial.setPattern "%{time process}".toList).1.setPattern
        "%{time}".toList).1.timeFormat = "process".toList := by decide
    rw [qFormatLogMessage_some, hTok]
    simp only [renderLoop, conditional, hApp, hF]
    simp
  · have hTok : (QMessagePattern.initial.setPattern "%{time}".toList).1.tokens
        = [Token.timeTokenC] := rfl
    have hF : (QMessagePattern.initial.setPattern "%{time}".toList).1.timeFormat = [] := rfl
    rw [qFormatLogMessage_some, hTok]
    simp only [renderLoop, conditional, hApp, hF]
    simp
  · have hTok : (QMessagePattern.initial.setPattern "%{time process}".toList).1.tokens
        = [Token.timeTokenC] := rfl
    have hF : (QMessagePattern.initial.setPattern "%{time process}".toList).1.timeFormat
        = "process".toList := by decide
    rw [qFormatLogMessage_some, hTok]
    simp only [renderLoop, conditional, hApp, hF]
    simp
  · have hTok : (QMessagePattern.initial.setPattern "%{time hh:mm}".toList).1.tokens
        = [Token.timeTokenC] := rfl
    have hF : (QMessagePattern.initial.setPattern "%{time hh:mm}".toList).1.timeFormat
        = "hh:mm".toList := by decide
    rw [qFormatLogMessage_some, hTok]
    simp only [renderLoop, conditional, hApp, hF]
    simp

end QLogging
